import Mathlib

/-!
# Page allocator of the DXE core (MdeModulePkg/Core/Dxe/Mem/Page.c)

Shallow embedding of the memory map manager.

* `UINT64`/`UINTN` values are natural numbers; every C operation that can wrap is
  written out modulo `2 ^ 64` (`add64`, `sub64`, `not64`, `LShiftU64`).
* The doubly linked list `mGcdMemorySpaceMap` is a `List EFI_GCD_MAP_ENTRY` in link
  order (`ForwardLink` from the head). A descriptor that is the array element
  `mMapStack[i]` carries `StackSlot = some i`; `mMapStack[i].Link.ForwardLink != NULL`
  is "some list element has `StackSlot = some i`". The content of an unlinked stack
  element is never read by the code and is not stored.
* `mFreeMemoryMapEntryList` is the number of queued free descriptors (their content
  is overwritten by `CopyMem` before use).
* `ASSERT (c)` halts the run when `c` is false (`Halt.assertion`); the failure of
  `ASSERT (mMapDepth < MAX_MAP_DEPTH)` is told apart as `Halt.stackOverflow`. Loops and
  recursion are bounded by a fuel argument (`Halt.outOfFuel`).
* Locks, events, debug output and the content of memory are not part of the state.
-/

namespace Edk2

/-! ## Machine integers -/

/-- Addition of two `UINT64` values. -/
def add64 (a b : Nat) : Nat := (a + b) % 18446744073709551616

/-- Subtraction of two `UINT64` values (operands below `2 ^ 64`). -/
def sub64 (a b : Nat) : Nat := (a + 18446744073709551616 - b) % 18446744073709551616

/-- Bitwise complement of a `UINT64` value (operand below `2 ^ 64`). -/
def not64 (a : Nat) : Nat := 18446744073709551615 - a

/-- The function `LShiftU64` of BaseLib on `UINT64`. -/
def LShiftU64 (a n : Nat) : Nat := (a * 2 ^ n) % 18446744073709551616

/-- The function `RShiftU64` of BaseLib on `UINT64`. -/
def RShiftU64 (a n : Nat) : Nat := a / 2 ^ n

/-! ## Constants that Page.c takes from headers outside the source tree -/

/-- Modelled from the spec: a page is a fixed-size 4 KiB unit (`EFI_PAGE_SIZE`). -/
def EFI_PAGE_SIZE : Nat := 4096

/-- Modelled from the spec: the low bits of an address inside its 4 KiB page
(`EFI_PAGE_MASK`). -/
def EFI_PAGE_MASK : Nat := 4095

/-- Modelled from the spec: log2 of the 4 KiB page size (`EFI_PAGE_SHIFT`). -/
def EFI_PAGE_SHIFT : Nat := 12

/-- Modelled from the spec: the default granularity is 4 KiB
(`DEFAULT_PAGE_ALLOCATION_GRANULARITY`). -/
def DEFAULT_PAGE_ALLOCATION_GRANULARITY : Nat := 4096

/-- The macro `EFI_SIZE_TO_PAGES`: number of pages needed for a byte count. -/
def EFI_SIZE_TO_PAGES (Size : Nat) : Nat :=
  RShiftU64 Size EFI_PAGE_SHIFT + (if Size &&& EFI_PAGE_MASK = 0 then 0 else 1)

def MAX_MAP_DEPTH : Nat := 6

/-! Memory types, numbered as the rows of `mMemoryTypeStatistics` (Page.c lines 49-67). -/

def EfiReservedMemoryType : Nat := 0
def EfiLoaderCode : Nat := 1
def EfiLoaderData : Nat := 2
def EfiBootServicesCode : Nat := 3
def EfiBootServicesData : Nat := 4
def EfiRuntimeServicesCode : Nat := 5
def EfiRuntimeServicesData : Nat := 6
def EfiConventionalMemory : Nat := 7
def EfiUnusableMemory : Nat := 8
def EfiACPIReclaimMemory : Nat := 9
def EfiACPIMemoryNVS : Nat := 10
def EfiPalCode : Nat := 13
def EfiPersistentMemory : Nat := 14
def EfiUnacceptedMemoryType : Nat := 15
def EfiMaxMemoryType : Nat := 16

/-- Modelled from the spec: the first enumerator of the GCD I/O type, carried by every
descriptor of the memory map that has no I/O association (`EfiGcdIoTypeNonExistent`). -/
def EfiGcdIoTypeNonExistent : Nat := 0

/-- Modelled from the spec: placement mode "anywhere" (`AllocateAnyPages`). -/
def AllocateAnyPages : Nat := 0
/-- Modelled from the spec: placement mode "anywhere below ceiling" (`AllocateMaxAddress`). -/
def AllocateMaxAddress : Nat := 1
/-- Modelled from the spec: placement mode "at fixed address" (`AllocateAddress`). -/
def AllocateAddress : Nat := 2
/-- Modelled from the spec: number of placement modes (`MaxAllocateType`). -/
def MaxAllocateType : Nat := 3

/-! ## Data model -/

inductive EFI_STATUS where
  | EFI_SUCCESS
  | EFI_INVALID_PARAMETER
  | EFI_NOT_FOUND
  | EFI_OUT_OF_RESOURCES
  | EFI_BUFFER_TOO_SMALL
deriving DecidableEq, Repr

/-- The macro `EFI_ERROR`. -/
def EFI_ERROR (Status : EFI_STATUS) : Bool :=
  match Status with
  | EFI_STATUS.EFI_SUCCESS => false
  | _ => true

/-- Why a run does not return: a failed `ASSERT`, the failed
`ASSERT (mMapDepth < MAX_MAP_DEPTH)` in particular, or the fuel bound of the model. -/
inductive Halt where
  | assertion
  | stackOverflow
  | outOfFuel
deriving DecidableEq, Repr

/-- The macro `ASSERT`. -/
def ASSERT (c : Bool) : Except Halt Unit :=
  if c then pure () else throw Halt.assertion

/-- The statement `ASSERT (mMapDepth < MAX_MAP_DEPTH)` after a descriptor has been pushed on
`mMapStack` (lines 240 and 858), for the new value of `mMapDepth`. -/
def ASSERT.mapDepth (mMapDepth : Nat) : Except Halt Unit :=
  if mMapDepth < MAX_MAP_DEPTH then pure () else throw Halt.stackOverflow

/-- One descriptor of the memory map. Handles are `0` for `NULL`. -/
structure EFI_GCD_MAP_ENTRY where
  BaseAddress : Nat
  EndAddress : Nat
  Capabilities : Nat
  Attributes : Nat
  GcdMemoryType : Nat
  GcdIoType : Nat
  EfiMemoryType : Nat
  ImageHandle : Nat
  DeviceHandle : Nat
  FromPages : Bool
  StackSlot : Option Nat
deriving DecidableEq, Repr

structure EFI_MEMORY_TYPE_STATISTICS where
  BaseAddress : Nat
  MaximumAddress : Nat
  CurrentNumberOfPages : Nat
  NumberOfPages : Nat
  InformationIndex : Nat
  Special : Bool
  Runtime : Bool
deriving DecidableEq, Repr

/-- One row of `gMemoryTypeInformation`; `TypeId` is the C field `Type`. -/
structure EFI_MEMORY_TYPE_INFORMATION where
  TypeId : Nat
  NumberOfPages : Nat
deriving DecidableEq, Repr

/-- The global variables of Page.c. -/
structure MemState where
  mGcdMemorySpaceMap : List EFI_GCD_MAP_ENTRY
  mMemoryMapKey : Nat
  mMapDepth : Nat
  mFreeMapStack : Nat
  mFreeMemoryMapEntryList : Nat
  mMemoryTypeStatistics : List EFI_MEMORY_TYPE_STATISTICS
  gMemoryTypeInformation : List EFI_MEMORY_TYPE_INFORMATION
  mDefaultMaximumAddress : Nat
  mDefaultBaseAddress : Nat
  mMemoryTypeInformationInitialized : Bool
deriving DecidableEq, Repr

/-- What Page.c takes from its environment: platform macros, the protection settings and
the heap-guard collaborators (HeapGuard.c), which are outside the source tree. -/
structure Platform where
  MAX_ALLOC_ADDRESS : Nat
  RUNTIME_PAGE_ALLOCATION_GRANULARITY : Nat
  MEMORY_TYPE_OEM_RESERVED_MIN : Nat
  sizeofEntry : Nat
  FreedMemoryGuardEnabled : Bool
  IsPageTypeToGuard : Nat → Nat → Bool
  IsMemoryGuarded : Nat → Bool
  PromoteGuardedFreePages : MemState → Option MemState
  AdjustMemoryS : Nat → Nat → Nat → Nat
  CoreConvertPagesWithGuard : MemState → Nat → Nat → Nat → Except Halt (EFI_STATUS × MemState)

instance : Inhabited EFI_MEMORY_TYPE_STATISTICS := ⟨⟨0, 0, 0, 0, 0, false, false⟩⟩

instance : Inhabited EFI_MEMORY_TYPE_INFORMATION := ⟨⟨0, 0⟩⟩

/-- Initial value of `mMemoryTypeStatistics` (Page.c lines 49-67). -/
def initialStatistics (M : Nat) : List EFI_MEMORY_TYPE_STATISTICS :=
  [ ⟨0, M, 0, 0, EfiMaxMemoryType, true, false⟩,
    ⟨0, M, 0, 0, EfiMaxMemoryType, false, false⟩,
    ⟨0, M, 0, 0, EfiMaxMemoryType, false, false⟩,
    ⟨0, M, 0, 0, EfiMaxMemoryType, false, false⟩,
    ⟨0, M, 0, 0, EfiMaxMemoryType, false, false⟩,
    ⟨0, M, 0, 0, EfiMaxMemoryType, true, true⟩,
    ⟨0, M, 0, 0, EfiMaxMemoryType, true, true⟩,
    ⟨0, M, 0, 0, EfiMaxMemoryType, false, false⟩,
    ⟨0, M, 0, 0, EfiMaxMemoryType, false, false⟩,
    ⟨0, M, 0, 0, EfiMaxMemoryType, true, false⟩,
    ⟨0, M, 0, 0, EfiMaxMemoryType, true, false⟩,
    ⟨0, M, 0, 0, EfiMaxMemoryType, false, false⟩,
    ⟨0, M, 0, 0, EfiMaxMemoryType, false, false⟩,
    ⟨0, M, 0, 0, EfiMaxMemoryType, true, true⟩,
    ⟨0, M, 0, 0, EfiMaxMemoryType, false, false⟩,
    ⟨0, M, 0, 0, EfiMaxMemoryType, true, false⟩,
    ⟨0, M, 0, 0, EfiMaxMemoryType, false, false⟩ ]

/-- Initial value of `gMemoryTypeInformation` (Page.c lines 72-90); the row of
`EFI_GCD_MEMORY_TYPE_UNACCEPTED` carries that enumerator's value 6. -/
def initialInformation : List EFI_MEMORY_TYPE_INFORMATION :=
  [ ⟨0, 0⟩, ⟨1, 0⟩, ⟨2, 0⟩, ⟨3, 0⟩, ⟨4, 0⟩, ⟨5, 0⟩, ⟨6, 0⟩, ⟨7, 0⟩, ⟨8, 0⟩,
    ⟨9, 0⟩, ⟨10, 0⟩, ⟨11, 0⟩, ⟨12, 0⟩, ⟨13, 0⟩, ⟨14, 0⟩, ⟨6, 0⟩, ⟨16, 0⟩ ]

/-- The globals as the C initialisers leave them: empty map, empty free list. -/
def initialState (env : Platform) : MemState :=
  { mGcdMemorySpaceMap := []
    mMemoryMapKey := 0
    mMapDepth := 0
    mFreeMapStack := 0
    mFreeMemoryMapEntryList := 0
    mMemoryTypeStatistics := initialStatistics env.MAX_ALLOC_ADDRESS
    gMemoryTypeInformation := initialInformation
    mDefaultMaximumAddress := env.MAX_ALLOC_ADDRESS
    mDefaultBaseAddress := env.MAX_ALLOC_ADDRESS
    mMemoryTypeInformationInitialized := false }

/-! ## CoreAddRange (Page.c lines 132-243) -/

/-- The test of lines 201-207: the descriptor cannot be merged with the new range. -/
def CoreAddRange.skip (EfiMemoryType GcdMemoryType Attributes Capabilities : Nat)
    (Entry : EFI_GCD_MAP_ENTRY) : Bool :=
  Entry.Capabilities != Capabilities ||
  Entry.Attributes != Attributes ||
  Entry.EfiMemoryType != EfiMemoryType ||
  Entry.GcdMemoryType != GcdMemoryType ||
  Entry.GcdIoType != EfiGcdIoTypeNonExistent ||
  Entry.ImageHandle != 0 ||
  Entry.DeviceHandle != 0

/-- The loop of lines 196-219 over the list in link order. It returns the descriptors
that stay linked, the widened `Start` and `End`, and the length of the free list
(`RemoveMemoryMapEntry` queues a removed descriptor when it is `FromPages`). -/
def CoreAddRange.scan (EfiMemoryType GcdMemoryType Attributes Capabilities : Nat) :
    List EFI_GCD_MAP_ENTRY → Nat → Nat → Nat → List EFI_GCD_MAP_ENTRY × Nat × Nat × Nat
  | [], Start, End, free => ([], Start, End, free)
  | Entry :: rest, Start, End, free =>
    if CoreAddRange.skip EfiMemoryType GcdMemoryType Attributes Capabilities Entry then
      let r := CoreAddRange.scan EfiMemoryType GcdMemoryType Attributes Capabilities rest Start End free
      (Entry :: r.1, r.2)
    else if add64 Entry.EndAddress 1 = Start then
      CoreAddRange.scan EfiMemoryType GcdMemoryType Attributes Capabilities rest
        Entry.BaseAddress End (if Entry.FromPages then free + 1 else free)
    else if Entry.BaseAddress = add64 End 1 then
      CoreAddRange.scan EfiMemoryType GcdMemoryType Attributes Capabilities rest
        Start Entry.EndAddress (if Entry.FromPages then free + 1 else free)
    else
      let r := CoreAddRange.scan EfiMemoryType GcdMemoryType Attributes Capabilities rest Start End free
      (Entry :: r.1, r.2)

/-- Internal function. Adds a range to the memory map. -/
def CoreAddRange (s : MemState) (EfiMemoryType GcdMemoryType Start End Attributes Capabilities
    ImageHandle : Nat) : Except Halt MemState := do
  ASSERT (Start &&& EFI_PAGE_MASK == 0)
  ASSERT (decide (End > Start))
  let r := CoreAddRange.scan EfiMemoryType GcdMemoryType Attributes Capabilities
    s.mGcdMemorySpaceMap Start End s.mFreeMemoryMapEntryList
  let New : EFI_GCD_MAP_ENTRY :=
    { EfiMemoryType := EfiMemoryType
      GcdMemoryType := GcdMemoryType
      BaseAddress := r.2.1
      EndAddress := r.2.2.1
      Attributes := Attributes
      Capabilities := Capabilities
      GcdIoType := EfiGcdIoTypeNonExistent
      ImageHandle := ImageHandle
      DeviceHandle := 0
      FromPages := false
      StackSlot := some s.mMapDepth }
  ASSERT.mapDepth (s.mMapDepth + 1)
  pure { s with
    mMemoryMapKey := add64 s.mMemoryMapKey 1
    mGcdMemorySpaceMap := r.1 ++ [New]
    mFreeMemoryMapEntryList := r.2.2.2
    mMapDepth := s.mMapDepth + 1 }

/-! ## CoreFindFreePagesI (Page.c lines 1004-1131) -/

/-- One pass of the loop of lines 1050-1116 for one descriptor: the new `Target`. -/
def CoreFindFreePagesI.step (env : Platform) (MaxAddress MinAddress NumberOfBytes Alignment : Nat)
    (NeedGuard : Bool) (Target : Nat) (Entry : EFI_GCD_MAP_ENTRY) : Nat :=
  if Entry.EfiMemoryType ≠ EfiConventionalMemory then Target
  else
    let DescStart := Entry.BaseAddress
    let DescEnd := Entry.EndAddress
    if DescStart ≥ MaxAddress ∨ DescEnd < MinAddress then Target
    else
      let DescEnd := if DescEnd ≥ MaxAddress then MaxAddress else DescEnd
      let DescEnd := sub64 ((add64 DescEnd 1) &&& not64 (sub64 Alignment 1)) 1
      if DescEnd < DescStart then Target
      else
        let DescNumberOfBytes := add64 (sub64 DescEnd DescStart) 1
        if DescNumberOfBytes ≥ NumberOfBytes then
          if add64 (sub64 DescEnd NumberOfBytes) 1 < MinAddress then Target
          else if DescEnd > Target then
            if NeedGuard then
              let DescEnd := env.AdjustMemoryS (sub64 (add64 DescEnd 1) DescNumberOfBytes)
                DescNumberOfBytes NumberOfBytes
              if DescEnd = 0 then Target else DescEnd
            else DescEnd
          else Target
        else Target

/-- Internal function. Finds a consecutive free page range below the requested address;
returns the base address of the range, or 0. -/
def CoreFindFreePagesI (env : Platform) (s : MemState)
    (MaxAddress MinAddress NumberOfPages NewType Alignment : Nat) (NeedGuard : Bool) : Nat :=
  if MaxAddress < EFI_PAGE_MASK ∨ NumberOfPages = 0 then 0
  else
    let MaxAddress :=
      if MaxAddress &&& EFI_PAGE_MASK ≠ EFI_PAGE_MASK then
        ((sub64 MaxAddress (EFI_PAGE_MASK + 1)) &&& not64 EFI_PAGE_MASK) ||| EFI_PAGE_MASK
      else MaxAddress
    let NumberOfBytes := LShiftU64 NumberOfPages EFI_PAGE_SHIFT
    let Target := s.mGcdMemorySpaceMap.foldl
      (CoreFindFreePagesI.step env MaxAddress MinAddress NumberOfBytes Alignment NeedGuard) 0
    let Target := sub64 Target (sub64 NumberOfBytes 1)
    if Target &&& EFI_PAGE_MASK ≠ 0 then 0 else Target

/-! ## FindFreePages (Page.c lines 1147-1229) -/

/-- Internal function. Finds a consecutive free page range below the requested address,
trying the bin of the type, the default bin, the whole range, and again after a
successful promotion. Returns the base address (or 0) and the state. -/
def FindFreePages (env : Platform) : Nat → MemState → Nat → Nat → Nat → Nat → Bool →
    Except Halt (Nat × MemState)
  | 0, _, _, _, _, _, _ => throw Halt.outOfFuel
  | fuel + 1, s, MaxAddress, NoPages, NewType, Alignment, NeedGuard =>
    let stat := s.mMemoryTypeStatistics.getD NewType default
    let Start1 :=
      if NewType < EfiMaxMemoryType ∧ MaxAddress ≥ stat.MaximumAddress then
        CoreFindFreePagesI env s stat.MaximumAddress stat.BaseAddress NoPages NewType Alignment NeedGuard
      else 0
    if Start1 ≠ 0 then pure (Start1, s)
    else
      let Start2 :=
        if MaxAddress ≥ s.mDefaultMaximumAddress then
          CoreFindFreePagesI env s s.mDefaultMaximumAddress 0 NoPages NewType Alignment NeedGuard
        else 0
      if Start2 ≠ 0 then
        pure (Start2,
          if Start2 < s.mDefaultBaseAddress then { s with mDefaultBaseAddress := Start2 } else s)
      else
        let Start3 := CoreFindFreePagesI env s MaxAddress 0 NoPages NewType Alignment NeedGuard
        if Start3 ≠ 0 then pure (Start3, s)
        else
          match env.PromoteGuardedFreePages s with
          | none => pure (0, s)
          | some s1 => FindFreePages env fuel s1 MaxAddress NoPages NewType Alignment NeedGuard

/-! ## CoreConvertPagesEx (Page.c lines 667-934) -/

/-- The first element in link order that satisfies `p`, with the elements linked before
and after it. -/
def findFirst (p : EFI_GCD_MAP_ENTRY → Bool) :
    List EFI_GCD_MAP_ENTRY → Option (List EFI_GCD_MAP_ENTRY × EFI_GCD_MAP_ENTRY × List EFI_GCD_MAP_ENTRY)
  | [] => none
  | Entry :: rest =>
    if p Entry then some ([], Entry, rest)
    else
      match findFirst p rest with
      | none => none
      | some r => some (Entry :: r.1, r.2)

/-- The test of line 715 (and 1538): the descriptor covers `Start`. -/
def coversStart (Start : Nat) (Entry : EFI_GCD_MAP_ENTRY) : Bool :=
  decide (Entry.BaseAddress ≤ Start) && decide (Entry.EndAddress > Start)

/-- The test of lines 785-786 (and 797-798): `Start` lies in the window of the type or in
the default window. -/
def inBin (s : MemState) (st : EFI_MEMORY_TYPE_STATISTICS) (Start : Nat) : Bool :=
  (decide (Start ≥ st.BaseAddress) && decide (Start ≤ st.MaximumAddress)) ||
  (decide (Start ≥ s.mDefaultBaseAddress) && decide (Start ≤ s.mDefaultMaximumAddress))

/-- Lines 781-805: update of the counters of the old and the new type. -/
def updateStatistics (s : MemState) (Start NumberOfPages OldType NewType : Nat) : MemState :=
  let s1 :=
    if OldType < EfiMaxMemoryType then
      let st := s.mMemoryTypeStatistics.getD OldType default
      if inBin s st Start then
        let st1 := { st with CurrentNumberOfPages :=
          if NumberOfPages > st.CurrentNumberOfPages then 0
          else st.CurrentNumberOfPages - NumberOfPages }
        { s with mMemoryTypeStatistics := s.mMemoryTypeStatistics.set OldType st1 }
      else s
    else s
  if NewType < EfiMaxMemoryType then
    let st := s1.mMemoryTypeStatistics.getD NewType default
    if inBin s1 st Start then
      let cur := add64 st.CurrentNumberOfPages NumberOfPages
      let st1 := { st with CurrentNumberOfPages := cur }
      let s2 := { s1 with mMemoryTypeStatistics := s1.mMemoryTypeStatistics.set NewType st1 }
      let info := s2.gMemoryTypeInformation.getD st.InformationIndex default
      if cur > info.NumberOfPages then
        let info1 := { info with NumberOfPages := cur % 4294967296 }
        { s2 with gMemoryTypeInformation :=
            s2.gMemoryTypeInformation.set st.InformationIndex info1 }
      else s2
    else s1
  else s1

/-- Lines 813-885, "Pull range out of descriptor": `Entry` is linked between `pre` and
`post`. Returns the state and the descriptor `Entry` points to after clipping (the one the
new attributes are read from at lines 866-877), which is unlinked when it is empty. -/
def CoreConvertPagesEx.pull (s : MemState) (pre : List EFI_GCD_MAP_ENTRY)
    (Entry : EFI_GCD_MAP_ENTRY) (post : List EFI_GCD_MAP_ENTRY) (Start RangeEnd : Nat) :
    Except Halt (MemState × EFI_GCD_MAP_ENTRY) := do
  -- the list is `before ++ cur :: after` and `cur` is `Entry`
  let (before, cur, after, depth) ←
    if Entry.BaseAddress = Start then
      (pure (pre, { Entry with BaseAddress := add64 RangeEnd 1 }, post, s.mMapDepth) :
        Except Halt _)
    else if Entry.EndAddress = RangeEnd then
      pure (pre, { Entry with EndAddress := sub64 Start 1 }, post, s.mMapDepth)
    else do
      let New : EFI_GCD_MAP_ENTRY :=
        { FromPages := false
          EfiMemoryType := Entry.EfiMemoryType
          GcdMemoryType := Entry.GcdMemoryType
          GcdIoType := Entry.GcdIoType
          BaseAddress := add64 RangeEnd 1
          EndAddress := Entry.EndAddress
          ImageHandle := Entry.ImageHandle
          DeviceHandle := Entry.DeviceHandle
          Attributes := Entry.Attributes
          Capabilities := Entry.Capabilities
          StackSlot := some s.mMapDepth }
      let Clipped := { Entry with EndAddress := sub64 Start 1 }
      ASSERT (decide (Clipped.BaseAddress < Clipped.EndAddress))
      ASSERT.mapDepth (s.mMapDepth + 1)
      pure (pre ++ Clipped :: post, New, [], s.mMapDepth + 1)
  -- If the descriptor is empty, then remove it from the map
  if cur.BaseAddress = add64 cur.EndAddress 1 then
    pure ({ s with
      mGcdMemorySpaceMap := before ++ after
      mMapDepth := depth
      mFreeMemoryMapEntryList :=
        if cur.FromPages then s.mFreeMemoryMapEntryList + 1 else s.mFreeMemoryMapEntryList }, cur)
  else
    pure ({ s with mGcdMemorySpaceMap := before ++ cur :: after, mMapDepth := depth }, cur)

/-- Lines 813-896 for one descriptor: statistics, pull the range out, add the new range
(not for freed pages under freed-memory guard). -/
def CoreConvertPagesEx.step (env : Platform) (s : MemState) (pre : List EFI_GCD_MAP_ENTRY)
    (Entry : EFI_GCD_MAP_ENTRY) (post : List EFI_GCD_MAP_ENTRY) (Start RangeEnd NumberOfPages : Nat)
    (ChangingType : Bool) (NewType : Nat) (ChangingAttributes : Bool)
    (NewAttributes NewCapabilities : Nat) : Except Halt MemState := do
  let Capabilities := Entry.Capabilities
  let EfiGcdMemoryType := Entry.GcdMemoryType
  let ImageHandle := Entry.ImageHandle
  let s := if ChangingType then
    updateStatistics s Start NumberOfPages Entry.EfiMemoryType NewType else s
  let (s, cur) ← CoreConvertPagesEx.pull s pre Entry post Start RangeEnd
  let Attribute := if ChangingType then cur.Attributes
    else if ChangingAttributes then NewAttributes else cur.Attributes
  let Capabilities := if ChangingType then cur.Capabilities
    else if ChangingAttributes then Capabilities else NewCapabilities
  let EfiMemoryType := if ChangingType then NewType else cur.EfiMemoryType
  if !env.FreedMemoryGuardEnabled || !ChangingType || EfiMemoryType != EfiConventionalMemory then
    CoreAddRange s EfiMemoryType EfiGcdMemoryType Start RangeEnd Attribute Capabilities ImageHandle
  else pure s

/-- The `while (Start < End)` loop of CoreConvertPagesEx (lines 708-927). The call of
CoreFreeMemoryMapStack at line 921 is the argument `FreeMemoryMapStack`, so that the
recursion CoreFreeMemoryMapStack -> AllocateMemoryMapEntry -> CoreAllocatePoolPages ->
CoreConvertPages can be closed below. -/
def CoreConvertPagesEx.loop (env : Platform) (FreeMemoryMapStack : MemState → Except Halt MemState)
    (NumberOfPages : Nat) (ChangingType : Bool) (NewType : Nat) (ChangingAttributes : Bool)
    (NewAttributes : Nat) (NewCapabilities : Nat) (End : Nat) :
    Nat → MemState → Nat → Except Halt (EFI_STATUS × MemState)
  | 0, s, Start =>
    if Start < End then throw Halt.outOfFuel else pure (EFI_STATUS.EFI_SUCCESS, s)
  | fuel + 1, s, Start =>
    if Start < End then
      match findFirst (coversStart Start) s.mGcdMemorySpaceMap with
      | none => pure (EFI_STATUS.EFI_NOT_FOUND, s)
      | some (pre, Entry, post) =>
        if ChangingType ∧ NewType ≠ EfiConventionalMemory ∧ Entry.EndAddress < End then
          pure (EFI_STATUS.EFI_NOT_FOUND, s)
        else
          let RangeEnd := if Entry.EndAddress < End then Entry.EndAddress else End
          if ChangingType ∧
              xor (!(NewType == EfiConventionalMemory)) (Entry.EfiMemoryType == EfiConventionalMemory)
                = true then
            pure (EFI_STATUS.EFI_NOT_FOUND, s)
          else do
            let s ← CoreConvertPagesEx.step env s pre Entry post Start RangeEnd NumberOfPages
              ChangingType NewType ChangingAttributes NewAttributes NewCapabilities
            let s ← FreeMemoryMapStack s
            CoreConvertPagesEx.loop env FreeMemoryMapStack NumberOfPages ChangingType NewType
              ChangingAttributes NewAttributes NewCapabilities End fuel s (add64 RangeEnd 1)
    else pure (EFI_STATUS.EFI_SUCCESS, s)

/-- Internal function CoreConvertPagesEx with the callee CoreFreeMemoryMapStack as an
argument. -/
def CoreConvertPagesExWith (env : Platform) (FreeMemoryMapStack : MemState → Except Halt MemState)
    (fuel : Nat) (s : MemState) (Start NumberOfPages : Nat) (ChangingType : Bool) (NewType : Nat)
    (ChangingAttributes : Bool) (NewAttributes : Nat) (ChangingCapabilities : Bool)
    (NewCapabilities : Nat) : Except Halt (EFI_STATUS × MemState) := do
  let NumberOfBytes := LShiftU64 NumberOfPages EFI_PAGE_SHIFT
  let End := sub64 (add64 Start NumberOfBytes) 1
  ASSERT (NumberOfPages != 0)
  ASSERT (Start &&& EFI_PAGE_MASK == 0)
  ASSERT (decide (End > Start))
  ASSERT (ChangingType == false || ChangingAttributes == false || ChangingCapabilities == false)
  if NumberOfPages = 0 ∨ Start &&& EFI_PAGE_MASK ≠ 0 ∨ Start ≥ End then
    pure (EFI_STATUS.EFI_INVALID_PARAMETER, s)
  else
    CoreConvertPagesEx.loop env FreeMemoryMapStack NumberOfPages ChangingType NewType
      ChangingAttributes NewAttributes NewCapabilities End fuel s Start

/-- Internal function CoreConvertPages (lines 952-960), callee passed on. -/
def CoreConvertPagesWith (env : Platform) (FreeMemoryMapStack : MemState → Except Halt MemState)
    (fuel : Nat) (s : MemState) (Start NumberOfPages NewType : Nat) :
    Except Halt (EFI_STATUS × MemState) :=
  CoreConvertPagesExWith env FreeMemoryMapStack fuel s Start NumberOfPages true NewType false 0 false 0

/-! ## CoreAllocatePoolPages, AllocateMemoryMapEntry, CoreFreeMemoryMapStack -/

/-- Internal function CoreAllocatePoolPages (lines 2061-2105), callee passed on. Returns the
allocated address (0 for `NULL`). -/
def CoreAllocatePoolPagesWith (env : Platform) (FreeMemoryMapStack : MemState → Except Halt MemState)
    (fuel : Nat) (s : MemState) (PoolType NumberOfPages Alignment : Nat) (NeedGuard : Bool) :
    Except Halt (Nat × MemState) := do
  let (Start, s) ← FindFreePages env fuel s env.MAX_ALLOC_ADDRESS NumberOfPages PoolType Alignment
    NeedGuard
  if Start = 0 then pure (0, s)
  else do
    let (Status, s) ←
      if NeedGuard then env.CoreConvertPagesWithGuard s Start NumberOfPages PoolType
      else CoreConvertPagesWith env FreeMemoryMapStack fuel s Start NumberOfPages PoolType
    if EFI_ERROR Status then pure (0, s) else pure (Start, s)

/-- Internal function AllocateMemoryMapEntry (lines 258-303), callee passed on. Returns
whether a descriptor was obtained (`false` for `NULL`). Dequeuing from an empty list is
a failed signature check of the macro `CR`. -/
def AllocateMemoryMapEntryWith (env : Platform) (FreeMemoryMapStack : MemState → Except Halt MemState)
    (fuel : Nat) (s : MemState) : Except Halt (Bool × MemState) := do
  let (ok, s) ←
    if s.mFreeMemoryMapEntryList = 0 then do
      let (FreeDescriptorEntries, s) ← CoreAllocatePoolPagesWith env FreeMemoryMapStack fuel s
        EfiBootServicesData (EFI_SIZE_TO_PAGES DEFAULT_PAGE_ALLOCATION_GRANULARITY)
        DEFAULT_PAGE_ALLOCATION_GRANULARITY false
      if FreeDescriptorEntries ≠ 0 then
        pure (true, { s with mFreeMemoryMapEntryList :=
          s.mFreeMemoryMapEntryList + DEFAULT_PAGE_ALLOCATION_GRANULARITY / env.sizeofEntry })
      else pure (false, s)
    else (pure (true, s) : Except Halt _)
  if !ok then pure (false, s)
  else do
    ASSERT (decide (s.mFreeMemoryMapEntryList ≠ 0))
    pure (true, { s with mFreeMemoryMapEntryList := s.mFreeMemoryMapEntryList - 1 })

/-- The test of line 348: the descriptor is the linked stack element `mMapStack[d]`. -/
def inStackSlot (d : Nat) (Entry : EFI_GCD_MAP_ENTRY) : Bool :=
  Entry.StackSlot == some d

/-- Lines 361-374: insert `Entry` in front of the first descriptor that is `FromPages`
and has a larger base address, or at the tail. -/
def insertSorted (Entry : EFI_GCD_MAP_ENTRY) : List EFI_GCD_MAP_ENTRY → List EFI_GCD_MAP_ENTRY
  | [] => [Entry]
  | Entry2 :: rest =>
    if Entry2.FromPages ∧ Entry2.BaseAddress > Entry.BaseAddress then Entry :: Entry2 :: rest
    else Entry2 :: insertSorted Entry rest

/-- The `while (mMapDepth != 0)` loop of CoreFreeMemoryMapStack (lines 334-391);
`Allocate` is the call of AllocateMemoryMapEntry. -/
def CoreFreeMemoryMapStack.loop (Allocate : MemState → Except Halt (Bool × MemState)) :
    Nat → MemState → Except Halt MemState
  | 0, s => if s.mMapDepth ≠ 0 then throw Halt.outOfFuel else pure s
  | fuel + 1, s =>
    if s.mMapDepth ≠ 0 then do
      let (Entry, s) ← Allocate s
      ASSERT Entry
      let s := { s with mMapDepth := s.mMapDepth - 1 }
      match findFirst (inStackSlot s.mMapDepth) s.mGcdMemorySpaceMap with
      | some (pre, Slot, post) =>
        let Entry := { Slot with FromPages := true, StackSlot := none }
        CoreFreeMemoryMapStack.loop Allocate fuel
          { s with mGcdMemorySpaceMap := insertSorted Entry (pre ++ post) }
      | none =>
        CoreFreeMemoryMapStack.loop Allocate fuel
          { s with mFreeMemoryMapEntryList := s.mFreeMemoryMapEntryList + 1 }
    else pure s

/-- Internal function. Moves any memory descriptors that are on the temporary descriptor
stack to heap (lines 310-394). -/
def CoreFreeMemoryMapStack (env : Platform) : Nat → MemState → Except Halt MemState
  | 0, s => if s.mFreeMapStack ≠ 0 then pure s else throw Halt.outOfFuel
  | fuel + 1, s =>
    if s.mFreeMapStack ≠ 0 then pure s
    else do
      let s := { s with mFreeMapStack := s.mFreeMapStack + 1 }
      let s ← CoreFreeMemoryMapStack.loop
        (AllocateMemoryMapEntryWith env (CoreFreeMemoryMapStack env fuel) fuel) fuel s
      pure { s with mFreeMapStack := s.mFreeMapStack - 1 }

/-- Internal function AllocateMemoryMapEntry. -/
def AllocateMemoryMapEntry (env : Platform) (fuel : Nat) (s : MemState) :
    Except Halt (Bool × MemState) :=
  AllocateMemoryMapEntryWith env (CoreFreeMemoryMapStack env fuel) fuel s

/-- Internal function CoreAllocatePoolPages. -/
def CoreAllocatePoolPages (env : Platform) (fuel : Nat) (s : MemState)
    (PoolType NumberOfPages Alignment : Nat) (NeedGuard : Bool) : Except Halt (Nat × MemState) :=
  CoreAllocatePoolPagesWith env (CoreFreeMemoryMapStack env fuel) fuel s PoolType NumberOfPages
    Alignment NeedGuard

/-- Internal function. Converts a memory range to the specified type or attributes. -/
def CoreConvertPagesEx (env : Platform) (fuel : Nat) (s : MemState) (Start NumberOfPages : Nat)
    (ChangingType : Bool) (NewType : Nat) (ChangingAttributes : Bool) (NewAttributes : Nat)
    (ChangingCapabilities : Bool) (NewCapabilities : Nat) : Except Halt (EFI_STATUS × MemState) :=
  CoreConvertPagesExWith env (CoreFreeMemoryMapStack env fuel) fuel s Start NumberOfPages
    ChangingType NewType ChangingAttributes NewAttributes ChangingCapabilities NewCapabilities

/-- Internal function. Converts a memory range to the specified type. -/
def CoreConvertPages (env : Platform) (fuel : Nat) (s : MemState) (Start NumberOfPages NewType : Nat) :
    Except Halt (EFI_STATUS × MemState) :=
  CoreConvertPagesEx env fuel s Start NumberOfPages true NewType false 0 false 0

/-! ## CoreInternalAllocatePages, CoreInternalFreePages (Page.c lines 1250-1586) -/

/-- Lines 1284-1292 and 1548-1557: the granularity required by a memory type. -/
def allocationAlignment (env : Platform) (MemoryType : Nat) : Nat :=
  if MemoryType = EfiACPIReclaimMemory ∨ MemoryType = EfiACPIMemoryNVS ∨
      MemoryType = EfiRuntimeServicesCode ∨ MemoryType = EfiRuntimeServicesData then
    env.RUNTIME_PAGE_ALLOCATION_GRANULARITY
  else DEFAULT_PAGE_ALLOCATION_GRANULARITY

/-- Lines 1300-1301 and 1564-1565: the page count rounded up to the granularity. -/
def roundPages (NumberOfPages Alignment : Nat) : Nat :=
  (add64 NumberOfPages (sub64 (EFI_SIZE_TO_PAGES Alignment) 1)) &&&
    not64 (sub64 (EFI_SIZE_TO_PAGES Alignment) 1)

/-- Lines 1348-1371: the fixed-address range meets the window of another special type. -/
def hitsSpecialBin (s : MemState) (MemoryType Start End : Nat) : Bool :=
  (List.range EfiMaxMemoryType).any fun CheckType =>
    let st := s.mMemoryTypeStatistics.getD CheckType default
    (MemoryType != CheckType && st.Special && decide (st.NumberOfPages > 0)) &&
      ((decide (Start ≥ st.BaseAddress) && decide (Start ≤ st.MaximumAddress)) ||
       (decide (End ≥ st.BaseAddress) && decide (End ≤ st.MaximumAddress)) ||
       (decide (Start < st.BaseAddress) && decide (End > st.MaximumAddress)))

/-- Lines 1401-1405: convert with or without guard pages. -/
def convertForAllocate (env : Platform) (fuel : Nat) (s : MemState)
    (Start NumberOfPages MemoryType : Nat) (NeedGuard : Bool) : Except Halt (EFI_STATUS × MemState) :=
  if NeedGuard then env.CoreConvertPagesWithGuard s Start NumberOfPages MemoryType
  else CoreConvertPages env fuel s Start NumberOfPages MemoryType

/-- Allocates pages from the memory map. `Memory` is `none` for a `NULL` pointer and
`some v` for a pointer to the value `v`; the result carries the value `*Memory` at return. -/
def CoreInternalAllocatePages (env : Platform) (fuel : Nat) (s : MemState)
    (AllocType MemoryType NumberOfPages : Nat) (Memory : Option Nat) (NeedGuard : Bool) :
    Except Halt (EFI_STATUS × MemState × Option Nat) :=
  if AllocType ≥ MaxAllocateType then pure (EFI_STATUS.EFI_INVALID_PARAMETER, s, Memory)
  else if (MemoryType ≥ EfiMaxMemoryType ∧ MemoryType < env.MEMORY_TYPE_OEM_RESERVED_MIN) ∨
      MemoryType = EfiConventionalMemory ∨ MemoryType = EfiPersistentMemory ∨
      MemoryType = EfiUnacceptedMemoryType then
    pure (EFI_STATUS.EFI_INVALID_PARAMETER, s, Memory)
  else
    match Memory with
    | none => pure (EFI_STATUS.EFI_INVALID_PARAMETER, s, Memory)
    | some MemoryValue =>
      let Alignment := allocationAlignment env MemoryType
      if AllocType = AllocateAddress ∧ MemoryValue &&& (sub64 Alignment 1) ≠ 0 then
        pure (EFI_STATUS.EFI_NOT_FOUND, s, Memory)
      else
        let NumberOfPages := roundPages NumberOfPages Alignment
        let Start := MemoryValue
        let MaxAddress := env.MAX_ALLOC_ADDRESS
        let NumberOfBytes := LShiftU64 NumberOfPages EFI_PAGE_SHIFT
        let End := sub64 (add64 Start NumberOfBytes) 1
        if AllocType = AllocateAddress ∧
            (NumberOfPages = 0 ∨ NumberOfPages > RShiftU64 MaxAddress EFI_PAGE_SHIFT) then
          pure (EFI_STATUS.EFI_NOT_FOUND, s, Memory)
        else if AllocType = AllocateAddress ∧ (Start ≥ End ∨ Start > MaxAddress ∨ End > MaxAddress) then
          pure (EFI_STATUS.EFI_NOT_FOUND, s, Memory)
        else if AllocType = AllocateAddress ∧ hitsSpecialBin s MemoryType Start End = true then
          pure (EFI_STATUS.EFI_NOT_FOUND, s, Memory)
        else do
          let MaxAddress := if AllocType = AllocateMaxAddress then Start else MaxAddress
          let (Start, s) ←
            if AllocType ≠ AllocateAddress then
              FindFreePages env fuel s MaxAddress NumberOfPages MemoryType Alignment NeedGuard
            else (pure (Start, s) : Except Halt _)
          if AllocType ≠ AllocateAddress ∧ Start = 0 then
            pure (EFI_STATUS.EFI_OUT_OF_RESOURCES, s, Memory)
          else do
            let (Status, s) ← convertForAllocate env fuel s Start NumberOfPages MemoryType NeedGuard
            let (Status, s) ←
              if EFI_ERROR Status then
                match env.PromoteGuardedFreePages s with
                | some s1 => convertForAllocate env fuel s1 Start NumberOfPages MemoryType NeedGuard
                | none => (pure (Status, s) : Except Halt _)
              else pure (Status, s)
            if !EFI_ERROR Status then pure (Status, s, some Start)
            else pure (Status, s, Memory)

/-- Frees previous allocated pages. The result carries the value stored to `*MemoryType`
(`none` when nothing is stored). -/
def CoreInternalFreePages (env : Platform) (fuel : Nat) (s : MemState) (Memory NumberOfPages : Nat) :
    Except Halt (EFI_STATUS × MemState × Option Nat) :=
  match findFirst (coversStart Memory) s.mGcdMemorySpaceMap with
  | none => pure (EFI_STATUS.EFI_NOT_FOUND, s, none)
  | some (_, Entry, _) =>
    let Alignment := allocationAlignment env Entry.EfiMemoryType
    if Memory &&& (sub64 Alignment 1) ≠ 0 then pure (EFI_STATUS.EFI_INVALID_PARAMETER, s, none)
    else do
      let NumberOfPages := roundPages NumberOfPages Alignment
      let IsGuarded := env.IsPageTypeToGuard Entry.EfiMemoryType AllocateAnyPages &&
        env.IsMemoryGuarded Memory
      let (Status, s) ←
        if IsGuarded then env.CoreConvertPagesWithGuard s Memory NumberOfPages EfiConventionalMemory
        else CoreConvertPages env fuel s Memory NumberOfPages EfiConventionalMemory
      pure (Status, s, some Entry.EfiMemoryType)

/-! ## Vocabulary of the properties -/

/-- A descriptor is well formed: base page-aligned, end the last byte of a page,
base below end, both `UINT64` values. -/
def WellFormed (e : EFI_GCD_MAP_ENTRY) : Prop :=
  e.BaseAddress % 4096 = 0 ∧ e.EndAddress % 4096 = 4095 ∧ e.BaseAddress < e.EndAddress ∧
    e.EndAddress < 18446744073709551616

/-- The address ranges of two descriptors do not meet. -/
def Disjoint (a b : EFI_GCD_MAP_ENTRY) : Prop :=
  a.EndAddress < b.BaseAddress ∨ b.EndAddress < a.BaseAddress

/-- The store invariant of the data model: descriptors well formed and pairwise disjoint. -/
def StoreOk (l : List EFI_GCD_MAP_ENTRY) : Prop :=
  (∀ e ∈ l, WellFormed e) ∧ l.Pairwise Disjoint

/-- The descriptor covers the address. -/
def Covers (e : EFI_GCD_MAP_ENTRY) (a : Nat) : Prop :=
  e.BaseAddress ≤ a ∧ a ≤ e.EndAddress

/-- The size in bytes of a descriptor. -/
def entrySize (e : EFI_GCD_MAP_ENTRY) : Nat := e.EndAddress + 1 - e.BaseAddress

/-- The sum of the descriptor sizes of a store. -/
def totalSize (l : List EFI_GCD_MAP_ENTRY) : Nat := (l.map entrySize).sum

instance (e : EFI_GCD_MAP_ENTRY) : Decidable (WellFormed e) := by
  unfold WellFormed; exact inferInstance

instance (a b : EFI_GCD_MAP_ENTRY) : Decidable (Disjoint a b) := by
  unfold Disjoint; exact inferInstance

instance (e : EFI_GCD_MAP_ENTRY) (a : Nat) : Decidable (Covers e a) := by
  unfold Covers; exact inferInstance

instance (l : List EFI_GCD_MAP_ENTRY) : Decidable (StoreOk l) := by
  unfold StoreOk; exact inferInstance

/-- A platform with a 64-bit allocation ceiling, 4 KiB runtime granularity, heap guard off and
a promotion hook that reports failure. -/
def plainPlatform : Platform :=
  { MAX_ALLOC_ADDRESS := 18446744073709551615
    RUNTIME_PAGE_ALLOCATION_GRANULARITY := 4096
    MEMORY_TYPE_OEM_RESERVED_MIN := 1879048192
    sizeofEntry := 128
    FreedMemoryGuardEnabled := false
    IsPageTypeToGuard := fun _ _ => false
    IsMemoryGuarded := fun _ => false
    PromoteGuardedFreePages := fun _ => none
    AdjustMemoryS := fun Start _ _ => Start
    CoreConvertPagesWithGuard := fun s _ _ _ => pure (EFI_STATUS.EFI_NOT_FOUND, s) }

/-- A conventional descriptor without handles, linked from the pool. -/
def convEntry (Base End : Nat) : EFI_GCD_MAP_ENTRY :=
  { BaseAddress := Base, EndAddress := End, Capabilities := 0, Attributes := 0,
    GcdMemoryType := 2, GcdIoType := 0, EfiMemoryType := EfiConventionalMemory,
    ImageHandle := 0, DeviceHandle := 0, FromPages := true, StackSlot := none }

/-- No descriptor reaches the last byte of the 64-bit address space. -/
def BelowTop (l : List EFI_GCD_MAP_ENTRY) : Prop :=
  ∀ e ∈ l, e.EndAddress < 18446744073709551615

/-- The properties of a descriptor that a conversion can change or must keep:
memory type, attributes, capabilities, GCD memory type. -/
def entryProps (e : EFI_GCD_MAP_ENTRY) : Nat × Nat × Nat × Nat :=
  (e.EfiMemoryType, e.Attributes, e.Capabilities, e.GcdMemoryType)

/-- Some descriptor of the store covers address `a` and has the properties `p`. -/
def Has (l : List EFI_GCD_MAP_ENTRY) (a : Nat) (p : Nat × Nat × Nat × Nat) : Prop :=
  ∃ e ∈ l, Covers e a ∧ entryProps e = p

/-- The descriptor without the two bookkeeping fields of the descriptor storage. -/
def strip (e : EFI_GCD_MAP_ENTRY) : EFI_GCD_MAP_ENTRY :=
  { e with FromPages := false, StackSlot := none }

/-- Scenario A of the spec on the C initial state with `free` queued free descriptors:
add_range (CoreAddRange and the drain of the bootstrap stack, as in the locked section of
CoreAddMemoryDescriptor, lines 508-512), then allocate_pages (anywhere, BootServicesData, 1). -/
def scenarioA (free fuel : Nat) : Except Halt (EFI_STATUS × MemState × Option Nat) := do
  let s ← CoreAddRange { initialState plainPlatform with mFreeMemoryMapEntryList := free }
    EfiConventionalMemory 2 0x1000 0x1FFF 0 0 0
  let s ← CoreFreeMemoryMapStack plainPlatform fuel s
  CoreInternalAllocatePages plainPlatform fuel s AllocateAnyPages EfiBootServicesData 1 (some 0) false

/-- Scenario C of the spec: two pages at the fixed address 0x2000 out of the single
conventional range [0, 0x9FFF], with `free` queued free descriptors. -/
def scenarioC (MemoryType free fuel : Nat) : Except Halt (EFI_STATUS × MemState × Option Nat) :=
  CoreInternalAllocatePages plainPlatform fuel
    { initialState plainPlatform with
      mGcdMemorySpaceMap := [convEntry 0 0x9FFF], mFreeMemoryMapEntryList := free }
    AllocateAddress MemoryType 2 (some 0x2000) false

/-- A request range: page-aligned start, end the last byte of a page below the top. -/
def RangeOk (S E : Nat) : Prop :=
  S % 4096 = 0 ∧ E % 4096 = 4095 ∧ S < E ∧ E < 18446744073709551615

/-- What the merge loop of CoreAddRange (lines 196-219) returns in `r` for the store `l`,
the new range `[S, E]` with properties `P` and the free-list length `f`. -/
def ScanSpec (P : Nat × Nat × Nat × Nat) (l : List EFI_GCD_MAP_ENTRY) (S E f : Nat)
    (r : List EFI_GCD_MAP_ENTRY × Nat × Nat × Nat) : Prop :=
  r.1.Sublist l ∧ RangeOk r.2.1 r.2.2.1 ∧ r.2.1 ≤ S ∧ E ≤ r.2.2.1 ∧
  (∀ e ∈ r.1, r.2.2.1 < e.BaseAddress ∨ e.EndAddress < r.2.1) ∧
  (∀ x : EFI_GCD_MAP_ENTRY, x.BaseAddress ≤ x.EndAddress →
    (E < x.BaseAddress ∨ x.EndAddress < S) → (∀ e ∈ l, Disjoint e x) →
    (r.2.2.1 < x.BaseAddress ∨ x.EndAddress < r.2.1)) ∧
  (∀ a p, (Has l a p ∨ (S ≤ a ∧ a ≤ E ∧ p = P)) ↔
    (Has r.1 a p ∨ (r.2.1 ≤ a ∧ a ≤ r.2.2.1 ∧ p = P))) ∧
  totalSize l + (E + 1 - S) = totalSize r.1 + (r.2.2.1 + 1 - r.2.1) ∧
  f ≤ r.2.2.2

/-- The store invariant used by the proofs: well formed, pairwise disjoint, below the top
of the address space. -/
def Store (l : List EFI_GCD_MAP_ENTRY) : Prop := StoreOk l ∧ BelowTop l

/-- The state CoreAddRange returns when its assertions hold. -/
def addRangeResult (s : MemState) (EfiMemoryType GcdMemoryType Start End Attributes Capabilities
    ImageHandle : Nat) : MemState :=
  let r := CoreAddRange.scan EfiMemoryType GcdMemoryType Attributes Capabilities
    s.mGcdMemorySpaceMap Start End s.mFreeMemoryMapEntryList
  { s with
    mMemoryMapKey := add64 s.mMemoryMapKey 1
    mGcdMemorySpaceMap := r.1 ++ [
      { EfiMemoryType := EfiMemoryType
        GcdMemoryType := GcdMemoryType
        BaseAddress := r.2.1
        EndAddress := r.2.2.1
        Attributes := Attributes
        Capabilities := Capabilities
        GcdIoType := EfiGcdIoTypeNonExistent
        ImageHandle := ImageHandle
        DeviceHandle := 0
        FromPages := false
        StackSlot := some s.mMapDepth }]
    mFreeMemoryMapEntryList := r.2.2.2
    mMapDepth := s.mMapDepth + 1 }

/-- The globals that neither CoreAddRange nor the clipping of a descriptor touches. -/
def Frame (s s1 : MemState) : Prop :=
  s1.mFreeMapStack = s.mFreeMapStack ∧ s1.mMemoryTypeStatistics = s.mMemoryTypeStatistics ∧
  s1.gMemoryTypeInformation = s.gMemoryTypeInformation ∧
  s1.mDefaultMaximumAddress = s.mDefaultMaximumAddress ∧
  s1.mDefaultBaseAddress = s.mDefaultBaseAddress ∧
  s1.mMemoryTypeInformationInitialized = s.mMemoryTypeInformationInitialized

/-- What "pull range out of descriptor" (lines 813-885) leaves: state `s1` and the descriptor
`cur` the attributes are read from. -/
def PullSpec (s : MemState) (Entry : EFI_GCD_MAP_ENTRY) (Start RangeEnd : Nat) (s1 : MemState)
    (cur : EFI_GCD_MAP_ENTRY) : Prop :=
  Store s1.mGcdMemorySpaceMap ∧
  (∀ x ∈ s1.mGcdMemorySpaceMap, RangeEnd < x.BaseAddress ∨ x.EndAddress < Start) ∧
  (∀ a p, Has s1.mGcdMemorySpaceMap a p ↔
    (Has s.mGcdMemorySpaceMap a p ∧ ¬ (Start ≤ a ∧ a ≤ RangeEnd))) ∧
  totalSize s1.mGcdMemorySpaceMap + (RangeEnd + 1 - Start) = totalSize s.mGcdMemorySpaceMap ∧
  (cur.Attributes = Entry.Attributes ∧ cur.Capabilities = Entry.Capabilities ∧
    cur.EfiMemoryType = Entry.EfiMemoryType) ∧
  s.mFreeMemoryMapEntryList ≤ s1.mFreeMemoryMapEntryList ∧
  s.mMapDepth ≤ s1.mMapDepth ∧ s1.mMapDepth ≤ s.mMapDepth + 1 ∧
  s1.mMemoryMapKey = s.mMemoryMapKey ∧ Frame s s1

/-- The properties CoreConvertPagesEx gives to the converted part of `Entry` (lines 866-877):
exactly one of type, attributes, capabilities is new, the rest is inherited. -/
def convertedProps (ChangingType : Bool) (NewType : Nat) (ChangingAttributes : Bool)
    (NewAttributes NewCapabilities : Nat) (Entry : EFI_GCD_MAP_ENTRY) : Nat × Nat × Nat × Nat :=
  (if ChangingType then NewType else Entry.EfiMemoryType,
   if ChangingType then Entry.Attributes
     else if ChangingAttributes then NewAttributes else Entry.Attributes,
   if ChangingType then Entry.Capabilities
     else if ChangingAttributes then Entry.Capabilities else NewCapabilities,
   Entry.GcdMemoryType)

/-- The test of lines 891-893: the converted range is added back to the map. -/
def readds (env : Platform) (ChangingType : Bool) (NewType : Nat) : Bool :=
  !env.FreedMemoryGuardEnabled || !ChangingType || NewType != EfiConventionalMemory

/-- What one pass of the conversion loop (without the drain) leaves in `s2`. -/
def StepSpec (env : Platform) (s : MemState) (Entry : EFI_GCD_MAP_ENTRY) (Start RangeEnd : Nat)
    (ChangingType : Bool) (NewType : Nat) (ChangingAttributes : Bool)
    (NewAttributes NewCapabilities : Nat) (s2 : MemState) : Prop :=
  Store s2.mGcdMemorySpaceMap ∧
  (∀ a p, Has s2.mGcdMemorySpaceMap a p ↔
    ((Has s.mGcdMemorySpaceMap a p ∧ ¬ (Start ≤ a ∧ a ≤ RangeEnd)) ∨
     (readds env ChangingType NewType = true ∧ Start ≤ a ∧ a ≤ RangeEnd ∧
       p = convertedProps ChangingType NewType ChangingAttributes NewAttributes
         NewCapabilities Entry))) ∧
  totalSize s2.mGcdMemorySpaceMap +
      (if readds env ChangingType NewType then 0 else RangeEnd + 1 - Start) =
    totalSize s.mGcdMemorySpaceMap ∧
  s.mFreeMemoryMapEntryList ≤ s2.mFreeMemoryMapEntryList ∧
  s.mMapDepth ≤ s2.mMapDepth ∧ s2.mMapDepth ≤ s.mMapDepth + 2 ∧
  s2.mFreeMapStack = s.mFreeMapStack

/-- Two stores hold the same descriptors up to link order and up to the bookkeeping fields
`FromPages` and `StackSlot`. -/
def FlagPerm (l l1 : List EFI_GCD_MAP_ENTRY) : Prop := (l.map strip).Perm (l1.map strip)

/-- Lines 342-388 of CoreFreeMemoryMapStack: what one pass of the loop does to the state
once the descriptor has been allocated. -/
def CoreFreeMemoryMapStack.relink (s : MemState) : MemState :=
  match findFirst (inStackSlot (s.mMapDepth - 1)) s.mGcdMemorySpaceMap with
  | some (pre, Slot, post) =>
    { s with
      mMapDepth := s.mMapDepth - 1
      mGcdMemorySpaceMap :=
        insertSorted { Slot with FromPages := true, StackSlot := none } (pre ++ post) }
  | none =>
    { s with
      mMapDepth := s.mMapDepth - 1
      mFreeMemoryMapEntryList := s.mFreeMemoryMapEntryList + 1 }

/-! ## CoreGetMemoryMap, CoreTerminateMemoryMap (Page.c lines 1646-2191) -/

/-- The value `EfiGcdMemoryTypeNonExistent` of `EFI_GCD_MEMORY_TYPE` (PI specification, PiDxeCis.h). -/
def EfiGcdMemoryTypeNonExistent : Nat := 0
/-- The value `EfiGcdMemoryTypeReserved` of `EFI_GCD_MEMORY_TYPE` (PI specification, PiDxeCis.h). -/
def EfiGcdMemoryTypeReserved : Nat := 1
/-- The value `EfiGcdMemoryTypeSystemMemory`. -/
def EfiGcdMemoryTypeSystemMemory : Nat := 2
/-- The value `EfiGcdMemoryTypeMemoryMappedIo`. -/
def EfiGcdMemoryTypeMemoryMappedIo : Nat := 3
/-- The value `EfiGcdMemoryTypePersistent`. -/
def EfiGcdMemoryTypePersistent : Nat := 4
/-- The value `EFI_GCD_MEMORY_TYPE_UNACCEPTED` (PrePiDxeCis.h). -/
def EFI_GCD_MEMORY_TYPE_UNACCEPTED : Nat := 6
/-- Memory type 11 of `EFI_MEMORY_TYPE`. -/
def EfiMemoryMappedIO : Nat := 11
/-- Memory type 12 of `EFI_MEMORY_TYPE`. -/
def EfiMemoryMappedIOPortSpace : Nat := 12

/-! Attribute bits of UefiSpec.h and PiDxeCis.h. -/

def EFI_MEMORY_UC : Nat := 0x1
def EFI_MEMORY_WC : Nat := 0x2
def EFI_MEMORY_WT : Nat := 0x4
def EFI_MEMORY_WB : Nat := 0x8
def EFI_MEMORY_UCE : Nat := 0x10
def EFI_MEMORY_WP : Nat := 0x1000
def EFI_MEMORY_RP : Nat := 0x2000
def EFI_MEMORY_XP : Nat := 0x4000
def EFI_MEMORY_NV : Nat := 0x8000
def EFI_MEMORY_RO : Nat := 0x20000
def EFI_MEMORY_SP : Nat := 0x40000
def EFI_MEMORY_CPU_CRYPTO : Nat := 0x80000
def EFI_MEMORY_RUNTIME : Nat := 0x8000000000000000
def EFI_MEMORY_PORT_IO : Nat := 0x4000000000000000
def EFI_CACHE_ATTRIBUTE_MASK : Nat :=
  EFI_MEMORY_UC ||| EFI_MEMORY_WC ||| EFI_MEMORY_WT ||| EFI_MEMORY_WB ||| EFI_MEMORY_UCE |||
    EFI_MEMORY_WP
def EFI_MEMORY_ACCESS_MASK : Nat := EFI_MEMORY_RP ||| EFI_MEMORY_XP ||| EFI_MEMORY_RO
def EFI_MEMORY_ATTRIBUTE_MASK : Nat :=
  EFI_MEMORY_ACCESS_MASK ||| EFI_MEMORY_SP ||| EFI_MEMORY_CPU_CRYPTO
def EFI_MEMORY_DESCRIPTOR_VERSION : Nat := 1

/-- The macro `EFI_PAGES_TO_SIZE` applied to a `UINTN` of 64 bits. -/
def EFI_PAGES_TO_SIZE (Pages : Nat) : Nat := LShiftU64 Pages EFI_PAGE_SHIFT

/-- The record of the exported memory map; `TypeId` is the C field `Type`. -/
structure EFI_MEMORY_DESCRIPTOR where
  TypeId : Nat
  PhysicalStart : Nat
  VirtualStart : Nat
  NumberOfPages : Nat
  Attribute : Nat
  deriving DecidableEq, Repr

/-- What CoreGetMemoryMap takes from outside Page.c: `sizeof (EFI_MEMORY_DESCRIPTOR)` and
the function `MergeMemoryMap` (on the records between `MemoryMapStart` and the end). -/
structure Exporter where
  sizeofDescriptor : Nat
  MergeMemoryMap : List EFI_MEMORY_DESCRIPTOR → List EFI_MEMORY_DESCRIPTOR

/-- The loop of MergeMemoryMapDescriptor (lines 1656-1702) over the records before the last
one; `none` when the last record `d` merges with none of them. -/
def MergeMemoryMapDescriptor.go (d : EFI_MEMORY_DESCRIPTOR) :
    List EFI_MEMORY_DESCRIPTOR → Option (List EFI_MEMORY_DESCRIPTOR)
  | [] => none
  | m :: rest =>
    if m.TypeId ≠ d.TypeId then (MergeMemoryMapDescriptor.go d rest).map (m :: ·)
    else if m.Attribute ≠ d.Attribute then (MergeMemoryMapDescriptor.go d rest).map (m :: ·)
    else if add64 m.PhysicalStart (EFI_PAGES_TO_SIZE m.NumberOfPages) = d.PhysicalStart then
      some ({ m with NumberOfPages := add64 m.NumberOfPages d.NumberOfPages } :: rest)
    else if sub64 m.PhysicalStart (EFI_PAGES_TO_SIZE d.NumberOfPages) = d.PhysicalStart then
      some ({ m with
        PhysicalStart := d.PhysicalStart
        VirtualStart := d.VirtualStart
        NumberOfPages := add64 m.NumberOfPages d.NumberOfPages } :: rest)
    else (MergeMemoryMapDescriptor.go d rest).map (m :: ·)

/-- This function checks to see if the last memory map descriptor `d` can be merged with
any of the other descriptors. Returns the records up to the next available slot. -/
def MergeMemoryMapDescriptor (MemoryMap : List EFI_MEMORY_DESCRIPTOR)
    (d : EFI_MEMORY_DESCRIPTOR) : List EFI_MEMORY_DESCRIPTOR :=
  match MergeMemoryMapDescriptor.go d MemoryMap with
  | some l => l
  | none => MemoryMap ++ [d]

/-- The buffer while the map is built: the records from `MemoryMapStart` up to the
pointer `MemoryMap`, and the number of leading record slots that have been stored to. -/
structure MapBuffer where
  Records : List EFI_MEMORY_DESCRIPTOR
  Written : Nat

/-- Store the record `d` at the pointer `MemoryMap` and call MergeMemoryMapDescriptor. -/
def MapBuffer.put (b : MapBuffer) (d : EFI_MEMORY_DESCRIPTOR) : MapBuffer :=
  { Records := MergeMemoryMapDescriptor b.Records d
    Written := max b.Written (b.Records.length + 1) }

/-- The test of lines 1781-1785: the descriptor is counted in pass 1. -/
def CoreGetMemoryMap.counted (Entry : EFI_GCD_MAP_ENTRY) : Bool :=
  Entry.GcdMemoryType == EfiGcdMemoryTypePersistent ||
  Entry.GcdMemoryType == EfiGcdMemoryTypeReserved ||
  Entry.GcdMemoryType != EfiGcdMemoryTypeNonExistent ||
  (Entry.GcdMemoryType == EfiGcdMemoryTypeMemoryMappedIo &&
    Entry.Attributes &&& EFI_MEMORY_RUNTIME == EFI_MEMORY_RUNTIME)

/-- Lines 1778-1789: `NumberOfEntries` (a `UINTN`). -/
def CoreGetMemoryMap.NumberOfEntries (s : MemState) : Nat :=
  s.mGcdMemorySpaceMap.foldl
    (fun n Entry => if CoreGetMemoryMap.counted Entry then add64 n 1 else n) 0

/-- Lines 1791-1798: the stride `Size`. -/
def CoreGetMemoryMap.Size (ex : Exporter) : Nat :=
  add64 ex.sizeofDescriptor (sub64 8 (ex.sizeofDescriptor % 8))

/-- Line 1811: `BufferSize = Size * NumberOfEntries` (a `UINTN`). -/
def CoreGetMemoryMap.BufferSize (ex : Exporter) (s : MemState) : Nat :=
  (CoreGetMemoryMap.Size ex * CoreGetMemoryMap.NumberOfEntries s) % 18446744073709551616

/-- Lines 1851-1861: a conventional range inside the window of a special type is
exported as that type (the last such type wins). -/
def CoreGetMemoryMap.binType (s : MemState) (Entry : EFI_GCD_MAP_ENTRY) : Nat :=
  if Entry.EfiMemoryType = EfiConventionalMemory then
    (List.range EfiMaxMemoryType).foldl (fun t T =>
      let st := s.mMemoryTypeStatistics.getD T default
      if st.Special ∧ st.NumberOfPages > 0 ∧ Entry.BaseAddress ≥ st.BaseAddress ∧
          Entry.EndAddress ≤ st.MaximumAddress then T else t) Entry.EfiMemoryType
  else Entry.EfiMemoryType

/-- Lines 1840-1868: the record of one descriptor. -/
def CoreGetMemoryMap.convert (s : MemState) (Entry : EFI_GCD_MAP_ENTRY) : EFI_MEMORY_DESCRIPTOR :=
  let T := CoreGetMemoryMap.binType s Entry
  { TypeId := T
    PhysicalStart := Entry.BaseAddress
    VirtualStart := 0
    NumberOfPages := RShiftU64 (add64 (sub64 Entry.EndAddress Entry.BaseAddress) 1) EFI_PAGE_SHIFT
    Attribute :=
      if T < EfiMaxMemoryType ∧ (s.mMemoryTypeStatistics.getD T default).Runtime then
        Entry.Attributes ||| EFI_MEMORY_RUNTIME
      else Entry.Attributes }

/-- The loop of lines 1829-1875. -/
def CoreGetMemoryMap.build (s : MemState) (b : MapBuffer) : MapBuffer :=
  s.mGcdMemorySpaceMap.foldl (fun b Entry =>
    if Entry.GcdMemoryType = EfiGcdMemoryTypeNonExistent then b
    else b.put (CoreGetMemoryMap.convert s Entry)) b

/-- Lines 1897-1983: the record for the merged GCD range `M`, if it is reserved,
runtime memory-mapped I/O, persistent or unaccepted. -/
def CoreGetMemoryMap.emit (M : EFI_GCD_MAP_ENTRY) (b : MapBuffer) : Except Halt MapBuffer := do
  let Pages := RShiftU64 (add64 (sub64 M.EndAddress M.BaseAddress) 1) EFI_PAGE_SHIFT
  let aligned : Except Halt Unit := do
    ASSERT (M.BaseAddress &&& EFI_PAGE_MASK == 0)
    ASSERT ((add64 (sub64 M.EndAddress M.BaseAddress) 1) &&& EFI_PAGE_MASK == 0)
  let b ←
    if M.GcdMemoryType = EfiGcdMemoryTypeReserved ∨
        (M.GcdMemoryType = EfiGcdMemoryTypeMemoryMappedIo ∧
          M.Attributes &&& EFI_MEMORY_RUNTIME = EFI_MEMORY_RUNTIME) then do
      aligned
      pure (b.put
        { PhysicalStart := M.BaseAddress
          VirtualStart := 0
          NumberOfPages := Pages
          Attribute := (M.Attributes &&& not64 EFI_MEMORY_PORT_IO) |||
            (M.Capabilities &&& (EFI_CACHE_ATTRIBUTE_MASK ||| EFI_MEMORY_ATTRIBUTE_MASK))
          TypeId :=
            if M.GcdMemoryType = EfiGcdMemoryTypeReserved then EfiReservedMemoryType
            else if M.Attributes &&& EFI_MEMORY_PORT_IO = EFI_MEMORY_PORT_IO then
              EfiMemoryMappedIOPortSpace
            else EfiMemoryMappedIO })
    else pure b
  let b ←
    if M.GcdMemoryType = EfiGcdMemoryTypePersistent then do
      aligned
      pure (b.put
        { PhysicalStart := M.BaseAddress
          VirtualStart := 0
          NumberOfPages := Pages
          Attribute := M.Attributes ||| EFI_MEMORY_NV |||
            (M.Capabilities &&& (EFI_CACHE_ATTRIBUTE_MASK ||| EFI_MEMORY_ATTRIBUTE_MASK))
          TypeId := EfiPersistentMemory })
    else pure b
  if M.GcdMemoryType = EFI_GCD_MEMORY_TYPE_UNACCEPTED then do
    aligned
    pure (b.put
      { PhysicalStart := M.BaseAddress
        VirtualStart := 0
        NumberOfPages := Pages
        Attribute := M.Attributes |||
          (M.Capabilities &&& (EFI_MEMORY_RP ||| EFI_MEMORY_WP ||| EFI_MEMORY_XP |||
            EFI_MEMORY_RO ||| EFI_MEMORY_UC ||| EFI_MEMORY_UCE ||| EFI_MEMORY_WC |||
            EFI_MEMORY_WT ||| EFI_MEMORY_WB))
        TypeId := EfiUnacceptedMemoryType })
  else pure b

/-- The value of `MergeGcdMapEntry` after `ZeroMem` (line 1877). -/
def CoreGetMemoryMap.zeroEntry : EFI_GCD_MAP_ENTRY :=
  { BaseAddress := 0, EndAddress := 0, Capabilities := 0, Attributes := 0, GcdMemoryType := 0,
    GcdIoType := 0, EfiMemoryType := 0, ImageHandle := 0, DeviceHandle := 0,
    FromPages := false, StackSlot := none }

/-- The loop of lines 1879-1998 over the descriptors that are left, with
`MergeGcdMapEntry` in `M`; the empty list is the pass with `Link` at the list head. -/
def CoreGetMemoryMap.merge : List EFI_GCD_MAP_ENTRY → EFI_GCD_MAP_ENTRY → MapBuffer →
    Except Halt MapBuffer
  | [], M, b => CoreGetMemoryMap.emit M b
  | Entry :: rest, M, b =>
    if M.Capabilities = Entry.Capabilities ∧ M.Attributes = Entry.Attributes ∧
        M.EfiMemoryType = Entry.EfiMemoryType ∧ M.GcdMemoryType = Entry.GcdMemoryType ∧
        M.GcdIoType = Entry.GcdIoType then
      CoreGetMemoryMap.merge rest { M with EndAddress := Entry.EndAddress } b
    else do
      let b ← CoreGetMemoryMap.emit M b
      CoreGetMemoryMap.merge rest Entry b

/-- What a call of CoreGetMemoryMap leaves: the status, the values stored through the
pointers (`none` when nothing is stored), the records in the buffer from `MemoryMapStart`
to `MemoryMapEnd`, and the number of leading record slots of the buffer that were stored
to while the map was built. -/
structure GetMemoryMapResult where
  Status : EFI_STATUS
  MemoryMapSize : Option Nat
  MemoryMap : List EFI_MEMORY_DESCRIPTOR
  Written : Nat
  MapKey : Option Nat
  DescriptorSize : Option Nat
  DescriptorVersion : Option Nat

/-- This function returns a copy of the current memory map. `MemoryMapSize` is `none`
for a `NULL` pointer and `some n` for a pointer to `n`; `MemoryMap` tells whether the
buffer pointer is not `NULL`. The state is returned with the result. -/
def CoreGetMemoryMap (ex : Exporter) (s : MemState) (MemoryMapSize : Option Nat)
    (MemoryMap : Bool) : Except Halt (GetMemoryMapResult × MemState) :=
  match MemoryMapSize with
  | none =>
    pure ({ Status := EFI_STATUS.EFI_INVALID_PARAMETER, MemoryMapSize := none, MemoryMap := [],
            Written := 0, MapKey := none, DescriptorSize := none, DescriptorVersion := none }, s)
  | some MapSize =>
    let Size := CoreGetMemoryMap.Size ex
    let BufferSize := CoreGetMemoryMap.BufferSize ex s
    if MapSize < BufferSize then
      pure ({ Status := EFI_STATUS.EFI_BUFFER_TOO_SMALL, MemoryMapSize := some BufferSize,
              MemoryMap := [], Written := 0, MapKey := some s.mMemoryMapKey,
              DescriptorSize := some Size,
              DescriptorVersion := some EFI_MEMORY_DESCRIPTOR_VERSION }, s)
    else if !MemoryMap then
      pure ({ Status := EFI_STATUS.EFI_INVALID_PARAMETER, MemoryMapSize := some BufferSize,
              MemoryMap := [], Written := 0, MapKey := some s.mMemoryMapKey,
              DescriptorSize := some Size,
              DescriptorVersion := some EFI_MEMORY_DESCRIPTOR_VERSION }, s)
    else do
      let b := CoreGetMemoryMap.build s { Records := [], Written := 0 }
      let b ← CoreGetMemoryMap.merge s.mGcdMemorySpaceMap CoreGetMemoryMap.zeroEntry b
      let Records := b.Records.map fun d =>
        { d with Attribute := d.Attribute &&& not64 EFI_MEMORY_ACCESS_MASK }
      let Records := ex.MergeMemoryMap Records
      pure ({ Status := EFI_STATUS.EFI_SUCCESS
              MemoryMapSize := some ((Records.length * Size) % 18446744073709551616)
              MemoryMap := Records, Written := b.Written, MapKey := some s.mMemoryMapKey
              DescriptorSize := some Size
              DescriptorVersion := some EFI_MEMORY_DESCRIPTOR_VERSION }, s)

/-- The loop of lines 2155-2174 of CoreTerminateMemoryMap. -/
def CoreTerminateMemoryMap.check (env : Platform) (s : MemState) :
    List EFI_GCD_MAP_ENTRY → Except Halt EFI_STATUS
  | [] => pure EFI_STATUS.EFI_SUCCESS
  | Entry :: rest =>
    if Entry.EfiMemoryType < EfiMaxMemoryType ∧
        (s.mMemoryTypeStatistics.getD Entry.EfiMemoryType default).Runtime then do
      ASSERT (Entry.EfiMemoryType != EfiACPIReclaimMemory)
      ASSERT (Entry.EfiMemoryType != EfiACPIMemoryNVS)
      if Entry.BaseAddress &&& (sub64 env.RUNTIME_PAGE_ALLOCATION_GRANULARITY 1) ≠ 0 then
        pure EFI_STATUS.EFI_INVALID_PARAMETER
      else if (add64 Entry.EndAddress 1) &&&
          (sub64 env.RUNTIME_PAGE_ALLOCATION_GRANULARITY 1) ≠ 0 then
        pure EFI_STATUS.EFI_INVALID_PARAMETER
      else CoreTerminateMemoryMap.check env s rest
    else CoreTerminateMemoryMap.check env s rest

/-- Make sure the memory map is following all the construction rules. -/
def CoreTerminateMemoryMap (env : Platform) (s : MemState) (MapKey : Nat) :
    Except Halt (EFI_STATUS × MemState) :=
  if MapKey = s.mMemoryMapKey then do
    let Status ← CoreTerminateMemoryMap.check env s s.mGcdMemorySpaceMap
    pure (Status, s)
  else pure (EFI_STATUS.EFI_INVALID_PARAMETER, s)

/-- The platform `plainPlatform` with a runtime granularity of 64 KiB. -/
def runtime64KPlatform : Platform :=
  { plainPlatform with RUNTIME_PAGE_ALLOCATION_GRANULARITY := 0x10000 }

/-- An exporter with `sizeof (EFI_MEMORY_DESCRIPTOR) = 40` and a `MergeMemoryMap` that
leaves the records as they are. -/
def plainExporter : Exporter :=
  { sizeofDescriptor := 40, MergeMemoryMap := fun l => l }

/-- The window `[BaseAddress, MaximumAddress]` of the statistics row `B` meets `[Start, End]`,
for another type `B` that is special and has a budget. -/
def meetsSpecialWindow (s : MemState) (MemoryType Start End B : Nat) : Prop :=
  B < EfiMaxMemoryType ∧ MemoryType ≠ B ∧
  (s.mMemoryTypeStatistics.getD B default).Special = true ∧
  (s.mMemoryTypeStatistics.getD B default).NumberOfPages > 0 ∧
  ∃ a, Start ≤ a ∧ a ≤ End ∧ (s.mMemoryTypeStatistics.getD B default).BaseAddress ≤ a ∧
    a ≤ (s.mMemoryTypeStatistics.getD B default).MaximumAddress

/-- The memory types CoreInternalAllocatePages accepts (lines 1274-1278). -/
def allocatableType (env : Platform) (MemoryType : Nat) : Prop :=
  ¬ ((MemoryType ≥ EfiMaxMemoryType ∧ MemoryType < env.MEMORY_TYPE_OEM_RESERVED_MIN) ∨
    MemoryType = EfiConventionalMemory ∨ MemoryType = EfiPersistentMemory ∨
    MemoryType = EfiUnacceptedMemoryType)

/-- The `End` of a fixed-address request (lines 1300-1331). -/
def requestEnd (env : Platform) (MemoryType NumberOfPages Start : Nat) : Nat :=
  sub64 (add64 Start (LShiftU64 (roundPages NumberOfPages (allocationAlignment env MemoryType))
    EFI_PAGE_SHIFT)) 1

/-- The initial state with the store `[0, 0x3FFFFF]` conventional and a budget of 256 pages
for EfiRuntimeServicesData in the window `[0x100000, 0x1FFFFF]`. -/
def specialBinState : MemState :=
  { initialState plainPlatform with
    mGcdMemorySpaceMap := [convEntry 0 0x3FFFFF]
    mMemoryTypeStatistics := (initialStatistics plainPlatform.MAX_ALLOC_ADDRESS).set
      EfiRuntimeServicesData
      { BaseAddress := 0x100000, MaximumAddress := 0x1FFFFF, CurrentNumberOfPages := 0,
        NumberOfPages := 256, InformationIndex := EfiRuntimeServicesData, Special := true,
        Runtime := true } }

/-- The number of descriptors of the store whose GCD memory type is not non-existent. -/
def exportableCount (s : MemState) : Nat :=
  s.mGcdMemorySpaceMap.countP fun e => e.GcdMemoryType != EfiGcdMemoryTypeNonExistent

/-- A descriptor of GCD reserved memory, exported as EfiReservedMemoryType. -/
def reservedEntry (Base End : Nat) : EFI_GCD_MAP_ENTRY :=
  { convEntry Base End with
    GcdMemoryType := EfiGcdMemoryTypeReserved, EfiMemoryType := EfiReservedMemoryType }

/-- The initial state with the store: system memory `[0, 0x9FFF]` conventional, then the
GCD reserved range `[0xA000, 0xAFFF]`. -/
def reservedState : MemState :=
  { initialState plainPlatform with
    mGcdMemorySpaceMap := [convEntry 0 0x9FFF, reservedEntry 0xA000 0xAFFF] }

/-- Follows the words of C11, in natural-number arithmetic: the end of a conventional
descriptor after clipping to the ceiling and rounding down to the alignment, when the
descriptor can then hold `NumberOfBytes` bytes. -/
def candidateEnd (MaxAddress Alignment NumberOfBytes : Nat) (e : EFI_GCD_MAP_ENTRY) :
    Option Nat :=
  if e.EfiMemoryType = EfiConventionalMemory then
    let rounded := (min e.EndAddress MaxAddress + 1) / Alignment * Alignment
    if e.BaseAddress + NumberOfBytes ≤ rounded then some (rounded - 1) else none
  else none

/-- Follows the words of C11: (the highest candidate end) - N * 4096 + 1, `none` when no
descriptor can hold the request. -/
def highestCandidate (MaxAddress Alignment NumberOfPages : Nat) (l : List EFI_GCD_MAP_ENTRY) :
    Option Nat :=
  match l.filterMap (candidateEnd MaxAddress Alignment (NumberOfPages * 4096)) with
  | [] => none
  | c :: cs => some (cs.foldl max c - NumberOfPages * 4096 + 1)

/-- Scenario B of the spec: on the initial (empty) store, add the conventional range
[0, 0xFFF] and then the conventional range [0x1000, 0x1FFF] with the same attributes. -/
def scenarioB : Except Halt MemState := do
  let s ← CoreAddRange (initialState plainPlatform) EfiConventionalMemory 2 0 0xFFF 0 0 0
  CoreAddRange s EfiConventionalMemory 2 0x1000 0x1FFF 0 0 0

/-- The properties CoreConvertPagesEx gives to an address that had the properties `q`
(lines 866-877): exactly one of type, attributes, capabilities is new. -/
def convertProps (ChangingType : Bool) (NewType : Nat) (ChangingAttributes : Bool)
    (NewAttributes NewCapabilities : Nat) (q : Nat × Nat × Nat × Nat) : Nat × Nat × Nat × Nat :=
  (if ChangingType then NewType else q.1,
   if ChangingType then q.2.1 else if ChangingAttributes then NewAttributes else q.2.1,
   if ChangingType then q.2.2.1 else if ChangingAttributes then q.2.2.1 else NewCapabilities,
   q.2.2.2)

/-- What a successful conversion of `[Start, End]` leaves in the store `l1`, relative to the
store `l` before: addresses outside the range are as before, addresses inside have the
converted properties of what covered them before. -/
def Converted (ChangingType : Bool) (NewType : Nat) (ChangingAttributes : Bool)
    (NewAttributes NewCapabilities : Nat) (l : List EFI_GCD_MAP_ENTRY) (Start End : Nat)
    (l1 : List EFI_GCD_MAP_ENTRY) : Prop :=
  ∀ a p, Has l1 a p ↔
    ((Has l a p ∧ ¬ (Start ≤ a ∧ a ≤ End)) ∨
     (Start ≤ a ∧ a ≤ End ∧ ∃ q, Has l a q ∧
       p = convertProps ChangingType NewType ChangingAttributes NewAttributes NewCapabilities q))

/-- A quiescent state with four free descriptors whose store is well formed and disjoint:
BootServicesData [0, 0xFFF] and conventional memory in the last page of the 64-bit address
space. -/
def wrapState : MemState :=
  { initialState plainPlatform with
    mFreeMemoryMapEntryList := 4
    mGcdMemorySpaceMap :=
      [{ convEntry 0 0xFFF with EfiMemoryType := EfiBootServicesData },
       convEntry 0xFFFFFFFFFFFFF000 0xFFFFFFFFFFFFFFFF] }

/-- Some descriptor of the store covers the address. -/
def Covered (l : List EFI_GCD_MAP_ENTRY) (a : Nat) : Prop := ∃ e ∈ l, Covers e a

instance (l : List EFI_GCD_MAP_ENTRY) (a : Nat) : Decidable (Covered l a) := by
  unfold Covered; exact inferInstance

/-- A property `I` of stores that the steps of the allocator keep: it implies the store
invariant, does not depend on link order and descriptor storage, is kept by one pass of the
conversion loop and by the promotion hook of the platform. -/
def StoreInvariant (env : Platform) (I : List EFI_GCD_MAP_ENTRY → Prop) : Prop :=
  (∀ l, I l → Store l) ∧
  (∀ l l1, FlagPerm l l1 → I l → I l1) ∧
  (∀ (s s2 : MemState) (pre : List EFI_GCD_MAP_ENTRY) (Entry : EFI_GCD_MAP_ENTRY)
    (post : List EFI_GCD_MAP_ENTRY) (Start RangeEnd : Nat) (ct : Bool) (nt : Nat) (ca : Bool)
    (na nc : Nat),
    s.mGcdMemorySpaceMap = pre ++ Entry :: post → Entry.BaseAddress ≤ Start →
    RangeOk Start RangeEnd → RangeEnd ≤ Entry.EndAddress → I s.mGcdMemorySpaceMap →
    StepSpec env s Entry Start RangeEnd ct nt ca na nc s2 → I s2.mGcdMemorySpaceMap) ∧
  (∀ s s1, env.PromoteGuardedFreePages s = some s1 → I s.mGcdMemorySpaceMap →
    I s1.mGcdMemorySpaceMap)

/-- The function `f` on states keeps the property `I` of the store when it returns. -/
def Preserves (I : List EFI_GCD_MAP_ENTRY → Prop) (f : MemState → Except Halt MemState) : Prop :=
  ∀ s s1, I s.mGcdMemorySpaceMap → f s = Except.ok s1 → I s1.mGcdMemorySpaceMap

/-- A descriptor with the range `[B, E]` and the properties `p`, without owner and device
handle and with GcdIoType NonExistent, is linked in the store. -/
def CleanEntry (l : List EFI_GCD_MAP_ENTRY) (B E : Nat) (p : Nat × Nat × Nat × Nat) : Prop :=
  ∃ e ∈ l, e.BaseAddress = B ∧ e.EndAddress = E ∧ entryProps e = p ∧ e.ImageHandle = 0 ∧
    e.DeviceHandle = 0 ∧ e.GcdIoType = EfiGcdIoTypeNonExistent

/-- A descriptor with the range `[B, E]` and the properties `p` is linked in the store. -/
def Linked (l : List EFI_GCD_MAP_ENTRY) (B E : Nat) (p : Nat × Nat × Nat × Nat) : Prop :=
  ∃ e ∈ l, e.BaseAddress = B ∧ e.EndAddress = E ∧ entryProps e = p

/-- No descriptor of the store is adjacent to `D` and has the properties of `D`. -/
def NoTwin (l : List EFI_GCD_MAP_ENTRY) (D : EFI_GCD_MAP_ENTRY) : Prop :=
  ∀ e ∈ l, entryProps e = entryProps D →
    e.EndAddress + 1 ≠ D.BaseAddress ∧ D.EndAddress + 1 ≠ e.BaseAddress

/-! ## SetMemoryProtectionSettingsLib (SetMemoryProtectionSettingsLib.c) -/

/-- Return status values used by the settings library. -/
inductive RETURN_STATUS where
  | RETURN_SUCCESS
  | RETURN_OUT_OF_RESOURCES
  | RETURN_ABORTED
  | RETURN_ALREADY_STARTED
deriving DecidableEq, Repr

/-- Bit fields of the MM NULL pointer detection policy. -/
structure MM_NULL_DETECTION_POLICY where
  Enabled : Bool
  NonstopModeEnabled : Bool
deriving DecidableEq, Repr

/-- Bit fields of the MM heap guard policy. -/
structure MM_HEAP_GUARD_POLICY where
  PageGuardEnabled : Bool
  PoolGuardEnabled : Bool
  NonstopModeEnabled : Bool
  GuardAlignedToTail : Bool
deriving DecidableEq, Repr

/-- One `BOOLEAN` per memory type. -/
structure MM_MPS_MEMORY_TYPES where
  EnabledForType : List Bool
deriving DecidableEq, Repr

/-- The MM memory protection settings (MmMemoryProtectionSettings.h, lines 44-90). -/
structure MM_MEMORY_PROTECTION_SETTINGS where
  StructVersion : Nat
  NullPointerDetection : MM_NULL_DETECTION_POLICY
  HeapGuard : MM_HEAP_GUARD_POLICY
  PoolGuard : MM_MPS_MEMORY_TYPES
  PageGuard : MM_MPS_MEMORY_TYPES
deriving DecidableEq, Repr

/-- Bit fields of the DXE NULL pointer detection policy. -/
structure DXE_NULL_DETECTION_POLICY where
  Enabled : Bool
  DisableEndOfDxe : Bool
  NonstopModeEnabled : Bool
deriving DecidableEq, Repr

/-- Bit fields of the DXE image protection policy. -/
structure DXE_IMAGE_PROTECTION_POLICY where
  ProtectImageFromUnknown : Bool
  ProtectImageFromFv : Bool
deriving DecidableEq, Repr

/-- Bit fields of the DXE heap guard policy. -/
structure DXE_HEAP_GUARD_POLICY where
  PageGuardEnabled : Bool
  PoolGuardEnabled : Bool
  FreedMemoryGuardEnabled : Bool
  NonstopModeEnabled : Bool
  GuardAlignedToTail : Bool
deriving DecidableEq, Repr

/-- One `BOOLEAN` per memory type. -/
structure DXE_MPS_MEMORY_TYPES where
  EnabledForType : List Bool
deriving DecidableEq, Repr

/-- The DXE memory protection settings (DxeMemoryProtectionSettings.h, lines 51-127). -/
structure DXE_MEMORY_PROTECTION_SETTINGS where
  StructVersion : Nat
  CpuStackGuardEnabled : Bool
  StackExecutionProtectionEnabled : Bool
  NullPointerDetection : DXE_NULL_DETECTION_POLICY
  ImageProtection : DXE_IMAGE_PROTECTION_POLICY
  ExecutionProtection : DXE_MPS_MEMORY_TYPES
  HeapGuard : DXE_HEAP_GUARD_POLICY
  PoolGuard : DXE_MPS_MEMORY_TYPES
  PageGuard : DXE_MPS_MEMORY_TYPES
deriving DecidableEq, Repr

/-- The combined settings: the DXE part and the MM part. -/
structure MEMORY_PROTECTION_SETTINGS where
  Dxe : DXE_MEMORY_PROTECTION_SETTINGS
  Mm : MM_MEMORY_PROTECTION_SETTINGS
deriving DecidableEq, Repr

/-- The settings with the byte that tracks the lock (lines 17-22). -/
structure MEMORY_PROTECTION_SETTINGS_PRIVATE where
  Mps : MEMORY_PROTECTION_SETTINGS
  MemoryProtectionSettingsLocked : Bool
deriving DecidableEq, Repr

/-- The macro DXE_MEMORY_PROTECTION_SETTINGS_CURRENT_VERSION. -/
def DXE_MEMORY_PROTECTION_SETTINGS_CURRENT_VERSION : Nat := 1

/-- The macro MM_MEMORY_PROTECTION_SETTINGS_CURRENT_VERSION. -/
def MM_MEMORY_PROTECTION_SETTINGS_CURRENT_VERSION : Nat := 1

/-- The macro MAX_DXE_MPS_MEMORY_TYPE. -/
def MAX_DXE_MPS_MEMORY_TYPE : Nat := EfiMaxMemoryType + 2

/-- The macro MPS_MEMORY_TYPE_BUFFER_SIZE, which the headers of this tree define only per
domain; the value of both is the number of `BOOLEAN` entries of the array. -/
def MPS_MEMORY_TYPE_BUFFER_SIZE : Nat := MAX_DXE_MPS_MEMORY_TYPE

/-- The library function IsZeroBuffer of BaseMemoryLib on an array of `BOOLEAN`: the first
`Length` bytes are zero. -/
def IsZeroBuffer (Buffer : List Bool) (Length : Nat) : Bool :=
  (Buffer.take Length).all fun b => !b

/-- The macro `EFI_ERROR` on the status values of the settings library. -/
def RETURN_ERROR (Status : RETURN_STATUS) : Bool :=
  match Status with
  | RETURN_STATUS.RETURN_SUCCESS => false
  | _ => true

/-- The globals of the settings library: the value `mMpsp` points to (`none` for `NULL`),
the data of the first gMemoryProtectionSettingsGuid HOB (`none` when there is none), and
whether BuildGuidDataHob finds room for a new HOB. -/
structure MpsGlobals where
  mMpsp : Option MEMORY_PROTECTION_SETTINGS_PRIVATE
  Hob : Option MEMORY_PROTECTION_SETTINGS_PRIVATE
  HobSpace : Bool
deriving DecidableEq, Repr

/-- The zeroed settings (`ZeroMem`, line 433). -/
def zeroSettings : MEMORY_PROTECTION_SETTINGS_PRIVATE :=
  { Mps :=
      { Dxe :=
          { StructVersion := 0
            CpuStackGuardEnabled := false
            StackExecutionProtectionEnabled := false
            NullPointerDetection := ⟨false, false, false⟩
            ImageProtection := ⟨false, false⟩
            ExecutionProtection := ⟨List.replicate MAX_DXE_MPS_MEMORY_TYPE false⟩
            HeapGuard := ⟨false, false, false, false, false⟩
            PoolGuard := ⟨List.replicate MAX_DXE_MPS_MEMORY_TYPE false⟩
            PageGuard := ⟨List.replicate MAX_DXE_MPS_MEMORY_TYPE false⟩ }
        Mm :=
          { StructVersion := 0
            NullPointerDetection := ⟨false, false⟩
            HeapGuard := ⟨false, false, false, false⟩
            PoolGuard := ⟨List.replicate MAX_DXE_MPS_MEMORY_TYPE false⟩
            PageGuard := ⟨List.replicate MAX_DXE_MPS_MEMORY_TYPE false⟩ } }
    MemoryProtectionSettingsLocked := false }

/-- Allocates and zeros memory for the memory protection settings and initializes the
current version number for MM and DXE (lines 422-457). Returns the status, the globals and
the settings `*Mpsp` points to. -/
def CreateMemoryProtectionSettings (g : MpsGlobals) :
    Except Halt (RETURN_STATUS × MpsGlobals × Option MEMORY_PROTECTION_SETTINGS_PRIVATE) :=
  if g.mMpsp.isSome then pure (RETURN_STATUS.RETURN_ALREADY_STARTED, g, none)
  else if !g.HobSpace then pure (RETURN_STATUS.RETURN_OUT_OF_RESOURCES, g, none)
  else
    let New : MEMORY_PROTECTION_SETTINGS_PRIVATE :=
      { zeroSettings with
        Mps :=
          { Dxe := { zeroSettings.Mps.Dxe with
              StructVersion := DXE_MEMORY_PROTECTION_SETTINGS_CURRENT_VERSION }
            Mm := { zeroSettings.Mps.Mm with
              StructVersion := MM_MEMORY_PROTECTION_SETTINGS_CURRENT_VERSION } } }
    pure (RETURN_STATUS.RETURN_SUCCESS, { g with Hob := some New }, some New)

/-- Populates the global `mMpsp` from the HOB, creating the settings when there is no HOB
(lines 473-530). -/
def PopulateMpsGlobal (g : MpsGlobals) : Except Halt (RETURN_STATUS × MpsGlobals) :=
  if g.mMpsp.isSome then pure (RETURN_STATUS.RETURN_SUCCESS, g)
  else do
    let (Status, g, Mpsp) ←
      match g.Hob with
      | none => CreateMemoryProtectionSettings g
      | some h => (pure (RETURN_STATUS.RETURN_SUCCESS, g, some h) : Except Halt _)
    if RETURN_ERROR Status then pure (RETURN_STATUS.RETURN_OUT_OF_RESOURCES, g)
    else
      match Mpsp with
      | none => pure (RETURN_STATUS.RETURN_ABORTED, g)
      | some p =>
        if p.Mps.Dxe.StructVersion ≠ DXE_MEMORY_PROTECTION_SETTINGS_CURRENT_VERSION then do
          ASSERT (decide (p.Mps.Dxe.StructVersion = DXE_MEMORY_PROTECTION_SETTINGS_CURRENT_VERSION))
          pure (RETURN_STATUS.RETURN_ABORTED, g)
        else if p.Mps.Mm.StructVersion ≠ MM_MEMORY_PROTECTION_SETTINGS_CURRENT_VERSION then do
          ASSERT (decide (p.Mps.Mm.StructVersion = MM_MEMORY_PROTECTION_SETTINGS_CURRENT_VERSION))
          pure (RETURN_STATUS.RETURN_ABORTED, g)
        else pure (RETURN_STATUS.RETURN_SUCCESS, { g with mMpsp := some p })

/-- The return expression of IsMmMemoryProtectionActive (lines 769-771) on the settings
`mMpsp` points to. -/
def IsMmMemoryProtectionActive.value (p : MEMORY_PROTECTION_SETTINGS_PRIVATE) : Bool :=
  p.Mps.Mm.NullPointerDetection.Enabled ||
  (p.Mps.Mm.HeapGuard.PageGuardEnabled &&
    !IsZeroBuffer p.Mps.Mm.PageGuard.EnabledForType MPS_MEMORY_TYPE_BUFFER_SIZE) ||
  (p.Mps.Dxe.HeapGuard.PoolGuardEnabled &&
    !IsZeroBuffer p.Mps.Mm.PoolGuard.EnabledForType MPS_MEMORY_TYPE_BUFFER_SIZE)

/-- Returns TRUE any form of MM memory protection is active (lines 756-772). -/
def IsMmMemoryProtectionActive (g : MpsGlobals) : Except Halt (Bool × MpsGlobals) := do
  let g ←
    if g.mMpsp.isNone then do
      let (Status, g) ← PopulateMpsGlobal g
      if RETURN_ERROR Status then do
        ASSERT g.mMpsp.isSome
        pure g
      else pure g
    else (pure g : Except Halt _)
  match g.mMpsp with
  | none => pure (false, g)
  | some p => pure (IsMmMemoryProtectionActive.value p, g)

/-- Settings in which only the MM pool guard of one memory type is switched on in the MM
part; the DXE heap guard policy has pool guard `dxePool`. -/
def poolGuardSettings (dxePool : Bool) : MEMORY_PROTECTION_SETTINGS_PRIVATE :=
  { zeroSettings with
    Mps :=
      { Dxe := { zeroSettings.Mps.Dxe with
          StructVersion := DXE_MEMORY_PROTECTION_SETTINGS_CURRENT_VERSION
          HeapGuard := { zeroSettings.Mps.Dxe.HeapGuard with PoolGuardEnabled := dxePool } }
        Mm := { zeroSettings.Mps.Mm with
          StructVersion := MM_MEMORY_PROTECTION_SETTINGS_CURRENT_VERSION
          HeapGuard := { zeroSettings.Mps.Mm.HeapGuard with PoolGuardEnabled := true }
          PoolGuard := ⟨true :: List.replicate (MAX_DXE_MPS_MEMORY_TYPE - 1) false⟩ } } }

/-- Library globals whose `mMpsp` points to the HOB data `p`. -/
def populated (p : MEMORY_PROTECTION_SETTINGS_PRIVATE) : MpsGlobals :=
  { mMpsp := some p, Hob := some p, HobSpace := true }

/-- A quiescent state whose store is the single conventional range [0x1000, 0x9FFF]. -/
def oneRangeState : MemState :=
  { initialState plainPlatform with mGcdMemorySpaceMap := [convEntry 0x1000 0x9FFF] }

/-- The store [conventional 0..0xFFF] without owner, quiescent. -/
def unownedNeighbourState : MemState :=
  { initialState plainPlatform with mGcdMemorySpaceMap := [convEntry 0 0xFFF] }

/-- No two descriptors of the store that the merge test of CoreAddRange accepts for the
properties `(T, G, A, C)` are adjacent to each other (the test of the code,
`EndAddress + 1 == BaseAddress` on `UINT64`). -/
def NoChain (T G A C : Nat) (l : List EFI_GCD_MAP_ENTRY) : Prop :=
  ∀ e1 ∈ l, ∀ e2 ∈ l, CoreAddRange.skip T G A C e1 = false →
    CoreAddRange.skip T G A C e2 = false → add64 e1.EndAddress 1 ≠ e2.BaseAddress

/-- Three conventional descriptors without owner, linked in the order [0x1000, 0x1FFF],
[0, 0xFFF], [0x3000, 0x3FFF]: the first two are adjacent to each other. -/
def chainState : MemState :=
  { initialState plainPlatform with
    mGcdMemorySpaceMap := [convEntry 0x1000 0x1FFF, convEntry 0 0xFFF, convEntry 0x3000 0x3FFF] }

instance (T G A C : Nat) (l : List EFI_GCD_MAP_ENTRY) : Decidable (NoChain T G A C l) := by
  unfold NoChain; exact inferInstance

/-- A quiescent state with one conventional descriptor below and one above the gap
[0x2000, 0x2FFF], and allocated memory next to the lower one. -/
def gapState : MemState :=
  { initialState plainPlatform with
    mGcdMemorySpaceMap :=
      [{ convEntry 0 0xFFF with EfiMemoryType := EfiBootServicesData },
       convEntry 0x3000 0x3FFF, convEntry 0x1000 0x1FFF] }

instance (l : List EFI_GCD_MAP_ENTRY) : Decidable (BelowTop l) := by
  unfold BelowTop; exact inferInstance

instance (S E : Nat) : Decidable (RangeOk S E) := by
  unfold RangeOk; exact inferInstance

/-- The platform `plainPlatform` with freed-memory guard enabled. -/
def freedGuardPlatform : Platform :=
  { plainPlatform with FreedMemoryGuardEnabled := true }

/-- A quiescent state with four free descriptors whose store is the BootServicesData range
[0x1000, 0x2FFF]. -/
def allocatedState : MemState :=
  { initialState plainPlatform with
    mFreeMemoryMapEntryList := 4
    mGcdMemorySpaceMap := [{ convEntry 0x1000 0x2FFF with EfiMemoryType := EfiBootServicesData }] }

/-- The statistics table with the counter CurrentNumberOfPages of the type `T` set
to `n`. -/
def setCurrent (t : List EFI_MEMORY_TYPE_STATISTICS) (T n : Nat) :
    List EFI_MEMORY_TYPE_STATISTICS :=
  t.set T { t.getD T default with CurrentNumberOfPages := n }

/-- A quiescent state with eight free descriptors whose store is the BootServicesData
range [0x1000, 0x1FFF] followed by the LoaderData range [0x2000, 0x2FFF]; the counters of
BootServicesData, LoaderData and conventional memory stand at 5, 5 and 10 pages. -/
def twoTypesState : MemState :=
  { initialState plainPlatform with
    mFreeMemoryMapEntryList := 8
    mMemoryTypeStatistics :=
      setCurrent (setCurrent (setCurrent (initialStatistics plainPlatform.MAX_ALLOC_ADDRESS)
        EfiBootServicesData 5) EfiLoaderData 5) EfiConventionalMemory 10
    mGcdMemorySpaceMap :=
      [{ convEntry 0x1000 0x1FFF with EfiMemoryType := EfiBootServicesData },
       { convEntry 0x2000 0x2FFF with EfiMemoryType := EfiLoaderData }] }

/-- The counter CurrentNumberOfPages of a memory type. -/
def currentPages (s : MemState) (T : Nat) : Nat :=
  (s.mMemoryTypeStatistics.getD T default).CurrentNumberOfPages

/-- A quiescent state with `free` free descriptors whose store is the single conventional
range [0, 0x9FFF]. -/
def roundTripState (free : Nat) : MemState :=
  { initialState plainPlatform with
    mFreeMemoryMapEntryList := free
    mGcdMemorySpaceMap := [convEntry 0 0x9FFF] }

/-- A quiescent state with four free descriptors whose store is the BootServicesData range
[0x1000, 0x2FFF] followed by the conventional range [0x3000, 0x3FFF]. -/
def allocatedBeforeFreeState : MemState :=
  { initialState plainPlatform with
    mFreeMemoryMapEntryList := 4
    mGcdMemorySpaceMap :=
      [{ convEntry 0x1000 0x2FFF with EfiMemoryType := EfiBootServicesData },
       convEntry 0x3000 0x3FFF] }

/-- The macro `ASSERT` of DebugLib.h, which is outside the source tree, checks its
expression only when assertions are enabled (`DebugAssertEnabled ()`, and the macro is empty
under `MDEPKG_NDEBUG`). `ASSERT` above is the macro with assertions enabled. -/
def ASSERT.checked (DebugAssertEnabled : Bool) (c : Bool) : Except Halt Unit :=
  if DebugAssertEnabled then ASSERT c else pure ()

/-- The element `EnabledForType[i]` of a fixed-size array of `BOOLEAN`. -/
def DXE_MPS_MEMORY_TYPES.entry (t : DXE_MPS_MEMORY_TYPES) (i : Nat) : Bool :=
  t.EnabledForType.getD i false

/-- This function checks the memory protection settings and provides warnings of settings
conflicts (lines 24-88), on the global `gDxeMps`. The DEBUG messages, and with them the two
tests of lines 49-69 that only print a warning, are left out. -/
def DxeMemoryProtectionSettingsConsistencyCheck (DebugAssertEnabled : Bool)
    (gDxeMps : DXE_MEMORY_PROTECTION_SETTINGS) : Except Halt DXE_MEMORY_PROTECTION_SETTINGS := do
  let gDxeMps ←
    if (gDxeMps.HeapGuard.PoolGuardEnabled || gDxeMps.HeapGuard.PageGuardEnabled) &&
        gDxeMps.HeapGuard.FreedMemoryGuardEnabled then do
      ASSERT.checked DebugAssertEnabled
        (!(gDxeMps.HeapGuard.FreedMemoryGuardEnabled &&
          (gDxeMps.HeapGuard.PoolGuardEnabled || gDxeMps.HeapGuard.PageGuardEnabled)))
      pure { gDxeMps with
        HeapGuard := { gDxeMps.HeapGuard with
          PoolGuardEnabled := false
          PageGuardEnabled := false
          FreedMemoryGuardEnabled := false } }
    else (pure gDxeMps : Except Halt _)
  if gDxeMps.ExecutionProtection.entry EfiBootServicesData !=
      gDxeMps.ExecutionProtection.entry EfiConventionalMemory then do
    ASSERT.checked DebugAssertEnabled
      (gDxeMps.ExecutionProtection.entry EfiBootServicesData ==
        gDxeMps.ExecutionProtection.entry EfiConventionalMemory)
    pure { gDxeMps with
      ExecutionProtection :=
        { EnabledForType :=
            (gDxeMps.ExecutionProtection.EnabledForType.set EfiBootServicesData false).set
              EfiConventionalMemory false } }
  else pure gDxeMps

/-- A boolean setting that is FALSE before is FALSE after. -/
def staysOff (before after : Bool) : Prop := before = false → after = false

/-- Every boolean setting of `a` that is FALSE is FALSE in `b`. -/
def OnlyTurnedOff (a b : DXE_MEMORY_PROTECTION_SETTINGS) : Prop :=
  staysOff a.CpuStackGuardEnabled b.CpuStackGuardEnabled ∧
  staysOff a.StackExecutionProtectionEnabled b.StackExecutionProtectionEnabled ∧
  staysOff a.NullPointerDetection.Enabled b.NullPointerDetection.Enabled ∧
  staysOff a.NullPointerDetection.DisableEndOfDxe b.NullPointerDetection.DisableEndOfDxe ∧
  staysOff a.NullPointerDetection.NonstopModeEnabled b.NullPointerDetection.NonstopModeEnabled ∧
  staysOff a.ImageProtection.ProtectImageFromUnknown b.ImageProtection.ProtectImageFromUnknown ∧
  staysOff a.ImageProtection.ProtectImageFromFv b.ImageProtection.ProtectImageFromFv ∧
  (∀ i, staysOff (a.ExecutionProtection.entry i) (b.ExecutionProtection.entry i)) ∧
  staysOff a.HeapGuard.PageGuardEnabled b.HeapGuard.PageGuardEnabled ∧
  staysOff a.HeapGuard.PoolGuardEnabled b.HeapGuard.PoolGuardEnabled ∧
  staysOff a.HeapGuard.FreedMemoryGuardEnabled b.HeapGuard.FreedMemoryGuardEnabled ∧
  staysOff a.HeapGuard.NonstopModeEnabled b.HeapGuard.NonstopModeEnabled ∧
  staysOff a.HeapGuard.GuardAlignedToTail b.HeapGuard.GuardAlignedToTail ∧
  (∀ i, staysOff (a.PoolGuard.entry i) (b.PoolGuard.entry i)) ∧
  (∀ i, staysOff (a.PageGuard.entry i) (b.PageGuard.entry i))

/-- The settings are consistent: freed-memory guard is not enabled together with pool guard
or page guard, and the ExecutionProtection values of EfiBootServicesData and
EfiConventionalMemory are equal. -/
def ConsistentSettings (g : DXE_MEMORY_PROTECTION_SETTINGS) : Prop :=
  ¬ (g.HeapGuard.FreedMemoryGuardEnabled = true ∧
    (g.HeapGuard.PoolGuardEnabled = true ∨ g.HeapGuard.PageGuardEnabled = true)) ∧
  g.ExecutionProtection.entry EfiBootServicesData =
    g.ExecutionProtection.entry EfiConventionalMemory

instance (g : DXE_MEMORY_PROTECTION_SETTINGS) : Decidable (ConsistentSettings g) := by
  unfold ConsistentSettings; exact inferInstance

/-- DXE settings with pool guard and freed-memory guard both enabled, everything else off. -/
def conflictingSettings : DXE_MEMORY_PROTECTION_SETTINGS :=
  { StructVersion := DXE_MEMORY_PROTECTION_SETTINGS_CURRENT_VERSION
    CpuStackGuardEnabled := false
    StackExecutionProtectionEnabled := false
    NullPointerDetection := ⟨false, false, false⟩
    ImageProtection := ⟨false, false⟩
    ExecutionProtection := ⟨List.replicate MAX_DXE_MPS_MEMORY_TYPE false⟩
    HeapGuard := ⟨false, true, true, false, false⟩
    PoolGuard := ⟨List.replicate MAX_DXE_MPS_MEMORY_TYPE false⟩
    PageGuard := ⟨List.replicate MAX_DXE_MPS_MEMORY_TYPE false⟩ }

/-- The budget table with the record `NumberOfPages` of the row `i` set to `n`. -/
def setBudget (t : List EFI_MEMORY_TYPE_INFORMATION) (i n : Nat) :
    List EFI_MEMORY_TYPE_INFORMATION :=
  t.set i { t.getD i default with NumberOfPages := n }

/-- The budget record of a memory type: the row of gMemoryTypeInformation that the
statistics row of the type points to. -/
def budgetRecord (s : MemState) (T : Nat) : Nat :=
  (s.gMemoryTypeInformation.getD
    (s.mMemoryTypeStatistics.getD T default).InformationIndex default).NumberOfPages

/-- A quiescent state with four free descriptors whose store is the conventional range
[0x1000, 0x2FFF]; the counter of BootServicesData and its budget record both stand at
2 ^ 32 - 1 pages. -/
def fullBudgetState : MemState :=
  { initialState plainPlatform with
    mFreeMemoryMapEntryList := 4
    mMemoryTypeStatistics :=
      setCurrent (initialStatistics plainPlatform.MAX_ALLOC_ADDRESS) EfiBootServicesData
        4294967295
    gMemoryTypeInformation := setBudget initialInformation EfiMaxMemoryType 4294967295
    mGcdMemorySpaceMap := [convEntry 0x1000 0x2FFF] }

/-- The descriptor is the linked element of a stack slot below `depth`: one of the
descriptors the drain has to move. -/
def onStack (depth : Nat) (e : EFI_GCD_MAP_ENTRY) : Bool :=
  match e.StackSlot with
  | some d => decide (d < depth)
  | none => false

/-- The pool-backed copy of a stack descriptor (lines 355-356: `CopyMem`, then
`FromPages = TRUE`): range, types, attributes, capabilities and handles are those of the
stack descriptor. -/
def pooled (e : EFI_GCD_MAP_ENTRY) : EFI_GCD_MAP_ENTRY :=
  { e with FromPages := true, StackSlot := none }

/-- What a drain of the stack slots below `depth` leaves of a linked descriptor: its
pool-backed copy when it is on the stack, the descriptor itself otherwise. -/
def drained (depth : Nat) (e : EFI_GCD_MAP_ENTRY) : EFI_GCD_MAP_ENTRY :=
  if onStack depth e then pooled e else e

/-- No two linked descriptors are the same element of `mMapStack`. -/
def SlotsDistinct (l : List EFI_GCD_MAP_ENTRY) : Prop :=
  l.Pairwise fun a b => a.StackSlot = none ∨ a.StackSlot ≠ b.StackSlot

instance (l : List EFI_GCD_MAP_ENTRY) : Decidable (SlotsDistinct l) := by
  unfold SlotsDistinct; exact inferInstance

/-- A property `P` of states that the steps of the allocator keep, for the passes of the
conversion loop whose flags and new type meet `Q`: it implies the store invariant, depends
only on the store and on mMapDepth, and is kept by such a pass of the conversion loop, by one
pass of the drain loop and by the promotion hook of the platform. -/
def StateInvariant (env : Platform) (Q : Bool → Nat → Bool → Prop) (P : MemState → Prop) :
    Prop :=
  (∀ s, P s → Store s.mGcdMemorySpaceMap) ∧
  (∀ s s1 : MemState, s1.mGcdMemorySpaceMap = s.mGcdMemorySpaceMap →
    s1.mMapDepth = s.mMapDepth → P s → P s1) ∧
  (∀ (s s2 : MemState) (pre : List EFI_GCD_MAP_ENTRY) (Entry : EFI_GCD_MAP_ENTRY)
    (post : List EFI_GCD_MAP_ENTRY) (Start RangeEnd N : Nat) (ct : Bool) (nt : Nat) (ca : Bool)
    (na nc : Nat), Q ct nt ca →
    s.mGcdMemorySpaceMap = pre ++ Entry :: post → Entry.BaseAddress ≤ Start →
    RangeOk Start RangeEnd → RangeEnd ≤ Entry.EndAddress → P s →
    CoreConvertPagesEx.step env s pre Entry post Start RangeEnd N ct nt ca na nc =
      Except.ok s2 → P s2) ∧
  (∀ s, P s → P (CoreFreeMemoryMapStack.relink s)) ∧
  (∀ s s1, env.PromoteGuardedFreePages s = some s1 → P s → P s1)

/-- No conventional descriptor of the store `l` has grown relative to the store `l0`: each
conventional descriptor of `l` lies within a conventional descriptor of `l0`. -/
def NotGrown (l0 l : List EFI_GCD_MAP_ENTRY) : Prop :=
  ∀ e ∈ l, e.EfiMemoryType = EfiConventionalMemory →
    ∃ d ∈ l0, d.EfiMemoryType = EfiConventionalMemory ∧ d.BaseAddress ≤ e.BaseAddress ∧
      e.EndAddress ≤ d.EndAddress

/-- The store `l` is well formed and disjoint, covers no address the store `l0` does not
cover, and none of its conventional descriptors has grown relative to `l0`. -/
def Shrunk (l0 l : List EFI_GCD_MAP_ENTRY) : Prop :=
  Store l ∧ (∀ a, Covered l a → Covered l0 a) ∧ NotGrown l0 l

/-- The passes of the conversion loop that create no conventional descriptor on the platform
`env`: the type changes, and the new type is not conventional or freed-memory guard is
enabled. -/
def noConventional (env : Platform) (ct : Bool) (nt : Nat) (_ca : Bool) : Prop :=
  ct = true ∧ (env.FreedMemoryGuardEnabled = true ∨ nt ≠ EfiConventionalMemory)

/-- The descriptors of the store obey the discipline of the bootstrap stack at the depth
`depth`: each is pool-backed and no stack element, or is the element of a stack slot below
`depth` and not pool-backed; and no two are the same stack element. -/
def StackDiscipline (depth : Nat) (l : List EFI_GCD_MAP_ENTRY) : Prop :=
  (∀ e ∈ l, (e.FromPages = true ∧ e.StackSlot = none) ∨
    (e.FromPages = false ∧ ∃ d, d < depth ∧ e.StackSlot = some d)) ∧ SlotsDistinct l

/-- The pool-backed (FromPages) descriptors of the store appear in ascending order of
BaseAddress in link order. -/
def PoolSorted (l : List EFI_GCD_MAP_ENTRY) : Prop :=
  (l.filter fun e => e.FromPages).Pairwise fun a b => a.BaseAddress < b.BaseAddress

/-- The whole store is sorted: the descriptors appear in ascending order of BaseAddress in
link order. -/
def AddressSorted (l : List EFI_GCD_MAP_ENTRY) : Prop :=
  l.Pairwise fun a b => a.BaseAddress < b.BaseAddress

/-- The state invariant of the address order: the store is well formed and disjoint, obeys
the discipline of the bootstrap stack at mMapDepth, and its pool-backed descriptors are in
ascending order. -/
def AddressOrdered (s : MemState) : Prop :=
  Store s.mGcdMemorySpaceMap ∧ StackDiscipline s.mMapDepth s.mGcdMemorySpaceMap ∧
    PoolSorted s.mGcdMemorySpaceMap

instance (l : List EFI_GCD_MAP_ENTRY) : Decidable (PoolSorted l) := by
  unfold PoolSorted; exact inferInstance

instance (l : List EFI_GCD_MAP_ENTRY) : Decidable (AddressSorted l) := by
  unfold AddressSorted; exact inferInstance

instance (d : Nat) (l : List EFI_GCD_MAP_ENTRY) : Decidable (StackDiscipline d l) := by
  unfold StackDiscipline; exact inferInstance

/-- The section of CoreAddMemoryDescriptor that runs under the memory lock (lines 498-511):
the two parameter checks, the computation of `End`, CoreAddRange and the drain of the
bootstrap stack. What follows the release of the lock (ApplyMemoryProtectionPolicy and the
set-up of the memory type statistics, which calls CoreAllocatePages and CoreFreePages as
operations of their own) is not part of this definition. -/
def CoreAddMemoryDescriptor.locked (env : Platform) (fuel : Nat) (s : MemState)
    (EfiMemoryType GcdMemoryType Start NumberOfPages Attributes Capabilities ImageHandle : Nat) :
    Except Halt MemState :=
  if Start &&& EFI_PAGE_MASK ≠ 0 then pure s
  else if EfiMemoryType ≥ EfiMaxMemoryType ∧ EfiMemoryType < env.MEMORY_TYPE_OEM_RESERVED_MIN then
    pure s
  else do
    let End := sub64 (add64 Start (LShiftU64 NumberOfPages EFI_PAGE_SHIFT)) 1
    let s ← CoreAddRange s EfiMemoryType GcdMemoryType Start End Attributes Capabilities
      ImageHandle
    CoreFreeMemoryMapStack env fuel s

/-- The computation does not halt on the assertion `mMapDepth < MAX_MAP_DEPTH` of the two push
sites, and what it returns has the property `post`. -/
def DepthSafe {α : Type} (x : Except Halt α) (post : α → Prop) : Prop :=
  x ≠ Except.error Halt.stackOverflow ∧ ∀ a, x = Except.ok a → post a

/-- The state inside the drain of a top-level operation: the store is well formed and
disjoint, the drain is running, and at most two stack slots are in use, or three with a free
descriptor queued. -/
def Draining (s : MemState) : Prop :=
  Store s.mGcdMemorySpaceMap ∧ s.mFreeMapStack ≠ 0 ∧
    (s.mMapDepth ≤ 2 ∨ (s.mMapDepth ≤ 3 ∧ 1 ≤ s.mFreeMemoryMapEntryList))

/-! # Theorems -/

/-! ## Scenarios -/

/-- C7, as stated, fails: on the C initial state (empty descriptor free list) the drain after
add_range takes the only page [0x1000, 0x1FFF] for descriptor storage, and
allocate_pages (anywhere, BootServicesData, 1) returns EFI_OUT_OF_RESOURCES. -/
theorem scenarioA_empty_free_list :
    ∃ s, scenarioA 0 8 = Except.ok (EFI_STATUS.EFI_OUT_OF_RESOURCES, s, some 0) ∧
      s.mGcdMemorySpaceMap =
        [{ convEntry 0x1000 0x1FFF with EfiMemoryType := EfiBootServicesData }] :=
  ⟨_, rfl, rfl⟩

/-- C7, amended: with two queued free descriptors, after add_range (conventional, 0x1000,
0x1FFF) the call allocate_pages (anywhere, BootServicesData, 1) returns EFI_SUCCESS and
0x1000 for every fuel of at least 4, and the store is exactly one BootServicesData
descriptor [0x1000, 0x1FFF], hence holds no conventional descriptor. -/
theorem scenarioA_with_free_descriptors (n : Nat) :
    ∃ s, scenarioA 2 (n + 4) = Except.ok (EFI_STATUS.EFI_SUCCESS, s, some 0x1000) ∧
      s.mGcdMemorySpaceMap =
        [{ convEntry 0x1000 0x1FFF with EfiMemoryType := EfiBootServicesData }] ∧
      ∀ e ∈ s.mGcdMemorySpaceMap, e.EfiMemoryType ≠ EfiConventionalMemory :=
  ⟨_, rfl, rfl, by decide⟩

/-- C8, as stated, fails: with an empty descriptor free list the drain refills the list with
a page taken from the top of the conventional range, and the store ends with four
descriptors. -/
theorem scenarioC_empty_free_list :
    ∃ s, scenarioC EfiLoaderData 0 8 = Except.ok (EFI_STATUS.EFI_SUCCESS, s, some 0x2000) ∧
      s.mGcdMemorySpaceMap =
        [convEntry 0 0x1FFF, { convEntry 0x2000 0x3FFF with EfiMemoryType := EfiLoaderData },
         convEntry 0x4000 0x8FFF,
         { convEntry 0x9000 0x9FFF with EfiMemoryType := EfiBootServicesData }] :=
  ⟨_, rfl, rfl⟩

/-- C8, amended: with two queued free descriptors, allocating 2 pages of a
default-granularity type at the fixed address 0x2000 out of the conventional range
[0, 0x9FFF] returns EFI_SUCCESS for every fuel of at least 4 and leaves exactly the three
descriptors conventional [0, 0x1FFF], allocated [0x2000, 0x3FFF], conventional
[0x4000, 0x9FFF]. -/
theorem scenarioC_with_free_descriptors (n T : Nat)
    (hT : T ∈ [EfiReservedMemoryType, EfiLoaderCode, EfiLoaderData, EfiBootServicesCode,
      EfiBootServicesData, EfiUnusableMemory, EfiPalCode]) :
    ∃ s, scenarioC T 2 (n + 4) = Except.ok (EFI_STATUS.EFI_SUCCESS, s, some 0x2000) ∧
      s.mGcdMemorySpaceMap =
        [convEntry 0 0x1FFF, { convEntry 0x2000 0x3FFF with EfiMemoryType := T },
         convEntry 0x4000 0x9FFF] := by
  simp only [List.mem_cons, List.mem_singleton, List.not_mem_nil, or_false] at hT
  rcases hT with rfl | rfl | rfl | rfl | rfl | rfl | rfl <;> exact ⟨_, rfl, rfl⟩

/-- Witness of `scenarioC_with_free_descriptors` for BootServicesData and fuel 4. -/
theorem scenarioC_with_free_descriptors_witness :
    EfiBootServicesData ∈ [EfiReservedMemoryType, EfiLoaderCode, EfiLoaderData,
        EfiBootServicesCode, EfiBootServicesData, EfiUnusableMemory, EfiPalCode] ∧
      ∃ s, scenarioC EfiBootServicesData 2 (0 + 4) =
          Except.ok (EFI_STATUS.EFI_SUCCESS, s, some 0x2000) ∧
        s.mGcdMemorySpaceMap =
          [convEntry 0 0x1FFF,
           { convEntry 0x2000 0x3FFF with EfiMemoryType := EfiBootServicesData },
           convEntry 0x4000 0x9FFF] :=
  ⟨by decide, scenarioC_with_free_descriptors 0 EfiBootServicesData (by decide)⟩

/-! ## CoreFindFreePagesI -/

/-- C10, failing input: one conventional descriptor [0x1000, 0x2FFF], ceiling
0xFFFFFFFFFFFF, one page, alignment 64 KiB. The end rounded down to the alignment is
`0 - 1`, which wraps to `2 ^ 64 - 1` and passes the test `DescEnd < DescStart`; the
function returns the base 0xFFFFFFFFFFFFF000, which lies in no descriptor and above the
ceiling. -/
theorem CoreFindFreePagesI_alignment_wrap :
    StoreOk [convEntry 0x1000 0x2FFF] ∧
    CoreFindFreePagesI plainPlatform
      { initialState plainPlatform with mGcdMemorySpaceMap := [convEntry 0x1000 0x2FFF] }
      0xFFFFFFFFFFFF 0 1 EfiRuntimeServicesData 0x10000 false = 0xFFFFFFFFFFFFF000 ∧
    (¬ ∃ e ∈ [convEntry 0x1000 0x2FFF], e.EfiMemoryType = EfiConventionalMemory ∧
      e.BaseAddress ≤ 0xFFFFFFFFFFFFF000 ∧ 0xFFFFFFFFFFFFF000 + 1 * 4096 - 1 ≤ e.EndAddress) ∧
    ¬ (0xFFFFFFFFFFFFF000 + 1 * 4096 - 1 ≤ 0xFFFFFFFFFFFF) := by
  refine ⟨by decide, by decide, by decide, by decide⟩

/-! ## Basic lemmas -/

theorem land_4095 (x : Nat) : x &&& 4095 = x % 4096 := Nat.and_pow_two_sub_one_eq_mod x 12

theorem bind_eq_ok {α β : Type} (x : Except Halt α) (f : α → Except Halt β) (b : β) :
    (x >>= f) = Except.ok b ↔ ∃ a, x = Except.ok a ∧ f a = Except.ok b := by
  cases x with
  | error e => simp [bind, Except.bind]
  | ok a => simp [bind, Except.bind]

theorem ASSERT_eq_ok (c : Bool) (u : Unit) : ASSERT c = Except.ok u ↔ c = true := by
  cases c <;> simp [ASSERT, pure, Except.pure, throw, throwThe, MonadExceptOf.throw]

theorem ASSERT_mapDepth_eq_ok (d : Nat) (u : Unit) :
    ASSERT.mapDepth d = Except.ok u ↔ d < 6 := by
  unfold ASSERT.mapDepth MAX_MAP_DEPTH
  by_cases h : d < 6
  · rw [if_pos h]; simp [h, pure, Except.pure]
  · rw [if_neg h]; simp [h, throw, throwThe, MonadExceptOf.throw]

theorem findFirst_some {p : EFI_GCD_MAP_ENTRY → Bool} {l pre post : List EFI_GCD_MAP_ENTRY}
    {e : EFI_GCD_MAP_ENTRY} (h : findFirst p l = some (pre, e, post)) :
    l = pre ++ e :: post ∧ p e = true ∧ ∀ x ∈ pre, p x = false := by
  induction l generalizing pre with
  | nil => simp [findFirst] at h
  | cons a rest ih =>
    unfold findFirst at h
    by_cases hp : p a = true
    · simp [hp] at h
      obtain ⟨rfl, rfl, rfl⟩ := h
      simp [hp]
    · simp [hp] at h
      cases hr : findFirst p rest with
      | none => simp [hr] at h
      | some r =>
        obtain ⟨pre1, e1, post1⟩ := r
        simp [hr] at h
        obtain ⟨rfl, rfl, rfl⟩ := h
        obtain ⟨h1, h2, h3⟩ := ih hr
        refine ⟨by simp [h1], h2, ?_⟩
        intro x hx
        simp at hx
        rcases hx with rfl | hx
        · simpa using hp
        · exact h3 x hx

theorem findFirst_none {p : EFI_GCD_MAP_ENTRY → Bool} {l : List EFI_GCD_MAP_ENTRY}
    (h : findFirst p l = none) : ∀ x ∈ l, p x = false := by
  induction l with
  | nil => simp
  | cons a rest ih =>
    unfold findFirst at h
    by_cases hp : p a = true
    · simp [hp] at h
    · simp [hp] at h
      cases hr : findFirst p rest with
      | none =>
        intro x hx
        simp at hx
        rcases hx with rfl | hx
        · simpa using hp
        · exact ih hr x hx
      | some r => simp [hr] at h

theorem Has_nil (a : Nat) (p : Nat × Nat × Nat × Nat) : Has [] a p ↔ False := by
  simp [Has]

theorem Has_cons (e : EFI_GCD_MAP_ENTRY) (l : List EFI_GCD_MAP_ENTRY) (a : Nat)
    (p : Nat × Nat × Nat × Nat) :
    Has (e :: l) a p ↔ (Covers e a ∧ entryProps e = p) ∨ Has l a p := by
  simp [Has]

theorem Has_append (l1 l2 : List EFI_GCD_MAP_ENTRY) (a : Nat) (p : Nat × Nat × Nat × Nat) :
    Has (l1 ++ l2) a p ↔ Has l1 a p ∨ Has l2 a p := by
  simp only [Has, List.mem_append]
  constructor
  · rintro ⟨e, he | he, h⟩
    · exact Or.inl ⟨e, he, h⟩
    · exact Or.inr ⟨e, he, h⟩
  · rintro (⟨e, he, h⟩ | ⟨e, he, h⟩)
    · exact ⟨e, Or.inl he, h⟩
    · exact ⟨e, Or.inr he, h⟩

theorem totalSize_nil : totalSize [] = 0 := rfl

theorem totalSize_cons (e : EFI_GCD_MAP_ENTRY) (l : List EFI_GCD_MAP_ENTRY) :
    totalSize (e :: l) = entrySize e + totalSize l := by
  simp [totalSize]

theorem totalSize_append (l1 l2 : List EFI_GCD_MAP_ENTRY) :
    totalSize (l1 ++ l2) = totalSize l1 + totalSize l2 := by
  simp [totalSize]

theorem skip_eq_false {T G A C : Nat} {e : EFI_GCD_MAP_ENTRY}
    (h : CoreAddRange.skip T G A C e = false) :
    e.Capabilities = C ∧ e.Attributes = A ∧ e.EfiMemoryType = T ∧ e.GcdMemoryType = G ∧
      e.GcdIoType = EfiGcdIoTypeNonExistent ∧ e.ImageHandle = 0 ∧ e.DeviceHandle = 0 := by
  simp only [CoreAddRange.skip, Bool.or_eq_false_iff, bne_eq_false_iff_eq] at h
  tauto

/-! ## CoreAddRange -/

theorem ScanSpec_keep {P : Nat × Nat × Nat × Nat} {e : EFI_GCD_MAP_ENTRY}
    {rest : List EFI_GCD_MAP_ENTRY} {S E f : Nat}
    {r : List EFI_GCD_MAP_ENTRY × Nat × Nat × Nat} (hr : ScanSpec P rest S E f r)
    (hwe : e.BaseAddress ≤ e.EndAddress) (hde : E < e.BaseAddress ∨ e.EndAddress < S)
    (her : ∀ x ∈ rest, Disjoint e x) : ScanSpec P (e :: rest) S E f (e :: r.1, r.2) := by
  obtain ⟨i1, i2, i3, i4, i5, i6, i7, i8, i9⟩ := hr
  refine ⟨List.Sublist.cons₂ _ i1, i2, i3, i4, ?_, ?_, ?_, ?_, i9⟩
  · intro x hx
    simp only [List.mem_cons] at hx
    rcases hx with rfl | hx
    · exact i6 x hwe hde (fun y hy => by
        have := her y hy
        unfold Disjoint at this ⊢
        omega)
    · exact i5 x hx
  · intro x hx1 hx2 hx3
    exact i6 x hx1 hx2 (fun y hy => hx3 y (List.mem_cons_of_mem _ hy))
  · intro a p
    show (Has (e :: rest) a p ∨ _) ↔ (Has (e :: r.1) a p ∨ _)
    rw [Has_cons, Has_cons, or_assoc, or_assoc, i7 a p]
  · show totalSize (e :: rest) + _ = totalSize (e :: r.1) + _
    rw [totalSize_cons, totalSize_cons]
    dsimp only
    omega

/-- What the merge loop of CoreAddRange does on a well-formed disjoint store below the top
of the address space, for a new range that meets no descriptor. -/
theorem scan_spec (T G A C : Nat) (l : List EFI_GCD_MAP_ENTRY) :
    ∀ (S E f : Nat), (∀ e ∈ l, WellFormed e) → BelowTop l → l.Pairwise Disjoint →
      RangeOk S E → (∀ e ∈ l, E < e.BaseAddress ∨ e.EndAddress < S) →
      ScanSpec (T, A, C, G) l S E f (CoreAddRange.scan T G A C l S E f) := by
  induction l with
  | nil =>
    intro S E f _ _ _ hr _
    simp [CoreAddRange.scan, ScanSpec, hr]
  | cons e rest ih =>
    intro S E f hwf htop hpw hr hd
    have hwe : WellFormed e := hwf e (List.mem_cons_self _ _)
    have hte : e.EndAddress < 18446744073709551615 := htop e (List.mem_cons_self _ _)
    have hwr : ∀ x ∈ rest, WellFormed x := fun x hx => hwf x (List.mem_cons_of_mem _ hx)
    have htr : BelowTop rest := fun x hx => htop x (List.mem_cons_of_mem _ hx)
    have hpr : rest.Pairwise Disjoint := (List.pairwise_cons.1 hpw).2
    have her : ∀ x ∈ rest, Disjoint e x := (List.pairwise_cons.1 hpw).1
    have hde : E < e.BaseAddress ∨ e.EndAddress < S := hd e (List.mem_cons_self _ _)
    have hdr : ∀ x ∈ rest, E < x.BaseAddress ∨ x.EndAddress < S :=
      fun x hx => hd x (List.mem_cons_of_mem _ hx)
    obtain ⟨hS, hE, hSE, hEM⟩ := hr
    obtain ⟨hw1, hw2, hw3, hw4⟩ := hwe
    have hkeep := ScanSpec_keep (ih S E f hwr htr hpr ⟨hS, hE, hSE, hEM⟩ hdr)
      (Nat.le_of_lt hw3) hde her
    unfold CoreAddRange.scan
    by_cases hsk : CoreAddRange.skip T G A C e = true
    · simp only [hsk, if_true]
      exact hkeep
    · have hsk' : CoreAddRange.skip T G A C e = false := by simpa using hsk
      obtain ⟨p1, p2, p3, p4, _, _, _⟩ := skip_eq_false hsk'
      have hprops : entryProps e = (T, A, C, G) := by simp [entryProps, p1, p2, p3, p4]
      simp only [hsk', Bool.false_eq_true, if_false]
      have hadd1 : add64 e.EndAddress 1 = e.EndAddress + 1 := by unfold add64; omega
      have hadd2 : add64 E 1 = E + 1 := by unfold add64; omega
      rw [hadd1, hadd2]
      by_cases hb : e.EndAddress + 1 = S
      · simp only [hb, if_true]
        have hdr' : ∀ x ∈ rest, E < x.BaseAddress ∨ x.EndAddress < e.BaseAddress := by
          intro x hx
          have h1 := hdr x hx
          have h2 := her x hx
          have h3 := (hwr x hx).2.2.1
          unfold Disjoint at h2
          omega
        obtain ⟨i1, i2, i3, i4, i5, i6, i7, i8, i9⟩ :=
          ih e.BaseAddress E (if e.FromPages then f + 1 else f) hwr htr hpr
            ⟨hw1, hE, by omega, hEM⟩ hdr'
        refine ⟨List.Sublist.cons _ i1, i2, by omega, i4, i5, ?_, ?_, ?_, ?_⟩
        · intro x hx1 hx2 hx3
          apply i6 x hx1
          · have := hx3 e (List.mem_cons_self _ _)
            unfold Disjoint at this
            omega
          · exact fun y hy => hx3 y (List.mem_cons_of_mem _ hy)
        · intro a p
          rw [← i7 a p, Has_cons, hprops]
          unfold Covers
          constructor
          · rintro ((⟨⟨h1, h2⟩, rfl⟩ | h) | ⟨h1, h2, rfl⟩)
            · exact Or.inr ⟨h1, by omega, rfl⟩
            · exact Or.inl h
            · exact Or.inr ⟨by omega, h2, rfl⟩
          · rintro (h | ⟨h1, h2, rfl⟩)
            · exact Or.inl (Or.inr h)
            · by_cases hc : a ≤ e.EndAddress
              · exact Or.inl (Or.inl ⟨⟨h1, hc⟩, rfl⟩)
              · exact Or.inr ⟨by omega, h2, rfl⟩
        · rw [totalSize_cons, ← i8]
          unfold entrySize
          omega
        · exact le_trans (by split <;> omega) i9
      · simp only [hb, if_false]
        by_cases ha : e.BaseAddress = E + 1
        · simp only [ha, if_true]
          have hdr' : ∀ x ∈ rest, e.EndAddress < x.BaseAddress ∨ x.EndAddress < S := by
            intro x hx
            have h1 := hdr x hx
            have h2 := her x hx
            have h3 := (hwr x hx).2.2.1
            unfold Disjoint at h2
            omega
          obtain ⟨i1, i2, i3, i4, i5, i6, i7, i8, i9⟩ :=
            ih S e.EndAddress (if e.FromPages then f + 1 else f) hwr htr hpr
              ⟨hS, hw2, by omega, hte⟩ hdr'
          refine ⟨List.Sublist.cons _ i1, i2, i3, by omega, i5, ?_, ?_, ?_, ?_⟩
          · intro x hx1 hx2 hx3
            apply i6 x hx1
            · have := hx3 e (List.mem_cons_self _ _)
              unfold Disjoint at this
              omega
            · exact fun y hy => hx3 y (List.mem_cons_of_mem _ hy)
          · intro a p
            rw [← i7 a p, Has_cons, hprops]
            unfold Covers
            constructor
            · rintro ((⟨⟨h1, h2⟩, rfl⟩ | h) | ⟨h1, h2, rfl⟩)
              · exact Or.inr ⟨by omega, h2, rfl⟩
              · exact Or.inl h
              · exact Or.inr ⟨h1, by omega, rfl⟩
            · rintro (h | ⟨h1, h2, rfl⟩)
              · exact Or.inl (Or.inr h)
              · by_cases hc : a ≤ E
                · exact Or.inr ⟨h1, hc, rfl⟩
                · exact Or.inl (Or.inl ⟨⟨by omega, h2⟩, rfl⟩)
          · rw [totalSize_cons, ← i8]
            unfold entrySize
            omega
          · exact le_trans (by split <;> omega) i9
        · simp only [ha, if_false]
          exact hkeep

theorem CoreAddRange_eq_ok (s s1 : MemState) (T G S E A C H : Nat) :
    CoreAddRange s T G S E A C H = Except.ok s1 ↔
      (S % 4096 = 0 ∧ S < E ∧ s.mMapDepth + 1 < 6) ∧ s1 = addRangeResult s T G S E A C H := by
  unfold CoreAddRange addRangeResult
  simp only [bind_eq_ok, ASSERT_eq_ok, ASSERT_mapDepth_eq_ok, EFI_PAGE_MASK, land_4095]
  constructor
  · rintro ⟨_, h1, _, h2, _, h3, h4⟩
    simp only [beq_iff_eq, decide_eq_true_eq] at h1 h2
    simp only [pure, Except.pure, Except.ok.injEq] at h4
    exact ⟨⟨h1, h2, h3⟩, h4.symm⟩
  · rintro ⟨⟨h1, h2, h3⟩, rfl⟩
    exact ⟨(), by simpa using h1, (), by simpa using h2, (), by simpa using h3, rfl⟩

theorem Store_sublist {l l1 : List EFI_GCD_MAP_ENTRY} (h : l1.Sublist l) (hs : Store l) :
    Store l1 :=
  ⟨⟨fun e he => hs.1.1 e (h.subset he), hs.1.2.sublist h⟩, fun e he => hs.2 e (h.subset he)⟩

theorem Disjoint_symm {a b : EFI_GCD_MAP_ENTRY} (h : Disjoint a b) : Disjoint b a := by
  unfold Disjoint at h ⊢
  omega

/-- Adding a range that meets no descriptor: the store invariant stays, every address keeps
its properties, the new range gets the new properties, the sizes add up. -/
theorem addRangeResult_spec (s : MemState) (T G S E A C H : Nat)
    (hs : Store s.mGcdMemorySpaceMap) (hr : RangeOk S E)
    (hd : ∀ e ∈ s.mGcdMemorySpaceMap, E < e.BaseAddress ∨ e.EndAddress < S) :
    Store (addRangeResult s T G S E A C H).mGcdMemorySpaceMap ∧
    (∀ a p, Has (addRangeResult s T G S E A C H).mGcdMemorySpaceMap a p ↔
      (Has s.mGcdMemorySpaceMap a p ∨ (S ≤ a ∧ a ≤ E ∧ p = (T, A, C, G)))) ∧
    totalSize (addRangeResult s T G S E A C H).mGcdMemorySpaceMap =
      totalSize s.mGcdMemorySpaceMap + (E + 1 - S) ∧
    s.mFreeMemoryMapEntryList ≤ (addRangeResult s T G S E A C H).mFreeMemoryMapEntryList := by
  obtain ⟨i1, i2, i3, i4, i5, i6, i7, i8, i9⟩ :=
    scan_spec T G A C s.mGcdMemorySpaceMap S E s.mFreeMemoryMapEntryList hs.1.1 hs.2 hs.1.2 hr hd
  have hsub := Store_sublist i1 hs
  obtain ⟨j1, j2, j3, j4⟩ := i2
  refine ⟨⟨⟨?_, ?_⟩, ?_⟩, ?_, ?_, i9⟩
  · intro e he
    simp only [addRangeResult, List.mem_append, List.mem_singleton] at he
    rcases he with he | rfl
    · exact hsub.1.1 e he
    · exact ⟨j1, j2, j3, by dsimp only; omega⟩
  · simp only [addRangeResult]
    rw [List.pairwise_append]
    refine ⟨hsub.1.2, List.pairwise_singleton _ _, ?_⟩
    intro a ha b hb
    simp only [List.mem_singleton] at hb
    subst hb
    have := i5 a ha
    have hwa := (hsub.1.1 a ha).2.2.1
    unfold Disjoint
    dsimp only
    omega
  · intro e he
    simp only [addRangeResult, List.mem_append, List.mem_singleton] at he
    rcases he with he | rfl
    · exact hsub.2 e he
    · exact j4
  · intro a p
    simp only [addRangeResult]
    rw [Has_append, i7 a p, Has_cons, Has_nil]
    simp only [Covers, entryProps, or_false]
    constructor
    · rintro (h | ⟨⟨h1, h2⟩, rfl⟩)
      · exact Or.inl h
      · exact Or.inr ⟨h1, h2, rfl⟩
    · rintro (h | ⟨h1, h2, rfl⟩)
      · exact Or.inl h
      · exact Or.inr ⟨⟨h1, h2⟩, rfl⟩
  · simp only [addRangeResult]
    rw [totalSize_append, totalSize_cons, totalSize_nil, i8]
    simp only [entrySize]
    omega

/-! ## Order of the list does not matter for the store properties -/

theorem Store_perm {l l1 : List EFI_GCD_MAP_ENTRY} (h : l.Perm l1) (hs : Store l) : Store l1 := by
  refine ⟨⟨fun e he => hs.1.1 e (h.symm.subset he), ?_⟩, fun e he => hs.2 e (h.symm.subset he)⟩
  exact (h.pairwise_iff (fun {a b} hab => Disjoint_symm hab)).1 hs.1.2

theorem Has_perm {l l1 : List EFI_GCD_MAP_ENTRY} (h : l.Perm l1) (a : Nat)
    (p : Nat × Nat × Nat × Nat) : Has l a p ↔ Has l1 a p := by
  unfold Has
  constructor
  · rintro ⟨e, he, hc⟩
    exact ⟨e, h.subset he, hc⟩
  · rintro ⟨e, he, hc⟩
    exact ⟨e, h.symm.subset he, hc⟩

theorem totalSize_perm {l l1 : List EFI_GCD_MAP_ENTRY} (h : l.Perm l1) :
    totalSize l = totalSize l1 := by
  unfold totalSize
  exact (h.map entrySize).sum_eq

/-- Replacing a descriptor `e` by the remnants `rep` of cutting `[S, E]` out of it. -/
theorem carve_spec (e : EFI_GCD_MAP_ENTRY) (rest rep : List EFI_GCD_MAP_ENTRY) (S E : Nat)
    (hs : Store (e :: rest)) (hS : e.BaseAddress ≤ S) (hSE : S ≤ E) (hE : E ≤ e.EndAddress)
    (hrep : ∀ c ∈ rep, WellFormed c ∧ entryProps c = entryProps e ∧
      e.BaseAddress ≤ c.BaseAddress ∧ c.EndAddress ≤ e.EndAddress ∧
      (E < c.BaseAddress ∨ c.EndAddress < S))
    (hpw : rep.Pairwise Disjoint)
    (hcov : ∀ a, e.BaseAddress ≤ a → a ≤ e.EndAddress → ¬ (S ≤ a ∧ a ≤ E) →
      ∃ c ∈ rep, Covers c a)
    (hsize : totalSize rep + (E + 1 - S) = entrySize e) :
    Store (rep ++ rest) ∧
    (∀ x ∈ rep ++ rest, E < x.BaseAddress ∨ x.EndAddress < S) ∧
    (∀ a p, Has (rep ++ rest) a p ↔ (Has (e :: rest) a p ∧ ¬ (S ≤ a ∧ a ≤ E))) ∧
    totalSize (rep ++ rest) + (E + 1 - S) = totalSize (e :: rest) := by
  obtain ⟨⟨hwf, hpair⟩, htop⟩ := hs
  have hwe := hwf e (List.mem_cons_self _ _)
  have hte := htop e (List.mem_cons_self _ _)
  have her : ∀ x ∈ rest, Disjoint e x := (List.pairwise_cons.1 hpair).1
  have hpr : rest.Pairwise Disjoint := (List.pairwise_cons.1 hpair).2
  have hrest_out : ∀ x ∈ rest, E < x.BaseAddress ∨ x.EndAddress < S := by
    intro x hx
    have h1 := her x hx
    have h2 := (hwf x (List.mem_cons_of_mem _ hx)).2.2.1
    unfold Disjoint at h1
    omega
  refine ⟨⟨⟨?_, ?_⟩, ?_⟩, ?_, ?_, ?_⟩
  · intro x hx
    rcases List.mem_append.1 hx with hx | hx
    · exact (hrep x hx).1
    · exact hwf x (List.mem_cons_of_mem _ hx)
  · rw [List.pairwise_append]
    refine ⟨hpw, hpr, ?_⟩
    intro c hc x hx
    obtain ⟨_, _, h1, h2, _⟩ := hrep c hc
    have h3 := her x hx
    unfold Disjoint at h3 ⊢
    omega
  · intro x hx
    rcases List.mem_append.1 hx with hx | hx
    · obtain ⟨_, _, h1, h2, _⟩ := hrep x hx
      omega
    · exact htop x (List.mem_cons_of_mem _ hx)
  · intro x hx
    rcases List.mem_append.1 hx with hx | hx
    · exact (hrep x hx).2.2.2.2
    · exact hrest_out x hx
  · intro a p
    rw [Has_append, Has_cons]
    constructor
    · rintro (⟨c, hc, hca, hcp⟩ | ⟨x, hx, hxa, hxp⟩)
      · obtain ⟨_, h0, h1, h2, h3⟩ := hrep c hc
        unfold Covers at hca
        refine ⟨Or.inl ⟨⟨by omega, by omega⟩, by rw [← h0]; exact hcp⟩, by omega⟩
      · have := hrest_out x hx
        unfold Covers at hxa
        exact ⟨Or.inr ⟨x, hx, hxa, hxp⟩, by omega⟩
    · rintro ⟨(⟨⟨h1, h2⟩, hp⟩ | h), hn⟩
      · obtain ⟨c, hc, hca⟩ := hcov a h1 h2 hn
        exact Or.inl ⟨c, hc, hca, by rw [(hrep c hc).2.1]; exact hp⟩
      · exact Or.inr h
  · rw [totalSize_append, totalSize_cons]
    omega

/-! ## Pulling a range out of a descriptor -/

theorem ASSERT_false : ASSERT false = Except.error Halt.assertion := rfl

theorem pull_start (s : MemState) (pre : List EFI_GCD_MAP_ENTRY) (Entry : EFI_GCD_MAP_ENTRY)
    (post : List EFI_GCD_MAP_ENTRY) (Start RangeEnd : Nat) (h1 : Entry.BaseAddress = Start) :
    CoreConvertPagesEx.pull s pre Entry post Start RangeEnd =
      if add64 RangeEnd 1 = add64 Entry.EndAddress 1 then
        Except.ok ({ s with
          mGcdMemorySpaceMap := pre ++ post
          mFreeMemoryMapEntryList :=
            if Entry.FromPages then s.mFreeMemoryMapEntryList + 1
            else s.mFreeMemoryMapEntryList }, { Entry with BaseAddress := add64 RangeEnd 1 })
      else
        Except.ok ({ s with
          mGcdMemorySpaceMap := pre ++ { Entry with BaseAddress := add64 RangeEnd 1 } :: post },
          { Entry with BaseAddress := add64 RangeEnd 1 }) := by
  unfold CoreConvertPagesEx.pull
  rw [if_pos h1]
  simp only [bind, Except.bind, pure, Except.pure]

theorem pull_end (s : MemState) (pre : List EFI_GCD_MAP_ENTRY) (Entry : EFI_GCD_MAP_ENTRY)
    (post : List EFI_GCD_MAP_ENTRY) (Start RangeEnd : Nat) (h1 : ¬ Entry.BaseAddress = Start)
    (h2 : Entry.EndAddress = RangeEnd) :
    CoreConvertPagesEx.pull s pre Entry post Start RangeEnd =
      if Entry.BaseAddress = add64 (sub64 Start 1) 1 then
        Except.ok ({ s with
          mGcdMemorySpaceMap := pre ++ post
          mFreeMemoryMapEntryList :=
            if Entry.FromPages then s.mFreeMemoryMapEntryList + 1
            else s.mFreeMemoryMapEntryList }, { Entry with EndAddress := sub64 Start 1 })
      else
        Except.ok ({ s with
          mGcdMemorySpaceMap := pre ++ { Entry with EndAddress := sub64 Start 1 } :: post },
          { Entry with EndAddress := sub64 Start 1 }) := by
  unfold CoreConvertPagesEx.pull
  rw [if_neg h1, if_pos h2]
  simp only [bind, Except.bind, pure, Except.pure]

theorem pull_center (s : MemState) (pre : List EFI_GCD_MAP_ENTRY) (Entry : EFI_GCD_MAP_ENTRY)
    (post : List EFI_GCD_MAP_ENTRY) (Start RangeEnd : Nat) (h1 : ¬ Entry.BaseAddress = Start)
    (h2 : ¬ Entry.EndAddress = RangeEnd) (h3 : Entry.BaseAddress < sub64 Start 1)
    (h4 : s.mMapDepth + 1 < 6) (h5 : ¬ add64 RangeEnd 1 = add64 Entry.EndAddress 1) :
    CoreConvertPagesEx.pull s pre Entry post Start RangeEnd =
      Except.ok ({ s with
          mGcdMemorySpaceMap := (pre ++ { Entry with EndAddress := sub64 Start 1 } :: post) ++
            [{ Entry with BaseAddress := add64 RangeEnd 1, FromPages := false,
                          StackSlot := some s.mMapDepth }]
          mMapDepth := s.mMapDepth + 1 },
          { Entry with BaseAddress := add64 RangeEnd 1, FromPages := false,
                       StackSlot := some s.mMapDepth }) := by
  unfold CoreConvertPagesEx.pull
  rw [if_neg h1, if_neg h2]
  have a1 : ASSERT (decide (Entry.BaseAddress < sub64 Start 1)) = Except.ok () := by
    rw [ASSERT_eq_ok]; exact decide_eq_true h3
  have a2 : ASSERT.mapDepth (s.mMapDepth + 1) = Except.ok () := by
    unfold ASSERT.mapDepth MAX_MAP_DEPTH; rw [if_pos h4]; rfl
  dsimp only
  rw [a1, a2]
  simp only [bind, Except.bind, pure, Except.pure]
  rw [if_neg h5]

theorem pull_center_depth (s : MemState) (pre : List EFI_GCD_MAP_ENTRY) (Entry : EFI_GCD_MAP_ENTRY)
    (post : List EFI_GCD_MAP_ENTRY) (Start RangeEnd : Nat) (h1 : ¬ Entry.BaseAddress = Start)
    (h2 : ¬ Entry.EndAddress = RangeEnd) (h4 : ¬ s.mMapDepth + 1 < 6) :
    ∃ e, CoreConvertPagesEx.pull s pre Entry post Start RangeEnd = Except.error e := by
  unfold CoreConvertPagesEx.pull
  rw [if_neg h1, if_neg h2]
  have a2 : ASSERT.mapDepth (s.mMapDepth + 1) = Except.error Halt.stackOverflow := by
    unfold ASSERT.mapDepth MAX_MAP_DEPTH; rw [if_neg h4]; rfl
  dsimp only
  rw [a2]
  cases ASSERT (decide (Entry.BaseAddress < sub64 Start 1)) with
  | error e => exact ⟨e, by simp only [bind, Except.bind]⟩
  | ok u => exact ⟨Halt.stackOverflow, by simp only [bind, Except.bind]⟩

theorem pull_spec (s : MemState) (pre : List EFI_GCD_MAP_ENTRY) (Entry : EFI_GCD_MAP_ENTRY)
    (post : List EFI_GCD_MAP_ENTRY) (Start RangeEnd : Nat)
    (hmap : s.mGcdMemorySpaceMap = pre ++ Entry :: post) (hs : Store s.mGcdMemorySpaceMap)
    (hb : Entry.BaseAddress ≤ Start) (hr : RangeOk Start RangeEnd)
    (he : RangeEnd ≤ Entry.EndAddress) :
    (s.mMapDepth + 1 < 6 →
      ∃ s1 cur, CoreConvertPagesEx.pull s pre Entry post Start RangeEnd = Except.ok (s1, cur)) ∧
    (∀ s1 cur, CoreConvertPagesEx.pull s pre Entry post Start RangeEnd = Except.ok (s1, cur) →
      PullSpec s Entry Start RangeEnd s1 cur) := by
  obtain ⟨hS, hE, hSE, hEM⟩ := hr
  have hperm : (pre ++ Entry :: post).Perm (Entry :: (pre ++ post)) := List.perm_middle
  rw [hmap] at hs
  have hs' : Store (Entry :: (pre ++ post)) := Store_perm hperm hs
  obtain ⟨hw1, hw2, hw3, hw4⟩ := hs'.1.1 Entry (List.mem_cons_self _ _)
  have hte : Entry.EndAddress < 18446744073709551615 := hs'.2 Entry (List.mem_cons_self _ _)
  have hadd : add64 RangeEnd 1 = RangeEnd + 1 := by unfold add64; omega
  have hadde : add64 Entry.EndAddress 1 = Entry.EndAddress + 1 := by unfold add64; omega
  -- transfer of a carve result along the two permutations
  have transfer : ∀ (rep l1 : List EFI_GCD_MAP_ENTRY) (s1 : MemState) (cur : EFI_GCD_MAP_ENTRY),
      s1.mGcdMemorySpaceMap = l1 → l1.Perm (rep ++ (pre ++ post)) →
      (∀ c ∈ rep, WellFormed c ∧ entryProps c = entryProps Entry ∧
        Entry.BaseAddress ≤ c.BaseAddress ∧ c.EndAddress ≤ Entry.EndAddress ∧
        (RangeEnd < c.BaseAddress ∨ c.EndAddress < Start)) →
      rep.Pairwise Disjoint →
      (∀ a, Entry.BaseAddress ≤ a → a ≤ Entry.EndAddress → ¬ (Start ≤ a ∧ a ≤ RangeEnd) →
        ∃ c ∈ rep, Covers c a) →
      totalSize rep + (RangeEnd + 1 - Start) = entrySize Entry →
      (cur.Attributes = Entry.Attributes ∧ cur.Capabilities = Entry.Capabilities ∧
        cur.EfiMemoryType = Entry.EfiMemoryType) →
      s.mFreeMemoryMapEntryList ≤ s1.mFreeMemoryMapEntryList →
      s.mMapDepth ≤ s1.mMapDepth → s1.mMapDepth ≤ s.mMapDepth + 1 →
      s1.mMemoryMapKey = s.mMemoryMapKey → Frame s s1 →
      PullSpec s Entry Start RangeEnd s1 cur := by
    intro rep l1 s1 cur hl1 hp1 h1 h2 h3 h4 h5 h6 h7 h8 h9 h10
    obtain ⟨c1, c2, c3, c4⟩ := carve_spec Entry (pre ++ post) rep Start RangeEnd hs' hb
      (Nat.le_of_lt hSE) he h1 h2 h3 h4
    refine ⟨?_, ?_, ?_, ?_, h5, h6, h7, h8, h9, h10⟩
    · rw [hl1]; exact Store_perm hp1.symm c1
    · rw [hl1]; exact fun x hx => c2 x (hp1.subset hx)
    · intro a p
      rw [hl1, hmap, Has_perm hp1, Has_perm hperm, c3]
    · rw [hl1, hmap, totalSize_perm hp1, totalSize_perm hperm, c4]
  by_cases h1 : Entry.BaseAddress = Start
  · -- clip start
    rw [pull_start s pre Entry post Start RangeEnd h1, hadd, hadde]
    by_cases h2 : RangeEnd + 1 = Entry.EndAddress + 1
    · rw [if_pos h2]
      refine ⟨fun _ => ⟨_, _, rfl⟩, ?_⟩
      intro s1 cur h
      obtain ⟨rfl, rfl⟩ := Prod.mk.inj (Except.ok.inj h)
      refine transfer [] _ _ _ rfl (by simp) (by simp) (by simp) ?_ ?_ ⟨rfl, rfl, rfl⟩
        (by dsimp only; split <;> omega) (le_refl _) (by dsimp only; omega) rfl
        ⟨rfl, rfl, rfl, rfl, rfl, rfl⟩
      · intro a ha1 ha2 ha3
        omega
      · simp only [totalSize_nil, entrySize]
        omega
    · rw [if_neg h2]
      refine ⟨fun _ => ⟨_, _, rfl⟩, ?_⟩
      intro s1 cur h
      obtain ⟨rfl, rfl⟩ := Prod.mk.inj (Except.ok.inj h)
      refine transfer [{ Entry with BaseAddress := RangeEnd + 1 }] _ _ _ rfl
        (by simp) ?_ (List.pairwise_singleton _ _) ?_ ?_
        ⟨rfl, rfl, rfl⟩ (le_refl _) (le_refl _) (by dsimp only; omega) rfl
        ⟨rfl, rfl, rfl, rfl, rfl, rfl⟩
      · intro c hc
        simp only [List.mem_singleton] at hc
        subst hc
        refine ⟨⟨?_, hw2, ?_, hw4⟩, rfl, ?_, le_refl _, Or.inl ?_⟩ <;> dsimp only <;> omega
      · intro a ha1 ha2 ha3
        exact ⟨_, List.mem_singleton_self _, by unfold Covers; dsimp only; omega⟩
      · simp only [totalSize_cons, totalSize_nil, entrySize]
        omega
  · have hlt : Entry.BaseAddress < Start := by omega
    have hsub : sub64 Start 1 = Start - 1 := by unfold sub64; omega
    have hadds : add64 (Start - 1) 1 = Start - 1 + 1 := by unfold add64; omega
    by_cases h2 : Entry.EndAddress = RangeEnd
    · -- clip end
      have h3 : ¬ Entry.BaseAddress = Start - 1 + 1 := by omega
      rw [pull_end s pre Entry post Start RangeEnd h1 h2, hsub, hadds, if_neg h3]
      refine ⟨fun _ => ⟨_, _, rfl⟩, ?_⟩
      intro s1 cur h
      obtain ⟨rfl, rfl⟩ := Prod.mk.inj (Except.ok.inj h)
      refine transfer [{ Entry with EndAddress := Start - 1 }] _ _ _ rfl
        (by simp) ?_ (List.pairwise_singleton _ _) ?_ ?_
        ⟨rfl, rfl, rfl⟩ (le_refl _) (le_refl _) (by dsimp only; omega) rfl
        ⟨rfl, rfl, rfl, rfl, rfl, rfl⟩
      · intro c hc
        simp only [List.mem_singleton] at hc
        subst hc
        refine ⟨⟨hw1, ?_, ?_, ?_⟩, rfl, le_refl _, ?_, Or.inr ?_⟩ <;> dsimp only <;> omega
      · intro a ha1 ha2 ha3
        exact ⟨_, List.mem_singleton_self _, by unfold Covers; dsimp only; omega⟩
      · simp only [totalSize_cons, totalSize_nil, entrySize]
        omega
    · -- pull it out of the center
      have h3 : Entry.BaseAddress < sub64 Start 1 := by rw [hsub]; omega
      have h4 : ¬ add64 RangeEnd 1 = add64 Entry.EndAddress 1 := by rw [hadd, hadde]; omega
      by_cases hd : s.mMapDepth + 1 < 6
      · rw [pull_center s pre Entry post Start RangeEnd h1 h2 h3 hd h4, hsub, hadd]
        refine ⟨fun _ => ⟨_, _, rfl⟩, ?_⟩
        intro s1 cur h
        obtain ⟨rfl, rfl⟩ := Prod.mk.inj (Except.ok.inj h)
        refine transfer [{ Entry with EndAddress := Start - 1 },
            { Entry with BaseAddress := RangeEnd + 1, FromPages := false,
                         StackSlot := some s.mMapDepth }] _ _ _ rfl
          ?_ ?_ ?_ ?_ ?_ ⟨rfl, rfl, rfl⟩ (le_refl _) (by dsimp only; omega) (le_refl _) rfl
          ⟨rfl, rfl, rfl, rfl, rfl, rfl⟩
        · refine (List.perm_append_comm).trans ?_
          simp only [List.singleton_append, List.cons_append, List.nil_append]
          refine (List.Perm.cons _ List.perm_middle).trans ?_
          exact List.Perm.swap _ _ _
        · intro c hc
          simp only [List.mem_cons, List.mem_singleton, List.not_mem_nil, or_false] at hc
          rcases hc with rfl | rfl
          · refine ⟨⟨hw1, ?_, ?_, ?_⟩, rfl, le_refl _, ?_, Or.inr ?_⟩ <;> dsimp only <;> omega
          · refine ⟨⟨?_, hw2, ?_, hw4⟩, rfl, ?_, le_refl _, Or.inl ?_⟩ <;> dsimp only <;> omega
        · simp only [List.pairwise_cons, List.mem_singleton, forall_eq, List.not_mem_nil,
            false_implies, implies_true, List.Pairwise.nil, and_true]
          unfold Disjoint
          dsimp only
          omega
        · intro a ha1 ha2 ha3
          by_cases hc : a < Start
          · exact ⟨_, List.mem_cons_self _ _, by unfold Covers; dsimp only; omega⟩
          · exact ⟨_, List.mem_cons_of_mem _ (List.mem_singleton_self _),
              by unfold Covers; dsimp only; omega⟩
        · simp only [totalSize_cons, totalSize_nil, entrySize]
          omega
      · obtain ⟨e, hpe⟩ := pull_center_depth s pre Entry post Start RangeEnd h1 h2 hd
        rw [hpe]
        refine ⟨fun h => absurd h hd, ?_⟩
        intro s1 cur h
        cases h

/-! ## One pass of the conversion loop -/

theorem updateStatistics_frame (s : MemState) (Start N OldType NewType : Nat) :
    (updateStatistics s Start N OldType NewType).mGcdMemorySpaceMap = s.mGcdMemorySpaceMap ∧
    (updateStatistics s Start N OldType NewType).mMapDepth = s.mMapDepth ∧
    (updateStatistics s Start N OldType NewType).mFreeMemoryMapEntryList =
      s.mFreeMemoryMapEntryList ∧
    (updateStatistics s Start N OldType NewType).mFreeMapStack = s.mFreeMapStack ∧
    (updateStatistics s Start N OldType NewType).mMemoryMapKey = s.mMemoryMapKey := by
  unfold updateStatistics
  dsimp only
  split_ifs <;> exact ⟨rfl, rfl, rfl, rfl, rfl⟩

theorem step_spec (env : Platform) (s : MemState) (pre : List EFI_GCD_MAP_ENTRY)
    (Entry : EFI_GCD_MAP_ENTRY) (post : List EFI_GCD_MAP_ENTRY) (Start RangeEnd N : Nat)
    (ct : Bool) (nt : Nat) (ca : Bool) (na nc : Nat)
    (hmap : s.mGcdMemorySpaceMap = pre ++ Entry :: post) (hs : Store s.mGcdMemorySpaceMap)
    (hb : Entry.BaseAddress ≤ Start) (hr : RangeOk Start RangeEnd)
    (he : RangeEnd ≤ Entry.EndAddress) :
    (s.mMapDepth + 2 < 6 →
      ∃ s2, CoreConvertPagesEx.step env s pre Entry post Start RangeEnd N ct nt ca na nc =
        Except.ok s2) ∧
    (∀ s2, CoreConvertPagesEx.step env s pre Entry post Start RangeEnd N ct nt ca na nc =
        Except.ok s2 → StepSpec env s Entry Start RangeEnd ct nt ca na nc s2) := by
  -- the state after the statistics update
  obtain ⟨u1, u2, u3, u4, u5⟩ := updateStatistics_frame s Start N Entry.EfiMemoryType nt
  have key : ∀ s0 : MemState, s0.mGcdMemorySpaceMap = s.mGcdMemorySpaceMap →
      s0.mMapDepth = s.mMapDepth → s0.mFreeMemoryMapEntryList = s.mFreeMemoryMapEntryList →
      s0.mFreeMapStack = s.mFreeMapStack →
      (s.mMapDepth + 2 < 6 →
        ∃ s2, (CoreConvertPagesEx.pull s0 pre Entry post Start RangeEnd >>= fun r =>
          if (!env.FreedMemoryGuardEnabled || !ct ||
              (if ct then nt else r.2.EfiMemoryType) != EfiConventionalMemory) = true then
            CoreAddRange r.1 (if ct then nt else r.2.EfiMemoryType) Entry.GcdMemoryType Start
              RangeEnd
              (if ct then r.2.Attributes else if ca then na else r.2.Attributes)
              (if ct then r.2.Capabilities else if ca then Entry.Capabilities else nc)
              Entry.ImageHandle
          else pure r.1) = Except.ok s2) ∧
      (∀ s2, (CoreConvertPagesEx.pull s0 pre Entry post Start RangeEnd >>= fun r =>
          if (!env.FreedMemoryGuardEnabled || !ct ||
              (if ct then nt else r.2.EfiMemoryType) != EfiConventionalMemory) = true then
            CoreAddRange r.1 (if ct then nt else r.2.EfiMemoryType) Entry.GcdMemoryType Start
              RangeEnd
              (if ct then r.2.Attributes else if ca then na else r.2.Attributes)
              (if ct then r.2.Capabilities else if ca then Entry.Capabilities else nc)
              Entry.ImageHandle
          else pure r.1) = Except.ok s2 → StepSpec env s Entry Start RangeEnd ct nt ca na nc s2) := by
    intro s0 e1 e2 e3 e4
    obtain ⟨pex, psp⟩ := pull_spec s0 pre Entry post Start RangeEnd (e1.trans hmap)
      (e1 ▸ hs) hb hr he
    have hS := hr.1
    have hSE := hr.2.2.1
    -- what follows a successful pull
    have after : ∀ s1 cur, CoreConvertPagesEx.pull s0 pre Entry post Start RangeEnd =
        Except.ok (s1, cur) →
        (s.mMapDepth + 2 < 6 → ∃ s2,
          (if (!env.FreedMemoryGuardEnabled || !ct ||
              (if ct then nt else cur.EfiMemoryType) != EfiConventionalMemory) = true then
            CoreAddRange s1 (if ct then nt else cur.EfiMemoryType) Entry.GcdMemoryType Start
              RangeEnd
              (if ct then cur.Attributes else if ca then na else cur.Attributes)
              (if ct then cur.Capabilities else if ca then Entry.Capabilities else nc)
              Entry.ImageHandle
          else pure s1) = Except.ok s2) ∧
        (∀ s2, (if (!env.FreedMemoryGuardEnabled || !ct ||
              (if ct then nt else cur.EfiMemoryType) != EfiConventionalMemory) = true then
            CoreAddRange s1 (if ct then nt else cur.EfiMemoryType) Entry.GcdMemoryType Start
              RangeEnd
              (if ct then cur.Attributes else if ca then na else cur.Attributes)
              (if ct then cur.Capabilities else if ca then Entry.Capabilities else nc)
              Entry.ImageHandle
          else pure s1) = Except.ok s2 →
          StepSpec env s Entry Start RangeEnd ct nt ca na nc s2) := by
      intro s1 cur hp
      obtain ⟨q1, q2, q3, q4, ⟨q5a, q5b, q5c⟩, q6, q7, q8, q9, q10⟩ := psp s1 cur hp
      rw [e1] at q3 q4
      rw [e3] at q6
      rw [e2] at q7 q8
      have hfs : s1.mFreeMapStack = s.mFreeMapStack := q10.1.trans e4
      rw [q5a, q5b, q5c]
      by_cases hre : (!env.FreedMemoryGuardEnabled || !ct ||
              (if ct then nt else Entry.EfiMemoryType) != EfiConventionalMemory) = true
      · have hre' : readds env ct nt = true := by
          unfold readds
          cases ct
          · simp
          · simpa using hre
        rw [if_pos hre]
        obtain ⟨r1, r2, r3, r4⟩ := addRangeResult_spec s1
          (if ct then nt else Entry.EfiMemoryType) Entry.GcdMemoryType Start RangeEnd
          (if ct then Entry.Attributes else if ca then na else Entry.Attributes)
          (if ct then Entry.Capabilities else if ca then Entry.Capabilities else nc)
          Entry.ImageHandle q1 hr q2
        constructor
        · intro hd
          exact ⟨_, (CoreAddRange_eq_ok _ _ _ _ _ _ _ _ _).2 ⟨⟨hS, hSE, by omega⟩, rfl⟩⟩
        · intro s2 h2
          obtain ⟨_, rfl⟩ := (CoreAddRange_eq_ok _ _ _ _ _ _ _ _ _).1 h2
          refine ⟨r1, ?_, ?_, le_trans q6 r4, ?_, ?_, ?_⟩
          · intro a p
            rw [r2, q3]
            simp only [hre', true_and, convertedProps]
          · rw [r3, if_pos hre']
            omega
          · simp only [addRangeResult]; omega
          · simp only [addRangeResult]; omega
          · simp only [addRangeResult]; exact hfs
      · have hre' : readds env ct nt = false := by
          unfold readds
          cases ct
          · simp at hre
          · simpa using hre
        rw [if_neg hre]
        constructor
        · intro _
          exact ⟨s1, rfl⟩
        · intro s2 h2
          obtain rfl : s1 = s2 := Except.ok.inj h2
          refine ⟨q1, ?_, ?_, q6, q7, by omega, hfs⟩
          · intro a p
            rw [q3]
            simp only [hre', Bool.false_eq_true, false_and, or_false]
          · rw [hre']
            simp only [Bool.false_eq_true, if_false]
            exact q4
    constructor
    · intro hd
      obtain ⟨s1, cur, hp⟩ := pex (by omega)
      obtain ⟨s2, h2⟩ := (after s1 cur hp).1 hd
      exact ⟨s2, (bind_eq_ok _ _ _).2 ⟨(s1, cur), hp, h2⟩⟩
    · intro s2 h2
      obtain ⟨⟨s1, cur⟩, hp, h3⟩ := (bind_eq_ok _ _ _).1 h2
      exact (after s1 cur hp).2 s2 h3
  unfold CoreConvertPagesEx.step
  cases ct
  · exact key s rfl rfl rfl rfl
  · exact key _ u1 u2 u3 u4

/-! ## Moving a descriptor from the stack to the heap keeps the store -/

theorem Store_strip (l : List EFI_GCD_MAP_ENTRY) : Store (l.map strip) ↔ Store l := by
  unfold Store StoreOk BelowTop
  simp only [List.mem_map, forall_exists_index, and_imp, forall_apply_eq_imp_iff₂,
    List.pairwise_map]
  exact Iff.rfl

theorem Has_strip (l : List EFI_GCD_MAP_ENTRY) (a : Nat) (p : Nat × Nat × Nat × Nat) :
    Has (l.map strip) a p ↔ Has l a p := by
  unfold Has
  simp only [List.mem_map, exists_exists_and_eq_and]
  exact Iff.rfl

theorem totalSize_strip (l : List EFI_GCD_MAP_ENTRY) : totalSize (l.map strip) = totalSize l := by
  unfold totalSize
  rw [List.map_map]
  rfl

theorem FlagPerm_refl (l : List EFI_GCD_MAP_ENTRY) : FlagPerm l l := List.Perm.refl _

theorem FlagPerm_trans {l l1 l2 : List EFI_GCD_MAP_ENTRY} (h : FlagPerm l l1)
    (h1 : FlagPerm l1 l2) : FlagPerm l l2 := List.Perm.trans h h1

theorem FlagPerm_symm {l l1 : List EFI_GCD_MAP_ENTRY} (h : FlagPerm l l1) : FlagPerm l1 l :=
  List.Perm.symm h

theorem Store_flagPerm {l l1 : List EFI_GCD_MAP_ENTRY} (h : FlagPerm l l1) (hs : Store l) :
    Store l1 :=
  (Store_strip l1).1 (Store_perm h ((Store_strip l).2 hs))

theorem Has_flagPerm {l l1 : List EFI_GCD_MAP_ENTRY} (h : FlagPerm l l1) (a : Nat)
    (p : Nat × Nat × Nat × Nat) : Has l a p ↔ Has l1 a p := by
  rw [← Has_strip l, ← Has_strip l1]
  exact Has_perm h a p

theorem totalSize_flagPerm {l l1 : List EFI_GCD_MAP_ENTRY} (h : FlagPerm l l1) :
    totalSize l = totalSize l1 := by
  rw [← totalSize_strip l, ← totalSize_strip l1]
  exact totalSize_perm h

theorem length_flagPerm {l l1 : List EFI_GCD_MAP_ENTRY} (h : FlagPerm l l1) :
    l.length = l1.length := by
  have := h.length_eq
  simpa using this

theorem insertSorted_perm (e : EFI_GCD_MAP_ENTRY) (l : List EFI_GCD_MAP_ENTRY) :
    (insertSorted e l).Perm (e :: l) := by
  induction l with
  | nil => exact List.Perm.refl _
  | cons x rest ih =>
    unfold insertSorted
    split
    · exact List.Perm.refl _
    · exact (List.Perm.cons x ih).trans (List.Perm.swap e x rest)

theorem relink_flagPerm (pre post : List EFI_GCD_MAP_ENTRY) (Slot : EFI_GCD_MAP_ENTRY) :
    FlagPerm (pre ++ Slot :: post)
      (insertSorted { Slot with FromPages := true, StackSlot := none } (pre ++ post)) := by
  unfold FlagPerm
  refine List.Perm.trans ?_ ((insertSorted_perm _ _).map strip).symm
  rw [List.map_cons, List.map_append, List.map_append, List.map_cons]
  exact List.perm_middle

/-! ## The drain of the descriptor stack -/

theorem drainLoop_zero (Allocate : MemState → Except Halt (Bool × MemState)) (s s1 : MemState) :
    CoreFreeMemoryMapStack.loop Allocate 0 s = Except.ok s1 ↔ s.mMapDepth = 0 ∧ s1 = s := by
  unfold CoreFreeMemoryMapStack.loop
  by_cases h : s.mMapDepth = 0
  · simp [h, pure, Except.pure, eq_comm]
  · simp [h, throw, throwThe, MonadExceptOf.throw]

theorem drainLoop_done (Allocate : MemState → Except Halt (Bool × MemState)) (fuel : Nat)
    (s : MemState) (h : s.mMapDepth = 0) :
    CoreFreeMemoryMapStack.loop Allocate fuel s = Except.ok s := by
  cases fuel with
  | zero => exact (drainLoop_zero Allocate s s).2 ⟨h, rfl⟩
  | succ n =>
    unfold CoreFreeMemoryMapStack.loop
    simp [h, pure, Except.pure]

theorem drainLoop_succ (Allocate : MemState → Except Halt (Bool × MemState)) (fuel : Nat)
    (s s1 : MemState) (h : s.mMapDepth ≠ 0) :
    CoreFreeMemoryMapStack.loop Allocate (fuel + 1) s = Except.ok s1 ↔
      ∃ s0, Allocate s = Except.ok (true, s0) ∧
        CoreFreeMemoryMapStack.loop Allocate fuel (CoreFreeMemoryMapStack.relink s0) =
          Except.ok s1 := by
  rw [CoreFreeMemoryMapStack.loop, if_pos h]
  cases ha : Allocate s with
  | error e => simp [bind, Except.bind]
  | ok r =>
    obtain ⟨b, s0⟩ := r
    cases b with
    | false => simp [bind, Except.bind, ASSERT, throw, throwThe, MonadExceptOf.throw]
    | true =>
      simp only [bind, Except.bind, ASSERT, pure, Except.pure, if_true, Except.ok.injEq,
        Prod.mk.injEq, true_and, exists_eq_left']
      unfold CoreFreeMemoryMapStack.relink
      cases hf : findFirst (inStackSlot (s0.mMapDepth - 1)) s0.mGcdMemorySpaceMap with
      | none => rfl
      | some r => rfl

theorem relink_spec (s : MemState) :
    FlagPerm s.mGcdMemorySpaceMap (CoreFreeMemoryMapStack.relink s).mGcdMemorySpaceMap ∧
    (CoreFreeMemoryMapStack.relink s).mMapDepth = s.mMapDepth - 1 ∧
    s.mFreeMemoryMapEntryList ≤ (CoreFreeMemoryMapStack.relink s).mFreeMemoryMapEntryList ∧
    (CoreFreeMemoryMapStack.relink s).mFreeMapStack = s.mFreeMapStack := by
  unfold CoreFreeMemoryMapStack.relink
  cases hf : findFirst (inStackSlot (s.mMapDepth - 1)) s.mGcdMemorySpaceMap with
  | none => exact ⟨FlagPerm_refl _, rfl, Nat.le_succ _, rfl⟩
  | some r =>
    obtain ⟨pre, Slot, post⟩ := r
    obtain ⟨h1, _, _⟩ := findFirst_some hf
    refine ⟨?_, rfl, le_refl _, rfl⟩
    dsimp only
    rw [h1]
    exact relink_flagPerm pre post Slot

theorem AllocateMemoryMapEntryWith_queued (env : Platform)
    (f : MemState → Except Halt MemState) (fuel : Nat) (s : MemState)
    (h : s.mFreeMemoryMapEntryList ≠ 0) :
    AllocateMemoryMapEntryWith env f fuel s =
      Except.ok (true, { s with mFreeMemoryMapEntryList := s.mFreeMemoryMapEntryList - 1 }) := by
  unfold AllocateMemoryMapEntryWith
  rw [if_neg h]
  simp only [bind, Except.bind, pure, Except.pure, Bool.not_true, Bool.false_eq_true, if_false,
    ASSERT, ne_eq, h, not_false_eq_true, decide_True, if_true]

/-- The drain loop when the free list holds a descriptor for every stack slot: it ends with
an empty stack, the store keeps its descriptors, and no descriptor storage is allocated. -/
theorem drainLoop_queued (env : Platform) (f : MemState → Except Halt MemState) (k : Nat) :
    ∀ (fuel : Nat) (s : MemState), s.mMapDepth ≤ s.mFreeMemoryMapEntryList →
      (s.mMapDepth ≤ fuel →
        ∃ s1, CoreFreeMemoryMapStack.loop (AllocateMemoryMapEntryWith env f k) fuel s =
          Except.ok s1) ∧
      (∀ s1, CoreFreeMemoryMapStack.loop (AllocateMemoryMapEntryWith env f k) fuel s =
          Except.ok s1 →
        FlagPerm s.mGcdMemorySpaceMap s1.mGcdMemorySpaceMap ∧ s1.mMapDepth = 0 ∧
        s.mFreeMemoryMapEntryList ≤ s1.mFreeMemoryMapEntryList + s.mMapDepth ∧
        s1.mFreeMapStack = s.mFreeMapStack) := by
  intro fuel
  induction fuel with
  | zero =>
    intro s hq
    constructor
    · intro hd
      exact ⟨s, (drainLoop_zero _ s s).2 ⟨by omega, rfl⟩⟩
    · intro s1 h1
      obtain ⟨h2, rfl⟩ := (drainLoop_zero _ s s1).1 h1
      exact ⟨FlagPerm_refl _, h2, by omega, rfl⟩
  | succ n ih =>
    intro s hq
    by_cases hd : s.mMapDepth = 0
    · rw [drainLoop_done _ _ s hd]
      constructor
      · intro _
        exact ⟨s, rfl⟩
      · intro s1 h1
        obtain rfl : s = s1 := Except.ok.inj h1
        exact ⟨FlagPerm_refl _, hd, by omega, rfl⟩
    · have hf : s.mFreeMemoryMapEntryList ≠ 0 := by omega
      have ha := AllocateMemoryMapEntryWith_queued env f k s hf
      obtain ⟨r1, r2, r3, r4⟩ := relink_spec
        { s with mFreeMemoryMapEntryList := s.mFreeMemoryMapEntryList - 1 }
      dsimp only at r1 r2 r3 r4
      have hq1 : (CoreFreeMemoryMapStack.relink
            { s with mFreeMemoryMapEntryList := s.mFreeMemoryMapEntryList - 1 }).mMapDepth ≤
          (CoreFreeMemoryMapStack.relink
            { s with mFreeMemoryMapEntryList := s.mFreeMemoryMapEntryList - 1
              }).mFreeMemoryMapEntryList := by
        rw [r2]; omega
      obtain ⟨e1, e2⟩ := ih _ hq1
      constructor
      · intro hfu
        obtain ⟨s1, h1⟩ := e1 (by rw [r2]; omega)
        exact ⟨s1, (drainLoop_succ _ n s s1 hd).2 ⟨_, ha, h1⟩⟩
      · intro s1 h1
        obtain ⟨s0, h0, h2⟩ := (drainLoop_succ _ n s s1 hd).1 h1
        rw [ha] at h0
        obtain rfl : _ = s0 := (Prod.mk.inj (Except.ok.inj h0)).2
        obtain ⟨p1, p2, p3, p4⟩ := e2 s1 h2
        rw [r2] at p3
        exact ⟨FlagPerm_trans r1 p1, p2, by omega, p4.trans r4⟩

theorem CoreFreeMemoryMapStack_busy (env : Platform) (fuel : Nat) (s : MemState)
    (h : s.mFreeMapStack ≠ 0) : CoreFreeMemoryMapStack env fuel s = Except.ok s := by
  cases fuel with
  | zero => unfold CoreFreeMemoryMapStack; rw [if_pos h]; rfl
  | succ n => unfold CoreFreeMemoryMapStack; rw [if_pos h]; rfl

theorem CoreFreeMemoryMapStack_succ (env : Platform) (fuel : Nat) (s s1 : MemState)
    (h : s.mFreeMapStack = 0) :
    CoreFreeMemoryMapStack env (fuel + 1) s = Except.ok s1 ↔
      ∃ s0, CoreFreeMemoryMapStack.loop
          (AllocateMemoryMapEntryWith env (CoreFreeMemoryMapStack env fuel) fuel) fuel
          { s with mFreeMapStack := s.mFreeMapStack + 1 } = Except.ok s0 ∧
        s1 = { s0 with mFreeMapStack := s0.mFreeMapStack - 1 } := by
  rw [CoreFreeMemoryMapStack, if_neg (by simp [h])]
  dsimp only
  rw [bind_eq_ok]
  constructor
  · rintro ⟨s0, h0, h1⟩
    exact ⟨s0, h0, (Except.ok.inj h1).symm⟩
  · rintro ⟨s0, h0, rfl⟩
    exact ⟨s0, h0, rfl⟩

theorem CoreFreeMemoryMapStack_zero (env : Platform) (s s1 : MemState)
    (h : s.mFreeMapStack = 0) : CoreFreeMemoryMapStack env 0 s ≠ Except.ok s1 := by
  unfold CoreFreeMemoryMapStack
  simp [h, throw, throwThe, MonadExceptOf.throw]

/-- CoreFreeMemoryMapStack when the free list holds a descriptor for every stack slot. -/
theorem CoreFreeMemoryMapStack_queued (env : Platform) (fuel : Nat) (s : MemState)
    (hq : s.mMapDepth ≤ s.mFreeMemoryMapEntryList) :
    (s.mMapDepth < fuel → ∃ s1, CoreFreeMemoryMapStack env fuel s = Except.ok s1) ∧
    (∀ s1, CoreFreeMemoryMapStack env fuel s = Except.ok s1 →
      FlagPerm s.mGcdMemorySpaceMap s1.mGcdMemorySpaceMap ∧
      (s.mFreeMapStack = 0 → s1.mMapDepth = 0) ∧ s1.mMapDepth ≤ s.mMapDepth ∧
      s.mFreeMemoryMapEntryList + s1.mMapDepth ≤ s1.mFreeMemoryMapEntryList + s.mMapDepth ∧
      s1.mFreeMapStack = s.mFreeMapStack) := by
  by_cases hb : s.mFreeMapStack = 0
  · cases fuel with
    | zero =>
      constructor
      · intro h; omega
      · intro s1 h1
        exact absurd h1 (CoreFreeMemoryMapStack_zero env s s1 hb)
    | succ n =>
      obtain ⟨e1, e2⟩ := drainLoop_queued env (CoreFreeMemoryMapStack env n) n n
        { s with mFreeMapStack := s.mFreeMapStack + 1 } hq
      constructor
      · intro hfu
        obtain ⟨s0, h0⟩ := e1 (by dsimp only; omega)
        exact ⟨_, (CoreFreeMemoryMapStack_succ env n s _ hb).2 ⟨s0, h0, rfl⟩⟩
      · intro s1 h1
        obtain ⟨s0, h0, rfl⟩ := (CoreFreeMemoryMapStack_succ env n s s1 hb).1 h1
        obtain ⟨p1, p2, p3, p4⟩ := e2 s0 h0
        dsimp only at p1 p3 p4 ⊢
        refine ⟨p1, fun _ => p2, by omega, by omega, ?_⟩
        rw [p4]; omega
  · rw [CoreFreeMemoryMapStack_busy env fuel s hb]
    constructor
    · intro _
      exact ⟨s, rfl⟩
    · intro s1 h1
      obtain rfl : s = s1 := Except.ok.inj h1
      exact ⟨FlagPerm_refl _, fun h => absurd h hb, le_refl _, le_refl _, rfl⟩

/-! ## Parameter checks of CoreInternalAllocatePages and CoreInternalFreePages -/

/-- C13: CoreInternalAllocatePages returns EFI_INVALID_PARAMETER and leaves the whole state
(store, statistics, map key) and `*Memory` as they are, whenever the memory type is
EfiConventionalMemory, EfiPersistentMemory or EfiUnacceptedMemoryType, or lies in
[EfiMaxMemoryType, MEMORY_TYPE_OEM_RESERVED_MIN), or the allocate type is at least
MaxAllocateType, or the output pointer is NULL. -/
theorem CoreInternalAllocatePages_invalid_parameter (env : Platform) (fuel : Nat) (s : MemState)
    (AllocType MemoryType NumberOfPages : Nat) (Memory : Option Nat) (NeedGuard : Bool)
    (h : MemoryType = EfiConventionalMemory ∨ MemoryType = EfiPersistentMemory ∨
      MemoryType = EfiUnacceptedMemoryType ∨
      (EfiMaxMemoryType ≤ MemoryType ∧ MemoryType < env.MEMORY_TYPE_OEM_RESERVED_MIN) ∨
      AllocType ≥ MaxAllocateType ∨ Memory = none) :
    CoreInternalAllocatePages env fuel s AllocType MemoryType NumberOfPages Memory NeedGuard =
      Except.ok (EFI_STATUS.EFI_INVALID_PARAMETER, s, Memory) := by
  unfold CoreInternalAllocatePages
  by_cases h1 : AllocType ≥ MaxAllocateType
  · rw [if_pos h1]; rfl
  · rw [if_neg h1]
    by_cases h2 : (MemoryType ≥ EfiMaxMemoryType ∧ MemoryType < env.MEMORY_TYPE_OEM_RESERVED_MIN) ∨
        MemoryType = EfiConventionalMemory ∨ MemoryType = EfiPersistentMemory ∨
        MemoryType = EfiUnacceptedMemoryType
    · rw [if_pos h2]; rfl
    · rw [if_neg h2]
      have h3 : Memory = none := by
        rcases h with h | h | h | h | h | h
        · exact absurd (Or.inr (Or.inl h)) h2
        · exact absurd (Or.inr (Or.inr (Or.inl h))) h2
        · exact absurd (Or.inr (Or.inr (Or.inr h))) h2
        · exact absurd (Or.inl h) h2
        · exact absurd h h1
        · exact h
      subst h3
      rfl

/-- Witness of `CoreInternalAllocatePages_invalid_parameter`: a request for
EfiConventionalMemory on the initial state. -/
theorem CoreInternalAllocatePages_invalid_parameter_witness :
    (EfiConventionalMemory = EfiConventionalMemory ∨ EfiConventionalMemory = EfiPersistentMemory ∨
      EfiConventionalMemory = EfiUnacceptedMemoryType ∨
      (EfiMaxMemoryType ≤ EfiConventionalMemory ∧
        EfiConventionalMemory < plainPlatform.MEMORY_TYPE_OEM_RESERVED_MIN) ∨
      AllocateAnyPages ≥ MaxAllocateType ∨ some 0 = (none : Option Nat)) ∧
    CoreInternalAllocatePages plainPlatform 4 (initialState plainPlatform) AllocateAnyPages
        EfiConventionalMemory 1 (some 0) false =
      Except.ok (EFI_STATUS.EFI_INVALID_PARAMETER, initialState plainPlatform, some 0) :=
  ⟨Or.inl rfl, CoreInternalAllocatePages_invalid_parameter plainPlatform 4
    (initialState plainPlatform) AllocateAnyPages EfiConventionalMemory 1 (some 0) false
    (Or.inl rfl)⟩

/-! ## Masks -/

theorem testBit_not64 (a : Nat) (h : a < 18446744073709551616) (i : Nat) :
    (not64 a).testBit i = (decide (i < 64) && !a.testBit i) := by
  have e : not64 a = 2 ^ 64 - (a + 1) := by unfold not64; omega
  rw [e]
  exact Nat.testBit_two_pow_sub_succ (by omega) i

theorem sub64_lt (a b : Nat) : sub64 a b < 18446744073709551616 := by
  unfold sub64; omega

theorem add64_lt (a b : Nat) : add64 a b < 18446744073709551616 := by
  unfold add64; omega

theorem and_not64_self (x : Nat) (h : x < 18446744073709551616) : x &&& not64 x = 0 := by
  apply Nat.eq_of_testBit_eq
  intro i
  rw [Nat.testBit_and, testBit_not64 x h, Nat.zero_testBit]
  cases x.testBit i <;> simp

theorem roundPages_zero (Alignment : Nat) : roundPages 0 Alignment = 0 := by
  unfold roundPages
  have e : add64 0 (sub64 (EFI_SIZE_TO_PAGES Alignment) 1) = sub64 (EFI_SIZE_TO_PAGES Alignment) 1 := by
    have := sub64_lt (EFI_SIZE_TO_PAGES Alignment) 1
    unfold add64; omega
  rw [e]
  exact and_not64_self _ (sub64_lt _ _)

/-- Masking with the complement of `2 ^ k - 1` leaves a multiple of `2 ^ k`. -/
theorem and_not64_mask_dvd (x k : Nat) : 2 ^ k ∣ x &&& not64 (2 ^ k - 1) := by
  by_cases hk : k ≤ 64
  · have hlt : 2 ^ k - 1 < 18446744073709551616 := by
      have : 2 ^ k ≤ 2 ^ 64 := Nat.pow_le_pow_right (by norm_num) hk
      omega
    rw [Nat.dvd_iff_mod_eq_zero]
    apply Nat.eq_of_testBit_eq
    intro i
    rw [Nat.testBit_mod_two_pow, Nat.testBit_and, testBit_not64 _ hlt,
      Nat.testBit_two_pow_sub_one, Nat.zero_testBit]
    by_cases hi : i < k
    · simp [hi]
    · simp [hi]
  · have hlt : x &&& not64 (2 ^ k - 1) = 0 := by
      have h1 : not64 (2 ^ k - 1) = 0 := by
        have : 2 ^ 64 < 2 ^ k := Nat.pow_lt_pow_right (by norm_num) (by omega)
        unfold not64; omega
      rw [h1]; simp
    rw [hlt]; exact dvd_zero _

theorem sub64_pow_one (k : Nat) (hk : k ≤ 64) : sub64 (2 ^ k) 1 = 2 ^ k - 1 := by
  have h1 : 2 ^ k ≤ 2 ^ 64 := Nat.pow_le_pow_right (by norm_num) hk
  have h2 : 0 < 2 ^ k := Nat.two_pow_pos k
  unfold sub64; omega

theorem and_sub64_pow (x k : Nat) (hk : k ≤ 64) : x &&& sub64 (2 ^ k) 1 = x % 2 ^ k := by
  rw [sub64_pow_one k hk]
  exact Nat.and_pow_two_sub_one_eq_mod x k

/-! ## Requests for zero pages -/

theorem CoreFindFreePagesI_zero_pages (env : Platform) (s : MemState)
    (MaxAddress MinAddress NewType Alignment : Nat) (NeedGuard : Bool) :
    CoreFindFreePagesI env s MaxAddress MinAddress 0 NewType Alignment NeedGuard = 0 := by
  unfold CoreFindFreePagesI
  rw [if_pos (Or.inr rfl)]

theorem FindFreePages_zero_pages (env : Platform) (MaxAddress NewType Alignment : Nat)
    (NeedGuard : Bool) :
    ∀ (fuel : Nat) (s : MemState),
      (∀ r, FindFreePages env fuel s MaxAddress 0 NewType Alignment NeedGuard = Except.ok r →
        r.1 = 0) ∧
      (env.PromoteGuardedFreePages s = none → 0 < fuel →
        FindFreePages env fuel s MaxAddress 0 NewType Alignment NeedGuard = Except.ok (0, s)) := by
  intro fuel
  induction fuel with
  | zero =>
    intro s
    constructor
    · intro r h
      simp [FindFreePages, throw, throwThe, MonadExceptOf.throw] at h
    · intro _ h; omega
  | succ n ih =>
    intro s
    have e : FindFreePages env (n + 1) s MaxAddress 0 NewType Alignment NeedGuard =
        match env.PromoteGuardedFreePages s with
        | none => pure (0, s)
        | some s1 => FindFreePages env n s1 MaxAddress 0 NewType Alignment NeedGuard := by
      rw [FindFreePages]
      simp only [CoreFindFreePagesI_zero_pages, ite_self, ne_eq, not_true_eq_false, if_false]
    rw [e]
    constructor
    · intro r h
      cases hp : env.PromoteGuardedFreePages s with
      | none =>
        rw [hp] at h
        obtain rfl := Except.ok.inj h
        rfl
      | some s1 =>
        rw [hp] at h
        exact (ih s1).1 r h
    · intro hp _
      rw [hp]
      rfl

/-- C14, as stated, fails: a request for zero pages of a valid type with a valid pointer
returns EFI_NOT_FOUND at a fixed address and EFI_OUT_OF_RESOURCES in the two other
placement modes, never EFI_INVALID_PARAMETER. -/
theorem CoreInternalAllocatePages_zero_pages_not_invalid :
    CoreInternalAllocatePages plainPlatform 4
        { initialState plainPlatform with mGcdMemorySpaceMap := [convEntry 0 0x9FFF] }
        AllocateAddress EfiBootServicesData 0 (some 0x2000) false =
      Except.ok (EFI_STATUS.EFI_NOT_FOUND,
        { initialState plainPlatform with mGcdMemorySpaceMap := [convEntry 0 0x9FFF] },
        some 0x2000) ∧
    CoreInternalAllocatePages plainPlatform 4
        { initialState plainPlatform with mGcdMemorySpaceMap := [convEntry 0 0x9FFF] }
        AllocateAnyPages EfiBootServicesData 0 (some 0) false =
      Except.ok (EFI_STATUS.EFI_OUT_OF_RESOURCES,
        { initialState plainPlatform with mGcdMemorySpaceMap := [convEntry 0 0x9FFF] },
        some 0) ∧
    CoreInternalAllocatePages plainPlatform 4
        { initialState plainPlatform with mGcdMemorySpaceMap := [convEntry 0 0x9FFF] }
        AllocateMaxAddress EfiBootServicesData 0 (some 0xFFFFFFFF) false =
      Except.ok (EFI_STATUS.EFI_OUT_OF_RESOURCES,
        { initialState plainPlatform with mGcdMemorySpaceMap := [convEntry 0 0x9FFF] },
        some 0xFFFFFFFF) :=
  ⟨rfl, rfl, rfl⟩

/-- C14, amended: for a valid allocate type, an allocatable memory type and a non-NULL
pointer, a request for zero pages fails in every placement mode and leaves `*Memory` as it
is: at a fixed address it returns EFI_NOT_FOUND with the state unchanged; in the two other
modes every run that returns gives EFI_OUT_OF_RESOURCES, and it does return, with the
state unchanged, when no guarded free pages can be promoted. -/
theorem CoreInternalAllocatePages_zero_pages (env : Platform) (fuel : Nat) (s : MemState)
    (AllocType MemoryType v : Nat) (NeedGuard : Bool)
    (hA : AllocType < MaxAllocateType) (hT : allocatableType env MemoryType) :
    (AllocType = AllocateAddress →
      CoreInternalAllocatePages env fuel s AllocType MemoryType 0 (some v) NeedGuard =
        Except.ok (EFI_STATUS.EFI_NOT_FOUND, s, some v)) ∧
    (AllocType ≠ AllocateAddress →
      (∀ r, CoreInternalAllocatePages env fuel s AllocType MemoryType 0 (some v) NeedGuard =
          Except.ok r → r.1 = EFI_STATUS.EFI_OUT_OF_RESOURCES ∧ r.2.2 = some v) ∧
      (env.PromoteGuardedFreePages s = none → 0 < fuel →
        CoreInternalAllocatePages env fuel s AllocType MemoryType 0 (some v) NeedGuard =
          Except.ok (EFI_STATUS.EFI_OUT_OF_RESOURCES, s, some v))) := by
  unfold allocatableType at hT
  have hA' : ¬ AllocType ≥ MaxAllocateType := by omega
  constructor
  · intro hAA
    unfold CoreInternalAllocatePages
    rw [if_neg hA', if_neg hT]
    dsimp only
    rw [roundPages_zero]
    by_cases h1 : AllocType = AllocateAddress ∧
        v &&& sub64 (allocationAlignment env MemoryType) 1 ≠ 0
    · rw [if_pos h1]; rfl
    · rw [if_neg h1, if_pos ⟨hAA, Or.inl rfl⟩]; rfl
  · intro hAA
    have e : CoreInternalAllocatePages env fuel s AllocType MemoryType 0 (some v) NeedGuard =
        (FindFreePages env fuel s (if AllocType = AllocateMaxAddress then v
            else env.MAX_ALLOC_ADDRESS) 0 MemoryType (allocationAlignment env MemoryType)
            NeedGuard >>= fun r =>
          if r.1 = 0 then pure (EFI_STATUS.EFI_OUT_OF_RESOURCES, r.2, some v)
          else
            CoreInternalAllocatePages env fuel s AllocType MemoryType 0 (some v) NeedGuard) := by
      cases hf : FindFreePages env fuel s (if AllocType = AllocateMaxAddress then v
            else env.MAX_ALLOC_ADDRESS) 0 MemoryType (allocationAlignment env MemoryType)
            NeedGuard with
      | error err =>
        unfold CoreInternalAllocatePages
        rw [if_neg hA', if_neg hT]
        dsimp only
        rw [roundPages_zero, if_neg (fun h => hAA h.1), if_neg (fun h => hAA h.1),
          if_neg (fun h => hAA h.1), if_neg (fun h => hAA h.1), if_pos hAA, hf]
        rfl
      | ok r =>
        obtain ⟨a, s1⟩ := r
        have ha := (FindFreePages_zero_pages env _ MemoryType _ NeedGuard fuel s).1 _ hf
        dsimp only at ha
        subst ha
        simp only [bind, Except.bind, if_true]
        unfold CoreInternalAllocatePages
        rw [if_neg hA', if_neg hT]
        dsimp only
        rw [roundPages_zero, if_neg (fun h => hAA h.1), if_neg (fun h => hAA h.1),
          if_neg (fun h => hAA h.1), if_neg (fun h => hAA h.1), if_pos hAA, hf]
        simp only [bind, Except.bind]
        rw [if_pos ⟨hAA, trivial⟩]
    constructor
    · intro r hr
      rw [e] at hr
      obtain ⟨r1, h1, h2⟩ := (bind_eq_ok _ _ _).1 hr
      have ha := (FindFreePages_zero_pages env _ MemoryType _ NeedGuard fuel s).1 _ h1
      rw [if_pos ha] at h2
      obtain rfl := Except.ok.inj h2
      exact ⟨rfl, rfl⟩
    · intro hp hfu
      rw [e, (FindFreePages_zero_pages env _ MemoryType _ NeedGuard fuel s).2 hp hfu]
      rfl

/-- Witness of `CoreInternalAllocatePages_zero_pages`: BootServicesData anywhere on the
initial state. -/
theorem CoreInternalAllocatePages_zero_pages_witness :
    AllocateAnyPages < MaxAllocateType ∧ allocatableType plainPlatform EfiBootServicesData ∧
    CoreInternalAllocatePages plainPlatform 1 (initialState plainPlatform) AllocateAnyPages
        EfiBootServicesData 0 (some 0) false =
      Except.ok (EFI_STATUS.EFI_OUT_OF_RESOURCES, initialState plainPlatform, some 0) :=
  ⟨by decide, by unfold allocatableType; decide,
   ((CoreInternalAllocatePages_zero_pages plainPlatform 1 (initialState plainPlatform)
      AllocateAnyPages EfiBootServicesData 0 false (by decide)
      (by unfold allocatableType; decide)).2 (by decide)).2 rfl (by decide)⟩

/-! ## The windows of the special types -/

theorem hitsSpecialBin_iff (s : MemState) (MemoryType Start End : Nat) :
    hitsSpecialBin s MemoryType Start End = true ↔
      ∃ B, B < EfiMaxMemoryType ∧ MemoryType ≠ B ∧
        (s.mMemoryTypeStatistics.getD B default).Special = true ∧
        (s.mMemoryTypeStatistics.getD B default).NumberOfPages > 0 ∧
        ((Start ≥ (s.mMemoryTypeStatistics.getD B default).BaseAddress ∧
            Start ≤ (s.mMemoryTypeStatistics.getD B default).MaximumAddress) ∨
         (End ≥ (s.mMemoryTypeStatistics.getD B default).BaseAddress ∧
            End ≤ (s.mMemoryTypeStatistics.getD B default).MaximumAddress) ∨
         (Start < (s.mMemoryTypeStatistics.getD B default).BaseAddress ∧
            End > (s.mMemoryTypeStatistics.getD B default).MaximumAddress)) := by
  unfold hitsSpecialBin
  simp only [List.any_eq_true, List.mem_range, Bool.and_eq_true, Bool.or_eq_true,
    decide_eq_true_eq, bne_iff_ne, ne_eq]
  constructor
  · rintro ⟨B, hB, ⟨⟨h1, h2⟩, h3⟩, h4⟩
    exact ⟨B, hB, h1, h2, h3, by tauto⟩
  · rintro ⟨B, hB, h1, h2, h3, h4⟩
    exact ⟨B, hB, ⟨⟨h1, h2⟩, h3⟩, by tauto⟩

/-- The three tests of lines 1353-1369 find the windows that meet `[Start, End]`; every
window they find meets the range when its base is not above its maximum. -/
theorem hitsSpecialBin_meets (s : MemState) (MemoryType Start End : Nat) (h : Start ≤ End) :
    ((∃ B, meetsSpecialWindow s MemoryType Start End B) →
      hitsSpecialBin s MemoryType Start End = true) ∧
    ((∀ B, B < EfiMaxMemoryType → (s.mMemoryTypeStatistics.getD B default).BaseAddress ≤
        (s.mMemoryTypeStatistics.getD B default).MaximumAddress) →
      hitsSpecialBin s MemoryType Start End = true →
      ∃ B, meetsSpecialWindow s MemoryType Start End B) := by
  rw [hitsSpecialBin_iff]
  constructor
  · rintro ⟨B, hB, h1, h2, h3, a, a1, a2, a3, a4⟩
    refine ⟨B, hB, h1, h2, h3, ?_⟩
    omega
  · rintro hw ⟨B, hB, h1, h2, h3, h4⟩
    have := hw B hB
    refine ⟨B, hB, h1, h2, h3, ?_⟩
    rcases h4 with h4 | h4 | h4
    · exact ⟨Start, le_refl _, h, h4.1, h4.2⟩
    · exact ⟨End, h, le_refl _, h4.1, h4.2⟩
    · exact ⟨(s.mMemoryTypeStatistics.getD B default).BaseAddress, by omega, by omega,
        le_refl _, this⟩

/-- C15: for an at-fixed-address request of an allocatable type with a non-NULL pointer,
CoreInternalAllocatePages returns EFI_NOT_FOUND (state and `*Memory` unchanged) whenever
`[Start, End]` meets the statistics window of another type that is Special and has
NumberOfPages > 0; and for a request with `Start ≤ End` and windows with
BaseAddress ≤ MaximumAddress the three tests of the code are true exactly when the range
meets such a window. -/
theorem CoreInternalAllocatePages_special_window (env : Platform) (fuel : Nat) (s : MemState)
    (MemoryType NumberOfPages Start : Nat) (NeedGuard : Bool)
    (hT : allocatableType env MemoryType) :
    ((∃ B, meetsSpecialWindow s MemoryType Start
        (requestEnd env MemoryType NumberOfPages Start) B) →
      CoreInternalAllocatePages env fuel s AllocateAddress MemoryType NumberOfPages (some Start)
        NeedGuard = Except.ok (EFI_STATUS.EFI_NOT_FOUND, s, some Start)) ∧
    (∀ End, Start ≤ End →
      (∀ B, B < EfiMaxMemoryType → (s.mMemoryTypeStatistics.getD B default).BaseAddress ≤
        (s.mMemoryTypeStatistics.getD B default).MaximumAddress) →
      (hitsSpecialBin s MemoryType Start End = true ↔
        ∃ B, meetsSpecialWindow s MemoryType Start End B)) := by
  constructor
  · intro hm
    unfold allocatableType at hT
    unfold requestEnd at hm
    unfold CoreInternalAllocatePages
    rw [if_neg (by decide), if_neg hT]
    dsimp only
    by_cases h1 : AllocateAddress = AllocateAddress ∧
        Start &&& sub64 (allocationAlignment env MemoryType) 1 ≠ 0
    · rw [if_pos h1]; rfl
    · rw [if_neg h1]
      by_cases h2 : AllocateAddress = AllocateAddress ∧
          (roundPages NumberOfPages (allocationAlignment env MemoryType) = 0 ∨
            roundPages NumberOfPages (allocationAlignment env MemoryType) >
              RShiftU64 env.MAX_ALLOC_ADDRESS EFI_PAGE_SHIFT)
      · rw [if_pos h2]; rfl
      · rw [if_neg h2]
        by_cases h3 : AllocateAddress = AllocateAddress ∧
            (Start ≥ sub64 (add64 Start (LShiftU64
                (roundPages NumberOfPages (allocationAlignment env MemoryType))
                EFI_PAGE_SHIFT)) 1 ∨
              Start > env.MAX_ALLOC_ADDRESS ∨
              sub64 (add64 Start (LShiftU64
                (roundPages NumberOfPages (allocationAlignment env MemoryType))
                EFI_PAGE_SHIFT)) 1 > env.MAX_ALLOC_ADDRESS)
        · rw [if_pos h3]; rfl
        · rw [if_neg h3]
          have hle : Start ≤ sub64 (add64 Start (LShiftU64
                (roundPages NumberOfPages (allocationAlignment env MemoryType))
                EFI_PAGE_SHIFT)) 1 := by
            by_contra hc
            exact h3 ⟨rfl, Or.inl (by omega)⟩
          rw [if_pos ⟨rfl, (hitsSpecialBin_meets s MemoryType Start _ hle).1 hm⟩]
          rfl
  · intro End hle hw
    exact ⟨(hitsSpecialBin_meets s MemoryType Start End hle).2 hw,
      (hitsSpecialBin_meets s MemoryType Start End hle).1⟩

/-- Witness of `CoreInternalAllocatePages_special_window`: one page of BootServicesData at
0x1FF000, inside the window of EfiRuntimeServicesData. -/
theorem CoreInternalAllocatePages_special_window_witness :
    allocatableType plainPlatform EfiBootServicesData ∧
    meetsSpecialWindow specialBinState EfiBootServicesData 0x1FF000
      (requestEnd plainPlatform EfiBootServicesData 1 0x1FF000) EfiRuntimeServicesData ∧
    CoreInternalAllocatePages plainPlatform 4 specialBinState AllocateAddress
        EfiBootServicesData 1 (some 0x1FF000) false =
      Except.ok (EFI_STATUS.EFI_NOT_FOUND, specialBinState, some 0x1FF000) :=
  ⟨by unfold allocatableType; decide,
   ⟨by decide, by decide, by decide, by decide, 0x1FF000, by decide, by decide, by decide,
     by decide⟩,
   (CoreInternalAllocatePages_special_window plainPlatform 4 specialBinState
      EfiBootServicesData 1 0x1FF000 false (by unfold allocatableType; decide)).1
     ⟨EfiRuntimeServicesData, by decide, by decide, by decide, by decide, 0x1FF000, by decide,
       by decide, by decide, by decide⟩⟩

/-! ## CoreInternalFreePages: the two error returns -/

theorem findFirst_eq_none {p : EFI_GCD_MAP_ENTRY → Bool} {l : List EFI_GCD_MAP_ENTRY}
    (h : ∀ x ∈ l, p x = false) : findFirst p l = none := by
  cases hf : findFirst p l with
  | none => rfl
  | some r =>
    obtain ⟨pre, e, post⟩ := r
    obtain ⟨h1, h2, _⟩ := findFirst_some hf
    have := h e (by rw [h1]; simp)
    rw [h2] at this
    exact absurd this (by decide)

theorem allocationAlignment_pow (env : Platform) (k : Nat)
    (hk : env.RUNTIME_PAGE_ALLOCATION_GRANULARITY = 2 ^ k) (hk64 : k ≤ 64) (T : Nat) :
    ∃ j, j ≤ 64 ∧ allocationAlignment env T = 2 ^ j := by
  unfold allocationAlignment
  split
  · exact ⟨k, hk64, hk⟩
  · exact ⟨12, by norm_num, by norm_num [DEFAULT_PAGE_ALLOCATION_GRANULARITY]⟩

/-- C16, amended: CoreInternalFreePages returns EFI_NOT_FOUND when no descriptor covers the
address below its last byte (`BaseAddress <= Memory < EndAddress`, the test of line 1538),
and EFI_INVALID_PARAMETER when the address is not a multiple of the granularity required by
the type of the first descriptor in link order that covers it in this sense; in both cases
the whole state (store, statistics, map key) is unchanged and no type is stored. The runtime
granularity of the platform is a power of two. -/
theorem CoreInternalFreePages_errors (env : Platform) (fuel : Nat) (s : MemState)
    (Memory NumberOfPages k : Nat)
    (hk : env.RUNTIME_PAGE_ALLOCATION_GRANULARITY = 2 ^ k) (hk64 : k ≤ 64) :
    ((∀ e ∈ s.mGcdMemorySpaceMap, ¬ (e.BaseAddress ≤ Memory ∧ Memory < e.EndAddress)) →
      CoreInternalFreePages env fuel s Memory NumberOfPages =
        Except.ok (EFI_STATUS.EFI_NOT_FOUND, s, none)) ∧
    (∀ pre Entry post,
      findFirst (coversStart Memory) s.mGcdMemorySpaceMap = some (pre, Entry, post) →
      Memory % allocationAlignment env Entry.EfiMemoryType ≠ 0 →
      CoreInternalFreePages env fuel s Memory NumberOfPages =
        Except.ok (EFI_STATUS.EFI_INVALID_PARAMETER, s, none)) := by
  constructor
  · intro h
    have hn : findFirst (coversStart Memory) s.mGcdMemorySpaceMap = none := by
      apply findFirst_eq_none
      intro x hx
      have := h x hx
      unfold coversStart
      simp only [Bool.and_eq_false_iff, decide_eq_false_iff_not]
      omega
    unfold CoreInternalFreePages
    rw [hn]
    rfl
  · intro pre Entry post hf hm
    obtain ⟨j, hj, ej⟩ := allocationAlignment_pow env k hk hk64 Entry.EfiMemoryType
    unfold CoreInternalFreePages
    rw [hf]
    dsimp only
    rw [if_pos]
    · rfl
    · rw [ej, and_sub64_pow _ _ hj, ← ej]
      exact hm

/-- Witness of `CoreInternalFreePages_errors`: with a runtime granularity of 64 KiB the
address 0x1000 inside an EfiRuntimeServicesData descriptor is rejected. -/
theorem CoreInternalFreePages_errors_witness :
    runtime64KPlatform.RUNTIME_PAGE_ALLOCATION_GRANULARITY = 2 ^ 16 ∧ 16 ≤ 64 ∧
    0x1000 % allocationAlignment runtime64KPlatform EfiRuntimeServicesData ≠ 0 ∧
    CoreInternalFreePages runtime64KPlatform 4
        { initialState runtime64KPlatform with
          mGcdMemorySpaceMap :=
            [{ convEntry 0 0xFFFF with EfiMemoryType := EfiRuntimeServicesData }] }
        0x1000 1 =
      Except.ok (EFI_STATUS.EFI_INVALID_PARAMETER,
        { initialState runtime64KPlatform with
          mGcdMemorySpaceMap :=
            [{ convEntry 0 0xFFFF with EfiMemoryType := EfiRuntimeServicesData }] }, none) :=
  ⟨by decide, by decide, by decide,
   (CoreInternalFreePages_errors runtime64KPlatform 4 _ 0x1000 1 16 (by decide)
      (by decide)).2 [] _ [] rfl (by decide)⟩

/-! ## CoreGetMemoryMap -/

theorem counted_eq (e : EFI_GCD_MAP_ENTRY) :
    CoreGetMemoryMap.counted e = (e.GcdMemoryType != EfiGcdMemoryTypeNonExistent) := by
  unfold CoreGetMemoryMap.counted
  by_cases h : e.GcdMemoryType = EfiGcdMemoryTypeNonExistent
  · rw [h]; simp [EfiGcdMemoryTypeNonExistent, EfiGcdMemoryTypePersistent,
      EfiGcdMemoryTypeReserved, EfiGcdMemoryTypeMemoryMappedIo]
  · have : (e.GcdMemoryType != EfiGcdMemoryTypeNonExistent) = true := by simpa using h
    rw [this]; simp

theorem count_foldl (c : EFI_GCD_MAP_ENTRY → Bool) (l : List EFI_GCD_MAP_ENTRY) :
    ∀ a, l.foldl (fun n Entry => if c Entry then add64 n 1 else n) a =
      if l.countP c = 0 then a else (a + l.countP c) % 18446744073709551616 := by
  induction l with
  | nil => intro a; simp
  | cons e rest ih =>
    intro a
    rw [List.foldl_cons, ih]
    by_cases h : c e = true
    · rw [if_pos h, List.countP_cons_of_pos _ _ h]
      unfold add64
      split <;> rename_i h0
      · rw [h0]; simp
      · rw [if_neg (by omega)]; omega
    · rw [if_neg h, List.countP_cons_of_neg _ _ h]

theorem NumberOfEntries_eq (s : MemState) :
    CoreGetMemoryMap.NumberOfEntries s = exportableCount s % 18446744073709551616 := by
  unfold CoreGetMemoryMap.NumberOfEntries exportableCount
  have e : (fun n Entry => if CoreGetMemoryMap.counted Entry = true then add64 n 1 else n) =
      fun n Entry => if (fun e : EFI_GCD_MAP_ENTRY =>
        e.GcdMemoryType != EfiGcdMemoryTypeNonExistent) Entry = true then add64 n 1 else n := by
    funext n Entry
    rw [counted_eq]
  rw [e, count_foldl]
  split <;> rename_i h0
  · rw [h0]
  · rw [Nat.zero_add]

theorem BufferSize_eq (ex : Exporter) (s : MemState) :
    CoreGetMemoryMap.BufferSize ex s =
      (CoreGetMemoryMap.Size ex * exportableCount s) % 18446744073709551616 := by
  unfold CoreGetMemoryMap.BufferSize
  rw [NumberOfEntries_eq, Nat.mul_mod, Nat.mod_mod, ← Nat.mul_mod]

/-- C17: if the caller's buffer size is smaller than stride * (number of descriptors of the
store whose GCD memory type is not non-existent), the product taken as the `UINTN` of line
1811, CoreGetMemoryMap returns EFI_BUFFER_TOO_SMALL, writes no record, and stores exactly
that product in `*MemoryMapSize`; the state is unchanged. -/
theorem CoreGetMemoryMap_buffer_too_small (ex : Exporter) (s : MemState) (MapSize : Nat)
    (MemoryMap : Bool)
    (h : MapSize < (CoreGetMemoryMap.Size ex * exportableCount s) % 18446744073709551616) :
    CoreGetMemoryMap ex s (some MapSize) MemoryMap =
      Except.ok ({ Status := EFI_STATUS.EFI_BUFFER_TOO_SMALL
                   MemoryMapSize := some
                     ((CoreGetMemoryMap.Size ex * exportableCount s) % 18446744073709551616)
                   MemoryMap := [], Written := 0, MapKey := some s.mMemoryMapKey
                   DescriptorSize := some (CoreGetMemoryMap.Size ex)
                   DescriptorVersion := some EFI_MEMORY_DESCRIPTOR_VERSION }, s) := by
  rw [← BufferSize_eq] at h ⊢
  unfold CoreGetMemoryMap
  dsimp only
  rw [if_pos h]
  rfl

/-- Witness of `CoreGetMemoryMap_buffer_too_small`: two exportable descriptors, stride 48,
a buffer of 48 bytes; the required size 96 is stored. -/
theorem CoreGetMemoryMap_buffer_too_small_witness :
    48 < (CoreGetMemoryMap.Size plainExporter * exportableCount reservedState) %
      18446744073709551616 ∧
    CoreGetMemoryMap plainExporter reservedState (some 48) true =
      Except.ok ({ Status := EFI_STATUS.EFI_BUFFER_TOO_SMALL, MemoryMapSize := some 96
                   MemoryMap := [], Written := 0, MapKey := some 0
                   DescriptorSize := some 48
                   DescriptorVersion := some 1 }, reservedState) :=
  ⟨by decide, CoreGetMemoryMap_buffer_too_small plainExporter reservedState 48 true (by decide)⟩

/-- C18, failing input: system memory [0, 0x9FFF] and the GCD reserved range
[0xA000, 0xAFFF]. Pass 1 counts two descriptors, so a buffer of 2 * 48 = 96 bytes has
exactly the required size; the first loop of pass 2 stores two records, and the second
loop stores a third record for the reserved range, past the end of the buffer. -/
theorem CoreGetMemoryMap_writes_past_count :
    exportableCount reservedState = 2 ∧
    CoreGetMemoryMap.BufferSize plainExporter reservedState = 96 ∧
    ∃ r, CoreGetMemoryMap plainExporter reservedState (some 96) true =
        Except.ok (r, reservedState) ∧
      r.Status = EFI_STATUS.EFI_SUCCESS ∧ r.Written = 3 ∧
      r.MemoryMap =
        [{ TypeId := EfiConventionalMemory, PhysicalStart := 0, VirtualStart := 0,
           NumberOfPages := 10, Attribute := 0 },
         { TypeId := EfiReservedMemoryType, PhysicalStart := 0xA000, VirtualStart := 0,
           NumberOfPages := 1, Attribute := 0 },
         { TypeId := EfiReservedMemoryType, PhysicalStart := 0xA000, VirtualStart := 0,
           NumberOfPages := 1, Attribute := 0 }] ∧
      r.MemoryMapSize = some 144 :=
  ⟨by decide, by decide, _, rfl, rfl, rfl, rfl, rfl⟩

theorem CoreGetMemoryMap_state (ex : Exporter) (s s1 : MemState) (MemoryMapSize : Option Nat)
    (MemoryMap : Bool) (r : GetMemoryMapResult)
    (h : CoreGetMemoryMap ex s MemoryMapSize MemoryMap = Except.ok (r, s1)) : s1 = s := by
  unfold CoreGetMemoryMap at h
  cases MemoryMapSize with
  | none => exact ((Prod.mk.inj (Except.ok.inj h)).2).symm
  | some MapSize =>
    dsimp only at h
    split at h
    · exact ((Prod.mk.inj (Except.ok.inj h)).2).symm
    · split at h
      · exact ((Prod.mk.inj (Except.ok.inj h)).2).symm
      · obtain ⟨b, _, hb⟩ := (bind_eq_ok _ _ _).1 h
        exact ((Prod.mk.inj (Except.ok.inj hb)).2).symm

/-- C19: a call of CoreGetMemoryMap that returns leaves the state (store, statistics, map
key) as it is, so a second call with the same buffer size returns the same status, the
same records and the same map key. -/
theorem CoreGetMemoryMap_idempotent (ex : Exporter) (s s1 : MemState)
    (MemoryMapSize : Option Nat) (MemoryMap : Bool) (r : GetMemoryMapResult)
    (h : CoreGetMemoryMap ex s MemoryMapSize MemoryMap = Except.ok (r, s1)) :
    s1 = s ∧ s1.mGcdMemorySpaceMap = s.mGcdMemorySpaceMap ∧
    s1.mMemoryTypeStatistics = s.mMemoryTypeStatistics ∧ s1.mMemoryMapKey = s.mMemoryMapKey ∧
    ∃ r2 s2, CoreGetMemoryMap ex s1 MemoryMapSize MemoryMap = Except.ok (r2, s2) ∧
      r2.Status = r.Status ∧ r2.MemoryMap = r.MemoryMap ∧ r2.MapKey = r.MapKey ∧
      r2.MemoryMapSize = r.MemoryMapSize ∧ s2 = s := by
  obtain rfl := CoreGetMemoryMap_state ex s s1 MemoryMapSize MemoryMap r h
  exact ⟨rfl, rfl, rfl, rfl, r, s1, h, rfl, rfl, rfl, rfl, rfl⟩

/-- Witness of `CoreGetMemoryMap_idempotent`: the export of system memory [0, 0x9FFF]
into a buffer of 48 bytes. -/
theorem CoreGetMemoryMap_idempotent_witness :
    ∃ r, CoreGetMemoryMap plainExporter
        { initialState plainPlatform with mGcdMemorySpaceMap := [convEntry 0 0x9FFF] }
        (some 48) true =
        Except.ok (r, { initialState plainPlatform with
          mGcdMemorySpaceMap := [convEntry 0 0x9FFF] }) ∧
      r.Status = EFI_STATUS.EFI_SUCCESS ∧
      r.MemoryMap = [{ TypeId := EfiConventionalMemory, PhysicalStart := 0, VirtualStart := 0,
                       NumberOfPages := 10, Attribute := 0 }] ∧
      ∃ r2 s2, CoreGetMemoryMap plainExporter
          { initialState plainPlatform with mGcdMemorySpaceMap := [convEntry 0 0x9FFF] }
          (some 48) true = Except.ok (r2, s2) ∧
        r2.Status = r.Status ∧ r2.MemoryMap = r.MemoryMap ∧ r2.MapKey = r.MapKey :=
  ⟨_, rfl, rfl, rfl,
    have h := CoreGetMemoryMap_idempotent plainExporter
      { initialState plainPlatform with mGcdMemorySpaceMap := [convEntry 0 0x9FFF] } _
      (some 48) true _ rfl
    match h.2.2.2.2 with
    | ⟨r2, s2, h1, h2, h3, h4, _, _⟩ => ⟨r2, s2, h1, h2, h3, h4⟩⟩

/-! ## CoreTerminateMemoryMap -/

/-- The descriptor passes the alignment tests of lines 2157-2172. -/
theorem terminate_check (env : Platform) (s : MemState) (k : Nat)
    (hk : env.RUNTIME_PAGE_ALLOCATION_GRANULARITY = 2 ^ k) (hk64 : k ≤ 64)
    (hr : (s.mMemoryTypeStatistics.getD EfiACPIReclaimMemory default).Runtime = false ∧
      (s.mMemoryTypeStatistics.getD EfiACPIMemoryNVS default).Runtime = false)
    (l : List EFI_GCD_MAP_ENTRY) :
    (CoreTerminateMemoryMap.check env s l = Except.ok EFI_STATUS.EFI_SUCCESS ∧
      ∀ e ∈ l, e.EfiMemoryType < EfiMaxMemoryType →
        (s.mMemoryTypeStatistics.getD e.EfiMemoryType default).Runtime = true →
        e.BaseAddress % env.RUNTIME_PAGE_ALLOCATION_GRANULARITY = 0 ∧
        (e.EndAddress + 1) % env.RUNTIME_PAGE_ALLOCATION_GRANULARITY = 0) ∨
    (CoreTerminateMemoryMap.check env s l = Except.ok EFI_STATUS.EFI_INVALID_PARAMETER ∧
      ∃ e ∈ l, e.EfiMemoryType < EfiMaxMemoryType ∧
        (s.mMemoryTypeStatistics.getD e.EfiMemoryType default).Runtime = true ∧
        ¬ (e.BaseAddress % env.RUNTIME_PAGE_ALLOCATION_GRANULARITY = 0 ∧
          (e.EndAddress + 1) % env.RUNTIME_PAGE_ALLOCATION_GRANULARITY = 0)) := by
  have hdvd : (2 : Nat) ^ k ∣ 18446744073709551616 := by
    have : (18446744073709551616 : Nat) = 2 ^ 64 := by norm_num
    rw [this]
    exact Nat.pow_dvd_pow 2 hk64
  rw [hk]
  induction l with
  | nil => exact Or.inl ⟨rfl, by simp⟩
  | cons e rest ih =>
    unfold CoreTerminateMemoryMap.check
    by_cases hc : e.EfiMemoryType < EfiMaxMemoryType ∧
        (s.mMemoryTypeStatistics.getD e.EfiMemoryType default).Runtime = true
    · rw [if_pos hc]
      have n1 : e.EfiMemoryType ≠ EfiACPIReclaimMemory := by
        intro h; rw [h, hr.1] at hc; exact absurd hc.2 (by decide)
      have n2 : e.EfiMemoryType ≠ EfiACPIMemoryNVS := by
        intro h; rw [h, hr.2] at hc; exact absurd hc.2 (by decide)
      have a1 : ASSERT (e.EfiMemoryType != EfiACPIReclaimMemory) = Except.ok () := by
        rw [ASSERT_eq_ok]; simpa using n1
      have a2 : ASSERT (e.EfiMemoryType != EfiACPIMemoryNVS) = Except.ok () := by
        rw [ASSERT_eq_ok]; simpa using n2
      rw [a1, a2]
      simp only [bind, Except.bind]
      rw [hk, and_sub64_pow _ _ hk64, and_sub64_pow _ _ hk64]
      have e1 : add64 e.EndAddress 1 % 2 ^ k = (e.EndAddress + 1) % 2 ^ k := by
        unfold add64
        exact Nat.mod_mod_of_dvd _ hdvd
      rw [e1]
      by_cases hb : e.BaseAddress % 2 ^ k = 0
      · rw [if_neg (by simpa using hb)]
        by_cases he : (e.EndAddress + 1) % 2 ^ k = 0
        · rw [if_neg (by simpa using he)]
          rcases ih with ⟨i1, i2⟩ | ⟨i1, x, hx, i2⟩
          · refine Or.inl ⟨i1, ?_⟩
            intro x hx h1 h2
            rcases List.mem_cons.1 hx with rfl | hx
            · exact ⟨hb, he⟩
            · exact i2 x hx h1 h2
          · exact Or.inr ⟨i1, x, List.mem_cons_of_mem _ hx, i2⟩
        · rw [if_pos (by simpa using he)]
          exact Or.inr ⟨rfl, e, List.mem_cons_self _ _, hc.1, hc.2, by tauto⟩
      · rw [if_pos (by simpa using hb)]
        exact Or.inr ⟨rfl, e, List.mem_cons_self _ _, hc.1, hc.2, by tauto⟩
    · rw [if_neg hc]
      rcases ih with ⟨i1, i2⟩ | ⟨i1, x, hx, i2⟩
      · refine Or.inl ⟨i1, ?_⟩
        intro x hx h1 h2
        rcases List.mem_cons.1 hx with rfl | hx
        · exact absurd ⟨h1, h2⟩ hc
        · exact i2 x hx h1 h2
      · exact Or.inr ⟨i1, x, List.mem_cons_of_mem _ hx, i2⟩

/-- C20: CoreTerminateMemoryMap returns EFI_SUCCESS if and only if MapKey equals the
current map key and every descriptor whose type is below EfiMaxMemoryType and marked
Runtime in the statistics table has BaseAddress and EndAddress + 1 multiples of
RUNTIME_PAGE_ALLOCATION_GRANULARITY; otherwise it returns EFI_INVALID_PARAMETER; the state
is unchanged in all cases. The granularity is a power of two and, as in the table of
Page.c, the two ACPI types are not marked Runtime. -/
theorem CoreTerminateMemoryMap_iff (env : Platform) (s : MemState) (MapKey k : Nat)
    (hk : env.RUNTIME_PAGE_ALLOCATION_GRANULARITY = 2 ^ k) (hk64 : k ≤ 64)
    (hr : (s.mMemoryTypeStatistics.getD EfiACPIReclaimMemory default).Runtime = false ∧
      (s.mMemoryTypeStatistics.getD EfiACPIMemoryNVS default).Runtime = false) :
    ∃ Status, CoreTerminateMemoryMap env s MapKey = Except.ok (Status, s) ∧
      (Status = EFI_STATUS.EFI_SUCCESS ↔
        (MapKey = s.mMemoryMapKey ∧
          ∀ e ∈ s.mGcdMemorySpaceMap, e.EfiMemoryType < EfiMaxMemoryType →
            (s.mMemoryTypeStatistics.getD e.EfiMemoryType default).Runtime = true →
            e.BaseAddress % env.RUNTIME_PAGE_ALLOCATION_GRANULARITY = 0 ∧
            (e.EndAddress + 1) % env.RUNTIME_PAGE_ALLOCATION_GRANULARITY = 0)) ∧
      (Status ≠ EFI_STATUS.EFI_SUCCESS → Status = EFI_STATUS.EFI_INVALID_PARAMETER) := by
  unfold CoreTerminateMemoryMap
  by_cases hkey : MapKey = s.mMemoryMapKey
  · rw [if_pos hkey]
    rcases terminate_check env s k hk hk64 hr s.mGcdMemorySpaceMap with ⟨h1, h2⟩ | ⟨h1, x, hx, h2⟩
    · rw [h1]
      exact ⟨EFI_STATUS.EFI_SUCCESS, rfl, ⟨fun _ => ⟨hkey, h2⟩, fun _ => rfl⟩,
        fun h => absurd rfl h⟩
    · rw [h1]
      refine ⟨EFI_STATUS.EFI_INVALID_PARAMETER, rfl, ⟨(fun h => by cases h), ?_⟩, fun _ => rfl⟩
      rintro ⟨_, h3⟩
      exact absurd (h3 x hx h2.1 h2.2.1) h2.2.2
  · rw [if_neg hkey]
    exact ⟨EFI_STATUS.EFI_INVALID_PARAMETER, rfl,
      ⟨(fun h => by cases h), fun h => absurd h.1 hkey⟩, fun _ => rfl⟩

/-- Witness of `CoreTerminateMemoryMap_iff`: with a runtime granularity of 64 KiB, the key
of the state and one EfiRuntimeServicesData descriptor [0x10000, 0x1FFFF]. -/
theorem CoreTerminateMemoryMap_iff_witness :
    runtime64KPlatform.RUNTIME_PAGE_ALLOCATION_GRANULARITY = 2 ^ 16 ∧ 16 ≤ 64 ∧
    ((initialState runtime64KPlatform).mMemoryTypeStatistics.getD EfiACPIReclaimMemory
        default).Runtime = false ∧
    ((initialState runtime64KPlatform).mMemoryTypeStatistics.getD EfiACPIMemoryNVS
        default).Runtime = false ∧
    ∃ Status, CoreTerminateMemoryMap runtime64KPlatform
        { initialState runtime64KPlatform with
          mGcdMemorySpaceMap :=
            [{ convEntry 0x10000 0x1FFFF with EfiMemoryType := EfiRuntimeServicesData }] } 0 =
        Except.ok (Status, { initialState runtime64KPlatform with
          mGcdMemorySpaceMap :=
            [{ convEntry 0x10000 0x1FFFF with EfiMemoryType := EfiRuntimeServicesData }] }) ∧
      Status = EFI_STATUS.EFI_SUCCESS :=
  ⟨by decide, by decide, by decide, by decide,
    match CoreTerminateMemoryMap_iff runtime64KPlatform
      { initialState runtime64KPlatform with
        mGcdMemorySpaceMap :=
          [{ convEntry 0x10000 0x1FFFF with EfiMemoryType := EfiRuntimeServicesData }] }
      0 16 (by decide) (by decide) ⟨by decide, by decide⟩ with
    | ⟨Status, h1, h2, _⟩ => ⟨Status, h1, h2.2 ⟨rfl, by decide⟩⟩⟩

/-- C11, failing input: conventional descriptors [0x1000, 0x2FFF] and [0x100000, 0x10FFFF],
ceiling 0xFFFFFFFFFFFF, one page, alignment 64 KiB. Only the second descriptor can hold
the request after clipping and rounding, and its rounded end 0x10FFFF gives the base
0x10F000. In the code the rounded end of the first descriptor is `0 - 1`, which wraps to
`2 ^ 64 - 1` and passes the test `DescEnd < DescStart`, so the function returns
0xFFFFFFFFFFFFF000 (the defect of `CoreFindFreePagesI_alignment_wrap`). With three free
ranges of equal size and alignment 4 KiB the highest one is returned. -/
theorem CoreFindFreePagesI_highest_end_wrap :
    StoreOk [convEntry 0x1000 0x2FFF, convEntry 0x100000 0x10FFFF] ∧
    highestCandidate 0xFFFFFFFFFFFF 0x10000 1
      [convEntry 0x1000 0x2FFF, convEntry 0x100000 0x10FFFF] = some 0x10F000 ∧
    CoreFindFreePagesI plainPlatform
      { initialState plainPlatform with
        mGcdMemorySpaceMap := [convEntry 0x1000 0x2FFF, convEntry 0x100000 0x10FFFF] }
      0xFFFFFFFFFFFF 0 1 EfiRuntimeServicesData 0x10000 false = 0xFFFFFFFFFFFFF000 ∧
    CoreFindFreePagesI plainPlatform
      { initialState plainPlatform with
        mGcdMemorySpaceMap :=
          [convEntry 0x5000 0x6FFF, convEntry 0x9000 0xAFFF, convEntry 0x1000 0x2FFF] }
      0xFFFFFFFFFFFF 0 2 EfiBootServicesData 0x1000 false = 0x9000 := by
  refine ⟨by decide, by decide, by decide, by decide⟩

/-- C12, as stated, fails for EfiPalCode: the type is marked Runtime in the statistics
table, but with a runtime granularity of 64 KiB one page of it is allocated at 0x1F000,
which is no multiple of 64 KiB. -/
theorem CoreInternalAllocatePages_PalCode_alignment :
    ((initialState runtime64KPlatform).mMemoryTypeStatistics.getD EfiPalCode default).Runtime
      = true ∧
    (∃ s, CoreInternalAllocatePages runtime64KPlatform 8
        { initialState runtime64KPlatform with
          mGcdMemorySpaceMap := [convEntry 0 0x1FFFF], mFreeMemoryMapEntryList := 2 }
        AllocateAnyPages EfiPalCode 1 (some 0) false =
      Except.ok (EFI_STATUS.EFI_SUCCESS, s, some 0x1F000)) ∧
    0x1F000 % runtime64KPlatform.RUNTIME_PAGE_ALLOCATION_GRANULARITY ≠ 0 :=
  ⟨by decide, ⟨_, rfl⟩, by decide⟩

/-! ## Alignment of the addresses CoreFindFreePagesI returns -/

theorem EFI_SIZE_TO_PAGES_pow (j : Nat) (h : 12 ≤ j) : EFI_SIZE_TO_PAGES (2 ^ j) = 2 ^ (j - 12) := by
  have e : (2 : Nat) ^ j = 2 ^ (j - 12) * 4096 := by
    rw [show (4096 : Nat) = 2 ^ 12 by norm_num, ← pow_add]
    congr 1; omega
  unfold EFI_SIZE_TO_PAGES RShiftU64 EFI_PAGE_SHIFT EFI_PAGE_MASK
  rw [land_4095, e]
  simp

theorem roundPages_dvd (N j : Nat) (h : 12 ≤ j) (h64 : j ≤ 64) :
    2 ^ (j - 12) ∣ roundPages N (2 ^ j) := by
  unfold roundPages
  rw [EFI_SIZE_TO_PAGES_pow j h, sub64_pow_one _ (by omega)]
  exact and_not64_mask_dvd _ _

theorem LShiftU64_dvd (N j : Nat) (h : 12 ≤ j) (h64 : j ≤ 64) (hN : 2 ^ (j - 12) ∣ N) :
    2 ^ j ∣ LShiftU64 N EFI_PAGE_SHIFT := by
  have h1 : (2 : Nat) ^ j ∣ 18446744073709551616 := by
    rw [show (18446744073709551616 : Nat) = 2 ^ 64 by norm_num]
    exact Nat.pow_dvd_pow 2 h64
  have h2 : (2 : Nat) ^ j ∣ N * 2 ^ 12 := by
    have e : (2 : Nat) ^ j = 2 ^ (j - 12) * 2 ^ 12 := by
      rw [← pow_add]; congr 1; omega
    rw [e]
    exact Nat.mul_dvd_mul_right hN _
  unfold LShiftU64 EFI_PAGE_SHIFT
  exact (Nat.dvd_mod_iff h1).2 h2

theorem FindFreePagesI_step_cases (env : Platform) (MaxAddress MinAddress NumberOfBytes A : Nat)
    (Target : Nat) (Entry : EFI_GCD_MAP_ENTRY) :
    CoreFindFreePagesI.step env MaxAddress MinAddress NumberOfBytes A false Target Entry = Target ∨
    CoreFindFreePagesI.step env MaxAddress MinAddress NumberOfBytes A false Target Entry =
      sub64 (add64 (if Entry.EndAddress ≥ MaxAddress then MaxAddress else Entry.EndAddress) 1 &&&
        not64 (sub64 A 1)) 1 := by
  unfold CoreFindFreePagesI.step
  dsimp only
  generalize sub64 (add64 (if Entry.EndAddress ≥ MaxAddress then MaxAddress
    else Entry.EndAddress) 1 &&& not64 (sub64 A 1)) 1 = D
  simp only [Bool.false_eq_true, if_false]
  split_ifs <;> first | exact Or.inl rfl | exact Or.inr rfl

/-- The `Target` of CoreFindFreePagesI is 0 or one below a multiple of the alignment. -/
theorem FindFreePagesI_step_target (env : Platform) (MaxAddress MinAddress NumberOfBytes j : Nat)
    (Target : Nat) (Entry : EFI_GCD_MAP_ENTRY) (h64 : j ≤ 64)
    (hT : Target = 0 ∨ ∃ X, X < 18446744073709551616 ∧ 2 ^ j ∣ X ∧ Target = sub64 X 1) :
    CoreFindFreePagesI.step env MaxAddress MinAddress NumberOfBytes (2 ^ j) false Target Entry = 0 ∨
    ∃ X, X < 18446744073709551616 ∧ 2 ^ j ∣ X ∧
      CoreFindFreePagesI.step env MaxAddress MinAddress NumberOfBytes (2 ^ j) false Target Entry =
        sub64 X 1 := by
  rcases FindFreePagesI_step_cases env MaxAddress MinAddress NumberOfBytes (2 ^ j) Target Entry
    with h | h
  · rw [h]; exact hT
  · rw [h, sub64_pow_one j h64]
    exact Or.inr ⟨_, lt_of_le_of_lt Nat.and_le_left (add64_lt _ 1), and_not64_mask_dvd _ _, rfl⟩

theorem FindFreePagesI_foldl_target (env : Platform) (MaxAddress MinAddress NumberOfBytes j : Nat)
    (h64 : j ≤ 64) (l : List EFI_GCD_MAP_ENTRY) :
    ∀ Target, (Target = 0 ∨ ∃ X, X < 18446744073709551616 ∧ 2 ^ j ∣ X ∧ Target = sub64 X 1) →
      (l.foldl (CoreFindFreePagesI.step env MaxAddress MinAddress NumberOfBytes (2 ^ j) false)
          Target = 0 ∨
        ∃ X, X < 18446744073709551616 ∧ 2 ^ j ∣ X ∧
          l.foldl (CoreFindFreePagesI.step env MaxAddress MinAddress NumberOfBytes (2 ^ j) false)
            Target = sub64 X 1) := by
  induction l with
  | nil => intro Target hT; exact hT
  | cons e rest ih =>
    intro Target hT
    rw [List.foldl_cons]
    exact ih _ (FindFreePagesI_step_target env MaxAddress MinAddress NumberOfBytes j Target e h64 hT)

theorem CoreFindFreePagesI_aligned (env : Platform) (s : MemState)
    (MaxAddress MinAddress NumberOfPages NewType j : Nat) (h12 : 12 ≤ j) (h64 : j ≤ 64)
    (hN : 2 ^ (j - 12) ∣ NumberOfPages) :
    2 ^ j ∣ CoreFindFreePagesI env s MaxAddress MinAddress NumberOfPages NewType (2 ^ j) false := by
  have hNB := LShiftU64_dvd NumberOfPages j h12 h64 hN
  have hlt : LShiftU64 NumberOfPages EFI_PAGE_SHIFT < 18446744073709551616 := by
    unfold LShiftU64; omega
  have h4096 : LShiftU64 NumberOfPages EFI_PAGE_SHIFT % 4096 = 0 := by
    have : (2 : Nat) ^ 12 ∣ 2 ^ j := Nat.pow_dvd_pow 2 h12
    exact Nat.mod_eq_zero_of_dvd (dvd_trans (by norm_num at this ⊢; exact this) hNB)
  have h1 : (2 : Nat) ^ j ∣ 18446744073709551616 := by
    rw [show (18446744073709551616 : Nat) = 2 ^ 64 by norm_num]
    exact Nat.pow_dvd_pow 2 h64
  unfold CoreFindFreePagesI
  split
  · exact dvd_zero _
  · dsimp only
    generalize hM : (if MaxAddress &&& EFI_PAGE_MASK ≠ EFI_PAGE_MASK then
        (sub64 MaxAddress (EFI_PAGE_MASK + 1) &&& not64 EFI_PAGE_MASK) ||| EFI_PAGE_MASK
      else MaxAddress) = M
    generalize hB : LShiftU64 NumberOfPages EFI_PAGE_SHIFT = NB at hNB hlt h4096
    rcases FindFreePagesI_foldl_target env M MinAddress NB j h64 s.mGcdMemorySpaceMap 0
      (Or.inl rfl) with h0 | ⟨X, hX, hd, hE⟩
    · rw [h0]
      rw [if_pos]
      · exact dvd_zero _
      · rw [EFI_PAGE_MASK, land_4095]
        unfold sub64
        omega
    · rw [hE]
      split
      · exact dvd_zero _
      · have e : sub64 (sub64 X 1) (sub64 NB 1) = (X + 18446744073709551616 - NB) %
            18446744073709551616 := by
          unfold sub64; omega
        rw [e]
        exact (Nat.dvd_mod_iff h1).2 (Nat.dvd_sub' (Dvd.dvd.add hd h1) hNB)

theorem FindFreePages_aligned (env : Platform) (MaxAddress NoPages NewType j : Nat)
    (h12 : 12 ≤ j) (h64 : j ≤ 64) (hN : 2 ^ (j - 12) ∣ NoPages) :
    ∀ (fuel : Nat) (s : MemState) (r : Nat × MemState),
      FindFreePages env fuel s MaxAddress NoPages NewType (2 ^ j) false = Except.ok r →
      2 ^ j ∣ r.1 := by
  intro fuel
  induction fuel with
  | zero =>
    intro s r h
    simp [FindFreePages, throw, throwThe, MonadExceptOf.throw] at h
  | succ n ih =>
    intro s r h
    rw [FindFreePages] at h
    dsimp only at h
    have d1 : 2 ^ j ∣ (if NewType < EfiMaxMemoryType ∧
        MaxAddress ≥ (s.mMemoryTypeStatistics.getD NewType default).MaximumAddress then
        CoreFindFreePagesI env s (s.mMemoryTypeStatistics.getD NewType default).MaximumAddress
          (s.mMemoryTypeStatistics.getD NewType default).BaseAddress NoPages NewType (2 ^ j) false
        else 0) := by
      split
      · exact CoreFindFreePagesI_aligned env s _ _ NoPages NewType j h12 h64 hN
      · exact dvd_zero _
    have d2 : 2 ^ j ∣ (if MaxAddress ≥ s.mDefaultMaximumAddress then
        CoreFindFreePagesI env s s.mDefaultMaximumAddress 0 NoPages NewType (2 ^ j) false
        else 0) := by
      split
      · exact CoreFindFreePagesI_aligned env s _ _ NoPages NewType j h12 h64 hN
      · exact dvd_zero _
    have d3 : 2 ^ j ∣ CoreFindFreePagesI env s MaxAddress 0 NoPages NewType (2 ^ j) false :=
      CoreFindFreePagesI_aligned env s _ _ NoPages NewType j h12 h64 hN
    generalize (if NewType < EfiMaxMemoryType ∧
        MaxAddress ≥ (s.mMemoryTypeStatistics.getD NewType default).MaximumAddress then
        CoreFindFreePagesI env s (s.mMemoryTypeStatistics.getD NewType default).MaximumAddress
          (s.mMemoryTypeStatistics.getD NewType default).BaseAddress NoPages NewType (2 ^ j) false
        else 0) = S1 at h d1
    generalize (if MaxAddress ≥ s.mDefaultMaximumAddress then
        CoreFindFreePagesI env s s.mDefaultMaximumAddress 0 NoPages NewType (2 ^ j) false
        else 0) = S2 at h d2
    generalize CoreFindFreePagesI env s MaxAddress 0 NoPages NewType (2 ^ j) false = S3 at h d3
    by_cases c1 : S1 ≠ 0
    · rw [if_pos c1] at h
      obtain rfl := Except.ok.inj h
      exact d1
    · rw [if_neg c1] at h
      by_cases c2 : S2 ≠ 0
      · rw [if_pos c2] at h
        obtain rfl := Except.ok.inj h
        exact d2
      · rw [if_neg c2] at h
        by_cases c3 : S3 ≠ 0
        · rw [if_pos c3] at h
          obtain rfl := Except.ok.inj h
          exact d3
        · rw [if_neg c3] at h
          cases hp : env.PromoteGuardedFreePages s with
          | none =>
            rw [hp] at h
            obtain rfl := Except.ok.inj h
            exact dvd_zero _
          | some s1 =>
            rw [hp] at h
            exact ih s1 r h

/-! ## Alignment of allocated ranges -/

theorem status_ne_of_ok {α : Type} {st st1 : EFI_STATUS} {a b : α}
    (h : (Except.ok (st1, a) : Except Halt (EFI_STATUS × α)) = Except.ok (st, b))
    (hne : st1 ≠ st) : False :=
  hne (Prod.mk.inj (Except.ok.inj h)).1

/-- Where the address of a successful allocation without guard pages comes from: it is
the aligned address of the caller, or an address FindFreePages returned. -/
theorem CoreInternalAllocatePages_success_start (env : Platform) (fuel : Nat) (s s1 : MemState)
    (AllocType MemoryType NumberOfPages addr : Nat) (Memory : Option Nat)
    (h : CoreInternalAllocatePages env fuel s AllocType MemoryType NumberOfPages Memory false =
      Except.ok (EFI_STATUS.EFI_SUCCESS, s1, some addr)) :
    addr &&& sub64 (allocationAlignment env MemoryType) 1 = 0 ∨
    ∃ M s2, FindFreePages env fuel s M
        (roundPages NumberOfPages (allocationAlignment env MemoryType)) MemoryType
        (allocationAlignment env MemoryType) false = Except.ok (addr, s2) := by
  unfold CoreInternalAllocatePages at h
  split at h
  · exact (status_ne_of_ok h (by decide)).elim
  · split at h
    · exact (status_ne_of_ok h (by decide)).elim
    · cases Memory with
      | none => exact (status_ne_of_ok h (by decide)).elim
      | some v =>
        dsimp only at h
        generalize hNP : roundPages NumberOfPages (allocationAlignment env MemoryType) = NP at h ⊢
        generalize hA : allocationAlignment env MemoryType = A at h ⊢
        generalize sub64 (add64 v (LShiftU64 NP EFI_PAGE_SHIFT)) 1 = End at h
        by_cases c1 : AllocType = AllocateAddress ∧ v &&& sub64 A 1 ≠ 0
        · rw [if_pos c1] at h
          exact (status_ne_of_ok h (by decide)).elim
        rw [if_neg c1] at h
        by_cases c2 : AllocType = AllocateAddress ∧
            (NP = 0 ∨ NP > RShiftU64 env.MAX_ALLOC_ADDRESS EFI_PAGE_SHIFT)
        · rw [if_pos c2] at h
          exact (status_ne_of_ok h (by decide)).elim
        rw [if_neg c2] at h
        by_cases c3 : AllocType = AllocateAddress ∧
            (v ≥ End ∨ v > env.MAX_ALLOC_ADDRESS ∨ End > env.MAX_ALLOC_ADDRESS)
        · rw [if_pos c3] at h
          exact (status_ne_of_ok h (by decide)).elim
        rw [if_neg c3] at h
        by_cases c4 : AllocType = AllocateAddress ∧ hitsSpecialBin s MemoryType v End = true
        · rw [if_pos c4] at h
          exact (status_ne_of_ok h (by decide)).elim
        rw [if_neg c4] at h
        have fin : ∀ (q : EFI_STATUS × MemState) (a : Nat),
            (if (!EFI_ERROR q.1) = true then
                (pure (q.1, q.2, some a) : Except Halt (EFI_STATUS × MemState × Option Nat))
              else pure (q.1, q.2, some v)) = Except.ok (EFI_STATUS.EFI_SUCCESS, s1, some addr) →
            a = addr := by
          intro q a hq
          cases he : EFI_ERROR q.1 with
          | false =>
            rw [he] at hq
            exact Option.some.inj (Prod.mk.inj (Prod.mk.inj (Except.ok.inj hq)).2).2
          | true =>
            rw [he] at hq
            have e1 := (Prod.mk.inj (Except.ok.inj hq)).1
            rw [e1] at he
            exact absurd he (by decide)
        by_cases hAA : AllocType = AllocateAddress
        · rw [if_neg (fun hn => hn hAA)] at h
          obtain ⟨y, hy, h2⟩ := (bind_eq_ok _ _ _).1 h
          have hs : y.1 = addr := by
            by_cases c5 : AllocType ≠ AllocateAddress ∧ y.1 = 0
            · rw [if_pos c5] at h2
              exact (status_ne_of_ok h2 (by decide)).elim
            rw [if_neg c5] at h2
            obtain ⟨d, _, h3⟩ := (bind_eq_ok _ _ _).1 h2
            cases he : EFI_ERROR d.1 with
            | false =>
              rw [he, if_neg (by decide)] at h3
              obtain ⟨y1, _, h4⟩ := (bind_eq_ok _ _ _).1 h3
              exact fin y1 _ h4
            | true =>
              rw [he, if_pos rfl] at h3
              cases hp : env.PromoteGuardedFreePages d.2 with
              | none =>
                rw [hp] at h3
                obtain ⟨y1, _, h4⟩ := (bind_eq_ok _ _ _).1 h3
                exact fin y1 _ h4
              | some s5 =>
                rw [hp] at h3
                obtain ⟨y1, _, h4⟩ := (bind_eq_ok _ _ _).1 h3
                exact fin y1 _ h4
          left
          have e1 : v = y.1 := congrArg Prod.fst (Except.ok.inj hy)
          rw [← hs, ← e1]
          by_contra hc
          exact c1 ⟨hAA, hc⟩
        · rw [if_pos hAA] at h
          obtain ⟨y, hy, h2⟩ := (bind_eq_ok _ _ _).1 h
          have hs : y.1 = addr := by
            by_cases c5 : AllocType ≠ AllocateAddress ∧ y.1 = 0
            · rw [if_pos c5] at h2
              exact (status_ne_of_ok h2 (by decide)).elim
            rw [if_neg c5] at h2
            obtain ⟨d, _, h3⟩ := (bind_eq_ok _ _ _).1 h2
            cases he : EFI_ERROR d.1 with
            | false =>
              rw [he, if_neg (by decide)] at h3
              obtain ⟨y1, _, h4⟩ := (bind_eq_ok _ _ _).1 h3
              exact fin y1 _ h4
            | true =>
              rw [he, if_pos rfl] at h3
              cases hp : env.PromoteGuardedFreePages d.2 with
              | none =>
                rw [hp] at h3
                obtain ⟨y1, _, h4⟩ := (bind_eq_ok _ _ _).1 h3
                exact fin y1 _ h4
              | some s5 =>
                rw [hp] at h3
                obtain ⟨y1, _, h4⟩ := (bind_eq_ok _ _ _).1 h3
                exact fin y1 _ h4
          right
          refine ⟨if AllocType = AllocateMaxAddress then v else env.MAX_ALLOC_ADDRESS, y.2, ?_⟩
          rw [hy, ← hs]

theorem allocationAlignment_pow12 (env : Platform) (k : Nat)
    (hk : env.RUNTIME_PAGE_ALLOCATION_GRANULARITY = 2 ^ k) (h12 : 12 ≤ k) (hk64 : k ≤ 64)
    (T : Nat) : ∃ j, 12 ≤ j ∧ j ≤ 64 ∧ allocationAlignment env T = 2 ^ j := by
  unfold allocationAlignment
  split
  · exact ⟨k, h12, hk64, hk⟩
  · exact ⟨12, le_refl _, by norm_num, by norm_num [DEFAULT_PAGE_ALLOCATION_GRANULARITY]⟩

theorem CoreInternalAllocatePages_alignment (env : Platform) (fuel : Nat) (s s1 : MemState)
    (AllocType MemoryType NumberOfPages addr k : Nat) (Memory : Option Nat)
    (hk : env.RUNTIME_PAGE_ALLOCATION_GRANULARITY = 2 ^ k) (h12 : 12 ≤ k) (h64 : k ≤ 64)
    (h : CoreInternalAllocatePages env fuel s AllocType MemoryType NumberOfPages Memory false =
      Except.ok (EFI_STATUS.EFI_SUCCESS, s1, some addr)) :
    addr % allocationAlignment env MemoryType = 0 ∧
    (addr + roundPages NumberOfPages (allocationAlignment env MemoryType) * 4096) %
      allocationAlignment env MemoryType = 0 := by
  obtain ⟨j, j12, j64, ej⟩ := allocationAlignment_pow12 env k hk h12 h64 MemoryType
  have hs := CoreInternalAllocatePages_success_start env fuel s s1 AllocType MemoryType
    NumberOfPages addr Memory h
  rw [ej] at hs ⊢
  have hN := roundPages_dvd NumberOfPages j j12 j64
  have d1 : 2 ^ j ∣ addr := by
    rcases hs with hs | ⟨M, s2, hs⟩
    · rw [and_sub64_pow _ _ j64] at hs
      exact Nat.dvd_of_mod_eq_zero hs
    · exact FindFreePages_aligned env M _ MemoryType j j12 j64 hN fuel s _ hs
  have d2 : 2 ^ j ∣ roundPages NumberOfPages (2 ^ j) * 4096 := by
    have e : (2 : Nat) ^ j = 2 ^ (j - 12) * 4096 := by
      rw [show (4096 : Nat) = 2 ^ 12 by norm_num]
      exact (pow_sub_mul_pow 2 j12).symm
    have hm := Nat.mul_dvd_mul_right hN 4096
    rw [← e] at hm
    exact hm
  exact ⟨Nat.mod_eq_zero_of_dvd d1, Nat.mod_eq_zero_of_dvd (Dvd.dvd.add d1 d2)⟩

/-- C12, amended: for every successful CoreInternalAllocatePages call without guard pages
on a platform whose runtime granularity is a power of two of at least 4 KiB: if the type
is EfiACPIReclaimMemory, EfiACPIMemoryNVS, EfiRuntimeServicesCode or
EfiRuntimeServicesData, the returned base and base + count * 4096 (count after rounding)
are multiples of RUNTIME_PAGE_ALLOCATION_GRANULARITY; for every other type, EfiPalCode
included, both are multiples of 4 KiB. -/
theorem CoreInternalAllocatePages_aligned (env : Platform) (fuel : Nat) (s s1 : MemState)
    (AllocType MemoryType NumberOfPages addr k : Nat) (Memory : Option Nat)
    (hk : env.RUNTIME_PAGE_ALLOCATION_GRANULARITY = 2 ^ k) (h12 : 12 ≤ k) (h64 : k ≤ 64)
    (h : CoreInternalAllocatePages env fuel s AllocType MemoryType NumberOfPages Memory false =
      Except.ok (EFI_STATUS.EFI_SUCCESS, s1, some addr)) :
    ((MemoryType = EfiACPIReclaimMemory ∨ MemoryType = EfiACPIMemoryNVS ∨
        MemoryType = EfiRuntimeServicesCode ∨ MemoryType = EfiRuntimeServicesData) →
      addr % env.RUNTIME_PAGE_ALLOCATION_GRANULARITY = 0 ∧
      (addr + roundPages NumberOfPages env.RUNTIME_PAGE_ALLOCATION_GRANULARITY * 4096) %
        env.RUNTIME_PAGE_ALLOCATION_GRANULARITY = 0) ∧
    (¬ (MemoryType = EfiACPIReclaimMemory ∨ MemoryType = EfiACPIMemoryNVS ∨
        MemoryType = EfiRuntimeServicesCode ∨ MemoryType = EfiRuntimeServicesData) →
      addr % DEFAULT_PAGE_ALLOCATION_GRANULARITY = 0 ∧
      (addr + roundPages NumberOfPages DEFAULT_PAGE_ALLOCATION_GRANULARITY * 4096) %
        DEFAULT_PAGE_ALLOCATION_GRANULARITY = 0) := by
  have key := CoreInternalAllocatePages_alignment env fuel s s1 AllocType MemoryType
    NumberOfPages addr k Memory hk h12 h64 h
  constructor
  · intro hT
    have e : allocationAlignment env MemoryType = env.RUNTIME_PAGE_ALLOCATION_GRANULARITY := by
      unfold allocationAlignment
      rw [if_pos hT]
    rw [e] at key
    exact key
  · intro hT
    have e : allocationAlignment env MemoryType = DEFAULT_PAGE_ALLOCATION_GRANULARITY := by
      unfold allocationAlignment
      rw [if_neg hT]
    rw [e] at key
    exact key

/-- Witness of `CoreInternalAllocatePages_aligned`: with a runtime granularity of 64 KiB,
one page of EfiRuntimeServicesData out of [0, 0x3FFFF] is allocated at 0x30000. -/
theorem CoreInternalAllocatePages_aligned_witness :
    runtime64KPlatform.RUNTIME_PAGE_ALLOCATION_GRANULARITY = 2 ^ 16 ∧ 12 ≤ 16 ∧ 16 ≤ 64 ∧
    ∃ s1, CoreInternalAllocatePages runtime64KPlatform 8
        { initialState runtime64KPlatform with
          mGcdMemorySpaceMap := [convEntry 0 0x3FFFF], mFreeMemoryMapEntryList := 2 }
        AllocateAnyPages EfiRuntimeServicesData 1 (some 0) false =
        Except.ok (EFI_STATUS.EFI_SUCCESS, s1, some 0x30000) ∧
      0x30000 % runtime64KPlatform.RUNTIME_PAGE_ALLOCATION_GRANULARITY = 0 ∧
      (0x30000 + roundPages 1 runtime64KPlatform.RUNTIME_PAGE_ALLOCATION_GRANULARITY * 4096) %
        runtime64KPlatform.RUNTIME_PAGE_ALLOCATION_GRANULARITY = 0 :=
  ⟨by decide, by decide, by decide,
    match (⟨_, rfl⟩ : ∃ s1, CoreInternalAllocatePages runtime64KPlatform 8
        { initialState runtime64KPlatform with
          mGcdMemorySpaceMap := [convEntry 0 0x3FFFF], mFreeMemoryMapEntryList := 2 }
        AllocateAnyPages EfiRuntimeServicesData 1 (some 0) false =
        Except.ok (EFI_STATUS.EFI_SUCCESS, s1, some 0x30000)) with
    | ⟨s1, h1⟩ =>
      ⟨s1, h1, (CoreInternalAllocatePages_aligned runtime64KPlatform 8 _ s1 AllocateAnyPages
        EfiRuntimeServicesData 1 0x30000 16 (some 0) (by decide) (by decide) (by decide) h1).1
        (Or.inr (Or.inr (Or.inr rfl)))⟩⟩

/-! ## CoreAddRange removes a mergeable neighbour -/

theorem not_mem_of_pairwise {e : EFI_GCD_MAP_ENTRY} {rest : List EFI_GCD_MAP_ENTRY}
    (hw : e.BaseAddress < e.EndAddress) (h : ∀ x ∈ rest, Disjoint e x) : e ∉ rest := by
  intro he
  have := h e he
  unfold Disjoint at this
  omega

/-- A descriptor that the merge loop can merge (test of lines 201-207) and that ends at
`S - 1` or begins at `E + 1` is unlinked, and the widened range contains it. -/
theorem scan_removes (T G A C : Nat) (l : List EFI_GCD_MAP_ENTRY) :
    ∀ (S E f : Nat), (∀ e ∈ l, WellFormed e) → BelowTop l → l.Pairwise Disjoint →
      RangeOk S E → (∀ e ∈ l, E < e.BaseAddress ∨ e.EndAddress < S) →
      ∀ e ∈ l, CoreAddRange.skip T G A C e = false →
        (e.EndAddress + 1 = S ∨ e.BaseAddress = E + 1) →
        e ∉ (CoreAddRange.scan T G A C l S E f).1 ∧
        (CoreAddRange.scan T G A C l S E f).2.1 ≤ e.BaseAddress ∧
        e.EndAddress ≤ (CoreAddRange.scan T G A C l S E f).2.2.1 := by
  induction l with
  | nil => intro S E f _ _ _ _ _ e he; simp at he
  | cons x rest ih =>
    intro S E f hwf htop hpw hr hd e he hske hadj
    have hwx : WellFormed x := hwf x (List.mem_cons_self _ _)
    have htx : x.EndAddress < 18446744073709551615 := htop x (List.mem_cons_self _ _)
    have hwr : ∀ y ∈ rest, WellFormed y := fun y hy => hwf y (List.mem_cons_of_mem _ hy)
    have htr : BelowTop rest := fun y hy => htop y (List.mem_cons_of_mem _ hy)
    have hpr : rest.Pairwise Disjoint := (List.pairwise_cons.1 hpw).2
    have hxr : ∀ y ∈ rest, Disjoint x y := (List.pairwise_cons.1 hpw).1
    have hdx : E < x.BaseAddress ∨ x.EndAddress < S := hd x (List.mem_cons_self _ _)
    have hdr : ∀ y ∈ rest, E < y.BaseAddress ∨ y.EndAddress < S :=
      fun y hy => hd y (List.mem_cons_of_mem _ hy)
    have hwe : WellFormed e := hwf e he
    obtain ⟨hS, hE, hSE, hEM⟩ := hr
    obtain ⟨hw1, hw2, hw3, hw4⟩ := hwx
    have hxnot : x ∉ rest := not_mem_of_pairwise hw3 hxr
    have hadd1 : add64 x.EndAddress 1 = x.EndAddress + 1 := by unfold add64; omega
    have hadd2 : add64 E 1 = E + 1 := by unfold add64; omega
    unfold CoreAddRange.scan
    by_cases hsk : CoreAddRange.skip T G A C x = true
    · simp only [hsk, if_true]
      have hne : e ≠ x := by
        intro h; rw [h, hsk] at hske; exact absurd hske (by decide)
      have her : e ∈ rest := by
        rcases List.mem_cons.1 he with h | h
        · exact absurd h hne
        · exact h
      obtain ⟨i1, i2, i3⟩ := ih S E f hwr htr hpr ⟨hS, hE, hSE, hEM⟩ hdr e her hske hadj
      exact ⟨by simp only [List.mem_cons, not_or]; exact ⟨hne, i1⟩, i2, i3⟩
    · have hsk' : CoreAddRange.skip T G A C x = false := by simpa using hsk
      simp only [hsk', Bool.false_eq_true, if_false]
      rw [hadd1, hadd2]
      by_cases hb : x.EndAddress + 1 = S
      · simp only [hb, if_true]
        have hdr' : ∀ y ∈ rest, E < y.BaseAddress ∨ y.EndAddress < x.BaseAddress := by
          intro y hy
          have h1 := hdr y hy
          have h2 := hxr y hy
          have h3 := (hwr y hy).2.2.1
          unfold Disjoint at h2
          omega
        have hr' : RangeOk x.BaseAddress E := ⟨hw1, hE, by omega, hEM⟩
        rcases List.mem_cons.1 he with h | her
        · subst h
          obtain ⟨j1, j2, j3, j4, _⟩ := scan_spec T G A C rest e.BaseAddress E
            (if e.FromPages then f + 1 else f) hwr htr hpr hr' hdr'
          exact ⟨fun hm => hxnot (j1.subset hm), j3, by omega⟩
        · have hxe := hxr e her
          have hwe3 := hwe.2.2.1
          have hadj' : e.EndAddress + 1 = x.BaseAddress ∨ e.BaseAddress = E + 1 := by
            unfold Disjoint at hxe
            rcases hadj with h | h
            · omega
            · exact Or.inr h
          exact ih x.BaseAddress E _ hwr htr hpr hr' hdr' e her hske hadj'
      · simp only [hb, if_false]
        by_cases ha : x.BaseAddress = E + 1
        · simp only [ha, if_true]
          have hdr' : ∀ y ∈ rest, x.EndAddress < y.BaseAddress ∨ y.EndAddress < S := by
            intro y hy
            have h1 := hdr y hy
            have h2 := hxr y hy
            have h3 := (hwr y hy).2.2.1
            unfold Disjoint at h2
            omega
          have hr' : RangeOk S x.EndAddress := ⟨hS, hw2, by omega, htx⟩
          rcases List.mem_cons.1 he with h | her
          · subst h
            obtain ⟨j1, j2, j3, j4, _⟩ := scan_spec T G A C rest S e.EndAddress
              (if e.FromPages then f + 1 else f) hwr htr hpr hr' hdr'
            exact ⟨fun hm => hxnot (j1.subset hm), by omega, j4⟩
          · have hxe := hxr e her
            have hwe3 := hwe.2.2.1
            have hadj' : e.EndAddress + 1 = S ∨ e.BaseAddress = x.EndAddress + 1 := by
              unfold Disjoint at hxe
              rcases hadj with h | h
              · exact Or.inl h
              · omega
            exact ih S x.EndAddress _ hwr htr hpr hr' hdr' e her hske hadj'
        · simp only [ha, if_false]
          have hne : e ≠ x := by
            intro h; subst h
            rcases hadj with h | h
            · exact hb h
            · exact ha h
          have her : e ∈ rest := by
            rcases List.mem_cons.1 he with h | h
            · exact absurd h hne
            · exact h
          obtain ⟨i1, i2, i3⟩ := ih S E f hwr htr hpr ⟨hS, hE, hSE, hEM⟩ hdr e her hske hadj
          exact ⟨by simp only [List.mem_cons, not_or]; exact ⟨hne, i1⟩, i2, i3⟩

/-- C9, as stated, fails: a neighbour that ends at Start - 1 and agrees with the new range
in memory type, GCD type, attributes and capabilities, without owner or device handle, but
whose GcdIoType is not EfiGcdIoTypeNonExistent, is not merged; two descriptors remain. -/
theorem CoreAddRange_keeps_io_neighbour :
    ∃ s1, CoreAddRange
        { initialState plainPlatform with
          mGcdMemorySpaceMap := [{ convEntry 0 0xFFF with GcdIoType := 1 }] }
        EfiConventionalMemory 2 0x1000 0x1FFF 0 0 0 = Except.ok s1 ∧
      s1.mGcdMemorySpaceMap =
        [{ convEntry 0 0xFFF with GcdIoType := 1 },
         { convEntry 0x1000 0x1FFF with FromPages := false, StackSlot := some 0 }] :=
  ⟨_, rfl, rfl⟩

/-- C9, amended: in a well-formed disjoint store below the top of the address space, let a
descriptor `e` end at Start - 1 or begin at End + 1, with the memory type, GCD type,
attributes and capabilities of the new range, GcdIoType EfiGcdIoTypeNonExistent and no owner
or device handle. Then CoreAddRange (for a well-formed range that meets no descriptor, the
descriptor stack not full) returns, unlinks `e` and links one new descriptor `d` with the
new properties that spans the new range and `e`; the other descriptors are descriptors of
the old store, the store stays well formed and disjoint, and exactly the addresses of the
new range are added. In particular Scenario B (conventional [0, 0xFFF], then conventional
[0x1000, 0x1FFF]) yields exactly one descriptor [0, 0x1FFF]. -/
theorem CoreAddRange_merges_neighbour (s : MemState) (T G S E A C H : Nat)
    (e : EFI_GCD_MAP_ENTRY) (hs : Store s.mGcdMemorySpaceMap) (hr : RangeOk S E)
    (hd : ∀ x ∈ s.mGcdMemorySpaceMap, E < x.BaseAddress ∨ x.EndAddress < S)
    (hdepth : s.mMapDepth + 1 < 6) (he : e ∈ s.mGcdMemorySpaceMap)
    (hT : e.EfiMemoryType = T) (hG : e.GcdMemoryType = G) (hA : e.Attributes = A)
    (hC : e.Capabilities = C) (hIo : e.GcdIoType = EfiGcdIoTypeNonExistent)
    (hI : e.ImageHandle = 0) (hD : e.DeviceHandle = 0)
    (hadj : e.EndAddress + 1 = S ∨ e.BaseAddress = E + 1) :
    (∃ s1 r d, CoreAddRange s T G S E A C H = Except.ok s1 ∧
      s1.mGcdMemorySpaceMap = r ++ [d] ∧ r.Sublist s.mGcdMemorySpaceMap ∧ e ∉ r ∧
      d.BaseAddress ≤ S ∧ d.BaseAddress ≤ e.BaseAddress ∧ E ≤ d.EndAddress ∧
      e.EndAddress ≤ d.EndAddress ∧ entryProps d = (T, A, C, G) ∧
      Store s1.mGcdMemorySpaceMap ∧
      ∀ a p, Has s1.mGcdMemorySpaceMap a p ↔
        (Has s.mGcdMemorySpaceMap a p ∨ (S ≤ a ∧ a ≤ E ∧ p = (T, A, C, G)))) ∧
    (∃ s1, scenarioB = Except.ok s1 ∧
      s1.mGcdMemorySpaceMap =
        [{ convEntry 0 0x1FFF with FromPages := false, StackSlot := some 1 }]) := by
  refine ⟨?_, _, rfl, rfl⟩
  have hsk : CoreAddRange.skip T G A C e = false := by
    unfold CoreAddRange.skip
    rw [hT, hG, hA, hC, hIo, hI, hD]
    simp
  obtain ⟨i1, i2, i3, i4, _⟩ := scan_spec T G A C s.mGcdMemorySpaceMap S E
    s.mFreeMemoryMapEntryList hs.1.1 hs.2 hs.1.2 hr hd
  obtain ⟨k1, k2, k3⟩ := scan_removes T G A C s.mGcdMemorySpaceMap S E
    s.mFreeMemoryMapEntryList hs.1.1 hs.2 hs.1.2 hr hd e he hsk hadj
  obtain ⟨r1, r2, _, _⟩ := addRangeResult_spec s T G S E A C H hs hr hd
  exact ⟨addRangeResult s T G S E A C H, _, _,
    (CoreAddRange_eq_ok _ _ _ _ _ _ _ _ _).2 ⟨⟨hr.1, hr.2.2.1, hdepth⟩, rfl⟩, rfl, i1, k1, i3,
    k2, i4, k3, rfl, r1, r2⟩

/-- Witness of `CoreAddRange_merges_neighbour`: the second step of Scenario B. -/
theorem CoreAddRange_merges_neighbour_witness :
    Store [{ convEntry 0 0xFFF with FromPages := false, StackSlot := some 0 }] ∧
    RangeOk 0x1000 0x1FFF ∧
    ∃ s1 r d, CoreAddRange
        { initialState plainPlatform with
          mGcdMemorySpaceMap :=
            [{ convEntry 0 0xFFF with FromPages := false, StackSlot := some 0 }]
          mMapDepth := 1 }
        EfiConventionalMemory 2 0x1000 0x1FFF 0 0 0 = Except.ok s1 ∧
      s1.mGcdMemorySpaceMap = r ++ [d] ∧
      ({ convEntry 0 0xFFF with FromPages := false, StackSlot := some 0 } :
        EFI_GCD_MAP_ENTRY) ∉ r ∧
      d.BaseAddress ≤ 0 ∧ 0x1FFF ≤ d.EndAddress :=
  have hs : Store [{ convEntry 0 0xFFF with FromPages := false, StackSlot := some 0 }] :=
    ⟨by decide, by unfold BelowTop; decide⟩
  have hr : RangeOk 0x1000 0x1FFF := by unfold RangeOk; decide
  ⟨hs, hr,
    match (CoreAddRange_merges_neighbour
      { initialState plainPlatform with
        mGcdMemorySpaceMap :=
          [{ convEntry 0 0xFFF with FromPages := false, StackSlot := some 0 }]
        mMapDepth := 1 }
      EfiConventionalMemory 2 0x1000 0x1FFF 0 0 0
      { convEntry 0 0xFFF with FromPages := false, StackSlot := some 0 } hs hr (by decide)
      (by decide) (by decide) rfl rfl rfl rfl rfl rfl rfl (Or.inl rfl)).1 with
    | ⟨s1, r, d, h1, h2, _, h4, _, h6, h7, _⟩ => ⟨s1, r, d, h1, h2, h4, h6, h7⟩⟩

/-! ## One pass of the conversion loop: it returns, and what it does to the stack -/

theorem scan_free_le (T G A C : Nat) (l : List EFI_GCD_MAP_ENTRY) :
    ∀ (S E f : Nat), f ≤ (CoreAddRange.scan T G A C l S E f).2.2.2 := by
  induction l with
  | nil => intro S E f; exact le_refl _
  | cons x rest ih =>
    intro S E f
    unfold CoreAddRange.scan
    split
    · exact ih S E f
    · split
      · exact le_trans (by split <;> omega) (ih _ _ _)
      · split
        · exact le_trans (by split <;> omega) (ih _ _ _)
        · exact ih S E f

/-- Pulling a range out of a well-formed descriptor returns when the descriptor stack has
a free slot; it uses at most one slot and frees no fewer descriptors than it takes. -/
theorem pull_frame (s : MemState) (pre : List EFI_GCD_MAP_ENTRY) (Entry : EFI_GCD_MAP_ENTRY)
    (post : List EFI_GCD_MAP_ENTRY) (Start RangeEnd : Nat) (hw : WellFormed Entry)
    (hb : Entry.BaseAddress ≤ Start) (hS : Start % 4096 = 0) (hSE : Start < RangeEnd)
    (he : RangeEnd ≤ Entry.EndAddress) (hd : s.mMapDepth + 1 < 6) :
    ∃ s1 cur, CoreConvertPagesEx.pull s pre Entry post Start RangeEnd = Except.ok (s1, cur) ∧
      s.mMapDepth ≤ s1.mMapDepth ∧ s1.mMapDepth ≤ s.mMapDepth + 1 ∧
      s.mFreeMemoryMapEntryList ≤ s1.mFreeMemoryMapEntryList ∧
      s1.mFreeMapStack = s.mFreeMapStack ∧ cur.EfiMemoryType = Entry.EfiMemoryType := by
  obtain ⟨hw1, hw2, hw3, hw4⟩ := hw
  by_cases h1 : Entry.BaseAddress = Start
  · rw [pull_start s pre Entry post Start RangeEnd h1]
    split
    · refine ⟨_, _, rfl, le_refl _, Nat.le_succ _, ?_, rfl, rfl⟩
      dsimp only
      split <;> omega
    · exact ⟨_, _, rfl, le_refl _, Nat.le_succ _, le_refl _, rfl, rfl⟩
  · by_cases h2 : Entry.EndAddress = RangeEnd
    · rw [pull_end s pre Entry post Start RangeEnd h1 h2]
      split
      · refine ⟨_, _, rfl, le_refl _, Nat.le_succ _, ?_, rfl, rfl⟩
        dsimp only
        split <;> omega
      · exact ⟨_, _, rfl, le_refl _, Nat.le_succ _, le_refl _, rfl, rfl⟩
    · have h3 : Entry.BaseAddress < sub64 Start 1 := by unfold sub64; omega
      have h5 : ¬ add64 RangeEnd 1 = add64 Entry.EndAddress 1 := by unfold add64; omega
      rw [pull_center s pre Entry post Start RangeEnd h1 h2 h3 hd h5]
      exact ⟨_, _, rfl, Nat.le_succ _, le_refl _, le_refl _, rfl, rfl⟩

theorem step_eq (env : Platform) (s : MemState) (pre : List EFI_GCD_MAP_ENTRY)
    (Entry : EFI_GCD_MAP_ENTRY) (post : List EFI_GCD_MAP_ENTRY) (Start RangeEnd N : Nat)
    (ct : Bool) (nt : Nat) (ca : Bool) (na nc : Nat) :
    CoreConvertPagesEx.step env s pre Entry post Start RangeEnd N ct nt ca na nc =
      (CoreConvertPagesEx.pull
          (if ct then updateStatistics s Start N Entry.EfiMemoryType nt else s)
          pre Entry post Start RangeEnd >>= fun r =>
        if (!env.FreedMemoryGuardEnabled || !ct ||
            (if ct then nt else r.2.EfiMemoryType) != EfiConventionalMemory) = true then
          CoreAddRange r.1 (if ct then nt else r.2.EfiMemoryType) Entry.GcdMemoryType Start
            RangeEnd
            (if ct then r.2.Attributes else if ca then na else r.2.Attributes)
            (if ct then r.2.Capabilities else if ca then Entry.Capabilities else nc)
            Entry.ImageHandle
        else pure r.1) := by
  unfold CoreConvertPagesEx.step
  cases ct <;> rfl

/-- One pass of the conversion loop returns when the descriptor stack has two free slots;
it uses at most two slots and frees no fewer descriptors than it takes. -/
theorem step_frame (env : Platform) (s : MemState) (pre : List EFI_GCD_MAP_ENTRY)
    (Entry : EFI_GCD_MAP_ENTRY) (post : List EFI_GCD_MAP_ENTRY) (Start RangeEnd N : Nat)
    (ct : Bool) (nt : Nat) (ca : Bool) (na nc : Nat) (hw : WellFormed Entry)
    (hb : Entry.BaseAddress ≤ Start) (hS : Start % 4096 = 0) (hSE : Start < RangeEnd)
    (he : RangeEnd ≤ Entry.EndAddress) (hd : s.mMapDepth + 2 < 6) :
    ∃ s2, CoreConvertPagesEx.step env s pre Entry post Start RangeEnd N ct nt ca na nc =
        Except.ok s2 ∧
      s2.mMapDepth ≤ s.mMapDepth + 2 ∧
      s.mFreeMemoryMapEntryList ≤ s2.mFreeMemoryMapEntryList ∧
      s2.mFreeMapStack = s.mFreeMapStack := by
  rw [step_eq]
  have hfr : ∀ s0 : MemState, s0.mMapDepth = s.mMapDepth →
      s0.mFreeMemoryMapEntryList = s.mFreeMemoryMapEntryList →
      s0.mFreeMapStack = s.mFreeMapStack →
      ∃ s2, (CoreConvertPagesEx.pull s0 pre Entry post Start RangeEnd >>= fun r =>
        if (!env.FreedMemoryGuardEnabled || !ct ||
            (if ct then nt else r.2.EfiMemoryType) != EfiConventionalMemory) = true then
          CoreAddRange r.1 (if ct then nt else r.2.EfiMemoryType) Entry.GcdMemoryType Start
            RangeEnd
            (if ct then r.2.Attributes else if ca then na else r.2.Attributes)
            (if ct then r.2.Capabilities else if ca then Entry.Capabilities else nc)
            Entry.ImageHandle
        else pure r.1) = Except.ok s2 ∧
      s2.mMapDepth ≤ s.mMapDepth + 2 ∧
      s.mFreeMemoryMapEntryList ≤ s2.mFreeMemoryMapEntryList ∧
      s2.mFreeMapStack = s.mFreeMapStack := by
    intro s0 e1 e2 e3
    obtain ⟨s1, cur, hp, p1, p2, p3, p4, _⟩ :=
      pull_frame s0 pre Entry post Start RangeEnd hw hb hS hSE he (by omega)
    rw [hp]
    simp only [bind, Except.bind]
    by_cases hc : (!env.FreedMemoryGuardEnabled || !ct ||
        (if ct then nt else cur.EfiMemoryType) != EfiConventionalMemory) = true
    · rw [if_pos hc]
      refine ⟨_, (CoreAddRange_eq_ok _ _ _ _ _ _ _ _ _).2 ⟨⟨hS, hSE, by omega⟩, rfl⟩, ?_, ?_, ?_⟩
      · simp only [addRangeResult]; omega
      · simp only [addRangeResult]
        exact le_trans (by omega) (scan_free_le _ _ _ _ _ _ _ _)
      · simp only [addRangeResult]; rw [p4, e3]
    · rw [if_neg hc]
      exact ⟨s1, rfl, by omega, by omega, by rw [p4, e3]⟩
  cases ct
  · exact hfr s rfl rfl rfl
  · obtain ⟨_, u2, u3, u4, _⟩ := updateStatistics_frame s Start N Entry.EfiMemoryType nt
    exact hfr _ u2 u3 u4

/-! ## CoreConvertPagesEx: entry checks and the loop -/

theorem covers_unique {l pre post : List EFI_GCD_MAP_ENTRY} {Entry e : EFI_GCD_MAP_ENTRY}
    {Start : Nat} (hp : l.Pairwise Disjoint) (hl : l = pre ++ Entry :: post)
    (hE : Entry.BaseAddress ≤ Start ∧ Start ≤ Entry.EndAddress) (he : e ∈ l)
    (hc : e.BaseAddress ≤ Start ∧ Start ≤ e.EndAddress) : e = Entry := by
  subst hl
  rw [List.pairwise_append] at hp
  obtain ⟨_, h2, h3⟩ := hp
  rw [List.pairwise_cons] at h2
  rcases List.mem_append.1 he with h | h
  · have := h3 e h Entry (List.mem_cons_self _ _)
    unfold Disjoint at this
    omega
  · rcases List.mem_cons.1 h with h | h
    · exact h
    · have := h2.1 e h
      unfold Disjoint at this
      omega

theorem coversStart_iff (Start : Nat) (e : EFI_GCD_MAP_ENTRY) :
    coversStart Start e = true ↔ e.BaseAddress ≤ Start ∧ Start < e.EndAddress := by
  unfold coversStart
  simp only [Bool.and_eq_true, decide_eq_true_eq, gt_iff_lt]

theorem loop_done (env : Platform) (f : MemState → Except Halt MemState) (N : Nat) (ct : Bool)
    (nt : Nat) (ca : Bool) (na nc End fuel : Nat) (s : MemState) (Start : Nat)
    (h : ¬ Start < End) :
    CoreConvertPagesEx.loop env f N ct nt ca na nc End fuel s Start =
      Except.ok (EFI_STATUS.EFI_SUCCESS, s) := by
  cases fuel with
  | zero => rw [CoreConvertPagesEx.loop, if_neg h]; rfl
  | succ n => rw [CoreConvertPagesEx.loop, if_neg h]; rfl

theorem CoreConvertPagesExWith_eq (env : Platform) (f : MemState → Except Halt MemState)
    (fuel : Nat) (s : MemState) (Start N : Nat) (ct : Bool) (nt : Nat) (ca : Bool) (na : Nat)
    (cc : Bool) (nc : Nat) (hN : N ≠ 0) (hS : Start % 4096 = 0)
    (hE : Start < sub64 (add64 Start (LShiftU64 N EFI_PAGE_SHIFT)) 1)
    (hflags : (ct == false || ca == false || cc == false) = true) :
    CoreConvertPagesExWith env f fuel s Start N ct nt ca na cc nc =
      CoreConvertPagesEx.loop env f N ct nt ca na nc
        (sub64 (add64 Start (LShiftU64 N EFI_PAGE_SHIFT)) 1) fuel s Start := by
  unfold CoreConvertPagesExWith
  dsimp only
  have a1 : ASSERT (N != 0) = Except.ok () := by rw [ASSERT_eq_ok]; simpa using hN
  have a2 : ASSERT (Start &&& EFI_PAGE_MASK == 0) = Except.ok () := by
    rw [ASSERT_eq_ok, EFI_PAGE_MASK, land_4095]; simpa using hS
  have a3 : ASSERT (decide (sub64 (add64 Start (LShiftU64 N EFI_PAGE_SHIFT)) 1 > Start)) =
      Except.ok () := by rw [ASSERT_eq_ok]; exact decide_eq_true hE
  have a4 : ASSERT (ct == false || ca == false || cc == false) = Except.ok () := by
    rw [ASSERT_eq_ok]; exact hflags
  rw [a1, a2, a3, a4]
  simp only [bind, Except.bind]
  rw [if_neg]
  rw [EFI_PAGE_MASK, land_4095]
  rintro (h | h | h)
  · exact hN h
  · exact h hS
  · omega

theorem convertEnd_eq (Start N : Nat) (hN : 1 ≤ N)
    (hwrap : Start + N * 4096 < 18446744073709551616) :
    sub64 (add64 Start (LShiftU64 N EFI_PAGE_SHIFT)) 1 = Start + N * 4096 - 1 := by
  unfold sub64 add64 LShiftU64 EFI_PAGE_SHIFT
  norm_num
  omega

/-! ## Conversion away from conventional memory -/

/-- C4, as stated, fails: the conventional descriptor [0, 0x1FFF] contains the page
[0x1000, 0x1FFF], but with an empty descriptor free list CoreConvertPages (0x1000, 1,
EfiBootServicesData) returns no status for any fuel: the drain has to refill the free list,
the only conventional page left is page 0, which FindFreePages cannot return, and
`ASSERT (Entry)` of CoreFreeMemoryMapStack (line 343) fails. -/
theorem CoreConvertPages_refill_halts :
    StoreOk [convEntry 0 0x1FFF] ∧
    (∃ e ∈ [convEntry 0 0x1FFF], e.EfiMemoryType = EfiConventionalMemory ∧
      e.BaseAddress ≤ 0x1000 ∧ 0x1000 + 1 * 4096 - 1 ≤ e.EndAddress) ∧
    (∀ n, CoreConvertPages plainPlatform (n + 2)
        { initialState plainPlatform with mGcdMemorySpaceMap := [convEntry 0 0x1FFF] }
        0x1000 1 EfiBootServicesData = Except.error Halt.assertion) ∧
    ∀ fuel, ∃ h, CoreConvertPages plainPlatform fuel
        { initialState plainPlatform with mGcdMemorySpaceMap := [convEntry 0 0x1FFF] }
        0x1000 1 EfiBootServicesData = Except.error h := by
  refine ⟨by decide, by decide, fun n => rfl, ?_⟩
  intro fuel
  match fuel with
  | 0 => exact ⟨_, rfl⟩
  | 1 => exact ⟨_, rfl⟩
  | n + 2 => exact ⟨_, rfl⟩

/-- C4, amended: in a quiescent allocator state (descriptor stack empty, no drain running)
with at least two free descriptors queued, for every well-formed disjoint store and every
valid request (N ≥ 1, Start page-aligned, Start + N * 4096 does not wrap),
CoreConvertPages (Start, N, NewType) with NewType ≠ EfiConventionalMemory returns
EFI_SUCCESS if one single descriptor of type EfiConventionalMemory contains the whole
range, and in every other case it returns EFI_NOT_FOUND and leaves the state unchanged
(fuel at least 3). -/
theorem CoreConvertPages_allocate_iff (env : Platform) (fuel : Nat) (s : MemState)
    (Start N NewType : Nat) (hs : StoreOk s.mGcdMemorySpaceMap) (hq : s.mMapDepth = 0)
    (hq2 : s.mFreeMapStack = 0) (hfree : 2 ≤ s.mFreeMemoryMapEntryList) (hfuel : 3 ≤ fuel)
    (hN : 1 ≤ N) (hS : Start % 4096 = 0) (hwrap : Start + N * 4096 < 18446744073709551616)
    (hT : NewType ≠ EfiConventionalMemory) :
    ((∃ e ∈ s.mGcdMemorySpaceMap, e.EfiMemoryType = EfiConventionalMemory ∧
        e.BaseAddress ≤ Start ∧ Start + N * 4096 - 1 ≤ e.EndAddress) →
      ∃ s1, CoreConvertPages env fuel s Start N NewType =
        Except.ok (EFI_STATUS.EFI_SUCCESS, s1)) ∧
    ((¬ ∃ e ∈ s.mGcdMemorySpaceMap, e.EfiMemoryType = EfiConventionalMemory ∧
        e.BaseAddress ≤ Start ∧ Start + N * 4096 - 1 ≤ e.EndAddress) →
      CoreConvertPages env fuel s Start N NewType =
        Except.ok (EFI_STATUS.EFI_NOT_FOUND, s)) := by
  have hEnd := convertEnd_eq Start N hN hwrap
  have hSE : Start < Start + N * 4096 - 1 := by omega
  obtain ⟨f, rfl⟩ : ∃ f, fuel = f + 1 := ⟨fuel - 1, by omega⟩
  have e0 : CoreConvertPages env (f + 1) s Start N NewType =
      CoreConvertPagesEx.loop env (CoreFreeMemoryMapStack env (f + 1)) N true NewType false 0 0
        (Start + N * 4096 - 1) (f + 1) s Start := by
    unfold CoreConvertPages CoreConvertPagesEx
    rw [CoreConvertPagesExWith_eq env _ (f + 1) s Start N true NewType false 0 false 0
      (by omega) hS (by rw [hEnd]; exact hSE) rfl, hEnd]
  rw [e0, CoreConvertPagesEx.loop, if_pos hSE]
  cases hf : findFirst (coversStart Start) s.mGcdMemorySpaceMap with
  | none =>
    have hnone := findFirst_none hf
    have hno : ¬ ∃ e ∈ s.mGcdMemorySpaceMap, e.EfiMemoryType = EfiConventionalMemory ∧
        e.BaseAddress ≤ Start ∧ Start + N * 4096 - 1 ≤ e.EndAddress := by
      rintro ⟨e, he, _, h1, h2⟩
      have := hnone e he
      rw [(coversStart_iff Start e).2 ⟨h1, by omega⟩] at this
      exact absurd this (by decide)
    exact ⟨fun h => absurd h hno, fun _ => rfl⟩
  | some r =>
    obtain ⟨pre, Entry, post⟩ := r
    obtain ⟨hl, hc, _⟩ := findFirst_some hf
    rw [coversStart_iff] at hc
    have hmem : Entry ∈ s.mGcdMemorySpaceMap := by rw [hl]; simp
    have hw : WellFormed Entry := hs.1 Entry hmem
    have huniq : ∀ e ∈ s.mGcdMemorySpaceMap, e.BaseAddress ≤ Start →
        Start + N * 4096 - 1 ≤ e.EndAddress → e = Entry := fun e he h1 h2 =>
      covers_unique hs.2 hl ⟨hc.1, le_of_lt hc.2⟩ he ⟨h1, by omega⟩
    dsimp only
    by_cases h1 : Entry.EndAddress < Start + N * 4096 - 1
    · rw [if_pos ⟨rfl, hT, h1⟩]
      have hno : ¬ ∃ e ∈ s.mGcdMemorySpaceMap, e.EfiMemoryType = EfiConventionalMemory ∧
          e.BaseAddress ≤ Start ∧ Start + N * 4096 - 1 ≤ e.EndAddress := by
        rintro ⟨e, he, _, h2, h3⟩
        have := huniq e he h2 h3
        subst this
        omega
      exact ⟨fun h => absurd h hno, fun _ => rfl⟩
    · rw [if_neg (fun h => h1 h.2.2), if_neg h1]
      have hnt : (NewType == EfiConventionalMemory) = false := by simpa using hT
      by_cases h2 : Entry.EfiMemoryType = EfiConventionalMemory
      · have hx : ¬ (true = true ∧ xor (!(NewType == EfiConventionalMemory))
            (Entry.EfiMemoryType == EfiConventionalMemory) = true) := by
          rw [hnt, h2]; decide
        rw [if_neg hx]
        obtain ⟨s2, hstep, d1, d2, d3⟩ := step_frame env s pre Entry post Start
          (Start + N * 4096 - 1) N true NewType false 0 0 hw hc.1 hS hSE (by omega) (by omega)
        obtain ⟨ex, _⟩ := CoreFreeMemoryMapStack_queued env (f + 1) s2 (by omega)
        obtain ⟨s3, hdrain⟩ := ex (by omega)
        rw [hstep]
        simp only [bind, Except.bind]
        rw [hdrain]
        dsimp only
        rw [loop_done _ _ _ _ _ _ _ _ _ _ _ _ (by unfold add64; omega)]
        refine ⟨fun _ => ⟨s3, rfl⟩, fun h => absurd ⟨Entry, hmem, h2, hc.1, by omega⟩ h⟩
      · have hx : true = true ∧ xor (!(NewType == EfiConventionalMemory))
            (Entry.EfiMemoryType == EfiConventionalMemory) = true := by
          have : (Entry.EfiMemoryType == EfiConventionalMemory) = false := by simpa using h2
          rw [hnt, this]; decide
        rw [if_pos hx]
        have hno : ¬ ∃ e ∈ s.mGcdMemorySpaceMap, e.EfiMemoryType = EfiConventionalMemory ∧
            e.BaseAddress ≤ Start ∧ Start + N * 4096 - 1 ≤ e.EndAddress := by
          rintro ⟨e, he, h3, h4, h5⟩
          have := huniq e he h4 h5
          subst this
          exact h2 h3
        exact ⟨fun h => absurd h hno, fun _ => rfl⟩

/-- Witness of `CoreConvertPages_allocate_iff`: two pages at 0x2000 out of the conventional
range [0, 0x9FFF], two free descriptors, fuel 3. -/
theorem CoreConvertPages_allocate_iff_witness :
    StoreOk [convEntry 0 0x9FFF] ∧ 0x2000 % 4096 = 0 ∧
    0x2000 + 2 * 4096 < 18446744073709551616 ∧ EfiBootServicesData ≠ EfiConventionalMemory ∧
    (∃ e ∈ [convEntry 0 0x9FFF], e.EfiMemoryType = EfiConventionalMemory ∧
      e.BaseAddress ≤ 0x2000 ∧ 0x2000 + 2 * 4096 - 1 ≤ e.EndAddress) ∧
    ∃ s1, CoreConvertPages plainPlatform 3
        { initialState plainPlatform with
          mGcdMemorySpaceMap := [convEntry 0 0x9FFF], mFreeMemoryMapEntryList := 2 }
        0x2000 2 EfiBootServicesData = Except.ok (EFI_STATUS.EFI_SUCCESS, s1) :=
  ⟨by decide, by decide, by decide, by decide, by decide,
    (CoreConvertPages_allocate_iff plainPlatform 3
      { initialState plainPlatform with
        mGcdMemorySpaceMap := [convEntry 0 0x9FFF], mFreeMemoryMapEntryList := 2 }
      0x2000 2 EfiBootServicesData (by decide) rfl rfl (by decide) (by decide) (by decide)
      (by decide) (by decide) (by decide)).1 (by decide)⟩

/-! ## Conversions that need no refill of the descriptor free list -/

theorem convertedProps_eq (ct : Bool) (nt : Nat) (ca : Bool) (na nc : Nat)
    (Entry : EFI_GCD_MAP_ENTRY) :
    convertedProps ct nt ca na nc Entry = convertProps ct nt ca na nc (entryProps Entry) := rfl

theorem Has_unique {l : List EFI_GCD_MAP_ENTRY} (hs : Store l) {a : Nat}
    {p q : Nat × Nat × Nat × Nat} (hp : Has l a p) (hq : Has l a q) : p = q := by
  obtain ⟨e, he, hce, rfl⟩ := hp
  obtain ⟨x, hx, hcx, rfl⟩ := hq
  obtain ⟨pre, post, hl⟩ := List.append_of_mem he
  have := covers_unique hs.1.2 hl hce hx hcx
  rw [this]

theorem Converted_empty (ct : Bool) (nt : Nat) (ca : Bool) (na nc : Nat)
    (l : List EFI_GCD_MAP_ENTRY) (Start End : Nat) (h : End < Start) :
    Converted ct nt ca na nc l Start End l := by
  intro a p
  constructor
  · intro hp
    exact Or.inl ⟨hp, by omega⟩
  · rintro (⟨hp, _⟩ | ⟨h1, h2, _⟩)
    · exact hp
    · omega

/-- One pass, the drain and the rest of the loop, put together. -/
theorem Converted_step (ct : Bool) (nt : Nat) (ca : Bool) (na nc : Nat)
    (l l2 l3 l1 : List EFI_GCD_MAP_ENTRY) (Entry : EFI_GCD_MAP_ENTRY) (Start RangeEnd End : Nat)
    (hs : Store l) (hmem : Entry ∈ l) (hb : Entry.BaseAddress ≤ Start)
    (he : RangeEnd ≤ Entry.EndAddress) (h1 : Start ≤ RangeEnd) (h2 : RangeEnd ≤ End)
    (hstep : ∀ a p, Has l2 a p ↔
      ((Has l a p ∧ ¬ (Start ≤ a ∧ a ≤ RangeEnd)) ∨
       (Start ≤ a ∧ a ≤ RangeEnd ∧ p = convertedProps ct nt ca na nc Entry)))
    (hdrain : ∀ a p, Has l2 a p ↔ Has l3 a p)
    (hrest : Converted ct nt ca na nc l3 (RangeEnd + 1) End l1) :
    Converted ct nt ca na nc l Start End l1 := by
  intro a p
  have hin : ∀ a, Start ≤ a → a ≤ RangeEnd → Has l a (entryProps Entry) :=
    fun a h3 h4 => ⟨Entry, hmem, ⟨by omega, by omega⟩, rfl⟩
  rw [hrest a p]
  by_cases hlo : a < Start
  · have e3 : ∀ q, Has l3 a q ↔ Has l a q := by
      intro q
      rw [← hdrain, hstep]
      constructor
      · rintro (⟨h, _⟩ | ⟨h, _⟩)
        · exact h
        · omega
      · intro h; exact Or.inl ⟨h, by omega⟩
    rw [e3]
    constructor
    · rintro (⟨h, _⟩ | ⟨h, _⟩)
      · exact Or.inl ⟨h, by omega⟩
      · omega
    · rintro (⟨h, _⟩ | ⟨h, _⟩)
      · exact Or.inl ⟨h, by omega⟩
      · omega
  · by_cases hmid : a ≤ RangeEnd
    · have e3 : ∀ q, Has l3 a q ↔ q = convertedProps ct nt ca na nc Entry := by
        intro q
        rw [← hdrain, hstep]
        constructor
        · rintro (⟨_, h⟩ | ⟨_, _, h⟩)
          · exact absurd ⟨by omega, hmid⟩ h
          · exact h
        · intro h; exact Or.inr ⟨by omega, hmid, h⟩
      rw [e3]
      constructor
      · rintro (⟨h, _⟩ | ⟨h, _⟩)
        · exact Or.inr ⟨by omega, by omega, entryProps Entry, hin a (by omega) hmid,
            by rw [h, convertedProps_eq]⟩
        · omega
      · rintro (⟨_, h⟩ | ⟨_, _, q, hq, hp⟩)
        · exact absurd ⟨by omega, by omega⟩ h
        · have := Has_unique hs hq (hin a (by omega) hmid)
          rw [this] at hp
          exact Or.inl ⟨by rw [hp, convertedProps_eq], by omega⟩
    · have e3 : ∀ q, Has l3 a q ↔ Has l a q := by
        intro q
        rw [← hdrain, hstep]
        constructor
        · rintro (⟨h, _⟩ | ⟨_, h, _⟩)
          · exact h
          · omega
        · intro h; exact Or.inl ⟨h, by omega⟩
      simp only [e3]
      constructor
      · rintro (⟨h, h4⟩ | ⟨h3, h4, h5⟩)
        · exact Or.inl ⟨h, by omega⟩
        · exact Or.inr ⟨by omega, h4, h5⟩
      · rintro (⟨h, h4⟩ | ⟨h3, h4, h5⟩)
        · exact Or.inl ⟨h, by omega⟩
        · exact Or.inr ⟨by omega, h4, h5⟩

theorem readds_of_guard_off (env : Platform) (ct : Bool) (nt : Nat)
    (hg : env.FreedMemoryGuardEnabled = false) : readds env ct nt = true := by
  unfold readds
  rw [hg]
  rfl

/-- The conversion loop when the free list holds two descriptors for every page still to
convert (no refill): a run that returns EFI_SUCCESS keeps the store invariant and changes
exactly the range. -/
theorem loop_queued_spec (env : Platform) (k N : Nat) (ct : Bool) (nt : Nat) (ca : Bool)
    (na nc End : Nat) (hg : env.FreedMemoryGuardEnabled = false) (hE : End % 4096 = 4095) :
    ∀ (fuel : Nat) (s : MemState) (Start : Nat), Store s.mGcdMemorySpaceMap →
      Start % 4096 = 0 →
      s.mMapDepth + 2 * ((End + 1 - Start) / 4096) ≤ s.mFreeMemoryMapEntryList →
      ∀ s1, CoreConvertPagesEx.loop env (CoreFreeMemoryMapStack env k) N ct nt ca na nc End
          fuel s Start = Except.ok (EFI_STATUS.EFI_SUCCESS, s1) →
        Store s1.mGcdMemorySpaceMap ∧
        Converted ct nt ca na nc s.mGcdMemorySpaceMap Start End s1.mGcdMemorySpaceMap ∧
        ∀ a, Start ≤ a → a ≤ End → ∃ q, Has s.mGcdMemorySpaceMap a q := by
  intro fuel
  induction fuel with
  | zero =>
    intro s Start hs hS _ s1 h
    rw [CoreConvertPagesEx.loop] at h
    by_cases hlt : Start < End
    · rw [if_pos hlt] at h
      cases h
    · rw [if_neg hlt] at h
      obtain rfl := (Prod.mk.inj (Except.ok.inj h)).2
      exact ⟨hs, Converted_empty _ _ _ _ _ _ _ _ (by omega), fun a h3 h4 => by omega⟩
  | succ n ih =>
    intro s Start hs hS hq s1 h
    rw [CoreConvertPagesEx.loop] at h
    by_cases hlt : Start < End
    · rw [if_pos hlt] at h
      cases hf : findFirst (coversStart Start) s.mGcdMemorySpaceMap with
      | none =>
        rw [hf] at h
        exact (status_ne_of_ok h (by decide)).elim
      | some r =>
        obtain ⟨pre, Entry, post⟩ := r
        rw [hf] at h
        dsimp only at h
        obtain ⟨hl, hc, _⟩ := findFirst_some hf
        rw [coversStart_iff] at hc
        have hmem : Entry ∈ s.mGcdMemorySpaceMap := by rw [hl]; simp
        obtain ⟨hw1, hw2, hw3, hw4⟩ := hs.1.1 Entry hmem
        have htop := hs.2 Entry hmem
        by_cases c1 : ct = true ∧ nt ≠ EfiConventionalMemory ∧ Entry.EndAddress < End
        · rw [if_pos c1] at h
          exact (status_ne_of_ok h (by decide)).elim
        · rw [if_neg c1] at h
          have hre : ∃ RangeEnd, (if Entry.EndAddress < End then Entry.EndAddress else End) =
              RangeEnd ∧ RangeEnd ≤ Entry.EndAddress ∧ RangeEnd ≤ End ∧ Start < RangeEnd ∧
              RangeEnd % 4096 = 4095 ∧ RangeEnd < 18446744073709551615 := by
            refine ⟨_, rfl, ?_, ?_, ?_, ?_, ?_⟩ <;> split <;> omega
          obtain ⟨RangeEnd, hRE, r1, r2, r3, r4, r5⟩ := hre
          rw [hRE] at h
          by_cases c2 : ct = true ∧ xor (!(nt == EfiConventionalMemory))
              (Entry.EfiMemoryType == EfiConventionalMemory) = true
          · rw [if_pos c2] at h
            exact (status_ne_of_ok h (by decide)).elim
          · rw [if_neg c2] at h
            obtain ⟨s2, hstep, h2⟩ := (bind_eq_ok _ _ _).1 h
            obtain ⟨s3, hdrain, hloop⟩ := (bind_eq_ok _ _ _).1 h2
            obtain ⟨t1, t2, _, t4, t5, t6, t7⟩ :=
              (step_spec env s pre Entry post Start RangeEnd N ct nt ca na nc hl hs hc.1
                ⟨hS, r4, r3, r5⟩ r1).2 s2 hstep
            obtain ⟨d1, _, d3, d4, _⟩ :=
              (CoreFreeMemoryMapStack_queued env k s2 (by omega)).2 s3 hdrain
            have hadd : add64 RangeEnd 1 = RangeEnd + 1 := by unfold add64; omega
            rw [hadd] at hloop
            obtain ⟨i1, i2, i3⟩ := ih s3 (RangeEnd + 1) (Store_flagPerm d1 t1) (by omega)
              (by omega) s1 hloop
            have hstepHas : ∀ a p, Has s2.mGcdMemorySpaceMap a p ↔
                ((Has s.mGcdMemorySpaceMap a p ∧ ¬ (Start ≤ a ∧ a ≤ RangeEnd)) ∨
                 (Start ≤ a ∧ a ≤ RangeEnd ∧ p = convertedProps ct nt ca na nc Entry)) := by
              intro a p
              rw [t2 a p, readds_of_guard_off env ct nt hg]
              simp only [true_and]
            refine ⟨i1, Converted_step ct nt ca na nc _ _ _ _ Entry Start RangeEnd End hs hmem
              hc.1 r1 (le_of_lt r3) r2 hstepHas (Has_flagPerm d1) i2, ?_⟩
            intro a h3 h4
            by_cases hmid : a ≤ RangeEnd
            · exact ⟨entryProps Entry, Entry, hmem, ⟨by omega, by omega⟩, rfl⟩
            · obtain ⟨q, hq⟩ := i3 a (by omega) h4
              rw [← Has_flagPerm d1, hstepHas] at hq
              rcases hq with ⟨hq, _⟩ | ⟨_, hq, _⟩
              · exact ⟨q, hq⟩
              · omega
    · rw [if_neg hlt] at h
      obtain rfl := (Prod.mk.inj (Except.ok.inj h)).2
      exact ⟨hs, Converted_empty _ _ _ _ _ _ _ _ (by omega), fun a h3 h4 => by omega⟩

/-- C3 fails on the code where the address space wraps: freeing page 0 next to conventional
memory in the last page of the 64-bit address space returns EFI_SUCCESS, but CoreAddRange
merges the two (`EndAddress + 1 == Start` holds modulo 2 ^ 64) into one descriptor with the
base above the end, so afterwards no descriptor covers address 0 of the requested range. -/
theorem CoreConvertPages_wrap_not_covered :
    StoreOk wrapState.mGcdMemorySpaceMap ∧
    ∃ s1, CoreConvertPages plainPlatform 4 wrapState 0 1 EfiConventionalMemory =
        Except.ok (EFI_STATUS.EFI_SUCCESS, s1) ∧
      s1.mGcdMemorySpaceMap = [convEntry 0xFFFFFFFFFFFFF000 0xFFF] ∧
      ¬ ∃ e ∈ s1.mGcdMemorySpaceMap, Covers e 0 :=
  ⟨by decide, _, rfl, rfl, by decide⟩

/-- Away from the top of the address space the conversion updates exactly the requested
range: with freed-memory guard disabled, on a well-formed disjoint store whose
descriptors end below 2 ^ 64 - 1, with two free descriptors queued per page beyond the
stack depth (no refill) and a request that does not wrap, a successful type-changing
CoreConvertPages (Start, N, NewType) updates exactly the requested range: the store stays
well formed and disjoint, every address of [Start, Start + N * 4096 - 1] was covered
before and is afterwards covered with type NewType and the attributes, capabilities and
GCD type it had before, and every address outside the range is covered (or not covered)
exactly as before, with the same properties. -/
theorem CoreConvertPages_converts_range (env : Platform) (fuel : Nat) (s s1 : MemState)
    (Start N NewType : Nat) (hg : env.FreedMemoryGuardEnabled = false)
    (hs : Store s.mGcdMemorySpaceMap)
    (hfree : s.mMapDepth + 2 * N ≤ s.mFreeMemoryMapEntryList)
    (hwrap : Start + N * 4096 < 18446744073709551616)
    (h : CoreConvertPages env fuel s Start N NewType =
      Except.ok (EFI_STATUS.EFI_SUCCESS, s1)) :
    Store s1.mGcdMemorySpaceMap ∧
    (∀ a, Start ≤ a → a ≤ Start + N * 4096 - 1 →
      ∃ q, Has s.mGcdMemorySpaceMap a q ∧
        ∀ p, Has s1.mGcdMemorySpaceMap a p ↔ p = (NewType, q.2.1, q.2.2.1, q.2.2.2)) ∧
    (∀ a p, ¬ (Start ≤ a ∧ a ≤ Start + N * 4096 - 1) →
      (Has s1.mGcdMemorySpaceMap a p ↔ Has s.mGcdMemorySpaceMap a p)) := by
  unfold CoreConvertPages CoreConvertPagesEx CoreConvertPagesExWith at h
  dsimp only at h
  obtain ⟨_, a1, h⟩ := (bind_eq_ok _ _ _).1 h
  obtain ⟨_, a2, h⟩ := (bind_eq_ok _ _ _).1 h
  obtain ⟨_, a3, h⟩ := (bind_eq_ok _ _ _).1 h
  obtain ⟨_, _, h⟩ := (bind_eq_ok _ _ _).1 h
  rw [ASSERT_eq_ok] at a1 a2 a3
  have hN : N ≠ 0 := by simpa using a1
  have hS : Start % 4096 = 0 := by
    rw [EFI_PAGE_MASK, land_4095] at a2; simpa using a2
  have hEnd := convertEnd_eq Start N (by omega) hwrap
  rw [hEnd] at h
  by_cases c : N = 0 ∨ Start &&& EFI_PAGE_MASK ≠ 0 ∨ Start ≥ Start + N * 4096 - 1
  · rw [if_pos c] at h
    exact (status_ne_of_ok h (by decide)).elim
  · rw [if_neg c] at h
    have hq : s.mMapDepth + 2 * ((Start + N * 4096 - 1 + 1 - Start) / 4096) ≤
        s.mFreeMemoryMapEntryList := by omega
    obtain ⟨i1, i2, i3⟩ := loop_queued_spec env fuel N true NewType false 0 0
      (Start + N * 4096 - 1) hg (by omega) fuel s Start hs hS hq s1 h
    refine ⟨i1, ?_, ?_⟩
    · intro a h3 h4
      obtain ⟨q, hq⟩ := i3 a h3 h4
      refine ⟨q, hq, ?_⟩
      intro p
      rw [i2 a p]
      constructor
      · rintro (⟨_, hn⟩ | ⟨_, _, q1, hq1, hp⟩)
        · exact absurd ⟨h3, h4⟩ hn
        · rw [Has_unique hs hq hq1, hp]; rfl
      · intro hp
        exact Or.inr ⟨h3, h4, q, hq, by rw [hp]; rfl⟩
    · intro a p hn
      rw [i2 a p]
      constructor
      · rintro (⟨hp, _⟩ | ⟨h3, h4, _⟩)
        · exact hp
        · exact absurd ⟨h3, h4⟩ hn
      · intro hp
        exact Or.inl ⟨hp, hn⟩

/-- Witness of `CoreConvertPages_converts_range`: two pages at 0x2000 out of the
conventional range [0, 0x9FFF] with four free descriptors. -/
theorem CoreConvertPages_converts_range_witness :
    plainPlatform.FreedMemoryGuardEnabled = false ∧ Store [convEntry 0 0x9FFF] ∧
    ∃ s1, CoreConvertPages plainPlatform 4
        { initialState plainPlatform with
          mGcdMemorySpaceMap := [convEntry 0 0x9FFF], mFreeMemoryMapEntryList := 4 }
        0x2000 2 EfiBootServicesData = Except.ok (EFI_STATUS.EFI_SUCCESS, s1) ∧
      Store s1.mGcdMemorySpaceMap ∧
      ∀ a p, ¬ (0x2000 ≤ a ∧ a ≤ 0x2000 + 2 * 4096 - 1) →
        (Has s1.mGcdMemorySpaceMap a p ↔ Has [convEntry 0 0x9FFF] a p) :=
  have hs : Store [convEntry 0 0x9FFF] := ⟨by decide, by unfold BelowTop; decide⟩
  ⟨rfl, hs,
    match (⟨_, rfl⟩ : ∃ s1, CoreConvertPages plainPlatform 4
        { initialState plainPlatform with
          mGcdMemorySpaceMap := [convEntry 0 0x9FFF], mFreeMemoryMapEntryList := 4 }
        0x2000 2 EfiBootServicesData = Except.ok (EFI_STATUS.EFI_SUCCESS, s1)) with
    | ⟨s1, h1⟩ =>
      have key := CoreConvertPages_converts_range plainPlatform 4
        { initialState plainPlatform with
          mGcdMemorySpaceMap := [convEntry 0 0x9FFF], mFreeMemoryMapEntryList := 4 }
        s1 0x2000 2 EfiBootServicesData rfl hs (by decide) (by decide) h1
      ⟨s1, h1, key.1, key.2.2⟩⟩

theorem convertEnd_mod (Start N : Nat) (hS : Start % 4096 = 0) :
    sub64 (add64 Start (LShiftU64 N EFI_PAGE_SHIFT)) 1 % 4096 = 4095 := by
  unfold sub64 add64 LShiftU64 EFI_PAGE_SHIFT
  norm_num
  omega

theorem loop_preserves (env : Platform) (I : List EFI_GCD_MAP_ENTRY → Prop)
    (hI : StoreInvariant env I) (f : MemState → Except Halt MemState) (hf : Preserves I f)
    (N : Nat) (ct : Bool) (nt : Nat) (ca : Bool) (na nc End : Nat) (hE : End % 4096 = 4095) :
    ∀ (fuel : Nat) (s : MemState) (Start : Nat), I s.mGcdMemorySpaceMap → Start % 4096 = 0 →
      ∀ r, CoreConvertPagesEx.loop env f N ct nt ca na nc End fuel s Start = Except.ok r →
        I r.2.mGcdMemorySpaceMap := by
  obtain ⟨hI1, _, hI3, _⟩ := hI
  intro fuel
  induction fuel with
  | zero =>
    intro s Start hs hS r h
    rw [CoreConvertPagesEx.loop] at h
    by_cases hlt : Start < End
    · rw [if_pos hlt] at h
      cases h
    · rw [if_neg hlt] at h
      obtain rfl := Except.ok.inj h
      exact hs
  | succ n ih =>
    intro s Start hs hS r h
    rw [CoreConvertPagesEx.loop] at h
    by_cases hlt : Start < End
    · rw [if_pos hlt] at h
      cases hfd : findFirst (coversStart Start) s.mGcdMemorySpaceMap with
      | none =>
        rw [hfd] at h
        obtain rfl := Except.ok.inj h
        exact hs
      | some x =>
        obtain ⟨pre, Entry, post⟩ := x
        rw [hfd] at h
        dsimp only at h
        obtain ⟨hl, hc, _⟩ := findFirst_some hfd
        rw [coversStart_iff] at hc
        have hmem : Entry ∈ s.mGcdMemorySpaceMap := by rw [hl]; simp
        have hst := hI1 _ hs
        obtain ⟨hw1, hw2, hw3, hw4⟩ := hst.1.1 Entry hmem
        have htop := hst.2 Entry hmem
        by_cases c1 : ct = true ∧ nt ≠ EfiConventionalMemory ∧ Entry.EndAddress < End
        · rw [if_pos c1] at h
          obtain rfl := Except.ok.inj h
          exact hs
        · rw [if_neg c1] at h
          have hre : ∃ RangeEnd, (if Entry.EndAddress < End then Entry.EndAddress else End) =
              RangeEnd ∧ RangeEnd ≤ Entry.EndAddress ∧ RangeEnd ≤ End ∧ Start < RangeEnd ∧
              RangeEnd % 4096 = 4095 ∧ RangeEnd < 18446744073709551615 := by
            refine ⟨_, rfl, ?_, ?_, ?_, ?_, ?_⟩ <;> split <;> omega
          obtain ⟨RangeEnd, hRE, r1, r2, r3, r4, r5⟩ := hre
          rw [hRE] at h
          by_cases c2 : ct = true ∧ xor (!(nt == EfiConventionalMemory))
              (Entry.EfiMemoryType == EfiConventionalMemory) = true
          · rw [if_pos c2] at h
            obtain rfl := Except.ok.inj h
            exact hs
          · rw [if_neg c2] at h
            obtain ⟨s2, hstep, h2⟩ := (bind_eq_ok _ _ _).1 h
            obtain ⟨s3, hdrain, hloop⟩ := (bind_eq_ok _ _ _).1 h2
            have hr : RangeOk Start RangeEnd := ⟨hS, r4, r3, r5⟩
            have hsp := (step_spec env s pre Entry post Start RangeEnd N ct nt ca na nc hl hst
              hc.1 hr r1).2 s2 hstep
            have i2 := hI3 s s2 pre Entry post Start RangeEnd ct nt ca na nc hl hc.1 hr r1 hs hsp
            have i3 := hf s2 s3 i2 hdrain
            have hadd : add64 RangeEnd 1 = RangeEnd + 1 := by unfold add64; omega
            rw [hadd] at hloop
            exact ih s3 (RangeEnd + 1) i3 (by omega) r hloop
    · rw [if_neg hlt] at h
      obtain rfl := Except.ok.inj h
      exact hs

theorem CoreConvertPagesExWith_preserves (env : Platform) (I : List EFI_GCD_MAP_ENTRY → Prop)
    (hI : StoreInvariant env I) (f : MemState → Except Halt MemState) (hf : Preserves I f)
    (fuel : Nat) (s : MemState) (Start N : Nat) (ct : Bool) (nt : Nat) (ca : Bool) (na : Nat)
    (cc : Bool) (nc : Nat) (hs : I s.mGcdMemorySpaceMap) (r : EFI_STATUS × MemState)
    (h : CoreConvertPagesExWith env f fuel s Start N ct nt ca na cc nc = Except.ok r) :
    I r.2.mGcdMemorySpaceMap := by
  unfold CoreConvertPagesExWith at h
  dsimp only at h
  obtain ⟨_, _, h⟩ := (bind_eq_ok _ _ _).1 h
  obtain ⟨_, a2, h⟩ := (bind_eq_ok _ _ _).1 h
  obtain ⟨_, _, h⟩ := (bind_eq_ok _ _ _).1 h
  obtain ⟨_, _, h⟩ := (bind_eq_ok _ _ _).1 h
  rw [ASSERT_eq_ok] at a2
  have hS : Start % 4096 = 0 := by
    rw [EFI_PAGE_MASK, land_4095] at a2; simpa using a2
  by_cases c : N = 0 ∨ Start &&& EFI_PAGE_MASK ≠ 0 ∨
      Start ≥ sub64 (add64 Start (LShiftU64 N EFI_PAGE_SHIFT)) 1
  · rw [if_pos c] at h
    obtain rfl := Except.ok.inj h
    exact hs
  · rw [if_neg c] at h
    exact loop_preserves env I hI f hf N ct nt ca na nc _ (convertEnd_mod Start N hS) fuel s
      Start hs hS r h

theorem FindFreePages_preserves (env : Platform) (I : List EFI_GCD_MAP_ENTRY → Prop)
    (hI : StoreInvariant env I) (MaxAddress NoPages NewType Alignment : Nat) (NeedGuard : Bool) :
    ∀ (fuel : Nat) (s : MemState) (r : Nat × MemState), I s.mGcdMemorySpaceMap →
      FindFreePages env fuel s MaxAddress NoPages NewType Alignment NeedGuard = Except.ok r →
      I r.2.mGcdMemorySpaceMap := by
  obtain ⟨_, _, _, hI4⟩ := hI
  intro fuel
  induction fuel with
  | zero =>
    intro s r _ h
    simp [FindFreePages, throw, throwThe, MonadExceptOf.throw] at h
  | succ n ih =>
    intro s r hs h
    rw [FindFreePages] at h
    dsimp only at h
    generalize (if NewType < EfiMaxMemoryType ∧
        MaxAddress ≥ (s.mMemoryTypeStatistics.getD NewType default).MaximumAddress then
        CoreFindFreePagesI env s (s.mMemoryTypeStatistics.getD NewType default).MaximumAddress
          (s.mMemoryTypeStatistics.getD NewType default).BaseAddress NoPages NewType Alignment
          NeedGuard
        else 0) = S1 at h
    generalize (if MaxAddress ≥ s.mDefaultMaximumAddress then
        CoreFindFreePagesI env s s.mDefaultMaximumAddress 0 NoPages NewType Alignment NeedGuard
        else 0) = S2 at h
    generalize CoreFindFreePagesI env s MaxAddress 0 NoPages NewType Alignment NeedGuard = S3 at h
    by_cases c1 : S1 ≠ 0
    · rw [if_pos c1] at h
      obtain rfl := Except.ok.inj h
      exact hs
    · rw [if_neg c1] at h
      by_cases c2 : S2 ≠ 0
      · rw [if_pos c2] at h
        obtain rfl := Except.ok.inj h
        dsimp only
        split <;> exact hs
      · rw [if_neg c2] at h
        by_cases c3 : S3 ≠ 0
        · rw [if_pos c3] at h
          obtain rfl := Except.ok.inj h
          exact hs
        · rw [if_neg c3] at h
          cases hp : env.PromoteGuardedFreePages s with
          | none =>
            rw [hp] at h
            obtain rfl := Except.ok.inj h
            exact hs
          | some s1 =>
            rw [hp] at h
            exact ih s1 r (hI4 s s1 hp hs) h

theorem CoreAllocatePoolPagesWith_preserves (env : Platform)
    (I : List EFI_GCD_MAP_ENTRY → Prop) (hI : StoreInvariant env I)
    (f : MemState → Except Halt MemState) (hf : Preserves I f) (fuel : Nat) (s : MemState)
    (PoolType NumberOfPages Alignment : Nat) (hs : I s.mGcdMemorySpaceMap)
    (r : Nat × MemState)
    (h : CoreAllocatePoolPagesWith env f fuel s PoolType NumberOfPages Alignment false =
      Except.ok r) : I r.2.mGcdMemorySpaceMap := by
  unfold CoreAllocatePoolPagesWith at h
  obtain ⟨⟨Start, s1⟩, hfind, h⟩ := (bind_eq_ok _ _ _).1 h
  have i1 := FindFreePages_preserves env I hI _ _ _ _ _ fuel s _ hs hfind
  dsimp only at h i1
  by_cases c : Start = 0
  · rw [if_pos c] at h
    obtain rfl := Except.ok.inj h
    exact i1
  · rw [if_neg c] at h
    obtain ⟨⟨St, s2⟩, hconv, h⟩ := (bind_eq_ok _ _ _).1 h
    unfold CoreConvertPagesWith at hconv
    have i2 := CoreConvertPagesExWith_preserves env I hI f hf fuel s1 Start NumberOfPages true
      PoolType false 0 false 0 i1 _ hconv
    dsimp only at h i2
    split at h
    · obtain rfl := Except.ok.inj h
      exact i2
    · obtain rfl := Except.ok.inj h
      exact i2

theorem AllocateMemoryMapEntryWith_preserves (env : Platform)
    (I : List EFI_GCD_MAP_ENTRY → Prop) (hI : StoreInvariant env I)
    (f : MemState → Except Halt MemState) (hf : Preserves I f) (fuel : Nat) (s : MemState)
    (hs : I s.mGcdMemorySpaceMap) (r : Bool × MemState)
    (h : AllocateMemoryMapEntryWith env f fuel s = Except.ok r) :
    I r.2.mGcdMemorySpaceMap := by
  by_cases c : s.mFreeMemoryMapEntryList = 0
  · unfold AllocateMemoryMapEntryWith at h
    dsimp only at h
    rw [if_pos c] at h
    obtain ⟨⟨a, s0⟩, hp, h⟩ := (bind_eq_ok _ _ _).1 h
    have i0 := CoreAllocatePoolPagesWith_preserves env I hI f hf fuel s _ _ _ hs _ hp
    dsimp only at h i0
    by_cases ca : a ≠ 0
    · rw [if_pos ca] at h
      simp only [bind, Except.bind, pure, Except.pure, Bool.not_true, Bool.false_eq_true,
        if_false] at h
      obtain ⟨_, _, h⟩ := (bind_eq_ok _ _ _).1 h
      obtain rfl := Except.ok.inj h
      exact i0
    · rw [if_neg ca] at h
      simp only [bind, Except.bind, pure, Except.pure, Bool.not_false, if_true] at h
      obtain rfl := Except.ok.inj h
      exact i0
  · rw [AllocateMemoryMapEntryWith_queued env f fuel s c] at h
    obtain rfl := Except.ok.inj h
    exact hs

theorem drainLoop_preserves (I : List EFI_GCD_MAP_ENTRY → Prop)
    (hperm : ∀ l l1, FlagPerm l l1 → I l → I l1)
    (Allocate : MemState → Except Halt (Bool × MemState))
    (hA : ∀ s r, I s.mGcdMemorySpaceMap → Allocate s = Except.ok r → I r.2.mGcdMemorySpaceMap) :
    ∀ (fuel : Nat) (s s1 : MemState), I s.mGcdMemorySpaceMap →
      CoreFreeMemoryMapStack.loop Allocate fuel s = Except.ok s1 →
      I s1.mGcdMemorySpaceMap := by
  intro fuel
  induction fuel with
  | zero =>
    intro s s1 hs h
    obtain ⟨_, rfl⟩ := (drainLoop_zero Allocate s s1).1 h
    exact hs
  | succ n ih =>
    intro s s1 hs h
    by_cases hd : s.mMapDepth = 0
    · rw [drainLoop_done Allocate _ s hd] at h
      obtain rfl := Except.ok.inj h
      exact hs
    · obtain ⟨s0, ha, hl⟩ := (drainLoop_succ Allocate n s s1 hd).1 h
      have i0 := hA s _ hs ha
      exact ih _ s1 (hperm _ _ (relink_spec s0).1 i0) hl

/-- CoreFreeMemoryMapStack keeps every such property of the store, also when it refills the
descriptor free list by a nested page allocation. -/
theorem CoreFreeMemoryMapStack_preserves (env : Platform) (I : List EFI_GCD_MAP_ENTRY → Prop)
    (hI : StoreInvariant env I) :
    ∀ fuel, Preserves I (CoreFreeMemoryMapStack env fuel) := by
  intro fuel
  induction fuel with
  | zero =>
    intro s s1 hs h
    by_cases hb : s.mFreeMapStack = 0
    · exact absurd h (CoreFreeMemoryMapStack_zero env s s1 hb)
    · rw [CoreFreeMemoryMapStack_busy env 0 s hb] at h
      obtain rfl := Except.ok.inj h
      exact hs
  | succ n ih =>
    intro s s1 hs h
    by_cases hb : s.mFreeMapStack = 0
    · obtain ⟨s0, h0, rfl⟩ := (CoreFreeMemoryMapStack_succ env n s s1 hb).1 h
      exact drainLoop_preserves I hI.2.1 _
        (fun s r hs hr => AllocateMemoryMapEntryWith_preserves env I hI _ ih n s hs r hr)
        n { s with mFreeMapStack := s.mFreeMapStack + 1 } s0 (by exact hs) h0
    · rw [CoreFreeMemoryMapStack_busy env _ s hb] at h
      obtain rfl := Except.ok.inj h
      exact hs

/-- CoreConvertPagesEx keeps every such property of the store, whatever status it
returns. -/
theorem CoreConvertPagesEx_preserves (env : Platform) (I : List EFI_GCD_MAP_ENTRY → Prop)
    (hI : StoreInvariant env I) (fuel : Nat) (s : MemState) (Start N : Nat) (ct : Bool)
    (nt : Nat) (ca : Bool) (na : Nat) (cc : Bool) (nc : Nat) (hs : I s.mGcdMemorySpaceMap)
    (r : EFI_STATUS × MemState)
    (h : CoreConvertPagesEx env fuel s Start N ct nt ca na cc nc = Except.ok r) :
    I r.2.mGcdMemorySpaceMap :=
  CoreConvertPagesExWith_preserves env I hI _ (CoreFreeMemoryMapStack_preserves env I hI fuel)
    fuel s Start N ct nt ca na cc nc hs r h

theorem Covered_iff_Has (l : List EFI_GCD_MAP_ENTRY) (a : Nat) :
    Covered l a ↔ ∃ p, Has l a p := by
  constructor
  · rintro ⟨e, he, hc⟩
    exact ⟨entryProps e, e, he, hc, rfl⟩
  · rintro ⟨_, e, he, hc, _⟩
    exact ⟨e, he, hc⟩

/-- The store invariant itself is kept by the steps of the allocator, when the promotion hook
of the platform keeps it. -/
theorem Store_invariant (env : Platform)
    (hook : ∀ s s1, env.PromoteGuardedFreePages s = some s1 → Store s.mGcdMemorySpaceMap →
      Store s1.mGcdMemorySpaceMap) : StoreInvariant env Store :=
  ⟨fun _ h => h, fun _ _ hp h => Store_flagPerm hp h,
    fun _ _ _ _ _ _ _ _ _ _ _ _ _ _ _ _ _ h => h.1, hook⟩

/-- CoreConvertPagesEx keeps a store well formed and disjoint when no descriptor ends at
2 ^ 64 - 1, whatever it changes, with or without a refill of the descriptor free list. -/
theorem CoreConvertPagesEx_keeps_store (env : Platform) (fuel : Nat) (s : MemState)
    (Start N : Nat) (ct : Bool) (nt : Nat) (ca : Bool) (na : Nat) (cc : Bool) (nc : Nat)
    (hook : ∀ s s1, env.PromoteGuardedFreePages s = some s1 → Store s.mGcdMemorySpaceMap →
      Store s1.mGcdMemorySpaceMap)
    (hs : StoreOk s.mGcdMemorySpaceMap) (ht : BelowTop s.mGcdMemorySpaceMap)
    (r : EFI_STATUS × MemState)
    (h : CoreConvertPagesEx env fuel s Start N ct nt ca na cc nc = Except.ok r) :
    StoreOk r.2.mGcdMemorySpaceMap ∧ BelowTop r.2.mGcdMemorySpaceMap :=
  CoreConvertPagesEx_preserves env Store (Store_invariant env hook) fuel s Start N ct nt ca na
    cc nc ⟨hs, ht⟩ r h

/-- With freed-memory guard disabled, coverage and total size are kept by the steps of the
allocator. -/
theorem coverage_invariant (env : Platform) (l0 : List EFI_GCD_MAP_ENTRY)
    (hg : env.FreedMemoryGuardEnabled = false)
    (hook : ∀ s, env.PromoteGuardedFreePages s = none) :
    StoreInvariant env (fun l => Store l ∧ (∀ a, Covered l a ↔ Covered l0 a) ∧
      totalSize l = totalSize l0) := by
  refine ⟨fun _ h => h.1, ?_, ?_, ?_⟩
  · rintro l l1 hp ⟨h1, h2, h3⟩
    refine ⟨Store_flagPerm hp h1, fun a => ?_, ?_⟩
    · rw [← h2 a, Covered_iff_Has, Covered_iff_Has]
      exact exists_congr fun p => (Has_flagPerm hp a p).symm
    · rw [← h3]
      exact (totalSize_flagPerm hp).symm
  · rintro s s2 pre Entry post Start RangeEnd ct nt ca na nc hmap hb hr he ⟨_, h2, h3⟩
      ⟨k1, k2, k3, _⟩
    rw [readds_of_guard_off env ct nt hg] at k2 k3
    refine ⟨k1, fun a => ?_, ?_⟩
    · rw [← h2 a, Covered_iff_Has, Covered_iff_Has]
      constructor
      · rintro ⟨p, hp⟩
        rcases (k2 a p).1 hp with ⟨h, _⟩ | ⟨_, h4, h5, _⟩
        · exact ⟨p, h⟩
        · refine ⟨entryProps Entry, Entry, ?_, ⟨by omega, by omega⟩, rfl⟩
          rw [hmap]
          simp
      · rintro ⟨p, hp⟩
        by_cases c : Start ≤ a ∧ a ≤ RangeEnd
        · exact ⟨_, (k2 a _).2 (Or.inr ⟨rfl, c.1, c.2, rfl⟩)⟩
        · exact ⟨p, (k2 a p).2 (Or.inl ⟨hp, c⟩)⟩
    · rw [← h3, ← k3]
      simp
  · intro s s1 h
    rw [hook s] at h
    cases h

/-- With freed-memory guard disabled, CoreConvertPagesEx leaves the set of covered addresses
and the sum of the descriptor sizes unchanged on a well-formed disjoint store none of whose
descriptors ends at 2 ^ 64 - 1, with or without a refill of the descriptor free list. -/
theorem CoreConvertPagesEx_keeps_coverage (env : Platform) (fuel : Nat) (s : MemState)
    (Start N : Nat) (ct : Bool) (nt : Nat) (ca : Bool) (na : Nat) (cc : Bool) (nc : Nat)
    (hg : env.FreedMemoryGuardEnabled = false)
    (hook : ∀ s, env.PromoteGuardedFreePages s = none)
    (hs : StoreOk s.mGcdMemorySpaceMap) (ht : BelowTop s.mGcdMemorySpaceMap)
    (r : EFI_STATUS × MemState)
    (h : CoreConvertPagesEx env fuel s Start N ct nt ca na cc nc = Except.ok r) :
    (∀ a, Covered r.2.mGcdMemorySpaceMap a ↔ Covered s.mGcdMemorySpaceMap a) ∧
    totalSize r.2.mGcdMemorySpaceMap = totalSize s.mGcdMemorySpaceMap :=
  (CoreConvertPagesEx_preserves env _ (coverage_invariant env s.mGcdMemorySpaceMap hg hook)
    fuel s Start N ct nt ca na cc nc ⟨⟨hs, ht⟩, fun _ => Iff.rfl, rfl⟩ r h).2

/-- C1 fails on the code at the top of the address space. The store of wrapState is well
formed and disjoint: BootServicesData in [0, 0xFFF] and conventional memory in the last page
of the 64-bit address space. CoreConvertPagesEx (Start 0, one page, new type conventional)
returns EFI_SUCCESS, and the resulting store is not well formed: CoreAddRange merges the two
ranges (`EndAddress + 1 == Start` holds modulo 2 ^ 64) into one descriptor whose base lies
above its end. -/
theorem CoreConvertPagesEx_wrap_breaks_store :
    StoreOk wrapState.mGcdMemorySpaceMap ∧
    ∃ s1, CoreConvertPagesEx plainPlatform 4 wrapState 0 1 true EfiConventionalMemory false 0
        false 0 = Except.ok (EFI_STATUS.EFI_SUCCESS, s1) ∧
      ¬ StoreOk s1.mGcdMemorySpaceMap :=
  ⟨by decide, _, rfl, by decide⟩

/-- C2 fails on the code at the top of the address space. With freed-memory guard disabled
and four free descriptors queued (no refill), CoreConvertPagesEx (Start 0, one page, new type
conventional) on the well-formed disjoint store of wrapState returns EFI_SUCCESS; address 0
and the first address of the last page were covered before and are covered by no descriptor
afterwards, and the allocator itself no longer finds page 0: converting it again returns
EFI_NOT_FOUND. -/
theorem CoreConvertPagesEx_wrap_loses_coverage :
    plainPlatform.FreedMemoryGuardEnabled = false ∧ StoreOk wrapState.mGcdMemorySpaceMap ∧
    ∃ s1, CoreConvertPagesEx plainPlatform 5 wrapState 0 1 true EfiConventionalMemory false 0
        false 0 = Except.ok (EFI_STATUS.EFI_SUCCESS, s1) ∧
      Covered wrapState.mGcdMemorySpaceMap 0 ∧ ¬ Covered s1.mGcdMemorySpaceMap 0 ∧
      Covered wrapState.mGcdMemorySpaceMap 0xFFFFFFFFFFFFF000 ∧
      ¬ Covered s1.mGcdMemorySpaceMap 0xFFFFFFFFFFFFF000 ∧
      CoreConvertPagesEx plainPlatform 5 s1 0 1 true EfiBootServicesData false 0 false 0 =
        Except.ok (EFI_STATUS.EFI_NOT_FOUND, s1) :=
  ⟨rfl, by decide, _, rfl, by decide, by decide, by decide, by decide, rfl⟩

theorem strip_fields {x y : EFI_GCD_MAP_ENTRY} (h : strip y = strip x) :
    y.BaseAddress = x.BaseAddress ∧ y.EndAddress = x.EndAddress ∧
    entryProps y = entryProps x ∧ y.ImageHandle = x.ImageHandle ∧
    y.DeviceHandle = x.DeviceHandle ∧ y.GcdIoType = x.GcdIoType := by
  have h1 := congrArg EFI_GCD_MAP_ENTRY.BaseAddress h
  have h2 := congrArg EFI_GCD_MAP_ENTRY.EndAddress h
  have h3 := congrArg entryProps h
  have h4 := congrArg EFI_GCD_MAP_ENTRY.ImageHandle h
  have h5 := congrArg EFI_GCD_MAP_ENTRY.DeviceHandle h
  have h6 := congrArg EFI_GCD_MAP_ENTRY.GcdIoType h
  exact ⟨h1, h2, h3, h4, h5, h6⟩

theorem mem_flagPerm {l l1 : List EFI_GCD_MAP_ENTRY} (h : FlagPerm l l1)
    {x : EFI_GCD_MAP_ENTRY} (hx : x ∈ l) : ∃ y ∈ l1, strip y = strip x := by
  have h1 : strip x ∈ l.map strip := List.mem_map_of_mem strip hx
  obtain ⟨y, hy, e⟩ := List.mem_map.1 (h.subset h1)
  exact ⟨y, hy, e⟩

theorem CleanEntry_of_strip {l : List EFI_GCD_MAP_ENTRY} {c x : EFI_GCD_MAP_ENTRY}
    (hc : c ∈ l) (h : strip c = strip x) (h1 : x.ImageHandle = 0) (h2 : x.DeviceHandle = 0)
    (h3 : x.GcdIoType = EfiGcdIoTypeNonExistent) :
    CleanEntry l x.BaseAddress x.EndAddress (entryProps x) := by
  obtain ⟨f1, f2, f3, f4, f5, f6⟩ := strip_fields h
  exact ⟨c, hc, f1, f2, f3, f4.trans h1, f5.trans h2, f6.trans h3⟩

theorem CleanEntry_flagPerm {l l1 : List EFI_GCD_MAP_ENTRY} (h : FlagPerm l l1) {B E : Nat}
    {p : Nat × Nat × Nat × Nat} (hc : CleanEntry l B E p) : CleanEntry l1 B E p := by
  obtain ⟨e, he, c1, c2, c3, c4, c5, c6⟩ := hc
  obtain ⟨y, hy, hst⟩ := mem_flagPerm h he
  obtain ⟨f1, f2, f3, f4, f5, f6⟩ := strip_fields hst
  exact ⟨y, hy, f1.trans c1, f2.trans c2, f3.trans c3, f4.trans c4, f5.trans c5, f6.trans c6⟩

theorem Linked_flagPerm {l l1 : List EFI_GCD_MAP_ENTRY} (h : FlagPerm l l1) {B E : Nat}
    {p : Nat × Nat × Nat × Nat} (hc : Linked l B E p) : Linked l1 B E p := by
  obtain ⟨e, he, c1, c2, c3⟩ := hc
  obtain ⟨y, hy, hst⟩ := mem_flagPerm h he
  obtain ⟨f1, f2, f3, _⟩ := strip_fields hst
  exact ⟨y, hy, f1.trans c1, f2.trans c2, f3.trans c3⟩

/-- The descriptors that the clipping of `Entry` leaves linked: all others, the part of
`Entry` below the range and the part above it. -/
theorem pull_keeps (s : MemState) (pre : List EFI_GCD_MAP_ENTRY) (Entry : EFI_GCD_MAP_ENTRY)
    (post : List EFI_GCD_MAP_ENTRY) (Start RangeEnd : Nat) (hw : WellFormed Entry)
    (htop : Entry.EndAddress < 18446744073709551615)
    (hb : Entry.BaseAddress ≤ Start) (hr : RangeOk Start RangeEnd)
    (he : RangeEnd ≤ Entry.EndAddress) (s1 : MemState) (cur : EFI_GCD_MAP_ENTRY)
    (h : CoreConvertPagesEx.pull s pre Entry post Start RangeEnd = Except.ok (s1, cur)) :
    (∀ x ∈ pre ++ post, x ∈ s1.mGcdMemorySpaceMap) ∧
    (Entry.BaseAddress < Start →
      ∃ c ∈ s1.mGcdMemorySpaceMap, strip c = strip { Entry with EndAddress := Start - 1 }) ∧
    (RangeEnd < Entry.EndAddress →
      ∃ c ∈ s1.mGcdMemorySpaceMap,
        strip c = strip { Entry with BaseAddress := RangeEnd + 1 }) := by
  obtain ⟨hS, hE, hSE, hEM⟩ := hr
  obtain ⟨hw1, hw2, hw3, hw4⟩ := hw
  have hadd : add64 RangeEnd 1 = RangeEnd + 1 := by unfold add64; omega
  have hadde : add64 Entry.EndAddress 1 = Entry.EndAddress + 1 := by unfold add64; omega
  have ext : ∀ {r : MemState × EFI_GCD_MAP_ENTRY},
      Except.ok r = (Except.ok (s1, cur) : Except Halt (MemState × EFI_GCD_MAP_ENTRY)) →
      s1.mGcdMemorySpaceMap = r.1.mGcdMemorySpaceMap := by
    intro r hr
    rw [← (Prod.mk.inj (Except.ok.inj hr)).1]
  have keep : ∀ (mid : List EFI_GCD_MAP_ENTRY) (x : EFI_GCD_MAP_ENTRY), x ∈ pre ++ post →
      x ∈ pre ++ (mid ++ post) := by
    intro mid x hx
    rcases List.mem_append.1 hx with hx | hx
    · exact List.mem_append_left _ hx
    · exact List.mem_append_right _ (List.mem_append_right _ hx)
  by_cases h1 : Entry.BaseAddress = Start
  · rw [pull_start s pre Entry post Start RangeEnd h1, hadd, hadde] at h
    by_cases h2 : RangeEnd + 1 = Entry.EndAddress + 1
    · rw [if_pos h2] at h
      rw [ext h]
      exact ⟨fun x hx => hx, fun hlt => by omega, fun hlt => by omega⟩
    · rw [if_neg h2] at h
      rw [ext h]
      refine ⟨fun x hx => keep [_] x hx, fun hlt => by omega, fun hlt => ⟨_, ?_, rfl⟩⟩
      exact List.mem_append_right _ (List.mem_cons_self _ _)
  · have hlt : Entry.BaseAddress < Start := by omega
    have hsub : sub64 Start 1 = Start - 1 := by unfold sub64; omega
    have hadds : add64 (Start - 1) 1 = Start - 1 + 1 := by unfold add64; omega
    by_cases h2 : Entry.EndAddress = RangeEnd
    · have h3 : ¬ Entry.BaseAddress = Start - 1 + 1 := by omega
      rw [pull_end s pre Entry post Start RangeEnd h1 h2, hsub, hadds, if_neg h3] at h
      rw [ext h]
      refine ⟨fun x hx => keep [_] x hx, fun _ => ⟨_, ?_, rfl⟩, fun hlt => by omega⟩
      exact List.mem_append_right _ (List.mem_cons_self _ _)
    · have h3 : Entry.BaseAddress < sub64 Start 1 := by rw [hsub]; omega
      have h4 : ¬ add64 RangeEnd 1 = add64 Entry.EndAddress 1 := by rw [hadd, hadde]; omega
      by_cases hd : s.mMapDepth + 1 < 6
      · rw [pull_center s pre Entry post Start RangeEnd h1 h2 h3 hd h4, hsub, hadd] at h
        rw [ext h]
        refine ⟨fun x hx => List.mem_append_left _ (keep [_] x hx),
          fun _ => ⟨{ Entry with EndAddress := Start - 1 }, ?_, rfl⟩,
          fun _ => ⟨_, List.mem_append_right _ (List.mem_singleton_self _), rfl⟩⟩
        exact List.mem_append_left _ (List.mem_append_right _ (List.mem_cons_self _ _))
      · obtain ⟨e, hpe⟩ := pull_center_depth s pre Entry post Start RangeEnd h1 h2 hd
        rw [hpe] at h
        cases h

theorem scan_keeps (T G A C : Nat) (x : EFI_GCD_MAP_ENTRY)
    (hx : CoreAddRange.skip T G A C x = true) :
    ∀ (l : List EFI_GCD_MAP_ENTRY) (S E f : Nat), x ∈ l →
      x ∈ (CoreAddRange.scan T G A C l S E f).1 := by
  intro l
  induction l with
  | nil => intro S E f h; cases h
  | cons e rest ih =>
    intro S E f h
    rw [CoreAddRange.scan]
    by_cases c : CoreAddRange.skip T G A C e = true
    · rw [if_pos c]
      rcases List.mem_cons.1 h with rfl | h
      · exact List.mem_cons_self _ _
      · exact List.mem_cons_of_mem _ (ih S E f h)
    · rw [if_neg c]
      have hne : x ≠ e := fun e1 => c (e1 ▸ hx)
      have h' : x ∈ rest := by
        rcases List.mem_cons.1 h with rfl | h
        · exact absurd rfl hne
        · exact h
      split
      · exact ih _ _ _ h'
      · split
        · exact ih _ _ _ h'
        · exact List.mem_cons_of_mem _ (ih S E f h')

theorem step_addRange (env : Platform) (s : MemState) (pre : List EFI_GCD_MAP_ENTRY)
    (Entry : EFI_GCD_MAP_ENTRY) (post : List EFI_GCD_MAP_ENTRY) (Start RangeEnd N : Nat)
    (nt : Nat) (hg : env.FreedMemoryGuardEnabled = false) (s2 : MemState)
    (h : CoreConvertPagesEx.step env s pre Entry post Start RangeEnd N true nt false 0 0 =
      Except.ok s2) :
    ∃ s1 cur, CoreConvertPagesEx.pull (updateStatistics s Start N Entry.EfiMemoryType nt)
        pre Entry post Start RangeEnd = Except.ok (s1, cur) ∧
      s2 = addRangeResult s1 nt Entry.GcdMemoryType Start RangeEnd cur.Attributes
        cur.Capabilities Entry.ImageHandle := by
  rw [step_eq] at h
  obtain ⟨⟨s1, cur⟩, hp, h⟩ := (bind_eq_ok _ _ _).1 h
  rw [hg] at h
  simp only [Bool.not_false, Bool.true_or, if_true] at h
  exact ⟨s1, cur, hp, ((CoreAddRange_eq_ok _ _ _ _ _ _ _ _ _).1 h).2⟩

/-- One pass of the conversion loop when the descriptor found covers the whole range. -/
theorem loop_single (env : Platform) (f : MemState → Except Halt MemState) (N : Nat)
    (ct : Bool) (nt : Nat) (ca : Bool) (na nc End fuel : Nat) (s : MemState) (Start : Nat)
    (pre : List EFI_GCD_MAP_ENTRY) (Entry : EFI_GCD_MAP_ENTRY) (post : List EFI_GCD_MAP_ENTRY)
    (hlt : Start < End) (hE : End < 18446744073709551615)
    (hf : findFirst (coversStart Start) s.mGcdMemorySpaceMap = some (pre, Entry, post))
    (he : End ≤ Entry.EndAddress)
    (hty : ¬ (ct = true ∧ xor (!(nt == EfiConventionalMemory))
      (Entry.EfiMemoryType == EfiConventionalMemory) = true)) :
    CoreConvertPagesEx.loop env f N ct nt ca na nc End (fuel + 1) s Start =
      (CoreConvertPagesEx.step env s pre Entry post Start End N ct nt ca na nc >>= fun s2 =>
        f s2 >>= fun s3 => pure (EFI_STATUS.EFI_SUCCESS, s3)) := by
  rw [CoreConvertPagesEx.loop, if_pos hlt, hf]
  dsimp only
  have c1 : ¬ (ct = true ∧ nt ≠ EfiConventionalMemory ∧ Entry.EndAddress < End) := by
    rintro ⟨_, _, h⟩
    omega
  have c2 : ¬ Entry.EndAddress < End := by omega
  rw [if_neg c1, if_neg c2, if_neg hty]
  have hadd : add64 End 1 = End + 1 := by unfold add64; omega
  rw [hadd]
  congr 1
  funext s2
  congr 1
  funext s3
  exact loop_done env f N ct nt ca na nc End fuel s3 (End + 1) (by omega)

/-- A successful allocation pass: one conventional descriptor covers the whole range, and
the run is one pass of the loop followed by the drain of the descriptor stack. -/
theorem loop_alloc_inv (env : Platform) (f : MemState → Except Halt MemState) (N : Nat)
    (nt : Nat) (ca : Bool) (na nc End fuel : Nat) (s s1 : MemState) (Start : Nat)
    (hT : nt ≠ EfiConventionalMemory) (hlt : Start < End)
    (ht : BelowTop s.mGcdMemorySpaceMap)
    (h : CoreConvertPagesEx.loop env f N true nt ca na nc End fuel s Start =
      Except.ok (EFI_STATUS.EFI_SUCCESS, s1)) :
    ∃ pre Entry post s2,
      findFirst (coversStart Start) s.mGcdMemorySpaceMap = some (pre, Entry, post) ∧
      End ≤ Entry.EndAddress ∧ Entry.EfiMemoryType = EfiConventionalMemory ∧
      CoreConvertPagesEx.step env s pre Entry post Start End N true nt ca na nc =
        Except.ok s2 ∧
      f s2 = Except.ok s1 := by
  cases fuel with
  | zero =>
    rw [CoreConvertPagesEx.loop, if_pos hlt] at h
    cases h
  | succ n =>
    cases hf : findFirst (coversStart Start) s.mGcdMemorySpaceMap with
    | none =>
      rw [CoreConvertPagesEx.loop, if_pos hlt, hf] at h
      exact (status_ne_of_ok h (by decide)).elim
    | some r =>
      obtain ⟨pre, Entry, post⟩ := r
      have hE0 := ht Entry (by rw [(findFirst_some hf).1]; exact List.mem_append_right _ (List.mem_cons_self _ _))
      by_cases c1 : Entry.EndAddress < End
      · rw [CoreConvertPagesEx.loop, if_pos hlt, hf] at h
        dsimp only at h
        rw [if_pos ⟨rfl, hT, c1⟩] at h
        exact (status_ne_of_ok h (by decide)).elim
      · by_cases c2 : Entry.EfiMemoryType = EfiConventionalMemory
        · have hty : ¬ ((true : Bool) = true ∧ xor (!(nt == EfiConventionalMemory))
              (Entry.EfiMemoryType == EfiConventionalMemory) = true) := by
            rw [c2]
            have : (nt == EfiConventionalMemory) = false := by
              rw [beq_eq_false_iff_ne]; exact hT
            rw [this]
            decide
          rw [loop_single env f N true nt ca na nc End n s Start pre Entry post hlt
            (by omega) hf (by omega) hty] at h
          obtain ⟨s2, hstep, h⟩ := (bind_eq_ok _ _ _).1 h
          obtain ⟨s3, hdr, h⟩ := (bind_eq_ok _ _ _).1 h
          obtain rfl := (Prod.mk.inj (Except.ok.inj h)).2
          exact ⟨pre, Entry, post, s2, rfl, by omega, c2, hstep, hdr⟩
        · rw [CoreConvertPagesEx.loop, if_pos hlt, hf] at h
          dsimp only at h
          rw [if_neg (fun hc => c1 hc.2.2)] at h
          have hty : ((true : Bool) = true ∧ xor (!(nt == EfiConventionalMemory))
              (Entry.EfiMemoryType == EfiConventionalMemory) = true) := by
            have h1 : (nt == EfiConventionalMemory) = false := by
              rw [beq_eq_false_iff_ne]; exact hT
            have h2 : (Entry.EfiMemoryType == EfiConventionalMemory) = false := by
              rw [beq_eq_false_iff_ne]; exact c2
            rw [h1, h2]
            decide
          rw [if_pos hty] at h
          exact (status_ne_of_ok h (by decide)).elim

/-- Without a promotion hook FindFreePages leaves the store and the descriptor storage as
they are. -/
theorem FindFreePages_state (env : Platform) (hook : ∀ s, env.PromoteGuardedFreePages s = none)
    (MaxAddress NoPages NewType Alignment : Nat) (NeedGuard : Bool) (fuel : Nat)
    (s : MemState) (r : Nat × MemState)
    (h : FindFreePages env fuel s MaxAddress NoPages NewType Alignment NeedGuard =
      Except.ok r) :
    r.2.mGcdMemorySpaceMap = s.mGcdMemorySpaceMap ∧ r.2.mMapDepth = s.mMapDepth ∧
    r.2.mFreeMemoryMapEntryList = s.mFreeMemoryMapEntryList ∧
    r.2.mFreeMapStack = s.mFreeMapStack := by
  cases fuel with
  | zero => simp [FindFreePages, throw, throwThe, MonadExceptOf.throw] at h
  | succ n =>
    rw [FindFreePages] at h
    dsimp only at h
    generalize (if NewType < EfiMaxMemoryType ∧
        MaxAddress ≥ (s.mMemoryTypeStatistics.getD NewType default).MaximumAddress then
        CoreFindFreePagesI env s (s.mMemoryTypeStatistics.getD NewType default).MaximumAddress
          (s.mMemoryTypeStatistics.getD NewType default).BaseAddress NoPages NewType Alignment
          NeedGuard
        else 0) = S1 at h
    generalize (if MaxAddress ≥ s.mDefaultMaximumAddress then
        CoreFindFreePagesI env s s.mDefaultMaximumAddress 0 NoPages NewType Alignment NeedGuard
        else 0) = S2 at h
    generalize CoreFindFreePagesI env s MaxAddress 0 NoPages NewType Alignment NeedGuard = S3 at h
    by_cases c1 : S1 ≠ 0
    · rw [if_pos c1] at h
      obtain rfl := Except.ok.inj h
      exact ⟨rfl, rfl, rfl, rfl⟩
    · rw [if_neg c1] at h
      by_cases c2 : S2 ≠ 0
      · rw [if_pos c2] at h
        obtain rfl := Except.ok.inj h
        dsimp only
        split <;> exact ⟨rfl, rfl, rfl, rfl⟩
      · rw [if_neg c2] at h
        by_cases c3 : S3 ≠ 0
        · rw [if_pos c3] at h
          obtain rfl := Except.ok.inj h
          exact ⟨rfl, rfl, rfl, rfl⟩
        · rw [if_neg c3, hook s] at h
          obtain rfl := Except.ok.inj h
          exact ⟨rfl, rfl, rfl, rfl⟩

/-- A successful CoreInternalAllocatePages (AllocateAnyPages) without guard and without a
promotion hook: the type is not conventional, and the result is that of CoreConvertPages at
the address FindFreePages returned, on a state with the same store and descriptor storage. -/
theorem CoreInternalAllocatePages_any (env : Platform) (fuel : Nat) (s s1 : MemState)
    (MemoryType NumberOfPages addr : Nat) (Memory : Option Nat)
    (hook : ∀ s, env.PromoteGuardedFreePages s = none)
    (h : CoreInternalAllocatePages env fuel s AllocateAnyPages MemoryType NumberOfPages Memory
      false = Except.ok (EFI_STATUS.EFI_SUCCESS, s1, some addr)) :
    MemoryType ≠ EfiConventionalMemory ∧
    ∃ sF : MemState, sF.mGcdMemorySpaceMap = s.mGcdMemorySpaceMap ∧
      sF.mMapDepth = s.mMapDepth ∧
      sF.mFreeMemoryMapEntryList = s.mFreeMemoryMapEntryList ∧
      sF.mFreeMapStack = s.mFreeMapStack ∧
      CoreConvertPages env fuel sF addr
        (roundPages NumberOfPages (allocationAlignment env MemoryType)) MemoryType =
        Except.ok (EFI_STATUS.EFI_SUCCESS, s1) := by
  unfold CoreInternalAllocatePages at h
  split at h
  · exact (status_ne_of_ok h (by decide)).elim
  · split at h
    · exact (status_ne_of_ok h (by decide)).elim
    · rename_i hty
      refine ⟨fun hc => hty (Or.inr (Or.inl hc)), ?_⟩
      cases Memory with
      | none => exact (status_ne_of_ok h (by decide)).elim
      | some v =>
        dsimp only at h
        generalize hNP : roundPages NumberOfPages (allocationAlignment env MemoryType) = NP at h ⊢
        generalize hA : allocationAlignment env MemoryType = A at h ⊢
        generalize sub64 (add64 v (LShiftU64 NP EFI_PAGE_SHIFT)) 1 = End at h
        have hne : ¬ AllocateAnyPages = AllocateAddress := by decide
        rw [if_neg (fun hc => hne hc.1), if_neg (fun hc => hne hc.1),
          if_neg (fun hc => hne hc.1), if_neg (fun hc => hne hc.1), if_pos hne] at h
        obtain ⟨y, hy, h2⟩ := (bind_eq_ok _ _ _).1 h
        obtain ⟨f1, f2, f3, f4⟩ := FindFreePages_state env hook _ _ _ _ _ _ _ _ hy
        by_cases c5 : AllocateAnyPages ≠ AllocateAddress ∧ y.1 = 0
        · rw [if_pos c5] at h2
          exact (status_ne_of_ok h2 (by decide)).elim
        rw [if_neg c5] at h2
        obtain ⟨d, hd, h3⟩ := (bind_eq_ok _ _ _).1 h2
        unfold convertForAllocate at hd
        rw [if_neg (by decide)] at hd
        cases he : EFI_ERROR d.1 with
        | false =>
          rw [he, if_neg (by decide)] at h3
          obtain ⟨y1, hy1, h4⟩ := (bind_eq_ok _ _ _).1 h3
          obtain rfl := Except.ok.inj hy1
          dsimp only at h4
          rw [he] at h4
          simp only [Bool.not_false, if_true] at h4
          have e := Except.ok.inj h4
          have e1 := (Prod.mk.inj e).1
          have e2 := (Prod.mk.inj (Prod.mk.inj e).2).1
          have e3 := Option.some.inj (Prod.mk.inj (Prod.mk.inj e).2).2
          refine ⟨y.2, f1, f2, f3, f4, ?_⟩
          rw [← e3, hd, ← e1, ← e2]
        | true =>
          rw [he, if_pos rfl, hook d.2] at h3
          obtain ⟨y1, hy1, h4⟩ := (bind_eq_ok _ _ _).1 h3
          obtain rfl := Except.ok.inj hy1
          dsimp only at h4
          rw [he] at h4
          simp only [Bool.not_true, Bool.false_eq_true, if_false] at h4
          have e1 := (Prod.mk.inj (Except.ok.inj h4)).1
          rw [e1] at he
          exact absurd he (by decide)

/-- CoreInternalFreePages without guard, once the descriptor that covers the address is
known and the address meets the alignment of its type. -/
theorem CoreInternalFreePages_eq (env : Platform) (fuel : Nat) (s : MemState)
    (Memory NumberOfPages : Nat) (pre : List EFI_GCD_MAP_ENTRY) (Entry : EFI_GCD_MAP_ENTRY)
    (post : List EFI_GCD_MAP_ENTRY)
    (hf : findFirst (coversStart Memory) s.mGcdMemorySpaceMap = some (pre, Entry, post))
    (hal : Memory &&& sub64 (allocationAlignment env Entry.EfiMemoryType) 1 = 0)
    (hpg : env.IsPageTypeToGuard Entry.EfiMemoryType AllocateAnyPages = false) :
    CoreInternalFreePages env fuel s Memory NumberOfPages =
      (CoreConvertPages env fuel s Memory
          (roundPages NumberOfPages (allocationAlignment env Entry.EfiMemoryType))
          EfiConventionalMemory >>= fun r => pure (r.1, r.2, some Entry.EfiMemoryType)) := by
  unfold CoreInternalFreePages
  rw [hf]
  dsimp only
  rw [if_neg (fun hc => hc hal), hpg]
  simp only [Bool.false_and, Bool.false_eq_true, if_false]

theorem findFirst_exists {p : EFI_GCD_MAP_ENTRY → Bool} :
    ∀ {l : List EFI_GCD_MAP_ENTRY}, (∃ x ∈ l, p x = true) →
      ∃ pre e post, findFirst p l = some (pre, e, post)
  | [], h => by
    obtain ⟨x, hx, _⟩ := h
    cases hx
  | e :: rest, h => by
    rw [findFirst]
    by_cases c : p e = true
    · rw [if_pos c]
      exact ⟨_, _, _, rfl⟩
    · rw [if_neg c]
      obtain ⟨x, hx, hpx⟩ := h
      have hx' : x ∈ rest := by
        rcases List.mem_cons.1 hx with rfl | hx
        · exact absurd hpx c
        · exact hx
      obtain ⟨pre, e1, post, hf⟩ := findFirst_exists ⟨x, hx', hpx⟩
      rw [hf]
      exact ⟨_, _, _, rfl⟩

/-- A successful type-changing CoreConvertPages is a run of the conversion loop on a valid
range. -/
theorem CoreConvertPages_loop (env : Platform) (fuel : Nat) (s s1 : MemState)
    (Start N nt : Nat)
    (h : CoreConvertPages env fuel s Start N nt = Except.ok (EFI_STATUS.EFI_SUCCESS, s1)) :
    N ≠ 0 ∧ Start % 4096 = 0 ∧
    Start < sub64 (add64 Start (LShiftU64 N EFI_PAGE_SHIFT)) 1 ∧
    CoreConvertPagesEx.loop env (CoreFreeMemoryMapStack env fuel) N true nt false 0 0
      (sub64 (add64 Start (LShiftU64 N EFI_PAGE_SHIFT)) 1) fuel s Start =
      Except.ok (EFI_STATUS.EFI_SUCCESS, s1) := by
  unfold CoreConvertPages CoreConvertPagesEx CoreConvertPagesExWith at h
  dsimp only at h
  obtain ⟨_, a1, h⟩ := (bind_eq_ok _ _ _).1 h
  obtain ⟨_, a2, h⟩ := (bind_eq_ok _ _ _).1 h
  obtain ⟨_, a3, h⟩ := (bind_eq_ok _ _ _).1 h
  obtain ⟨_, _, h⟩ := (bind_eq_ok _ _ _).1 h
  rw [ASSERT_eq_ok] at a1 a2 a3
  have hN : N ≠ 0 := by simpa using a1
  have hS : Start % 4096 = 0 := by
    rw [EFI_PAGE_MASK, land_4095] at a2; simpa using a2
  have hlt : Start < sub64 (add64 Start (LShiftU64 N EFI_PAGE_SHIFT)) 1 := by simpa using a3
  generalize sub64 (add64 Start (LShiftU64 N EFI_PAGE_SHIFT)) 1 = End at h hlt ⊢
  by_cases c : N = 0 ∨ Start &&& EFI_PAGE_MASK ≠ 0 ∨ Start ≥ End
  · rw [if_pos c] at h
    exact (status_ne_of_ok h (by decide)).elim
  · rw [if_neg c] at h
    exact ⟨hN, hS, hlt, h⟩

theorem CoreConvertPages_of_loop (env : Platform) (fuel : Nat) (s : MemState)
    (Start N nt : Nat) (hN : N ≠ 0) (hS : Start % 4096 = 0)
    (hlt : Start < sub64 (add64 Start (LShiftU64 N EFI_PAGE_SHIFT)) 1) :
    CoreConvertPages env fuel s Start N nt =
      CoreConvertPagesEx.loop env (CoreFreeMemoryMapStack env fuel) N true nt false 0 0
        (sub64 (add64 Start (LShiftU64 N EFI_PAGE_SHIFT)) 1) fuel s Start := by
  unfold CoreConvertPages CoreConvertPagesEx
  exact CoreConvertPagesExWith_eq env _ fuel s Start N true nt false 0 false 0 hN hS hlt rfl

/-- What one type-changing pass of the conversion loop leaves linked, with freed-memory
guard disabled: the descriptors the clipping keeps (`l3`) as far as they cannot be merged
with the new range, and the new descriptor `[rS, rE]`, which contains the range and every
mergeable descriptor adjacent to it. -/
theorem step_struct (env : Platform) (s : MemState) (pre : List EFI_GCD_MAP_ENTRY)
    (Entry : EFI_GCD_MAP_ENTRY) (post : List EFI_GCD_MAP_ENTRY) (Start RangeEnd N nt : Nat)
    (hg : env.FreedMemoryGuardEnabled = false)
    (hmap : s.mGcdMemorySpaceMap = pre ++ Entry :: post) (hs : Store s.mGcdMemorySpaceMap)
    (hb : Entry.BaseAddress ≤ Start) (hr : RangeOk Start RangeEnd)
    (he : RangeEnd ≤ Entry.EndAddress) (s2 : MemState)
    (h : CoreConvertPagesEx.step env s pre Entry post Start RangeEnd N true nt false 0 0 =
      Except.ok s2) :
    ∃ (l3 : List EFI_GCD_MAP_ENTRY) (rS rE : Nat),
      (∀ x ∈ pre ++ post, x ∈ l3) ∧
      (Entry.BaseAddress < Start →
        ∃ c ∈ l3, strip c = strip { Entry with EndAddress := Start - 1 }) ∧
      (RangeEnd < Entry.EndAddress →
        ∃ c ∈ l3, strip c = strip { Entry with BaseAddress := RangeEnd + 1 }) ∧
      (∀ x ∈ l3, CoreAddRange.skip nt Entry.GcdMemoryType Entry.Attributes
        Entry.Capabilities x = true → x ∈ s2.mGcdMemorySpaceMap) ∧
      (∀ e ∈ l3, CoreAddRange.skip nt Entry.GcdMemoryType Entry.Attributes
        Entry.Capabilities e = false →
        (e.EndAddress + 1 = Start ∨ e.BaseAddress = RangeEnd + 1) →
        rS ≤ e.BaseAddress ∧ e.EndAddress ≤ rE) ∧
      rS ≤ Start ∧ RangeEnd ≤ rE ∧
      Linked s2.mGcdMemorySpaceMap rS rE
        (nt, Entry.Attributes, Entry.Capabilities, Entry.GcdMemoryType) := by
  obtain ⟨s1, cur, hp, rfl⟩ := step_addRange env s pre Entry post Start RangeEnd N nt hg s2 h
  obtain ⟨u1, _⟩ := updateStatistics_frame s Start N Entry.EfiMemoryType nt
  have hmem : Entry ∈ s.mGcdMemorySpaceMap := by
    rw [hmap]; exact List.mem_append_right _ (List.mem_cons_self _ _)
  obtain ⟨p1, p2, _, _, ⟨p5, p6, _⟩, _⟩ :=
    (pull_spec (updateStatistics s Start N Entry.EfiMemoryType nt) pre Entry post Start
      RangeEnd (u1.trans hmap) (by rw [u1]; exact hs) hb hr he).2 s1 cur hp
  obtain ⟨k1, k2, k3⟩ := pull_keeps _ pre Entry post Start RangeEnd (hs.1.1 Entry hmem)
    (hs.2 Entry hmem) hb hr he s1 cur hp
  rw [p5, p6]
  have hsc := scan_spec nt Entry.GcdMemoryType Entry.Attributes Entry.Capabilities
    s1.mGcdMemorySpaceMap Start RangeEnd s1.mFreeMemoryMapEntryList p1.1.1 p1.2 p1.1.2 hr p2
  obtain ⟨_, _, q3, q4, _⟩ := hsc
  refine ⟨s1.mGcdMemorySpaceMap, _, _, k1, k2, k3, ?_, ?_, q3, q4, ?_⟩
  · intro x hx hsk
    exact List.mem_append_left _ (scan_keeps _ _ _ _ x hsk _ _ _ _ hx)
  · intro e he1 hsk hadj
    exact (scan_removes nt Entry.GcdMemoryType Entry.Attributes Entry.Capabilities
      s1.mGcdMemorySpaceMap Start RangeEnd s1.mFreeMemoryMapEntryList p1.1.1 p1.2 p1.1.2 hr p2
      e he1 hsk hadj).2
  · exact ⟨_, List.mem_append_right _ (List.mem_singleton_self _), rfl, rfl, rfl⟩

/-- The allocation half of the round trip: a successful type change of `[Start, End]` to a
type other than conventional, from a quiescent state with two free descriptors queued. -/
theorem alloc_pass (env : Platform) (fuel N nt End : Nat) (s s1 : MemState) (Start : Nat)
    (hg : env.FreedMemoryGuardEnabled = false) (hs : Store s.mGcdMemorySpaceMap)
    (hd : s.mMapDepth = 0) (hfs : s.mFreeMapStack = 0)
    (hfree : 2 ≤ s.mFreeMemoryMapEntryList) (hT : nt ≠ EfiConventionalMemory)
    (hS : Start % 4096 = 0) (hE : End % 4096 = 4095) (hlt : Start < End)
    (h : CoreConvertPagesEx.loop env (CoreFreeMemoryMapStack env fuel) N true nt false 0 0
      End fuel s Start = Except.ok (EFI_STATUS.EFI_SUCCESS, s1)) :
    ∃ D ∈ s.mGcdMemorySpaceMap, D.EfiMemoryType = EfiConventionalMemory ∧
      D.BaseAddress ≤ Start ∧ End ≤ D.EndAddress ∧
      Store s1.mGcdMemorySpaceMap ∧ s1.mMapDepth = 0 ∧ s1.mFreeMapStack = 0 ∧
      s.mFreeMemoryMapEntryList ≤ s1.mFreeMemoryMapEntryList + 2 ∧
      (∀ a p, Has s1.mGcdMemorySpaceMap a p ↔
        ((Has s.mGcdMemorySpaceMap a p ∧ ¬ (Start ≤ a ∧ a ≤ End)) ∨
         (Start ≤ a ∧ a ≤ End ∧ p = (nt, D.Attributes, D.Capabilities, D.GcdMemoryType)))) ∧
      (∃ e ∈ s1.mGcdMemorySpaceMap, e.BaseAddress ≤ Start ∧ End ≤ e.EndAddress) ∧
      (D.BaseAddress < Start →
        ∃ c ∈ s1.mGcdMemorySpaceMap, strip c = strip { D with EndAddress := Start - 1 }) ∧
      (End < D.EndAddress →
        ∃ c ∈ s1.mGcdMemorySpaceMap, strip c = strip { D with BaseAddress := End + 1 }) := by
  obtain ⟨pre, D, post, s2, hf, he, hD, hstep, hdrain⟩ :=
    loop_alloc_inv env _ N nt false 0 0 End fuel s s1 Start hT hlt hs.2 h
  obtain ⟨hl, hc, _⟩ := findFirst_some hf
  rw [coversStart_iff] at hc
  have hmem : D ∈ s.mGcdMemorySpaceMap := by
    rw [hl]; exact List.mem_append_right _ (List.mem_cons_self _ _)
  have htop := hs.2 D hmem
  have hr : RangeOk Start End := ⟨hS, hE, hlt, by omega⟩
  obtain ⟨t1, t2, _, t4, _, t6, t7⟩ :=
    (step_spec env s pre D post Start End N true nt false 0 0 hl hs hc.1 hr he).2 s2 hstep
  obtain ⟨l3, rS, rE, k1, k2, k3, k4, _, k6, k7, k8⟩ :=
    step_struct env s pre D post Start End N nt hg hl hs hc.1 hr he s2 hstep
  obtain ⟨d1, d2, d3, d4, d5⟩ :=
    (CoreFreeMemoryMapStack_queued env fuel s2 (by omega)).2 s1 hdrain
  have hsk : ∀ c : EFI_GCD_MAP_ENTRY, c.EfiMemoryType = EfiConventionalMemory →
      CoreAddRange.skip nt D.GcdMemoryType D.Attributes D.Capabilities c = true := by
    intro c hc1
    unfold CoreAddRange.skip
    have : (c.EfiMemoryType != nt) = true := by
      rw [hc1, bne_iff_ne]
      exact fun e => hT e.symm
    rw [this]
    simp
  have through : ∀ x : EFI_GCD_MAP_ENTRY, x.EfiMemoryType = EfiConventionalMemory →
      (∃ c ∈ l3, strip c = strip x) → ∃ c ∈ s1.mGcdMemorySpaceMap, strip c = strip x := by
    rintro x hx ⟨c, hc1, hc2⟩
    have hct : c.EfiMemoryType = EfiConventionalMemory := by
      have := congrArg Prod.fst (strip_fields hc2).2.2.1
      exact this.trans hx
    obtain ⟨y, hy1, hy2⟩ := mem_flagPerm d1 (k4 c hc1 (hsk c hct))
    exact ⟨y, hy1, hy2.trans hc2⟩
  refine ⟨D, hmem, hD, hc.1, he, Store_flagPerm d1 t1, d2 (t7.trans hfs), by rw [d5, t7, hfs],
    by omega, ?_, ?_, fun hb => through _ hD (k2 hb), fun hb => through _ hD (k3 hb)⟩
  · intro a p
    rw [← Has_flagPerm d1, t2 a p, readds_of_guard_off env true nt hg]
    simp only [true_and]
    rfl
  · obtain ⟨e, he1, he2, he3, _⟩ := Linked_flagPerm d1 k8
    exact ⟨e, he1, by omega, by omega⟩

/-- The free half of the round trip: the descriptor `E1` that covers `Start` contains the
whole range and is not conventional. From a quiescent state with two free descriptors
queued the conversion to conventional memory returns EFI_SUCCESS, and the new descriptor
`[rS, rE]` contains every mergeable descriptor adjacent to the range. -/
theorem free_pass (env : Platform) (fuel N End : Nat) (s1 : MemState) (Start : Nat)
    (pre : List EFI_GCD_MAP_ENTRY) (E1 : EFI_GCD_MAP_ENTRY) (post : List EFI_GCD_MAP_ENTRY)
    (hg : env.FreedMemoryGuardEnabled = false) (hs : Store s1.mGcdMemorySpaceMap)
    (hd : s1.mMapDepth = 0) (hfs : s1.mFreeMapStack = 0)
    (hfree : 2 ≤ s1.mFreeMemoryMapEntryList) (hfuel : 3 ≤ fuel)
    (hS : Start % 4096 = 0) (hE : End % 4096 = 4095) (hlt : Start < End)
    (hf : findFirst (coversStart Start) s1.mGcdMemorySpaceMap = some (pre, E1, post))
    (he : End ≤ E1.EndAddress) (hT : E1.EfiMemoryType ≠ EfiConventionalMemory) :
    ∃ s4, CoreConvertPagesEx.loop env (CoreFreeMemoryMapStack env fuel) N true
        EfiConventionalMemory false 0 0 End fuel s1 Start =
        Except.ok (EFI_STATUS.EFI_SUCCESS, s4) ∧
      Store s4.mGcdMemorySpaceMap ∧
      (∀ a p, Has s4.mGcdMemorySpaceMap a p ↔
        ((Has s1.mGcdMemorySpaceMap a p ∧ ¬ (Start ≤ a ∧ a ≤ End)) ∨
         (Start ≤ a ∧ a ≤ End ∧
           p = (EfiConventionalMemory, E1.Attributes, E1.Capabilities, E1.GcdMemoryType)))) ∧
      ∃ rS rE, Linked s4.mGcdMemorySpaceMap rS rE
          (EfiConventionalMemory, E1.Attributes, E1.Capabilities, E1.GcdMemoryType) ∧
        rS ≤ Start ∧ End ≤ rE ∧
        ∀ c ∈ s1.mGcdMemorySpaceMap, c ≠ E1 →
          CoreAddRange.skip EfiConventionalMemory E1.GcdMemoryType E1.Attributes
            E1.Capabilities c = false →
          (c.EndAddress + 1 = Start ∨ c.BaseAddress = End + 1) →
          rS ≤ c.BaseAddress ∧ c.EndAddress ≤ rE := by
  obtain ⟨hl, hc, _⟩ := findFirst_some hf
  rw [coversStart_iff] at hc
  have hmem : E1 ∈ s1.mGcdMemorySpaceMap := by
    rw [hl]; exact List.mem_append_right _ (List.mem_cons_self _ _)
  have htop := hs.2 E1 hmem
  have hr : RangeOk Start End := ⟨hS, hE, hlt, by omega⟩
  have hty : ¬ ((true : Bool) = true ∧ xor (!(EfiConventionalMemory == EfiConventionalMemory))
      (E1.EfiMemoryType == EfiConventionalMemory) = true) := by
    have h2 : (E1.EfiMemoryType == EfiConventionalMemory) = false := by
      rw [beq_eq_false_iff_ne]; exact hT
    rw [h2]
    decide
  obtain ⟨n, rfl⟩ : ∃ n, fuel = n + 1 := ⟨fuel - 1, by omega⟩
  obtain ⟨hex, hsp⟩ := step_spec env s1 pre E1 post Start End N true EfiConventionalMemory
    false 0 0 hl hs hc.1 hr he
  obtain ⟨s2, hstep⟩ := hex (by omega)
  obtain ⟨t1, t2, _, t4, _, t6, t7⟩ := hsp s2 hstep
  obtain ⟨l3, rS, rE, k1, _, _, _, k5, k6, k7, k8⟩ :=
    step_struct env s1 pre E1 post Start End N EfiConventionalMemory hg hl hs hc.1 hr he s2
      hstep
  obtain ⟨dex, dsp⟩ := CoreFreeMemoryMapStack_queued env (n + 1) s2 (by omega)
  obtain ⟨s4, hdrain⟩ := dex (by omega)
  obtain ⟨d1, _⟩ := dsp s4 hdrain
  refine ⟨s4, ?_, Store_flagPerm d1 t1, ?_, rS, rE, Linked_flagPerm d1 k8, k6, k7, ?_⟩
  · rw [loop_single env _ N true EfiConventionalMemory false 0 0 End n s1 Start pre E1 post
      hlt (by omega) hf he hty, hstep]
    show (CoreFreeMemoryMapStack env (n + 1) s2 >>= fun s3 =>
      (pure (EFI_STATUS.EFI_SUCCESS, s3) : Except Halt _)) = _
    rw [hdrain]
    rfl
  · intro a p
    rw [← Has_flagPerm d1, t2 a p, readds_of_guard_off env true EfiConventionalMemory hg]
    simp only [true_and]
    rfl
  · intro c hc1 hne hsk hadj
    have hc2 : c ∈ pre ++ post := by
      rw [hl] at hc1
      rcases List.mem_append.1 hc1 with h1 | h1
      · exact List.mem_append_left _ h1
      · rcases List.mem_cons.1 h1 with h1 | h1
        · exact absurd h1 hne
        · exact List.mem_append_right _ h1
    exact k5 c (k1 c hc2) hsk hadj

/-- C22 fails on the code: IsMmMemoryProtectionActive reads the DXE heap guard policy. The
two settings states have the same MM settings (NULL detection off, page guard off, pool
guard on for one memory type) and differ only in the DXE field HeapGuard.PoolGuardEnabled;
the function returns TRUE for the one and FALSE for the other. -/
theorem IsMmMemoryProtectionActive_reads_dxe :
    (poolGuardSettings true).Mps.Mm = (poolGuardSettings false).Mps.Mm ∧
    IsMmMemoryProtectionActive (populated (poolGuardSettings true)) =
      Except.ok (true, populated (poolGuardSettings true)) ∧
    IsMmMemoryProtectionActive (populated (poolGuardSettings false)) =
      Except.ok (false, populated (poolGuardSettings false)) :=
  ⟨rfl, rfl, rfl⟩

/-- One pass of the search loop without guard keeps the target 0 or at a candidate end whose
range starts at or above the floor. -/
theorem FindFreePagesI_step_floor (env : Platform) (MaxAddress MinAddress NumberOfBytes A : Nat)
    (Target : Nat) (Entry : EFI_GCD_MAP_ENTRY)
    (hT : Target = 0 ∨ (Target < 18446744073709551616 ∧
      MinAddress ≤ add64 (sub64 Target NumberOfBytes) 1)) :
    CoreFindFreePagesI.step env MaxAddress MinAddress NumberOfBytes A false Target Entry = 0 ∨
    (CoreFindFreePagesI.step env MaxAddress MinAddress NumberOfBytes A false Target Entry <
        18446744073709551616 ∧
      MinAddress ≤ add64 (sub64
        (CoreFindFreePagesI.step env MaxAddress MinAddress NumberOfBytes A false Target Entry)
        NumberOfBytes) 1) := by
  unfold CoreFindFreePagesI.step
  dsimp only
  have hD := sub64_lt (add64 (if Entry.EndAddress ≥ MaxAddress then MaxAddress
    else Entry.EndAddress) 1 &&& not64 (sub64 A 1)) 1
  generalize sub64 (add64 (if Entry.EndAddress ≥ MaxAddress then MaxAddress
    else Entry.EndAddress) 1 &&& not64 (sub64 A 1)) 1 = D at hD ⊢
  simp only [Bool.false_eq_true, if_false]
  split_ifs with h1 h2 h3 h4 h5 h6 <;> first
    | exact hT
    | exact Or.inr ⟨hD, Nat.le_of_not_lt h5⟩

theorem FindFreePagesI_foldl_floor (env : Platform) (MaxAddress MinAddress NumberOfBytes A : Nat)
    (l : List EFI_GCD_MAP_ENTRY) :
    ∀ Target, (Target = 0 ∨ (Target < 18446744073709551616 ∧
        MinAddress ≤ add64 (sub64 Target NumberOfBytes) 1)) →
      (l.foldl (CoreFindFreePagesI.step env MaxAddress MinAddress NumberOfBytes A false)
          Target = 0 ∨
        (l.foldl (CoreFindFreePagesI.step env MaxAddress MinAddress NumberOfBytes A false)
            Target < 18446744073709551616 ∧
          MinAddress ≤ add64 (sub64
            (l.foldl (CoreFindFreePagesI.step env MaxAddress MinAddress NumberOfBytes A false)
              Target) NumberOfBytes) 1)) := by
  induction l with
  | nil => intro Target hT; exact hT
  | cons e rest ih =>
    intro Target hT
    rw [List.foldl_cons]
    exact ih _ (FindFreePagesI_step_floor env MaxAddress MinAddress NumberOfBytes A Target e hT)

/-- The final adjustment of CoreFindFreePagesI on the target 0: the value has the low 12
bits 0x001. -/
theorem target_zero_wraps (N : Nat) :
    sub64 0 (sub64 (LShiftU64 N EFI_PAGE_SHIFT) 1) % 4096 = 1 := by
  unfold sub64 LShiftU64 EFI_PAGE_SHIFT
  have h : (N * 2 ^ 12) % 18446744073709551616 % 4096 = 0 := by
    have : (4096 : Nat) ∣ 18446744073709551616 := by norm_num
    rw [Nat.mod_mod_of_dvd _ this]
    norm_num
  generalize (N * 2 ^ 12) % 18446744073709551616 = B at h
  have hB : B < 18446744073709551616 ∨ True := Or.inr trivial
  omega

theorem target_adjust (T NB : Nat) (hT : T < 18446744073709551616)
    (hNB : NB < 18446744073709551616) :
    sub64 T (sub64 NB 1) = add64 (sub64 T NB) 1 := by
  unfold sub64 add64
  omega

/-- C25: for every store and every request without guard, a non-zero result of
CoreFindFreePagesI is at or above MinAddress. -/
theorem CoreFindFreePagesI_floor (env : Platform) (s : MemState)
    (MaxAddress MinAddress NumberOfPages NewType Alignment : Nat)
    (h : CoreFindFreePagesI env s MaxAddress MinAddress NumberOfPages NewType Alignment false
      ≠ 0) :
    MinAddress ≤
      CoreFindFreePagesI env s MaxAddress MinAddress NumberOfPages NewType Alignment false := by
  unfold CoreFindFreePagesI at h ⊢
  by_cases c : MaxAddress < EFI_PAGE_MASK ∨ NumberOfPages = 0
  · rw [if_pos c] at h
    exact absurd rfl h
  · rw [if_neg c] at h ⊢
    dsimp only at h ⊢
    generalize (if MaxAddress &&& EFI_PAGE_MASK ≠ EFI_PAGE_MASK then
      ((sub64 MaxAddress (EFI_PAGE_MASK + 1)) &&& not64 EFI_PAGE_MASK) ||| EFI_PAGE_MASK
      else MaxAddress) = M at h ⊢
    have hf := FindFreePagesI_foldl_floor env M MinAddress
      (LShiftU64 NumberOfPages EFI_PAGE_SHIFT) Alignment s.mGcdMemorySpaceMap 0 (Or.inl rfl)
    generalize s.mGcdMemorySpaceMap.foldl (CoreFindFreePagesI.step env M MinAddress
      (LShiftU64 NumberOfPages EFI_PAGE_SHIFT) Alignment false) 0 = F at h hf ⊢
    have hNB : LShiftU64 NumberOfPages EFI_PAGE_SHIFT < 18446744073709551616 := by
      unfold LShiftU64
      exact Nat.mod_lt _ (by norm_num)
    rcases hf with hf | ⟨hf1, hf2⟩
    · subst hf
      have hw := target_zero_wraps NumberOfPages
      rw [EFI_PAGE_MASK, land_4095, hw] at h
      exact absurd rfl h
    · rw [target_adjust F _ hf1 hNB] at h ⊢
      by_cases c2 : add64 (sub64 F (LShiftU64 NumberOfPages EFI_PAGE_SHIFT)) 1 &&&
          EFI_PAGE_MASK ≠ 0
      · rw [if_pos c2] at h
        exact absurd rfl h
      · rw [if_neg c2]
        exact hf2

/-- C25 at a concrete request: one conventional descriptor [0x1000, 0x9FFF], floor 0x2000,
ceiling 0x7FFF, one page. -/
theorem CoreFindFreePagesI_floor_witness :
    CoreFindFreePagesI plainPlatform
      { initialState plainPlatform with mGcdMemorySpaceMap := [convEntry 0x1000 0x9FFF] }
      0x7FFF 0x2000 1 EfiBootServicesData 4096 false = 0x7000 ∧
    0x2000 ≤ CoreFindFreePagesI plainPlatform
      { initialState plainPlatform with mGcdMemorySpaceMap := [convEntry 0x1000 0x9FFF] }
      0x7FFF 0x2000 1 EfiBootServicesData 4096 false :=
  ⟨by decide, CoreFindFreePagesI_floor plainPlatform _ 0x7FFF 0x2000 1 EfiBootServicesData 4096
    (by decide)⟩

theorem FindFreePagesI_foldl_zero (f : Nat → EFI_GCD_MAP_ENTRY → Nat)
    (l : List EFI_GCD_MAP_ENTRY) (h : ∀ e ∈ l, f 0 e = 0) : l.foldl f 0 = 0 := by
  induction l with
  | nil => rfl
  | cons e rest ih =>
    rw [List.foldl_cons, h e (List.mem_cons_self _ _)]
    exact ih fun x hx => h x (List.mem_cons_of_mem _ hx)

/-- If the search loop accepts no descriptor (each pass leaves the target 0, under the
ceiling rounded down to the end of a page), CoreFindFreePagesI returns 0 for every page
count: the final adjustment of the target 0 wraps to a value with the low 12 bits 0x001, and
the page-alignment test reports none. -/
theorem CoreFindFreePagesI_none (env : Platform) (s : MemState)
    (MaxAddress MinAddress NumberOfPages NewType Alignment : Nat) (NeedGuard : Bool)
    (h : ∀ e ∈ s.mGcdMemorySpaceMap,
      CoreFindFreePagesI.step env
        (if MaxAddress &&& EFI_PAGE_MASK ≠ EFI_PAGE_MASK then
          ((sub64 MaxAddress (EFI_PAGE_MASK + 1)) &&& not64 EFI_PAGE_MASK) ||| EFI_PAGE_MASK
          else MaxAddress)
        MinAddress (LShiftU64 NumberOfPages EFI_PAGE_SHIFT) Alignment NeedGuard 0 e = 0) :
    CoreFindFreePagesI env s MaxAddress MinAddress NumberOfPages NewType Alignment NeedGuard
      = 0 ∧
    sub64 0 (sub64 (LShiftU64 NumberOfPages EFI_PAGE_SHIFT) 1) &&& EFI_PAGE_MASK = 1 := by
  have hw := target_zero_wraps NumberOfPages
  refine ⟨?_, by rw [EFI_PAGE_MASK, land_4095, hw]⟩
  unfold CoreFindFreePagesI
  by_cases c : MaxAddress < EFI_PAGE_MASK ∨ NumberOfPages = 0
  · rw [if_pos c]
  · rw [if_neg c]
    dsimp only
    rw [FindFreePagesI_foldl_zero _ _ h, EFI_PAGE_MASK, land_4095, hw]
    rfl

/-- The search at a concrete request that the loop does not accept: the only conventional
descriptor holds two pages, three are asked for. -/
theorem CoreFindFreePagesI_none_witness :
    CoreFindFreePagesI plainPlatform
      { initialState plainPlatform with
        mGcdMemorySpaceMap := [convEntry 0x1000 0x2FFF,
          { convEntry 0x3000 0x9FFF with EfiMemoryType := EfiBootServicesData }] }
      0xFFFFFFFF 0 3 EfiBootServicesData 4096 false = 0 ∧
    sub64 0 (sub64 (LShiftU64 3 EFI_PAGE_SHIFT) 1) &&& EFI_PAGE_MASK = 1 :=
  CoreFindFreePagesI_none plainPlatform _ 0xFFFFFFFF 0 3 EfiBootServicesData 4096 false
    (by decide)

/-- C27: FindFreePages tries the bins in order. If the type has a statistics window, the
ceiling reaches it and CoreFindFreePagesI finds a fit in it, that address is returned;
otherwise, if the ceiling reaches the default window and a fit exists in
[0, mDefaultMaximumAddress], that address is returned and mDefaultBaseAddress is lowered to
it when it is smaller; otherwise a fit in [0, MaxAddress] is returned; only when all three
searches return none the promotion hook is consulted: when it reports failure the result is
none, and when it promotes memory the search is repeated on the new state. -/
theorem FindFreePages_order (env : Platform) (fuel : Nat) (s : MemState)
    (MaxAddress NoPages NewType Alignment : Nat) (NeedGuard : Bool) :
    ((NewType < EfiMaxMemoryType ∧
        MaxAddress ≥ (s.mMemoryTypeStatistics.getD NewType default).MaximumAddress ∧
        CoreFindFreePagesI env s (s.mMemoryTypeStatistics.getD NewType default).MaximumAddress
          (s.mMemoryTypeStatistics.getD NewType default).BaseAddress NoPages NewType Alignment
          NeedGuard ≠ 0) →
      FindFreePages env (fuel + 1) s MaxAddress NoPages NewType Alignment NeedGuard =
        Except.ok (CoreFindFreePagesI env s
          (s.mMemoryTypeStatistics.getD NewType default).MaximumAddress
          (s.mMemoryTypeStatistics.getD NewType default).BaseAddress NoPages NewType Alignment
          NeedGuard, s)) ∧
    (¬ (NewType < EfiMaxMemoryType ∧
        MaxAddress ≥ (s.mMemoryTypeStatistics.getD NewType default).MaximumAddress ∧
        CoreFindFreePagesI env s (s.mMemoryTypeStatistics.getD NewType default).MaximumAddress
          (s.mMemoryTypeStatistics.getD NewType default).BaseAddress NoPages NewType Alignment
          NeedGuard ≠ 0) →
      ((MaxAddress ≥ s.mDefaultMaximumAddress ∧
          CoreFindFreePagesI env s s.mDefaultMaximumAddress 0 NoPages NewType Alignment
            NeedGuard ≠ 0) →
        FindFreePages env (fuel + 1) s MaxAddress NoPages NewType Alignment NeedGuard =
          Except.ok (CoreFindFreePagesI env s s.mDefaultMaximumAddress 0 NoPages NewType
              Alignment NeedGuard,
            if CoreFindFreePagesI env s s.mDefaultMaximumAddress 0 NoPages NewType Alignment
                NeedGuard < s.mDefaultBaseAddress then
              { s with mDefaultBaseAddress :=
                  (CoreFindFreePagesI env s s.mDefaultMaximumAddress 0 NoPages NewType Alignment
                    NeedGuard) }
            else s)) ∧
      (¬ (MaxAddress ≥ s.mDefaultMaximumAddress ∧
          CoreFindFreePagesI env s s.mDefaultMaximumAddress 0 NoPages NewType Alignment
            NeedGuard ≠ 0) →
        (CoreFindFreePagesI env s MaxAddress 0 NoPages NewType Alignment NeedGuard ≠ 0 →
          FindFreePages env (fuel + 1) s MaxAddress NoPages NewType Alignment NeedGuard =
            Except.ok (CoreFindFreePagesI env s MaxAddress 0 NoPages NewType Alignment
              NeedGuard, s)) ∧
        (CoreFindFreePagesI env s MaxAddress 0 NoPages NewType Alignment NeedGuard = 0 →
          (env.PromoteGuardedFreePages s = none →
            FindFreePages env (fuel + 1) s MaxAddress NoPages NewType Alignment NeedGuard =
              Except.ok (0, s)) ∧
          (∀ s1, env.PromoteGuardedFreePages s = some s1 →
            FindFreePages env (fuel + 1) s MaxAddress NoPages NewType Alignment NeedGuard =
              FindFreePages env fuel s1 MaxAddress NoPages NewType Alignment NeedGuard)))) := by
  rw [FindFreePages]
  dsimp only
  generalize CoreFindFreePagesI env s (s.mMemoryTypeStatistics.getD NewType default).MaximumAddress
    (s.mMemoryTypeStatistics.getD NewType default).BaseAddress NoPages NewType Alignment
    NeedGuard = S1
  generalize CoreFindFreePagesI env s s.mDefaultMaximumAddress 0 NoPages NewType Alignment
    NeedGuard = S2
  generalize CoreFindFreePagesI env s MaxAddress 0 NoPages NewType Alignment NeedGuard = S3
  generalize (s.mMemoryTypeStatistics.getD NewType default).MaximumAddress = M1
  have e1 : ∀ (c : Prop) [Decidable c], ((if c then S1 else 0) ≠ 0) ↔ (c ∧ S1 ≠ 0) := by
    intro c _
    by_cases hc : c
    · rw [if_pos hc]; exact ⟨fun h => ⟨hc, h⟩, fun h => h.2⟩
    · rw [if_neg hc]; exact ⟨fun h => absurd rfl h, fun h => absurd h.1 hc⟩
  have e2 : ∀ (c : Prop) [Decidable c], ((if c then S2 else 0) ≠ 0) ↔ (c ∧ S2 ≠ 0) := by
    intro c _
    by_cases hc : c
    · rw [if_pos hc]; exact ⟨fun h => ⟨hc, h⟩, fun h => h.2⟩
    · rw [if_neg hc]; exact ⟨fun h => absurd rfl h, fun h => absurd h.1 hc⟩
  refine ⟨fun h1 => ?_, fun h1 => ⟨fun h2 => ?_, fun h2 => ⟨fun h3 => ?_, fun h3 => ⟨fun h4 => ?_,
    fun s1 h4 => ?_⟩⟩⟩⟩
  · have c1 := (e1 (NewType < EfiMaxMemoryType ∧ MaxAddress ≥ M1)).2 ⟨⟨h1.1, h1.2.1⟩, h1.2.2⟩
    rw [if_pos c1, if_pos ⟨h1.1, h1.2.1⟩]
    rfl
  · have c1 : ¬ ((if NewType < EfiMaxMemoryType ∧ MaxAddress ≥ M1 then S1 else 0) ≠ 0) :=
      fun h => h1 (by
        have := (e1 (NewType < EfiMaxMemoryType ∧ MaxAddress ≥ M1)).1 h
        exact ⟨this.1.1, this.1.2, this.2⟩)
    have c2 := (e2 (MaxAddress ≥ s.mDefaultMaximumAddress)).2 h2
    rw [if_neg c1, if_pos c2, if_pos h2.1]
    rfl
  · have c1 : ¬ ((if NewType < EfiMaxMemoryType ∧ MaxAddress ≥ M1 then S1 else 0) ≠ 0) :=
      fun h => h1 (by
        have := (e1 (NewType < EfiMaxMemoryType ∧ MaxAddress ≥ M1)).1 h
        exact ⟨this.1.1, this.1.2, this.2⟩)
    have c2 : ¬ ((if MaxAddress ≥ s.mDefaultMaximumAddress then S2 else 0) ≠ 0) :=
      fun h => h2 ((e2 (MaxAddress ≥ s.mDefaultMaximumAddress)).1 h)
    rw [if_neg c1, if_neg c2, if_pos h3]
    rfl
  · have c1 : ¬ ((if NewType < EfiMaxMemoryType ∧ MaxAddress ≥ M1 then S1 else 0) ≠ 0) :=
      fun h => h1 (by
        have := (e1 (NewType < EfiMaxMemoryType ∧ MaxAddress ≥ M1)).1 h
        exact ⟨this.1.1, this.1.2, this.2⟩)
    have c2 : ¬ ((if MaxAddress ≥ s.mDefaultMaximumAddress then S2 else 0) ≠ 0) :=
      fun h => h2 ((e2 (MaxAddress ≥ s.mDefaultMaximumAddress)).1 h)
    rw [if_neg c1, if_neg c2, if_neg (fun h => h h3), h4]
    rfl
  · have c1 : ¬ ((if NewType < EfiMaxMemoryType ∧ MaxAddress ≥ M1 then S1 else 0) ≠ 0) :=
      fun h => h1 (by
        have := (e1 (NewType < EfiMaxMemoryType ∧ MaxAddress ≥ M1)).1 h
        exact ⟨this.1.1, this.1.2, this.2⟩)
    have c2 : ¬ ((if MaxAddress ≥ s.mDefaultMaximumAddress then S2 else 0) ≠ 0) :=
      fun h => h2 ((e2 (MaxAddress ≥ s.mDefaultMaximumAddress)).1 h)
    rw [if_neg c1, if_neg c2, if_neg (fun h => h h3), h4]

/-- C27 at a concrete request: an OEM type has no statistics window, the default window
holds a fit at 0x9000, and mDefaultBaseAddress is lowered to it. -/
theorem FindFreePages_order_witness :
    FindFreePages plainPlatform 1 oneRangeState 0xFFFFFFFFFFFFFFFF 1 0x80000000 4096 false =
      Except.ok (0x9000, { oneRangeState with mDefaultBaseAddress := 0x9000 }) :=
  (((FindFreePages_order plainPlatform 0 oneRangeState 0xFFFFFFFFFFFFFFFF 1 0x80000000 4096
    false).2 (by decide)).1 (by decide)).trans rfl

/-- C23, as stated, fails: the merge test looks at the owner of the neighbour only. The
neighbour [0, 0xFFF] has no owner, the new range [0x1000, 0x1FFF] is added for the owner 5;
the neighbour is absorbed, and the resulting descriptor [0, 0x1FFF] has the owner 5. -/
theorem CoreAddRange_absorbs_other_owner :
    ∃ s1, CoreAddRange unownedNeighbourState EfiConventionalMemory 2 0x1000 0x1FFF 0 0 5 =
        Except.ok s1 ∧
      (∀ e ∈ unownedNeighbourState.mGcdMemorySpaceMap, e.ImageHandle = 0) ∧
      s1.mGcdMemorySpaceMap.map
          (fun e => (e.BaseAddress, e.EndAddress, e.ImageHandle)) = [(0, 0x1FFF, 5)] :=
  ⟨_, rfl, by decide, by decide⟩

/-- C23, amended: CoreAddRange absorbs only descriptors without owner and without device
handle, whatever owner is passed for the new range: every descriptor with an owner or a
device handle stays linked, and the one new descriptor has the owner that was passed and no
device handle. -/
theorem CoreAddRange_owner (s s1 : MemState) (T G S E A C H : Nat)
    (h : CoreAddRange s T G S E A C H = Except.ok s1) :
    ∃ kept New, s1.mGcdMemorySpaceMap = kept ++ [New] ∧
      kept.Sublist s.mGcdMemorySpaceMap ∧
      New.ImageHandle = H ∧ New.DeviceHandle = 0 ∧
      (∀ e ∈ s.mGcdMemorySpaceMap, e.ImageHandle ≠ 0 ∨ e.DeviceHandle ≠ 0 → e ∈ kept) ∧
      (∀ e ∈ s.mGcdMemorySpaceMap, e ∉ kept → e.ImageHandle = 0 ∧ e.DeviceHandle = 0) := by
  obtain ⟨_, rfl⟩ := (CoreAddRange_eq_ok _ _ _ _ _ _ _ _ _).1 h
  have hsub : ∀ (l : List EFI_GCD_MAP_ENTRY) (S E f : Nat),
      (CoreAddRange.scan T G A C l S E f).1.Sublist l := by
    intro l
    induction l with
    | nil => intro S E f; exact List.Sublist.slnil
    | cons e rest ih =>
      intro S E f
      rw [CoreAddRange.scan]
      split
      · exact (ih _ _ _).cons₂ _
      · split
        · exact (ih _ _ _).cons _
        · split
          · exact (ih _ _ _).cons _
          · exact (ih _ _ _).cons₂ _
  have hkeep : ∀ e ∈ s.mGcdMemorySpaceMap, e.ImageHandle ≠ 0 ∨ e.DeviceHandle ≠ 0 →
      e ∈ (CoreAddRange.scan T G A C s.mGcdMemorySpaceMap S E s.mFreeMemoryMapEntryList).1 := by
    intro e he ho
    refine scan_keeps T G A C e ?_ _ _ _ _ he
    unfold CoreAddRange.skip
    rcases ho with ho | ho
    · have : (e.ImageHandle != 0) = true := by rw [bne_iff_ne]; exact ho
      rw [this]
      simp
    · have : (e.DeviceHandle != 0) = true := by rw [bne_iff_ne]; exact ho
      rw [this]
      simp
  refine ⟨_, _, rfl, hsub _ _ _ _, rfl, rfl, hkeep, ?_⟩
  intro e he hn
  constructor
  · by_contra hc
    exact hn (hkeep e he (Or.inl hc))
  · by_contra hc
    exact hn (hkeep e he (Or.inr hc))

/-- C23, amended, at a concrete call: the neighbour [0, 0xFFF] has the owner 5, the new
range is added for the same owner 5, and the neighbour stays linked. -/
theorem CoreAddRange_owner_witness :
    ∃ kept New,
      (addRangeResult { unownedNeighbourState with
          mGcdMemorySpaceMap := [{ convEntry 0 0xFFF with ImageHandle := 5 }] }
        EfiConventionalMemory 2 0x1000 0x1FFF 0 0 5).mGcdMemorySpaceMap = kept ++ [New] ∧
      kept.Sublist [{ convEntry 0 0xFFF with ImageHandle := 5 }] ∧
      New.ImageHandle = 5 ∧ New.DeviceHandle = 0 ∧
      (∀ e ∈ [{ convEntry 0 0xFFF with ImageHandle := 5 }],
        e.ImageHandle ≠ 0 ∨ e.DeviceHandle ≠ 0 → e ∈ kept) ∧
      (∀ e ∈ [{ convEntry 0 0xFFF with ImageHandle := 5 }],
        e ∉ kept → e.ImageHandle = 0 ∧ e.DeviceHandle = 0) :=
  CoreAddRange_owner { unownedNeighbourState with
      mGcdMemorySpaceMap := [{ convEntry 0 0xFFF with ImageHandle := 5 }] } _
    EfiConventionalMemory 2 0x1000 0x1FFF 0 0 5 rfl

/-- C24, as stated, fails: the merge test compares with the range as widened so far. In the
pairwise disjoint store linked as [0x1000, 0x1FFF], [0, 0xFFF], [0x3000, 0x3FFF] the call
for [0x2000, 0x2FFF] absorbs two descriptors below (the second is adjacent to the first,
not to the new range) and one above: three descriptors are removed. -/
theorem CoreAddRange_absorbs_chain :
    chainState.mGcdMemorySpaceMap.Pairwise Disjoint ∧
    chainState.mGcdMemorySpaceMap.length = 3 ∧
    ∃ s1, CoreAddRange chainState EfiConventionalMemory 2 0x2000 0x2FFF 0 0 0 =
        Except.ok s1 ∧
      s1.mGcdMemorySpaceMap.map (fun e => (e.BaseAddress, e.EndAddress)) = [(0, 0x3FFF)] :=
  ⟨by decide, rfl, _, rfl, by decide⟩

/-- The number of descriptors the merge loop removes when no two mergeable descriptors of
the store are adjacent to each other: one for a mergeable descriptor below the range and
one for a mergeable descriptor above it. -/
theorem scan_count (T G A C : Nat) (l : List EFI_GCD_MAP_ENTRY) :
    ∀ (S E f : Nat), NoChain T G A C l →
      l.length ≤ (CoreAddRange.scan T G A C l S E f).1.length +
        (if (l.any fun e => !CoreAddRange.skip T G A C e && add64 e.EndAddress 1 == S) = true
          then 1 else 0) +
        (if (l.any fun e => !CoreAddRange.skip T G A C e && e.BaseAddress == add64 E 1) = true
          then 1 else 0) := by
  induction l with
  | nil => intro S E f _; simp [CoreAddRange.scan]
  | cons e rest ih =>
    intro S E f hn
    have hrest : NoChain T G A C rest := fun e1 h1 e2 h2 =>
      hn e1 (List.mem_cons_of_mem _ h1) e2 (List.mem_cons_of_mem _ h2)
    have mono1 : ∀ (p : EFI_GCD_MAP_ENTRY → Bool),
        (if (rest.any p) = true then 1 else 0) ≤ (if ((e :: rest).any p) = true then 1 else 0) := by
      intro p
      by_cases c : rest.any p = true
      · have : (e :: rest).any p = true := by rw [List.any_cons, c, Bool.or_true]
        rw [if_pos c, if_pos this]
      · rw [if_neg c]
        exact Nat.zero_le _
    rw [CoreAddRange.scan]
    by_cases c0 : CoreAddRange.skip T G A C e = true
    · rw [if_pos c0]
      have := ih S E f hrest
      have m1 := mono1 (fun e => !CoreAddRange.skip T G A C e && add64 e.EndAddress 1 == S)
      have m2 := mono1 (fun e => !CoreAddRange.skip T G A C e && e.BaseAddress == add64 E 1)
      simp only [List.length_cons] at this ⊢
      omega
    · rw [if_neg c0]
      have c0' : CoreAddRange.skip T G A C e = false := by
        cases h : CoreAddRange.skip T G A C e with
        | true => exact absurd h c0
        | false => rfl
      by_cases c1 : add64 e.EndAddress 1 = S
      · rw [if_pos c1]
        have := ih e.BaseAddress E (if e.FromPages then f + 1 else f) hrest
        have hb : (rest.any fun x => !CoreAddRange.skip T G A C x &&
            add64 x.EndAddress 1 == e.BaseAddress) = false := by
          rw [List.any_eq_false]
          intro x hx hc
          simp only [Bool.and_eq_true, Bool.not_eq_true', beq_iff_eq] at hc
          exact hn x (List.mem_cons_of_mem _ hx) e (List.mem_cons_self _ _) hc.1 c0' hc.2
        have ht : ((e :: rest).any fun x => !CoreAddRange.skip T G A C x &&
            add64 x.EndAddress 1 == S) = true := by
          rw [List.any_cons, c0', c1]
          simp
        have m2 := mono1 (fun e => !CoreAddRange.skip T G A C e && e.BaseAddress == add64 E 1)
        rw [hb] at this
        rw [if_pos ht]
        simp only [List.length_cons, Bool.false_eq_true, if_false] at this ⊢
        omega
      · rw [if_neg c1]
        by_cases c2 : e.BaseAddress = add64 E 1
        · rw [if_pos c2]
          have := ih S e.EndAddress (if e.FromPages then f + 1 else f) hrest
          have hb : (rest.any fun x => !CoreAddRange.skip T G A C x &&
              x.BaseAddress == add64 e.EndAddress 1) = false := by
            rw [List.any_eq_false]
            intro x hx hc
            simp only [Bool.and_eq_true, Bool.not_eq_true', beq_iff_eq] at hc
            exact hn e (List.mem_cons_self _ _) x (List.mem_cons_of_mem _ hx) c0' hc.1 hc.2.symm
          have ht : ((e :: rest).any fun x => !CoreAddRange.skip T G A C x &&
              x.BaseAddress == add64 E 1) = true := by
            rw [List.any_cons, c0', c2]
            simp
          have m1 := mono1 (fun e => !CoreAddRange.skip T G A C e && add64 e.EndAddress 1 == S)
          rw [hb] at this
          rw [if_pos ht]
          simp only [List.length_cons, Bool.false_eq_true, if_false] at this ⊢
          omega
        · rw [if_neg c2]
          have := ih S E f hrest
          have m1 := mono1 (fun e => !CoreAddRange.skip T G A C e && add64 e.EndAddress 1 == S)
          have m2 := mono1 (fun e => !CoreAddRange.skip T G A C e && e.BaseAddress == add64 E 1)
          simp only [List.length_cons] at this ⊢
          omega

/-- When no two mergeable descriptors of the store are adjacent to each other, every
descriptor the merge loop removes is adjacent to the range it was called with. -/
theorem scan_removed_adjacent (T G A C : Nat) (l : List EFI_GCD_MAP_ENTRY) :
    ∀ (S E f : Nat), NoChain T G A C l →
      ∀ e ∈ l, e ∉ (CoreAddRange.scan T G A C l S E f).1 →
        CoreAddRange.skip T G A C e = false ∧
        (add64 e.EndAddress 1 = S ∨ e.BaseAddress = add64 E 1) := by
  induction l with
  | nil => intro S E f _ e he; cases he
  | cons x rest ih =>
    intro S E f hn e he hne
    have hrest : NoChain T G A C rest := fun e1 h1 e2 h2 =>
      hn e1 (List.mem_cons_of_mem _ h1) e2 (List.mem_cons_of_mem _ h2)
    rw [CoreAddRange.scan] at hne
    by_cases c0 : CoreAddRange.skip T G A C x = true
    · rw [if_pos c0] at hne
      rcases List.mem_cons.1 he with rfl | he'
      · exact absurd (List.mem_cons_self _ _) hne
      · exact ih S E f hrest e he' (fun hc => hne (List.mem_cons_of_mem _ hc))
    · rw [if_neg c0] at hne
      have c0' : CoreAddRange.skip T G A C x = false := by
        cases h : CoreAddRange.skip T G A C x with
        | true => exact absurd h c0
        | false => rfl
      by_cases c1 : add64 x.EndAddress 1 = S
      · rw [if_pos c1] at hne
        by_cases hex : e = x
        · exact hex ▸ ⟨c0', Or.inl c1⟩
        · have he' : e ∈ rest := by
            rcases List.mem_cons.1 he with h | h
            · exact absurd h hex
            · exact h
          obtain ⟨k1, k2⟩ := ih _ _ _ hrest e he' hne
          rcases k2 with k2 | k2
          · exact absurd k2 (hn e he x (List.mem_cons_self _ _) k1 c0')
          · exact ⟨k1, Or.inr k2⟩
      · rw [if_neg c1] at hne
        by_cases c2 : x.BaseAddress = add64 E 1
        · rw [if_pos c2] at hne
          by_cases hex : e = x
          · exact hex ▸ ⟨c0', Or.inr c2⟩
          · have he' : e ∈ rest := by
              rcases List.mem_cons.1 he with h | h
              · exact absurd h hex
              · exact h
            obtain ⟨k1, k2⟩ := ih _ _ _ hrest e he' hne
            rcases k2 with k2 | k2
            · exact ⟨k1, Or.inl k2⟩
            · exact absurd k2.symm (hn x (List.mem_cons_self _ _) e he c0' k1)
        · rw [if_neg c2] at hne
          rcases List.mem_cons.1 he with rfl | he'
          · exact absurd (List.mem_cons_self _ _) hne
          · exact ih S E f hrest e he' (fun hc => hne (List.mem_cons_of_mem _ hc))

theorem scan_sublist (T G A C : Nat) (l : List EFI_GCD_MAP_ENTRY) :
    ∀ (S E f : Nat), (CoreAddRange.scan T G A C l S E f).1.Sublist l := by
  induction l with
  | nil => intro S E f; exact List.Sublist.slnil
  | cons e rest ih =>
    intro S E f
    rw [CoreAddRange.scan]
    split
    · exact (ih _ _ _).cons₂ _
    · split
      · exact (ih _ _ _).cons _
      · split
        · exact (ih _ _ _).cons _
        · exact (ih _ _ _).cons₂ _

/-- C24, amended: on a well-formed, pairwise disjoint store whose descriptors end below
2 ^ 64 - 1 and in which no two descriptors that the merge test accepts are adjacent to each
other, in any link order, a CoreAddRange call for a well-formed range that meets no
descriptor removes at most two descriptors, each of them adjacent to the new range (ending
at Start - 1 or beginning at End + 1), and links exactly one new descriptor, which contains
the range and whose size is the size of the range plus the sizes of the removed
descriptors; the store stays well formed and disjoint. -/
theorem CoreAddRange_absorbs_two (s s1 : MemState) (T G S E A C H : Nat)
    (hs : Store s.mGcdMemorySpaceMap) (hr : RangeOk S E)
    (hd : ∀ e ∈ s.mGcdMemorySpaceMap, E < e.BaseAddress ∨ e.EndAddress < S)
    (hn : NoChain T G A C s.mGcdMemorySpaceMap)
    (h : CoreAddRange s T G S E A C H = Except.ok s1) :
    ∃ kept New, s1.mGcdMemorySpaceMap = kept ++ [New] ∧
      kept.Sublist s.mGcdMemorySpaceMap ∧
      s.mGcdMemorySpaceMap.length ≤ kept.length + 2 ∧
      (∀ e ∈ s.mGcdMemorySpaceMap, e ∉ kept →
        (e.EndAddress + 1 = S ∨ e.BaseAddress = E + 1) ∧
        New.BaseAddress ≤ e.BaseAddress ∧ e.EndAddress ≤ New.EndAddress) ∧
      New.BaseAddress ≤ S ∧ E ≤ New.EndAddress ∧
      totalSize s1.mGcdMemorySpaceMap = totalSize s.mGcdMemorySpaceMap + (E + 1 - S) ∧
      StoreOk s1.mGcdMemorySpaceMap := by
  obtain ⟨_, rfl⟩ := (CoreAddRange_eq_ok _ _ _ _ _ _ _ _ _).1 h
  obtain ⟨a1, _, a3, _⟩ := addRangeResult_spec s T G S E A C H hs hr hd
  obtain ⟨_, _, q3, q4, _⟩ := scan_spec T G A C s.mGcdMemorySpaceMap S E
    s.mFreeMemoryMapEntryList hs.1.1 hs.2 hs.1.2 hr hd
  have hc := scan_count T G A C s.mGcdMemorySpaceMap S E s.mFreeMemoryMapEntryList hn
  refine ⟨_, _, rfl, scan_sublist T G A C _ _ _ _, ?_, ?_, q3, q4, a3, a1.1⟩
  · have b1 : ∀ c : Prop, [Decidable c] → (if c then 1 else 0) ≤ 1 := by
      intro c _; split <;> omega
    have := b1 ((s.mGcdMemorySpaceMap.any fun e => !CoreAddRange.skip T G A C e &&
      add64 e.EndAddress 1 == S) = true)
    have := b1 ((s.mGcdMemorySpaceMap.any fun e => !CoreAddRange.skip T G A C e &&
      e.BaseAddress == add64 E 1) = true)
    omega
  · intro e he hne
    obtain ⟨k1, k2⟩ := scan_removed_adjacent T G A C _ S E _ hn e he hne
    have htop := hs.2 e he
    have hE := hr.2.2.2
    have e1 : add64 e.EndAddress 1 = e.EndAddress + 1 := by unfold add64; omega
    have e2 : add64 E 1 = E + 1 := by unfold add64; omega
    rw [e1, e2] at k2
    exact ⟨k2, (scan_removes T G A C _ S E s.mFreeMemoryMapEntryList hs.1.1 hs.2 hs.1.2 hr hd
      e he k1 k2).2⟩

/-- C24, amended, at a concrete call: one conventional descriptor below and one above the
gap [0x2000, 0x2FFF] are absorbed. -/
theorem CoreAddRange_absorbs_two_witness :
    ∃ kept New,
      (addRangeResult gapState EfiConventionalMemory 2 0x2000 0x2FFF 0 0 0).mGcdMemorySpaceMap =
        kept ++ [New] ∧
      kept.Sublist gapState.mGcdMemorySpaceMap ∧
      gapState.mGcdMemorySpaceMap.length ≤ kept.length + 2 ∧
      (∀ e ∈ gapState.mGcdMemorySpaceMap, e ∉ kept →
        (e.EndAddress + 1 = 0x2000 ∨ e.BaseAddress = 0x2FFF + 1) ∧
        New.BaseAddress ≤ e.BaseAddress ∧ e.EndAddress ≤ New.EndAddress) ∧
      New.BaseAddress ≤ 0x2000 ∧ 0x2FFF ≤ New.EndAddress ∧
      totalSize (addRangeResult gapState EfiConventionalMemory 2 0x2000 0x2FFF 0 0
        0).mGcdMemorySpaceMap = totalSize gapState.mGcdMemorySpaceMap + (0x2FFF + 1 - 0x2000) ∧
      StoreOk (addRangeResult gapState EfiConventionalMemory 2 0x2000 0x2FFF 0 0
        0).mGcdMemorySpaceMap :=
  CoreAddRange_absorbs_two gapState _ EfiConventionalMemory 2 0x2000 0x2FFF 0 0 0
    ⟨by decide, by decide⟩ (by decide) (by decide) (by decide) rfl

/-- C21 fails on the code with freed-memory guard enabled. CoreGetMemoryMap returns the key
0 for the store [BootServicesData 0x1000..0x2FFF]; freeing the page at 0x1000 returns
EFI_SUCCESS and changes the set of descriptors (the descriptor now begins at 0x2000, and the
freed page is not added back), but CoreAddRange is not called, so mMemoryMapKey is still 0
and CoreTerminateMemoryMap accepts the old key. -/
theorem CoreConvertPagesEx_guard_keeps_key :
    (∃ r, CoreGetMemoryMap plainExporter allocatedState (some 1000) true =
        Except.ok (r, allocatedState) ∧
      r.Status = EFI_STATUS.EFI_SUCCESS ∧ r.MapKey = some 0) ∧
    ∃ s1, CoreConvertPagesEx freedGuardPlatform 4 allocatedState 0x1000 1 true
        EfiConventionalMemory false 0 false 0 = Except.ok (EFI_STATUS.EFI_SUCCESS, s1) ∧
      allocatedState.mGcdMemorySpaceMap.map (fun e => (e.BaseAddress, e.EndAddress)) =
        [(0x1000, 0x2FFF)] ∧
      s1.mGcdMemorySpaceMap.map (fun e => (e.BaseAddress, e.EndAddress)) =
        [(0x2000, 0x2FFF)] ∧
      s1.mMemoryMapKey = allocatedState.mMemoryMapKey ∧
      CoreTerminateMemoryMap freedGuardPlatform s1 0 =
        Except.ok (EFI_STATUS.EFI_SUCCESS, s1) :=
  ⟨⟨_, rfl, rfl, rfl⟩, _, rfl, by decide, by decide, rfl, rfl⟩

/-- C30 fails on the code: each pass of the conversion loop moves the counters by the page
count of the whole request. Freeing the two pages [0x1000, 0x2FFF], one BootServicesData
and one LoaderData, returns EFI_SUCCESS; the counter of conventional memory rises from 10
to 14 (not 12), and the counters of BootServicesData and LoaderData fall from 5 to 3
(not 4). -/
theorem CoreConvertPagesEx_counts_request_per_pass :
    currentPages twoTypesState EfiConventionalMemory = 10 ∧
    currentPages twoTypesState EfiBootServicesData = 5 ∧
    currentPages twoTypesState EfiLoaderData = 5 ∧
    ∃ s1, CoreConvertPagesEx plainPlatform 4 twoTypesState 0x1000 2 true
        EfiConventionalMemory false 0 false 0 = Except.ok (EFI_STATUS.EFI_SUCCESS, s1) ∧
      s1.mGcdMemorySpaceMap.map (fun e => (e.BaseAddress, e.EndAddress, e.EfiMemoryType)) =
        [(0x1000, 0x2FFF, EfiConventionalMemory)] ∧
      currentPages s1 EfiConventionalMemory = 14 ∧
      currentPages s1 EfiBootServicesData = 3 ∧
      currentPages s1 EfiLoaderData = 3 :=
  ⟨by decide, by decide, by decide, _, rfl, by decide, by decide, by decide, by decide⟩

theorem disjoint_of_mem {l : List EFI_GCD_MAP_ENTRY} (hp : l.Pairwise Disjoint)
    {a b : EFI_GCD_MAP_ENTRY} (ha : a ∈ l) (hb : b ∈ l) (hne : a ≠ b) : Disjoint a b := by
  have hsym : Symmetric Disjoint := by
    intro x y h
    unfold Disjoint at h ⊢
    exact h.symm
  exact hp.forall hsym ha hb hne

/-- Two stores that agree on every address and its properties hold the same descriptor
around `D`, when `D` has no twin in the first store and the second store holds a descriptor
with the properties of `D` that contains `[lo, hi]`, a part of `D`, and every address of `D`
next to it. -/
theorem same_descriptor {l0 l2 : List EFI_GCD_MAP_ENTRY} (hs0 : Store l0)
    (hHas : ∀ a p, Has l2 a p ↔ Has l0 a p) {D : EFI_GCD_MAP_ENTRY} (hD : D ∈ l0)
    (hnt : NoTwin l0 D) {rS rE lo hi : Nat} (hl : Linked l2 rS rE (entryProps D))
    (h1 : D.BaseAddress ≤ lo) (h2 : lo ≤ hi) (h3 : hi ≤ D.EndAddress)
    (h4 : rS ≤ D.BaseAddress) (h5 : D.EndAddress ≤ rE) :
    Linked l2 D.BaseAddress D.EndAddress (entryProps D) := by
  obtain ⟨e, he, eb, ee, ep⟩ := hl
  have hb : rS = D.BaseAddress := by
    by_contra hne
    have hlt : rS < D.BaseAddress := by omega
    have hc : Has l2 (D.BaseAddress - 1) (entryProps D) :=
      ⟨e, he, ⟨by omega, by omega⟩, ep⟩
    obtain ⟨e0, he0, hc0, hp0⟩ := (hHas _ _).1 hc
    have hne0 : e0 ≠ D := by
      rintro rfl
      have := hc0.1
      omega
    have hdj := disjoint_of_mem hs0.1.2 he0 hD hne0
    unfold Disjoint at hdj
    have hw := (hs0.1.1 D hD)
    have := hc0.1
    have := hc0.2
    have hadj : e0.EndAddress + 1 = D.BaseAddress := by
      rcases hdj with h | h
      · omega
      · have := hw.2.2.1
        omega
    exact (hnt e0 he0 hp0).1 hadj
  have hE : rE = D.EndAddress := by
    by_contra hne
    have hlt : D.EndAddress < rE := by omega
    have hc : Has l2 (D.EndAddress + 1) (entryProps D) :=
      ⟨e, he, ⟨by omega, by omega⟩, ep⟩
    obtain ⟨e0, he0, hc0, hp0⟩ := (hHas _ _).1 hc
    have hne0 : e0 ≠ D := by
      rintro rfl
      have := hc0.2
      omega
    have hdj := disjoint_of_mem hs0.1.2 he0 hD hne0
    unfold Disjoint at hdj
    have hw := (hs0.1.1 D hD)
    have := hc0.1
    have := hc0.2
    have hadj : D.EndAddress + 1 = e0.BaseAddress := by
      rcases hdj with h | h
      · have := hw.2.2.1
        omega
      · omega
    exact (hnt e0 he0 hp0).2 hadj
  exact ⟨e, he, eb.trans hb, ee.trans hE, ep⟩

/-- C6, amended: the round trip. Heap guard and freed-memory guard are disabled, the state
is quiescent with at least four free descriptors queued (no refill), and the store is well
formed, disjoint and ends below 2 ^ 64 - 1. If CoreInternalAllocatePages (AllocateAnyPages,
T, n) returns EFI_SUCCESS and the address `addr`, then CoreInternalFreePages (addr, n)
called on the resulting state returns EFI_SUCCESS for every fuel of at least 3, the store is
again well formed and disjoint, and every address is covered (or not covered) exactly as
before the allocation, with the same type, attributes, capabilities and GCD type. The
conventional descriptor `D` that contained `addr` before the allocation is linked again
with the same range and properties, when it has no owner, no device handle, GcdIoType
NonExistent and no adjacent descriptor with its properties. -/
theorem CoreInternalAllocatePages_round_trip (env : Platform) (fuel fuel2 k : Nat)
    (s0 s1 : MemState) (T n addr : Nat) (Memory : Option Nat)
    (hg : env.FreedMemoryGuardEnabled = false)
    (hook : ∀ s, env.PromoteGuardedFreePages s = none)
    (hpg : ∀ t, env.IsPageTypeToGuard t AllocateAnyPages = false)
    (hk : env.RUNTIME_PAGE_ALLOCATION_GRANULARITY = 2 ^ k) (h12 : 12 ≤ k) (h64 : k ≤ 64)
    (hs : Store s0.mGcdMemorySpaceMap) (hd : s0.mMapDepth = 0) (hfs : s0.mFreeMapStack = 0)
    (hfree : 4 ≤ s0.mFreeMemoryMapEntryList) (hfuel : 3 ≤ fuel2)
    (h : CoreInternalAllocatePages env fuel s0 AllocateAnyPages T n Memory false =
      Except.ok (EFI_STATUS.EFI_SUCCESS, s1, some addr)) :
    ∃ s2, CoreInternalFreePages env fuel2 s1 addr n =
        Except.ok (EFI_STATUS.EFI_SUCCESS, s2, some T) ∧
      StoreOk s2.mGcdMemorySpaceMap ∧
      (∀ a p, Has s2.mGcdMemorySpaceMap a p ↔ Has s0.mGcdMemorySpaceMap a p) ∧
      ∃ D ∈ s0.mGcdMemorySpaceMap, D.EfiMemoryType = EfiConventionalMemory ∧ Covers D addr ∧
        (D.ImageHandle = 0 → D.DeviceHandle = 0 → D.GcdIoType = EfiGcdIoTypeNonExistent →
          NoTwin s0.mGcdMemorySpaceMap D →
          Linked s2.mGcdMemorySpaceMap D.BaseAddress D.EndAddress (entryProps D)) := by
  -- the allocation
  obtain ⟨hT, sF, m1, m2, m3, m4, hconv⟩ :=
    CoreInternalAllocatePages_any env fuel s0 s1 T n addr Memory hook h
  obtain ⟨hN, hS, hlt, hloop⟩ := CoreConvertPages_loop env fuel sF s1 addr _ T hconv
  have hEm := convertEnd_mod addr (roundPages n (allocationAlignment env T)) hS
  have hal := (CoreInternalAllocatePages_alignment env fuel s0 s1 AllocateAnyPages T n addr k
    Memory hk h12 h64 h).1
  generalize hNP : roundPages n (allocationAlignment env T) = NP at hconv hN hlt hloop hEm
  generalize hEd : sub64 (add64 addr (LShiftU64 NP EFI_PAGE_SHIFT)) 1 = E at hlt hloop hEm
  rw [← m1] at hs
  obtain ⟨D, hD, hDc, hDb, hDe, hs1, d1, f1, fr1, hasA, ⟨e1, he1, e1b, e1e⟩, remL, remR⟩ :=
    alloc_pass env fuel NP T E sF s1 addr hg hs (m2.trans hd) (m4.trans hfs) (by omega) hT hS
      hEm hlt hloop
  have hDw := hs.1.1 D hD
  have hDt := hs.2 D hD
  -- the descriptor that covers the address after the allocation
  have hcov1 : coversStart addr e1 = true := by
    rw [coversStart_iff]; exact ⟨e1b, by omega⟩
  obtain ⟨pre1, E1, post1, hf1⟩ := findFirst_exists ⟨e1, he1, hcov1⟩
  obtain ⟨hl1, hc1, _⟩ := findFirst_some hf1
  rw [coversStart_iff] at hc1
  obtain rfl : e1 = E1 := covers_unique hs1.1.2 hl1 ⟨hc1.1, by omega⟩ he1 ⟨e1b, by omega⟩
  have hE1p : entryProps e1 = (T, D.Attributes, D.Capabilities, D.GcdMemoryType) := by
    have hh : Has s1.mGcdMemorySpaceMap addr (entryProps e1) :=
      ⟨e1, he1, ⟨e1b, by omega⟩, rfl⟩
    rcases (hasA addr _).1 hh with ⟨_, hn⟩ | ⟨_, _, hp⟩
    · exact absurd ⟨le_refl _, by omega⟩ hn
    · exact hp
  have hE1t : e1.EfiMemoryType = T := congrArg Prod.fst hE1p
  have hE1a : e1.Attributes = D.Attributes := congrArg (fun p => p.2.1) hE1p
  have hE1c : e1.Capabilities = D.Capabilities := congrArg (fun p => p.2.2.1) hE1p
  have hE1g : e1.GcdMemoryType = D.GcdMemoryType := congrArg (fun p => p.2.2.2) hE1p
  -- the free
  obtain ⟨j, hj64, hAj⟩ := allocationAlignment_pow env k hk h64 T
  have hal2 : addr &&& sub64 (allocationAlignment env e1.EfiMemoryType) 1 = 0 := by
    rw [hE1t, hAj, and_sub64_pow addr j hj64, ← hAj]
    exact hal
  obtain ⟨s4, hrun, hs4, hasF, rS, rE, hlk, hrS, hrE, hmerge⟩ :=
    free_pass env fuel2 NP E s1 addr pre1 e1 post1 hg hs1 d1 f1 (by omega) hfuel hS hEm hlt hf1
      e1e (by rw [hE1t]; exact hT)
  have hfreeEq : CoreInternalFreePages env fuel2 s1 addr n =
      Except.ok (EFI_STATUS.EFI_SUCCESS, s4, some T) := by
    rw [CoreInternalFreePages_eq env fuel2 s1 addr n pre1 e1 post1 hf1 hal2 (hpg _), hE1t, hNP,
      CoreConvertPages_of_loop env fuel2 s1 addr NP EfiConventionalMemory hN hS
        (by rw [hEd]; exact hlt), hEd, hrun]
    rfl
  have hP : (EfiConventionalMemory, e1.Attributes, e1.Capabilities, e1.GcdMemoryType) =
      entryProps D := by
    rw [hE1a, hE1c, hE1g]
    unfold entryProps
    rw [hDc]
  rw [hP] at hasF hlk
  -- every address is covered as before
  have hHas : ∀ a p, Has s4.mGcdMemorySpaceMap a p ↔ Has sF.mGcdMemorySpaceMap a p := by
    intro a p
    rw [hasF a p]
    by_cases hin : addr ≤ a ∧ a ≤ E
    · have hDa : Has sF.mGcdMemorySpaceMap a (entryProps D) :=
        ⟨D, hD, ⟨by omega, by omega⟩, rfl⟩
      constructor
      · rintro (⟨_, hn⟩ | ⟨_, _, hp⟩)
        · exact absurd hin hn
        · rw [hp]; exact hDa
      · intro hp
        exact Or.inr ⟨hin.1, hin.2, Has_unique hs hp hDa⟩
    · constructor
      · rintro (⟨hp, _⟩ | ⟨h3, h4, _⟩)
        · rcases (hasA a p).1 hp with ⟨hp0, _⟩ | ⟨h3, h4, _⟩
          · exact hp0
          · exact absurd ⟨h3, h4⟩ hin
        · exact absurd ⟨h3, h4⟩ hin
      · intro hp
        exact Or.inl ⟨(hasA a p).2 (Or.inl ⟨hp, hin⟩), hin⟩
  refine ⟨s4, hfreeEq, hs4.1, ?_, D, by rw [← m1]; exact hD, hDc, ⟨hDb, by omega⟩, ?_⟩
  · intro a p
    rw [hHas a p, m1]
  · intro hi hdv hio hnt
    rw [← m1] at hnt
    -- the remnants of `D` are merged again
    have hskip : ∀ c : EFI_GCD_MAP_ENTRY, (∃ x : EFI_GCD_MAP_ENTRY, strip c = strip x ∧
        entryProps x = entryProps D ∧ x.ImageHandle = 0 ∧ x.DeviceHandle = 0 ∧
        x.GcdIoType = EfiGcdIoTypeNonExistent) →
        CoreAddRange.skip EfiConventionalMemory e1.GcdMemoryType e1.Attributes
          e1.Capabilities c = false := by
      rintro c ⟨x, hst, hxp, hx1, hx2, hx3⟩
      obtain ⟨_, _, g3, g4, g5, g6⟩ := strip_fields hst
      have hcp : entryProps c = entryProps D := g3.trans hxp
      have q1 : c.EfiMemoryType = EfiConventionalMemory :=
        (congrArg Prod.fst hcp).trans hDc
      have q2 : c.Attributes = e1.Attributes :=
        (congrArg (fun p => p.2.1) hcp).trans hE1a.symm
      have q3 : c.Capabilities = e1.Capabilities :=
        (congrArg (fun p => p.2.2.1) hcp).trans hE1c.symm
      have q4 : c.GcdMemoryType = e1.GcdMemoryType :=
        (congrArg (fun p => p.2.2.2) hcp).trans hE1g.symm
      unfold CoreAddRange.skip
      rw [q1, q2, q3, q4, g4.trans hx1, g5.trans hx2, g6.trans hx3]
      simp
    have hlow : rS ≤ D.BaseAddress := by
      by_cases hb : D.BaseAddress < addr
      · obtain ⟨c, hc, hst⟩ := remL hb
        obtain ⟨g1, g2, _⟩ := strip_fields hst
        dsimp only at g1 g2
        have hne : c ≠ e1 := by
          rintro rfl
          omega
        have := (hmerge c hc hne (hskip c ⟨_, hst, rfl, hi, hdv, hio⟩)
          (Or.inl (by rw [g2]; omega))).1
        omega
      · omega
    have hhigh : D.EndAddress ≤ rE := by
      by_cases hb : E < D.EndAddress
      · obtain ⟨c, hc, hst⟩ := remR hb
        obtain ⟨g1, g2, _⟩ := strip_fields hst
        dsimp only at g1 g2
        have hne : c ≠ e1 := by
          rintro rfl
          omega
        have := (hmerge c hc hne (hskip c ⟨_, hst, rfl, hi, hdv, hio⟩)
          (Or.inr g1)).2
        omega
      · omega
    exact same_descriptor hs hHas hD hnt hlk hDb (le_of_lt hlt) hDe hlow hhigh

/-- C6, as stated, fails when the descriptor free list is empty: the allocation refills the
list with a page taken from the same conventional range, and that page stays
BootServicesData after the free. Before the allocation 0x9000 lies in the conventional
descriptor [0, 0x9FFF]; after allocating one page (at 0x9000) and freeing it, it lies in
the conventional descriptor [0x9000, 0x9FFF]. -/
theorem round_trip_refill_keeps_page :
    (roundTripState 0).mGcdMemorySpaceMap.map
        (fun e => (e.BaseAddress, e.EndAddress, e.EfiMemoryType)) =
      [(0, 0x9FFF, EfiConventionalMemory)] ∧
    ∃ s1 s2, CoreInternalAllocatePages plainPlatform 8 (roundTripState 0) AllocateAnyPages
        EfiBootServicesData 1 (some 0) false =
        Except.ok (EFI_STATUS.EFI_SUCCESS, s1, some 0x9000) ∧
      CoreInternalFreePages plainPlatform 8 s1 0x9000 1 =
        Except.ok (EFI_STATUS.EFI_SUCCESS, s2, some EfiBootServicesData) ∧
      s2.mGcdMemorySpaceMap.map (fun e => (e.BaseAddress, e.EndAddress, e.EfiMemoryType)) =
        [(0, 0x7FFF, EfiConventionalMemory), (0x8000, 0x8FFF, EfiBootServicesData),
         (0x9000, 0x9FFF, EfiConventionalMemory)] :=
  ⟨by decide, _, _, rfl, rfl, by decide⟩

/-- C6, amended, at a concrete request: one page of BootServicesData out of the conventional
range [0, 0x9FFF] with four free descriptors queued. -/
theorem CoreInternalAllocatePages_round_trip_witness :
    Store (roundTripState 4).mGcdMemorySpaceMap ∧
    ∃ s1, CoreInternalAllocatePages plainPlatform 8 (roundTripState 4) AllocateAnyPages
        EfiBootServicesData 1 (some 0) false =
        Except.ok (EFI_STATUS.EFI_SUCCESS, s1, some 0x9000) ∧
      ∃ s2, CoreInternalFreePages plainPlatform 3 s1 0x9000 1 =
          Except.ok (EFI_STATUS.EFI_SUCCESS, s2, some EfiBootServicesData) ∧
        StoreOk s2.mGcdMemorySpaceMap ∧
        (∀ a p, Has s2.mGcdMemorySpaceMap a p ↔ Has (roundTripState 4).mGcdMemorySpaceMap a p) ∧
        ∃ D ∈ (roundTripState 4).mGcdMemorySpaceMap,
          D.EfiMemoryType = EfiConventionalMemory ∧ Covers D 0x9000 ∧
          (D.ImageHandle = 0 → D.DeviceHandle = 0 → D.GcdIoType = EfiGcdIoTypeNonExistent →
            NoTwin (roundTripState 4).mGcdMemorySpaceMap D →
            Linked s2.mGcdMemorySpaceMap D.BaseAddress D.EndAddress (entryProps D)) :=
  have hs : Store (roundTripState 4).mGcdMemorySpaceMap := ⟨by decide, by decide⟩
  ⟨hs,
    match (⟨_, rfl⟩ : ∃ s1, CoreInternalAllocatePages plainPlatform 8 (roundTripState 4)
        AllocateAnyPages EfiBootServicesData 1 (some 0) false =
        Except.ok (EFI_STATUS.EFI_SUCCESS, s1, some 0x9000)) with
    | ⟨s1, h1⟩ =>
      ⟨s1, h1, CoreInternalAllocatePages_round_trip plainPlatform 8 3 12 (roundTripState 4) s1
        EfiBootServicesData 1 0x9000 (some 0) rfl (fun _ => rfl) (fun _ => rfl) rfl
        (le_refl _) (by decide) hs rfl rfl (by decide) (le_refl _) h1⟩⟩

/-! ## Conversion to conventional memory over several descriptors -/

/-- C38: conversion to EfiConventionalMemory is not atomic on error. The store
[BootServicesData 0x1000..0x2FFF] is well formed and nothing covers 0x3000; CoreConvertPages
of the three pages [0x1000, 0x3FFF] to conventional memory returns EFI_NOT_FOUND, and the
two pages of the first descriptor are conventional afterwards. The same happens when the
range continues into the conventional descriptor [0x3000, 0x3FFF]: the call returns
EFI_NOT_FOUND and the first two pages have been converted (and merged with that
descriptor). -/
theorem CoreConvertPages_not_atomic :
    (StoreOk allocatedState.mGcdMemorySpaceMap ∧
      allocatedState.mGcdMemorySpaceMap.map
          (fun e => (e.BaseAddress, e.EndAddress, e.EfiMemoryType)) =
        [(0x1000, 0x2FFF, EfiBootServicesData)] ∧
      ¬ Covered allocatedState.mGcdMemorySpaceMap 0x3000 ∧
      ∃ s1, CoreConvertPages plainPlatform 4 allocatedState 0x1000 3 EfiConventionalMemory =
          Except.ok (EFI_STATUS.EFI_NOT_FOUND, s1) ∧
        s1.mGcdMemorySpaceMap.map (fun e => (e.BaseAddress, e.EndAddress, e.EfiMemoryType)) =
          [(0x1000, 0x2FFF, EfiConventionalMemory)]) ∧
    (StoreOk allocatedBeforeFreeState.mGcdMemorySpaceMap ∧
      allocatedBeforeFreeState.mGcdMemorySpaceMap.map
          (fun e => (e.BaseAddress, e.EndAddress, e.EfiMemoryType)) =
        [(0x1000, 0x2FFF, EfiBootServicesData), (0x3000, 0x3FFF, EfiConventionalMemory)] ∧
      ∃ s1, CoreConvertPages plainPlatform 4 allocatedBeforeFreeState 0x1000 3
          EfiConventionalMemory = Except.ok (EFI_STATUS.EFI_NOT_FOUND, s1) ∧
        s1.mGcdMemorySpaceMap.map (fun e => (e.BaseAddress, e.EndAddress, e.EfiMemoryType)) =
          [(0x1000, 0x3FFF, EfiConventionalMemory)]) :=
  ⟨⟨by decide, by decide, by decide, _, rfl, by decide⟩,
    ⟨by decide, by decide, _, rfl, by decide⟩⟩

/-! ## The type test of a type-changing conversion -/

theorem type_test_iff (nt et : Nat) :
    xor (!(nt == EfiConventionalMemory)) (et == EfiConventionalMemory) = true ↔
      (nt = EfiConventionalMemory ↔ et = EfiConventionalMemory) := by
  by_cases h1 : nt = EfiConventionalMemory <;> by_cases h2 : et = EfiConventionalMemory <;>
    simp [h1, h2]

theorem CoreConvertPagesEx_as_loop (env : Platform) (fuel : Nat) (s : MemState)
    (Start N NewType : Nat) (ca : Bool) (na : Nat) (cc : Bool) (nc : Nat)
    (hN : N ≠ 0) (hS : Start % 4096 = 0)
    (hE : Start < sub64 (add64 Start (LShiftU64 N EFI_PAGE_SHIFT)) 1)
    (hflags : ca = false ∨ cc = false) :
    CoreConvertPagesEx env fuel s Start N true NewType ca na cc nc =
      CoreConvertPagesEx.loop env (CoreFreeMemoryMapStack env fuel) N true NewType ca na
        nc (sub64 (add64 Start (LShiftU64 N EFI_PAGE_SHIFT)) 1) fuel s Start := by
  have hfl : (true == false || ca == false || cc == false) = true := by
    rcases hflags with h | h <;> simp [h]
  unfold CoreConvertPagesEx
  exact CoreConvertPagesExWith_eq env _ fuel s Start N true NewType ca na cc nc hN hS hE hfl

/-- A type-changing conversion between two conventional or two allocated types returns
EFI_NOT_FOUND and leaves the state as it is. -/
theorem CoreConvertPagesEx_rejects_types (env : Platform) (fuel : Nat) (s : MemState)
    (Start N NewType : Nat) (ca : Bool) (na : Nat) (cc : Bool) (nc : Nat)
    (pre : List EFI_GCD_MAP_ENTRY) (Entry : EFI_GCD_MAP_ENTRY) (post : List EFI_GCD_MAP_ENTRY)
    (hN : N ≠ 0) (hS : Start % 4096 = 0)
    (hE : Start < sub64 (add64 Start (LShiftU64 N EFI_PAGE_SHIFT)) 1)
    (hflags : ca = false ∨ cc = false)
    (hf : findFirst (coversStart Start) s.mGcdMemorySpaceMap = some (pre, Entry, post))
    (hty : NewType = EfiConventionalMemory ↔ Entry.EfiMemoryType = EfiConventionalMemory) :
    CoreConvertPagesEx env (fuel + 1) s Start N true NewType ca na cc nc =
      Except.ok (EFI_STATUS.EFI_NOT_FOUND, s) := by
  rw [CoreConvertPagesEx_as_loop env (fuel + 1) s Start N NewType ca na cc nc hN hS hE hflags,
    CoreConvertPagesEx.loop, if_pos hE, hf]
  dsimp only
  by_cases c1 : true = true ∧ NewType ≠ EfiConventionalMemory ∧
      Entry.EndAddress < sub64 (add64 Start (LShiftU64 N EFI_PAGE_SHIFT)) 1
  · rw [if_pos c1]
    rfl
  · rw [if_neg c1, if_pos ⟨rfl, (type_test_iff NewType Entry.EfiMemoryType).2 hty⟩]
    rfl

/-- C36: the type test of a type-changing conversion (lines 763-779). Let Entry be the
descriptor that covers Start. If the new type and the type of Entry are both conventional
or both not conventional, CoreConvertPagesEx returns EFI_NOT_FOUND with the state (store,
statistics and all other globals) unchanged. If exactly one of them is conventional, the
test accepts: unless the request is an allocation that Entry does not cover to its end
(the check of lines 733-738), the call goes on with the statistics update and the clipping
of Entry, the drain and the rest of the range. -/
theorem CoreConvertPagesEx_type_test (env : Platform) (fuel : Nat) (s : MemState)
    (Start N NewType : Nat) (ca : Bool) (na : Nat) (cc : Bool) (nc : Nat)
    (pre : List EFI_GCD_MAP_ENTRY) (Entry : EFI_GCD_MAP_ENTRY) (post : List EFI_GCD_MAP_ENTRY)
    (hN : N ≠ 0) (hS : Start % 4096 = 0)
    (hE : Start < sub64 (add64 Start (LShiftU64 N EFI_PAGE_SHIFT)) 1)
    (hflags : ca = false ∨ cc = false)
    (hf : findFirst (coversStart Start) s.mGcdMemorySpaceMap = some (pre, Entry, post)) :
    ((NewType = EfiConventionalMemory ↔ Entry.EfiMemoryType = EfiConventionalMemory) →
      CoreConvertPagesEx env (fuel + 1) s Start N true NewType ca na cc nc =
        Except.ok (EFI_STATUS.EFI_NOT_FOUND, s)) ∧
    (¬ (NewType = EfiConventionalMemory ↔ Entry.EfiMemoryType = EfiConventionalMemory) →
      CoreConvertPagesEx env (fuel + 1) s Start N true NewType ca na cc nc =
        if NewType ≠ EfiConventionalMemory ∧
            Entry.EndAddress < sub64 (add64 Start (LShiftU64 N EFI_PAGE_SHIFT)) 1 then
          Except.ok (EFI_STATUS.EFI_NOT_FOUND, s)
        else
          (CoreConvertPagesEx.step env s pre Entry post Start
            (if Entry.EndAddress < sub64 (add64 Start (LShiftU64 N EFI_PAGE_SHIFT)) 1 then
              Entry.EndAddress else sub64 (add64 Start (LShiftU64 N EFI_PAGE_SHIFT)) 1)
            N true NewType ca na nc >>= fun s2 =>
          CoreFreeMemoryMapStack env (fuel + 1) s2 >>= fun s3 =>
          CoreConvertPagesEx.loop env (CoreFreeMemoryMapStack env (fuel + 1)) N true NewType ca
            na nc (sub64 (add64 Start (LShiftU64 N EFI_PAGE_SHIFT)) 1) fuel s3
            (add64 (if Entry.EndAddress < sub64 (add64 Start (LShiftU64 N EFI_PAGE_SHIFT)) 1
              then Entry.EndAddress else sub64 (add64 Start (LShiftU64 N EFI_PAGE_SHIFT)) 1)
              1))) := by
  constructor
  · exact CoreConvertPagesEx_rejects_types env fuel s Start N NewType ca na cc nc pre Entry post
      hN hS hE hflags hf
  · intro hty
    rw [CoreConvertPagesEx_as_loop env (fuel + 1) s Start N NewType ca na cc nc hN hS hE hflags,
      CoreConvertPagesEx.loop, if_pos hE, hf]
    dsimp only
    have c2 : ¬ (true = true ∧ xor (!(NewType == EfiConventionalMemory))
        (Entry.EfiMemoryType == EfiConventionalMemory) = true) := by
      rintro ⟨_, h⟩
      exact hty ((type_test_iff NewType Entry.EfiMemoryType).1 h)
    by_cases c1 : NewType ≠ EfiConventionalMemory ∧
        Entry.EndAddress < sub64 (add64 Start (LShiftU64 N EFI_PAGE_SHIFT)) 1
    · rw [if_pos ⟨rfl, c1⟩, if_pos c1]
      rfl
    · rw [if_neg (fun h => c1 h.2), if_neg c1, if_neg c2]

/-- C36 at a concrete call: converting the BootServicesData page at 0x1000 to LoaderData
(neither type is conventional) returns EFI_NOT_FOUND and the state is the one before. -/
theorem CoreConvertPagesEx_type_test_witness :
    CoreConvertPagesEx plainPlatform 4 allocatedState 0x1000 1 true EfiLoaderData false 0
      false 0 = Except.ok (EFI_STATUS.EFI_NOT_FOUND, allocatedState) :=
  (CoreConvertPagesEx_type_test plainPlatform 3 allocatedState 0x1000 1 EfiLoaderData false 0
    false 0 [] _ [] (by decide) (by decide) (by decide) (Or.inl rfl) rfl).1 (by decide)

/-! ## Freeing pages that are free -/

theorem roundPages_default (N : Nat) (hN : N < 18446744073709551616) :
    roundPages N DEFAULT_PAGE_ALLOCATION_GRANULARITY = N := by
  unfold roundPages
  have h1 : sub64 (EFI_SIZE_TO_PAGES DEFAULT_PAGE_ALLOCATION_GRANULARITY) 1 = 0 := by decide
  rw [h1]
  have h2 : add64 N 0 = N := by unfold add64; omega
  have h3 : not64 0 = 2 ^ 64 - 1 := by decide
  rw [h2, h3, Nat.and_pow_two_sub_one_eq_mod]
  omega

/-- C37 fails on the code for a page count of 0: the address 0x1000 is page-aligned and lies
in the conventional descriptor [0x1000, 0x9FFF], and CoreInternalFreePages does not return
EFI_NOT_FOUND: CoreConvertPagesEx stops at its assertion on the page count (line 694). -/
theorem CoreInternalFreePages_zero_pages_asserts :
    0x1000 % 4096 = 0 ∧
    oneRangeState.mGcdMemorySpaceMap.map
        (fun e => (e.BaseAddress, e.EndAddress, e.EfiMemoryType)) =
      [(0x1000, 0x9FFF, EfiConventionalMemory)] ∧
    CoreInternalFreePages plainPlatform 4 oneRangeState 0x1000 0 =
      Except.error Halt.assertion :=
  ⟨by decide, by decide, rfl⟩

/-- C37, amended: freeing pages that are free. For a page-aligned address in a conventional
descriptor, a page count of at least 1 whose range does not wrap, and a page that is not
under page guard, CoreInternalFreePages returns EFI_NOT_FOUND and the state (store,
statistics, map key and all other globals) is the one before the call. -/
theorem CoreInternalFreePages_conventional (env : Platform) (fuel : Nat) (s : MemState)
    (Memory N : Nat) (pre : List EFI_GCD_MAP_ENTRY) (Entry : EFI_GCD_MAP_ENTRY)
    (post : List EFI_GCD_MAP_ENTRY)
    (hf : findFirst (coversStart Memory) s.mGcdMemorySpaceMap = some (pre, Entry, post))
    (hc : Entry.EfiMemoryType = EfiConventionalMemory) (hal : Memory % 4096 = 0)
    (hN : 1 ≤ N) (hN64 : N < 18446744073709551616)
    (hE : Memory < sub64 (add64 Memory (LShiftU64 N EFI_PAGE_SHIFT)) 1)
    (hpg : (env.IsPageTypeToGuard EfiConventionalMemory AllocateAnyPages &&
      env.IsMemoryGuarded Memory) = false) :
    CoreInternalFreePages env (fuel + 1) s Memory N =
      Except.ok (EFI_STATUS.EFI_NOT_FOUND, s, some EfiConventionalMemory) := by
  have hA : allocationAlignment env Entry.EfiMemoryType = DEFAULT_PAGE_ALLOCATION_GRANULARITY := by
    rw [hc]; unfold allocationAlignment; rw [if_neg (by decide)]
  have hmask : Memory &&& sub64 DEFAULT_PAGE_ALLOCATION_GRANULARITY 1 = 0 := by
    have : sub64 DEFAULT_PAGE_ALLOCATION_GRANULARITY 1 = 4095 := by decide
    rw [this, land_4095]; exact hal
  have hconv : CoreConvertPages env (fuel + 1) s Memory N EfiConventionalMemory =
      Except.ok (EFI_STATUS.EFI_NOT_FOUND, s) :=
    CoreConvertPagesEx_rejects_types env fuel s Memory N EfiConventionalMemory false 0 false 0 pre
      Entry post (by omega) hal hE (Or.inl rfl) hf (by simp [hc])
  unfold CoreInternalFreePages
  rw [hf]
  dsimp only
  rw [hA, if_neg (by rw [hmask]; simp), roundPages_default N hN64, hc, hpg]
  simp only [Bool.false_eq_true, if_false, hconv, bind, Except.bind, pure, Except.pure]

/-- C37, amended, at a concrete call: a free of the page at 0x1000 of the conventional
range [0x1000, 0x9FFF] returns EFI_NOT_FOUND and changes nothing. -/
theorem CoreInternalFreePages_conventional_witness :
    CoreInternalFreePages plainPlatform 4 oneRangeState 0x1000 1 =
      Except.ok (EFI_STATUS.EFI_NOT_FOUND, oneRangeState, some EfiConventionalMemory) :=
  CoreInternalFreePages_conventional plainPlatform 3 oneRangeState 0x1000 1 [] _ [] rfl rfl
    (by decide) (by decide) (by decide) (by decide) rfl

/-! ## A fit at address 0 -/

theorem getD_set_false (l : List Bool) (i k : Nat) :
    l.getD k false = false → (l.set i false).getD k false = false := by
  intro h
  rw [List.getD_eq_getElem?_getD] at h ⊢
  by_cases hik : i = k
  · subst hik
    by_cases hl : i < l.length
    · rw [List.getElem?_set_self hl]; rfl
    · rw [List.getElem?_eq_none (by simpa using hl)]; rfl
  · rw [List.getElem?_set_ne hik]; exact h

theorem getD_set_self_false (l : List Bool) (i : Nat) :
    (l.set i false).getD i false = false := by
  rw [List.getD_eq_getElem?_getD]
  by_cases hl : i < l.length
  · rw [List.getElem?_set_self hl]; rfl
  · rw [List.getElem?_eq_none (by simpa using hl)]; rfl

/-- With assertions enabled and pool guard and freed-memory guard both enabled the check
does not return: it stops at the assertion of lines 40-43, which repeats the test of the
branch it stands in. -/
theorem DxeMemoryProtectionSettingsConsistencyCheck_asserts :
    conflictingSettings.HeapGuard.PoolGuardEnabled = true ∧
    conflictingSettings.HeapGuard.FreedMemoryGuardEnabled = true ∧
    DxeMemoryProtectionSettingsConsistencyCheck true conflictingSettings =
      Except.error Halt.assertion :=
  ⟨rfl, rfl, rfl⟩

theorem OnlyTurnedOff_refl (g : DXE_MEMORY_PROTECTION_SETTINGS) : OnlyTurnedOff g g :=
  ⟨id, id, id, id, id, id, id, fun _ => id, id, id, id, id, id, fun _ => id, fun _ => id⟩

theorem bne_true_iff_ne (a b : Bool) : (a != b) = true ↔ a ≠ b := by
  cases a <;> cases b <;> decide

/-- With assertions disabled DxeMemoryProtectionSettingsConsistencyCheck returns for every
value of the settings, every boolean setting that is FALSE before the check is FALSE after it,
and afterwards freed-memory guard is not enabled together with pool guard or page guard and
the ExecutionProtection values of EfiBootServicesData and EfiConventionalMemory are equal.
With assertions enabled the check returns exactly for the settings that are consistent
already, and returns them unchanged. -/
theorem DxeMemoryProtectionSettingsConsistencyCheck_turns_off
    (g : DXE_MEMORY_PROTECTION_SETTINGS) :
    (∃ g1, DxeMemoryProtectionSettingsConsistencyCheck false g = Except.ok g1 ∧
      OnlyTurnedOff g g1 ∧ ConsistentSettings g1) ∧
    (ConsistentSettings g →
      DxeMemoryProtectionSettingsConsistencyCheck true g = Except.ok g) ∧
    (∀ g1, DxeMemoryProtectionSettingsConsistencyCheck true g = Except.ok g1 →
      g1 = g ∧ ConsistentSettings g) := by
  have hset : ((g.ExecutionProtection.EnabledForType.set EfiBootServicesData false).set
        EfiConventionalMemory false).getD EfiBootServicesData false =
      ((g.ExecutionProtection.EnabledForType.set EfiBootServicesData false).set
        EfiConventionalMemory false).getD EfiConventionalMemory false := by
    rw [getD_set_false _ _ _ (getD_set_self_false _ _), getD_set_self_false]
  have hoff : ∀ i, g.ExecutionProtection.EnabledForType.getD i false = false →
      ((g.ExecutionProtection.EnabledForType.set EfiBootServicesData false).set
        EfiConventionalMemory false).getD i false = false :=
    fun i h => getD_set_false _ _ _ (getD_set_false _ _ _ h)
  have hcons : ∀ x : DXE_MEMORY_PROTECTION_SETTINGS,
      ¬ ((x.HeapGuard.PoolGuardEnabled || x.HeapGuard.PageGuardEnabled) &&
        x.HeapGuard.FreedMemoryGuardEnabled) = true →
      ¬ (x.HeapGuard.FreedMemoryGuardEnabled = true ∧
        (x.HeapGuard.PoolGuardEnabled = true ∨ x.HeapGuard.PageGuardEnabled = true)) := by
    intro x hA ⟨h1, h2⟩
    apply hA
    rcases h2 with h | h <;> simp [h1, h]
  refine ⟨?_, ?_, ?_⟩
  · unfold DxeMemoryProtectionSettingsConsistencyCheck ASSERT.checked
    simp only [Bool.false_eq_true, if_false, pure_bind]
    by_cases hA : ((g.HeapGuard.PoolGuardEnabled || g.HeapGuard.PageGuardEnabled) &&
        g.HeapGuard.FreedMemoryGuardEnabled) = true
    · rw [if_pos hA]
      by_cases hB : (g.ExecutionProtection.entry EfiBootServicesData !=
          g.ExecutionProtection.entry EfiConventionalMemory) = true
      · rw [if_pos hB]
        exact ⟨_, rfl,
          ⟨id, id, id, id, id, id, id, hoff, fun _ => rfl, fun _ => rfl, fun _ => rfl, id, id,
            fun _ => id, fun _ => id⟩,
          fun h => Bool.noConfusion h.1, hset⟩
      · rw [if_neg hB]
        exact ⟨_, rfl,
          ⟨id, id, id, id, id, id, id, fun _ => id, fun _ => rfl, fun _ => rfl, fun _ => rfl,
            id, id, fun _ => id, fun _ => id⟩,
          fun h => Bool.noConfusion h.1,
          not_not.1 (fun hne => hB ((bne_true_iff_ne _ _).2 hne))⟩
    · rw [if_neg hA]
      by_cases hB : (g.ExecutionProtection.entry EfiBootServicesData !=
          g.ExecutionProtection.entry EfiConventionalMemory) = true
      · rw [if_pos hB]
        exact ⟨_, rfl,
          ⟨id, id, id, id, id, id, id, hoff, id, id, id, id, id, fun _ => id, fun _ => id⟩,
          hcons g hA, hset⟩
      · rw [if_neg hB]
        exact ⟨_, rfl, OnlyTurnedOff_refl g, hcons g hA,
          not_not.1 (fun hne => hB ((bne_true_iff_ne _ _).2 hne))⟩
  · rintro ⟨h1, h2⟩
    unfold DxeMemoryProtectionSettingsConsistencyCheck
    have hA : ¬ ((g.HeapGuard.PoolGuardEnabled || g.HeapGuard.PageGuardEnabled) &&
        g.HeapGuard.FreedMemoryGuardEnabled) = true := fun h => h1 (by
      simp only [Bool.and_eq_true, Bool.or_eq_true] at h
      exact ⟨h.2, h.1⟩)
    rw [if_neg hA]
    simp only [pure_bind]
    rw [if_neg (fun h => (bne_true_iff_ne _ _).1 h h2)]
    rfl
  · intro g1 h
    unfold DxeMemoryProtectionSettingsConsistencyCheck ASSERT.checked at h
    by_cases hA : ((g.HeapGuard.PoolGuardEnabled || g.HeapGuard.PageGuardEnabled) &&
        g.HeapGuard.FreedMemoryGuardEnabled) = true
    · rw [if_pos hA, if_pos rfl] at h
      have hne : (!(g.HeapGuard.FreedMemoryGuardEnabled &&
          (g.HeapGuard.PoolGuardEnabled || g.HeapGuard.PageGuardEnabled))) = false := by
        rw [Bool.and_comm, hA]; rfl
      rw [hne] at h
      cases h
    · rw [if_neg hA] at h
      simp only [pure_bind] at h
      by_cases hB : (g.ExecutionProtection.entry EfiBootServicesData !=
          g.ExecutionProtection.entry EfiConventionalMemory) = true
      · rw [if_pos hB, if_pos trivial] at h
        have hne : (g.ExecutionProtection.entry EfiBootServicesData ==
            g.ExecutionProtection.entry EfiConventionalMemory) = false := by
          have := (bne_true_iff_ne _ _).1 hB
          simpa using this
        rw [hne] at h
        cases h
      · rw [if_neg hB] at h
        have := Except.ok.inj h
        exact ⟨this.symm, hcons g hA,
          not_not.1 (fun hne => hB ((bne_true_iff_ne _ _).2 hne))⟩

/-- Concrete settings with pool guard and freed-memory guard both enabled: with assertions
disabled the check returns settings in which pool guard, page guard and freed-memory guard
are all off. -/
theorem DxeMemoryProtectionSettingsConsistencyCheck_turns_off_witness :
    ∃ g1, DxeMemoryProtectionSettingsConsistencyCheck false conflictingSettings =
        Except.ok g1 ∧ OnlyTurnedOff conflictingSettings g1 ∧ ConsistentSettings g1 :=
  (DxeMemoryProtectionSettingsConsistencyCheck_turns_off conflictingSettings).1

/-! ## The budget record -/

theorem getD_set_cases {α : Type} [Inhabited α] (l : List α) (i j : Nat) (x : α) :
    (l.set i x).getD j default = l.getD j default ∨
    ((l.set i x).getD j default = x ∧ i = j ∧ i < l.length) := by
  rw [List.getD_eq_getElem?_getD, List.getD_eq_getElem?_getD]
  by_cases hij : i = j
  · subst hij
    by_cases hl : i < l.length
    · right
      rw [List.getElem?_set_self hl]
      exact ⟨rfl, rfl, hl⟩
    · left
      rw [List.getElem?_eq_none (by simpa using hl), List.getElem?_eq_none (by simpa using hl)]
  · left
    rw [List.getElem?_set_ne hij]

/-- The update of the counters (lines 781-805) never lowers a budget record as long as the
counter of the new type stays below 2 ^ 32. -/
theorem updateStatistics_ratchet (s : MemState) (Start N Old New : Nat)
    (hsmall : currentPages s New + N < 4294967296) (i : Nat) :
    (s.gMemoryTypeInformation.getD i default).NumberOfPages ≤
      ((updateStatistics s Start N Old New).gMemoryTypeInformation.getD i default).NumberOfPages := by
  unfold updateStatistics
  dsimp only
  generalize hs1 : (if Old < EfiMaxMemoryType then _ else s : MemState) = s1
  have hinfo : s1.gMemoryTypeInformation = s.gMemoryTypeInformation := by
    rw [← hs1]
    split
    · split <;> rfl
    · rfl
  have hcur : (s1.mMemoryTypeStatistics.getD New default).CurrentNumberOfPages ≤
      (s.mMemoryTypeStatistics.getD New default).CurrentNumberOfPages := by
    rw [← hs1]
    split
    · split
      · dsimp only
        generalize hx : (if N > (s.mMemoryTypeStatistics.getD Old default).CurrentNumberOfPages
          then 0 else (s.mMemoryTypeStatistics.getD Old default).CurrentNumberOfPages - N) = x
        have hxle : x ≤ (s.mMemoryTypeStatistics.getD Old default).CurrentNumberOfPages := by
          rw [← hx]; split <;> omega
        rcases getD_set_cases s.mMemoryTypeStatistics Old New
          { s.mMemoryTypeStatistics.getD Old default with CurrentNumberOfPages := x }
          with h | ⟨h, hon, _⟩
        · rw [h]
        · rw [h, ← hon]
          exact hxle
      · exact le_refl _
    · exact le_refl _
  unfold currentPages at hsmall
  have hadd : add64 (s1.mMemoryTypeStatistics.getD New default).CurrentNumberOfPages N =
      (s1.mMemoryTypeStatistics.getD New default).CurrentNumberOfPages + N := by
    unfold add64; omega
  split
  · split
    · split
      · dsimp only
        rcases getD_set_cases s1.gMemoryTypeInformation
          (s1.mMemoryTypeStatistics.getD New default).InformationIndex i
          { s1.gMemoryTypeInformation.getD
              (s1.mMemoryTypeStatistics.getD New default).InformationIndex default with
            NumberOfPages :=
              add64 (s1.mMemoryTypeStatistics.getD New default).CurrentNumberOfPages N %
                4294967296 } with h | ⟨h, hon, hlen⟩
        · rw [h, hinfo]
        · rename_i hgt
          rw [h]
          show _ ≤ add64 (s1.mMemoryTypeStatistics.getD New default).CurrentNumberOfPages N %
            4294967296
          rw [hadd] at hgt
          rw [hadd, ← hinfo, ← hon]
          omega
      · rw [hinfo]
    · rw [hinfo]
  · rw [hinfo]

/-- C31 fails on the code when the counter passes 2 ^ 32: the record is a `UINT32` and the
counter is stored into it through the cast of line 802. The counter of BootServicesData and
its budget record stand at 2 ^ 32 - 1 pages and the page at 0x1000 lies in the window of
the type; allocating it returns EFI_SUCCESS, the counter is 2 ^ 32 and the record is 0:
lower than before, and lower than the counter. -/
theorem CoreConvertPagesEx_budget_truncated :
    currentPages fullBudgetState EfiBootServicesData = 4294967295 ∧
    budgetRecord fullBudgetState EfiBootServicesData = 4294967295 ∧
    inBin fullBudgetState
      (fullBudgetState.mMemoryTypeStatistics.getD EfiBootServicesData default) 0x1000 = true ∧
    ∃ s1, CoreConvertPagesEx plainPlatform 4 fullBudgetState 0x1000 1 true EfiBootServicesData
        false 0 false 0 = Except.ok (EFI_STATUS.EFI_SUCCESS, s1) ∧
      currentPages s1 EfiBootServicesData = 4294967296 ∧
      budgetRecord s1 EfiBootServicesData = 0 :=
  ⟨by decide, by decide, by decide, _, rfl, by decide, by decide⟩

/-! ## The counter mFreeMapStack -/

theorem pull_busy (s : MemState) (pre : List EFI_GCD_MAP_ENTRY) (Entry : EFI_GCD_MAP_ENTRY)
    (post : List EFI_GCD_MAP_ENTRY) (Start RangeEnd : Nat) (s1 : MemState)
    (cur : EFI_GCD_MAP_ENTRY)
    (h : CoreConvertPagesEx.pull s pre Entry post Start RangeEnd = Except.ok (s1, cur)) :
    s1.mFreeMapStack = s.mFreeMapStack := by
  by_cases h1 : Entry.BaseAddress = Start
  · rw [pull_start s pre Entry post Start RangeEnd h1] at h
    split at h
    · obtain ⟨rfl, _⟩ := Prod.mk.inj (Except.ok.inj h)
      rfl
    · obtain ⟨rfl, _⟩ := Prod.mk.inj (Except.ok.inj h)
      rfl
  · by_cases h2 : Entry.EndAddress = RangeEnd
    · rw [pull_end s pre Entry post Start RangeEnd h1 h2] at h
      split at h
      · obtain ⟨rfl, _⟩ := Prod.mk.inj (Except.ok.inj h)
        rfl
      · obtain ⟨rfl, _⟩ := Prod.mk.inj (Except.ok.inj h)
        rfl
    · unfold CoreConvertPagesEx.pull at h
      rw [if_neg h1, if_neg h2] at h
      dsimp only at h
      obtain ⟨_, _, h⟩ := (bind_eq_ok _ _ _).1 h
      obtain ⟨_, _, h⟩ := (bind_eq_ok _ _ _).1 h
      obtain ⟨_, _, h⟩ := (bind_eq_ok _ _ _).1 h
      try dsimp only at h
      split at h
      · obtain ⟨rfl, _⟩ := Prod.mk.inj (Except.ok.inj h)
        rfl
      · obtain ⟨rfl, _⟩ := Prod.mk.inj (Except.ok.inj h)
        rfl

theorem step_busy (env : Platform) (s : MemState) (pre : List EFI_GCD_MAP_ENTRY)
    (Entry : EFI_GCD_MAP_ENTRY) (post : List EFI_GCD_MAP_ENTRY) (Start RangeEnd N : Nat)
    (ct : Bool) (nt : Nat) (ca : Bool) (na nc : Nat) (s2 : MemState)
    (h : CoreConvertPagesEx.step env s pre Entry post Start RangeEnd N ct nt ca na nc =
      Except.ok s2) : s2.mFreeMapStack = s.mFreeMapStack := by
  rw [step_eq] at h
  obtain ⟨⟨s1, cur⟩, hp, h⟩ := (bind_eq_ok _ _ _).1 h
  have h1 := pull_busy _ _ _ _ _ _ _ _ hp
  have h0 : (if ct then updateStatistics s Start N Entry.EfiMemoryType nt else s).mFreeMapStack =
      s.mFreeMapStack := by
    split
    · exact (updateStatistics_frame s Start N Entry.EfiMemoryType nt).2.2.2.1
    · rfl
  dsimp only at h
  by_cases hc : (!env.FreedMemoryGuardEnabled || !ct ||
      (if ct = true then nt else cur.EfiMemoryType) != EfiConventionalMemory) = true
  · rw [if_pos hc] at h
    obtain ⟨_, rfl⟩ := (CoreAddRange_eq_ok _ _ _ _ _ _ _ _ _).1 h
    exact h1.trans h0
  · rw [if_neg hc] at h
    obtain rfl := Except.ok.inj h
    exact h1.trans h0

theorem loop_busy (env : Platform) (f : MemState → Except Halt MemState)
    (hf : ∀ s s1, f s = Except.ok s1 → s1.mFreeMapStack = s.mFreeMapStack)
    (N : Nat) (ct : Bool) (nt : Nat) (ca : Bool) (na nc End : Nat) :
    ∀ (fuel : Nat) (s : MemState) (Start : Nat) (r : EFI_STATUS × MemState),
      CoreConvertPagesEx.loop env f N ct nt ca na nc End fuel s Start = Except.ok r →
      r.2.mFreeMapStack = s.mFreeMapStack := by
  intro fuel
  induction fuel with
  | zero =>
    intro s Start r h
    rw [CoreConvertPagesEx.loop] at h
    split at h
    · cases h
    · obtain rfl := Except.ok.inj h
      rfl
  | succ n ih =>
    intro s Start r h
    rw [CoreConvertPagesEx.loop] at h
    split at h
    · cases hfd : findFirst (coversStart Start) s.mGcdMemorySpaceMap with
      | none =>
        rw [hfd] at h
        obtain rfl := Except.ok.inj h
        rfl
      | some x =>
        obtain ⟨pre, Entry, post⟩ := x
        rw [hfd] at h
        dsimp only at h
        split at h
        · obtain rfl := Except.ok.inj h
          rfl
        · split at h
          · obtain rfl := Except.ok.inj h
            rfl
          · obtain ⟨s2, hstep, h2⟩ := (bind_eq_ok _ _ _).1 h
            obtain ⟨s3, hdrain, hloop⟩ := (bind_eq_ok _ _ _).1 h2
            rw [ih s3 _ r hloop, hf s2 s3 hdrain]
            exact step_busy _ _ _ _ _ _ _ _ _ _ _ _ _ _ hstep
    · obtain rfl := Except.ok.inj h
      rfl

theorem CoreConvertPagesExWith_busy (env : Platform) (f : MemState → Except Halt MemState)
    (hf : ∀ s s1, f s = Except.ok s1 → s1.mFreeMapStack = s.mFreeMapStack)
    (fuel : Nat) (s : MemState) (Start N : Nat) (ct : Bool) (nt : Nat) (ca : Bool) (na : Nat)
    (cc : Bool) (nc : Nat) (r : EFI_STATUS × MemState)
    (h : CoreConvertPagesExWith env f fuel s Start N ct nt ca na cc nc = Except.ok r) :
    r.2.mFreeMapStack = s.mFreeMapStack := by
  unfold CoreConvertPagesExWith at h
  dsimp only at h
  obtain ⟨_, _, h⟩ := (bind_eq_ok _ _ _).1 h
  obtain ⟨_, _, h⟩ := (bind_eq_ok _ _ _).1 h
  obtain ⟨_, _, h⟩ := (bind_eq_ok _ _ _).1 h
  obtain ⟨_, _, h⟩ := (bind_eq_ok _ _ _).1 h
  split at h
  · obtain rfl := Except.ok.inj h
    rfl
  · exact loop_busy env f hf N ct nt ca na nc _ fuel s Start r h

/-- FindFreePages keeps every property of the state that the promotion hook and a change
of mDefaultBaseAddress keep. -/
theorem FindFreePages_ind (env : Platform) (R : MemState → Prop)
    (hdef : ∀ s x, R s → R { s with mDefaultBaseAddress := x })
    (hook : ∀ s s1, env.PromoteGuardedFreePages s = some s1 → R s → R s1)
    (MaxAddress NoPages NewType Alignment : Nat) (NeedGuard : Bool) :
    ∀ (fuel : Nat) (s : MemState) (r : Nat × MemState), R s →
      FindFreePages env fuel s MaxAddress NoPages NewType Alignment NeedGuard = Except.ok r →
      R r.2 := by
  intro fuel
  induction fuel with
  | zero =>
    intro s r _ h
    simp [FindFreePages, throw, throwThe, MonadExceptOf.throw] at h
  | succ n ih =>
    intro s r hs h
    rw [FindFreePages] at h
    dsimp only at h
    generalize (if NewType < EfiMaxMemoryType ∧
        MaxAddress ≥ (s.mMemoryTypeStatistics.getD NewType default).MaximumAddress then
        CoreFindFreePagesI env s (s.mMemoryTypeStatistics.getD NewType default).MaximumAddress
          (s.mMemoryTypeStatistics.getD NewType default).BaseAddress NoPages NewType Alignment
          NeedGuard
        else 0) = S1 at h
    generalize (if MaxAddress ≥ s.mDefaultMaximumAddress then
        CoreFindFreePagesI env s s.mDefaultMaximumAddress 0 NoPages NewType Alignment NeedGuard
        else 0) = S2 at h
    generalize CoreFindFreePagesI env s MaxAddress 0 NoPages NewType Alignment NeedGuard = S3 at h
    by_cases c1 : S1 ≠ 0
    · rw [if_pos c1] at h
      obtain rfl := Except.ok.inj h
      exact hs
    · rw [if_neg c1] at h
      by_cases c2 : S2 ≠ 0
      · rw [if_pos c2] at h
        obtain rfl := Except.ok.inj h
        dsimp only
        split
        · exact hdef s S2 hs
        · exact hs
      · rw [if_neg c2] at h
        by_cases c3 : S3 ≠ 0
        · rw [if_pos c3] at h
          obtain rfl := Except.ok.inj h
          exact hs
        · rw [if_neg c3] at h
          cases hp : env.PromoteGuardedFreePages s with
          | none =>
            rw [hp] at h
            obtain rfl := Except.ok.inj h
            exact hs
          | some s1 =>
            rw [hp] at h
            exact ih s1 r (hook s s1 hp hs) h

theorem FindFreePages_busy (env : Platform)
    (hook : ∀ s s1, env.PromoteGuardedFreePages s = some s1 →
      s1.mFreeMapStack = s.mFreeMapStack)
    (MaxAddress NoPages NewType Alignment : Nat) (NeedGuard : Bool) (fuel : Nat)
    (s : MemState) (r : Nat × MemState)
    (h : FindFreePages env fuel s MaxAddress NoPages NewType Alignment NeedGuard =
      Except.ok r) : r.2.mFreeMapStack = s.mFreeMapStack :=
  FindFreePages_ind env (fun x => x.mFreeMapStack = s.mFreeMapStack) (fun _ _ h => h)
    (fun a b hab ha => (hook a b hab).trans ha) MaxAddress NoPages NewType Alignment NeedGuard
    fuel s r rfl h

theorem AllocateMemoryMapEntryWith_busy (env : Platform)
    (hook : ∀ s s1, env.PromoteGuardedFreePages s = some s1 →
      s1.mFreeMapStack = s.mFreeMapStack)
    (f : MemState → Except Halt MemState)
    (hf : ∀ s s1, f s = Except.ok s1 → s1.mFreeMapStack = s.mFreeMapStack)
    (fuel : Nat) (s : MemState) (r : Bool × MemState)
    (h : AllocateMemoryMapEntryWith env f fuel s = Except.ok r) :
    r.2.mFreeMapStack = s.mFreeMapStack := by
  by_cases c : s.mFreeMemoryMapEntryList = 0
  · unfold AllocateMemoryMapEntryWith at h
    dsimp only at h
    rw [if_pos c] at h
    obtain ⟨⟨a, s0⟩, hp, h⟩ := (bind_eq_ok _ _ _).1 h
    have i0 : s0.mFreeMapStack = s.mFreeMapStack := by
      unfold CoreAllocatePoolPagesWith at hp
      obtain ⟨⟨Start, sF⟩, hfind, hp⟩ := (bind_eq_ok _ _ _).1 hp
      have i1 := FindFreePages_busy env hook _ _ _ _ _ fuel s _ hfind
      dsimp only at hp i1
      by_cases c0 : Start = 0
      · rw [if_pos c0] at hp
        obtain ⟨_, rfl⟩ := Prod.mk.inj (Except.ok.inj hp)
        exact i1
      · rw [if_neg c0] at hp
        obtain ⟨⟨St, sC⟩, hconv, hp⟩ := (bind_eq_ok _ _ _).1 hp
        unfold CoreConvertPagesWith at hconv
        have i2 := CoreConvertPagesExWith_busy env f hf fuel sF Start _ true _ false 0 false 0
          _ hconv
        dsimp only at hp i2
        split at hp
        · obtain ⟨_, rfl⟩ := Prod.mk.inj (Except.ok.inj hp)
          exact i2.trans i1
        · obtain ⟨_, rfl⟩ := Prod.mk.inj (Except.ok.inj hp)
          exact i2.trans i1
    dsimp only at h
    by_cases ca : a ≠ 0
    · rw [if_pos ca] at h
      simp only [bind, Except.bind, pure, Except.pure, Bool.not_true, Bool.false_eq_true,
        if_false] at h
      obtain ⟨_, _, h⟩ := (bind_eq_ok _ _ _).1 h
      obtain rfl := Except.ok.inj h
      exact i0
    · rw [if_neg ca] at h
      simp only [bind, Except.bind, pure, Except.pure, Bool.not_false, if_true] at h
      obtain rfl := Except.ok.inj h
      exact i0
  · rw [AllocateMemoryMapEntryWith_queued env f fuel s c] at h
    obtain rfl := Except.ok.inj h
    rfl

/-- The drain loop returns only with an empty stack, and leaves mFreeMapStack as it is when
the allocation of a descriptor does. -/
theorem drainLoop_empties (Allocate : MemState → Except Halt (Bool × MemState))
    (hA : ∀ s r, Allocate s = Except.ok r → r.2.mFreeMapStack = s.mFreeMapStack) :
    ∀ (fuel : Nat) (s s1 : MemState),
      CoreFreeMemoryMapStack.loop Allocate fuel s = Except.ok s1 →
      s1.mMapDepth = 0 ∧ s1.mFreeMapStack = s.mFreeMapStack := by
  intro fuel
  induction fuel with
  | zero =>
    intro s s1 h
    obtain ⟨h0, rfl⟩ := (drainLoop_zero Allocate s s1).1 h
    exact ⟨h0, rfl⟩
  | succ n ih =>
    intro s s1 h
    by_cases hd : s.mMapDepth = 0
    · rw [drainLoop_done Allocate _ s hd] at h
      obtain rfl := Except.ok.inj h
      exact ⟨hd, rfl⟩
    · obtain ⟨s0, ha, hl⟩ := (drainLoop_succ Allocate n s s1 hd).1 h
      obtain ⟨h1, h2⟩ := ih _ s1 hl
      exact ⟨h1, by rw [h2, (relink_spec s0).2.2.2]; exact hA s _ ha⟩

/-- CoreFreeMemoryMapStack leaves mFreeMapStack as it is, and returns with an empty stack
when it is entered with mFreeMapStack = 0. -/
theorem CoreFreeMemoryMapStack_empties (env : Platform)
    (hook : ∀ s s1, env.PromoteGuardedFreePages s = some s1 →
      s1.mFreeMapStack = s.mFreeMapStack) :
    ∀ (fuel : Nat) (s s1 : MemState), CoreFreeMemoryMapStack env fuel s = Except.ok s1 →
      s1.mFreeMapStack = s.mFreeMapStack ∧ (s.mFreeMapStack = 0 → s1.mMapDepth = 0) := by
  intro fuel
  induction fuel with
  | zero =>
    intro s s1 h
    by_cases hb : s.mFreeMapStack = 0
    · exact absurd h (CoreFreeMemoryMapStack_zero env s s1 hb)
    · rw [CoreFreeMemoryMapStack_busy env 0 s hb] at h
      obtain rfl := Except.ok.inj h
      exact ⟨rfl, fun h0 => absurd h0 hb⟩
  | succ n ih =>
    intro s s1 h
    by_cases hb : s.mFreeMapStack = 0
    · obtain ⟨s0, h0, rfl⟩ := (CoreFreeMemoryMapStack_succ env n s s1 hb).1 h
      obtain ⟨d0, f0⟩ := drainLoop_empties _
        (fun s r hr => AllocateMemoryMapEntryWith_busy env hook _
          (fun a b hab => (ih a b hab).1) n s r hr)
        n { s with mFreeMapStack := s.mFreeMapStack + 1 } s0 h0
      dsimp only at f0 ⊢
      exact ⟨by omega, fun _ => d0⟩
    · rw [CoreFreeMemoryMapStack_busy env _ s hb] at h
      obtain rfl := Except.ok.inj h
      exact ⟨rfl, fun h0 => absurd h0 hb⟩

/-! ## What the drain leaves in the store -/

theorem drained_pooled (d : Nat) (e : EFI_GCD_MAP_ENTRY) : drained d (pooled e) = pooled e := by
  unfold drained onStack pooled
  simp

theorem drained_pred (d : Nat) (e : EFI_GCD_MAP_ENTRY) (h : e.StackSlot ≠ some (d - 1)) :
    drained (d - 1) e = drained d e := by
  unfold drained onStack
  cases hs : e.StackSlot with
  | none => rfl
  | some k =>
    have hk : k ≠ d - 1 := fun hk => h (by rw [hs, hk])
    have : decide (k < d - 1) = decide (k < d) := by
      by_cases c : k < d - 1
      · rw [decide_eq_true c, decide_eq_true (by omega : k < d)]
      · rw [decide_eq_false c, decide_eq_false (by omega : ¬ k < d)]
    simp only [this]

theorem drained_slot (d : Nat) (e : EFI_GCD_MAP_ENTRY) (hd : d ≠ 0)
    (h : e.StackSlot = some (d - 1)) : drained d e = pooled e := by
  unfold drained onStack
  rw [h]
  simp only [decide_eq_true (by omega : d - 1 < d), if_true]

theorem SlotsDistinct_perm {l l1 : List EFI_GCD_MAP_ENTRY} (h : l.Perm l1)
    (hs : SlotsDistinct l) : SlotsDistinct l1 := by
  unfold SlotsDistinct at hs ⊢
  refine (h.pairwise_iff ?_).1 hs
  intro a b hab
  rcases hab with h1 | h1
  · by_cases hb : b.StackSlot = none
    · exact Or.inl hb
    · exact Or.inr (fun hba => hb (hba.trans h1))
  · exact Or.inr (fun hba => h1 hba.symm)

/-- One pass of the drain loop, once the descriptor has been taken from the free list:
the descriptor in the top stack slot is replaced by its pool-backed copy, if it is linked,
and nothing else changes in the store. -/
theorem relink_drained (s : MemState) (hd : s.mMapDepth ≠ 0)
    (hs : SlotsDistinct s.mGcdMemorySpaceMap) :
    ((CoreFreeMemoryMapStack.relink s).mGcdMemorySpaceMap.map
        (drained (s.mMapDepth - 1))).Perm
      (s.mGcdMemorySpaceMap.map (drained s.mMapDepth)) ∧
    SlotsDistinct (CoreFreeMemoryMapStack.relink s).mGcdMemorySpaceMap := by
  unfold CoreFreeMemoryMapStack.relink
  cases hf : findFirst (inStackSlot (s.mMapDepth - 1)) s.mGcdMemorySpaceMap with
  | none =>
    dsimp only
    refine ⟨?_, hs⟩
    rw [List.map_congr_left]
    intro e he
    apply drained_pred
    have := findFirst_none hf e he
    unfold inStackSlot at this
    simpa using this
  | some r =>
    obtain ⟨pre, Slot, post⟩ := r
    dsimp only
    obtain ⟨hl, hp, _⟩ := findFirst_some hf
    have hslot : Slot.StackSlot = some (s.mMapDepth - 1) := by
      unfold inStackSlot at hp
      simpa using hp
    have hperm := insertSorted_perm { Slot with FromPages := true, StackSlot := none }
      (pre ++ post)
    have hother : ∀ x ∈ pre ++ post, x.StackSlot ≠ some (s.mMapDepth - 1) := by
      intro x hx hxs
      rw [hl] at hs
      unfold SlotsDistinct at hs
      rw [List.pairwise_append] at hs
      obtain ⟨_, h2, h3⟩ := hs
      rw [List.pairwise_cons] at h2
      rcases List.mem_append.1 hx with hx | hx
      · rcases h3 x hx Slot (List.mem_cons_self _ _) with h | h
        · rw [h] at hxs; cases hxs
        · exact h (hxs.trans hslot.symm)
      · rcases h2.1 x hx with h | h
        · rw [h] at hslot; cases hslot
        · exact h (hslot.trans hxs.symm)
    constructor
    · refine (hperm.map _).trans ?_
      rw [hl, List.map_cons, List.map_append, List.map_append, List.map_cons]
      have e1 : drained (s.mMapDepth - 1) { Slot with FromPages := true, StackSlot := none } =
          drained s.mMapDepth Slot := by
        rw [drained_slot _ _ hd hslot]
        exact drained_pooled _ Slot
      have e2 : pre.map (drained (s.mMapDepth - 1)) = pre.map (drained s.mMapDepth) :=
        List.map_congr_left fun x hx =>
          drained_pred _ x (hother x (List.mem_append_left _ hx))
      have e3 : post.map (drained (s.mMapDepth - 1)) = post.map (drained s.mMapDepth) :=
        List.map_congr_left fun x hx =>
          drained_pred _ x (hother x (List.mem_append_right _ hx))
      rw [e1, e2, e3]
      exact List.perm_middle.symm
    · refine SlotsDistinct_perm hperm.symm ?_
      unfold SlotsDistinct
      rw [List.pairwise_cons]
      refine ⟨fun _ _ => Or.inl rfl, ?_⟩
      rw [hl] at hs
      exact List.Pairwise.sublist ((List.Sublist.refl pre).append (List.sublist_cons_self Slot post)) hs

theorem loop_kept (env : Platform) (Q : Bool → Nat → Bool → Prop) (P : MemState → Prop)
    (hI : StateInvariant env Q P) (f : MemState → Except Halt MemState)
    (hf : ∀ s s1, P s → f s = Except.ok s1 → P s1)
    (N : Nat) (ct : Bool) (nt : Nat) (ca : Bool) (na nc End : Nat) (hQ : Q ct nt ca)
    (hE : End % 4096 = 4095) :
    ∀ (fuel : Nat) (s : MemState) (Start : Nat), P s → Start % 4096 = 0 →
      ∀ r, CoreConvertPagesEx.loop env f N ct nt ca na nc End fuel s Start = Except.ok r →
        P r.2 := by
  obtain ⟨hI1, _, hI3, _, _⟩ := hI
  intro fuel
  induction fuel with
  | zero =>
    intro s Start hs hS r h
    rw [CoreConvertPagesEx.loop] at h
    by_cases hlt : Start < End
    · rw [if_pos hlt] at h
      cases h
    · rw [if_neg hlt] at h
      obtain rfl := Except.ok.inj h
      exact hs
  | succ n ih =>
    intro s Start hs hS r h
    rw [CoreConvertPagesEx.loop] at h
    by_cases hlt : Start < End
    · rw [if_pos hlt] at h
      cases hfd : findFirst (coversStart Start) s.mGcdMemorySpaceMap with
      | none =>
        rw [hfd] at h
        obtain rfl := Except.ok.inj h
        exact hs
      | some x =>
        obtain ⟨pre, Entry, post⟩ := x
        rw [hfd] at h
        dsimp only at h
        obtain ⟨hl, hc, _⟩ := findFirst_some hfd
        rw [coversStart_iff] at hc
        have hmem : Entry ∈ s.mGcdMemorySpaceMap := by rw [hl]; simp
        have hst := hI1 _ hs
        obtain ⟨hw1, hw2, hw3, hw4⟩ := hst.1.1 Entry hmem
        have htop := hst.2 Entry hmem
        by_cases c1 : ct = true ∧ nt ≠ EfiConventionalMemory ∧ Entry.EndAddress < End
        · rw [if_pos c1] at h
          obtain rfl := Except.ok.inj h
          exact hs
        · rw [if_neg c1] at h
          have hre : ∃ RangeEnd, (if Entry.EndAddress < End then Entry.EndAddress else End) =
              RangeEnd ∧ RangeEnd ≤ Entry.EndAddress ∧ RangeEnd ≤ End ∧ Start < RangeEnd ∧
              RangeEnd % 4096 = 4095 ∧ RangeEnd < 18446744073709551615 := by
            refine ⟨_, rfl, ?_, ?_, ?_, ?_, ?_⟩ <;> split <;> omega
          obtain ⟨RangeEnd, hRE, r1, r2, r3, r4, r5⟩ := hre
          rw [hRE] at h
          by_cases c2 : ct = true ∧ xor (!(nt == EfiConventionalMemory))
              (Entry.EfiMemoryType == EfiConventionalMemory) = true
          · rw [if_pos c2] at h
            obtain rfl := Except.ok.inj h
            exact hs
          · rw [if_neg c2] at h
            obtain ⟨s2, hstep, h2⟩ := (bind_eq_ok _ _ _).1 h
            obtain ⟨s3, hdrain, hloop⟩ := (bind_eq_ok _ _ _).1 h2
            have hr : RangeOk Start RangeEnd := ⟨hS, r4, r3, r5⟩
            have i2 := hI3 s s2 pre Entry post Start RangeEnd N ct nt ca na nc hQ hl hc.1 hr r1
              hs hstep
            have i3 := hf s2 s3 i2 hdrain
            have hadd : add64 RangeEnd 1 = RangeEnd + 1 := by unfold add64; omega
            rw [hadd] at hloop
            exact ih s3 (RangeEnd + 1) i3 (by omega) r hloop
    · rw [if_neg hlt] at h
      obtain rfl := Except.ok.inj h
      exact hs

theorem CoreConvertPagesExWith_kept (env : Platform) (Q : Bool → Nat → Bool → Prop)
    (P : MemState → Prop) (hI : StateInvariant env Q P) (f : MemState → Except Halt MemState)
    (hf : ∀ s s1, P s → f s = Except.ok s1 → P s1)
    (fuel : Nat) (s : MemState) (Start N : Nat) (ct : Bool) (nt : Nat) (ca : Bool) (na : Nat)
    (cc : Bool) (nc : Nat) (hQ : Q ct nt ca) (hs : P s) (r : EFI_STATUS × MemState)
    (h : CoreConvertPagesExWith env f fuel s Start N ct nt ca na cc nc = Except.ok r) :
    P r.2 := by
  unfold CoreConvertPagesExWith at h
  dsimp only at h
  obtain ⟨_, _, h⟩ := (bind_eq_ok _ _ _).1 h
  obtain ⟨_, a2, h⟩ := (bind_eq_ok _ _ _).1 h
  obtain ⟨_, _, h⟩ := (bind_eq_ok _ _ _).1 h
  obtain ⟨_, _, h⟩ := (bind_eq_ok _ _ _).1 h
  rw [ASSERT_eq_ok] at a2
  have hS : Start % 4096 = 0 := by
    rw [EFI_PAGE_MASK, land_4095] at a2; simpa using a2
  by_cases c : N = 0 ∨ Start &&& EFI_PAGE_MASK ≠ 0 ∨
      Start ≥ sub64 (add64 Start (LShiftU64 N EFI_PAGE_SHIFT)) 1
  · rw [if_pos c] at h
    obtain rfl := Except.ok.inj h
    exact hs
  · rw [if_neg c] at h
    exact loop_kept env Q P hI f hf N ct nt ca na nc _ hQ (convertEnd_mod Start N hS) fuel s
      Start hs hS r h

theorem AllocateMemoryMapEntryWith_kept (env : Platform) (Q : Bool → Nat → Bool → Prop)
    (P : MemState → Prop) (hI : StateInvariant env Q P)
    (hQ : Q true EfiBootServicesData false) (f : MemState → Except Halt MemState)
    (hf : ∀ s s1, P s → f s = Except.ok s1 → P s1) (fuel : Nat) (s : MemState) (hs : P s)
    (r : Bool × MemState) (h : AllocateMemoryMapEntryWith env f fuel s = Except.ok r) :
    P r.2 := by
  have hfr := hI.2.1
  by_cases c : s.mFreeMemoryMapEntryList = 0
  · unfold AllocateMemoryMapEntryWith at h
    dsimp only at h
    rw [if_pos c] at h
    obtain ⟨⟨a, s0⟩, hp, h⟩ := (bind_eq_ok _ _ _).1 h
    have i0 : P s0 := by
      unfold CoreAllocatePoolPagesWith at hp
      obtain ⟨⟨Start, sF⟩, hfind, hp⟩ := (bind_eq_ok _ _ _).1 hp
      have i1 : P sF := FindFreePages_ind env P (fun a x ha => hfr a _ rfl rfl ha) hI.2.2.2.2
        _ _ _ _ _ fuel s _ hs hfind
      dsimp only at hp
      by_cases c0 : Start = 0
      · rw [if_pos c0] at hp
        obtain ⟨_, rfl⟩ := Prod.mk.inj (Except.ok.inj hp)
        exact i1
      · rw [if_neg c0] at hp
        obtain ⟨⟨St, sC⟩, hconv, hp⟩ := (bind_eq_ok _ _ _).1 hp
        unfold CoreConvertPagesWith at hconv
        have i2 := CoreConvertPagesExWith_kept env Q P hI f hf fuel sF Start _ true _ false 0
          false 0 hQ i1 _ hconv
        dsimp only at hp i2
        split at hp
        · obtain ⟨_, rfl⟩ := Prod.mk.inj (Except.ok.inj hp)
          exact i2
        · obtain ⟨_, rfl⟩ := Prod.mk.inj (Except.ok.inj hp)
          exact i2
    dsimp only at h
    by_cases ca : a ≠ 0
    · rw [if_pos ca] at h
      simp only [bind, Except.bind, pure, Except.pure, Bool.not_true, Bool.false_eq_true,
        if_false] at h
      obtain ⟨_, _, h⟩ := (bind_eq_ok _ _ _).1 h
      obtain rfl := Except.ok.inj h
      exact hfr s0 _ rfl rfl i0
    · rw [if_neg ca] at h
      simp only [bind, Except.bind, pure, Except.pure, Bool.not_false, if_true] at h
      obtain rfl := Except.ok.inj h
      exact i0
  · rw [AllocateMemoryMapEntryWith_queued env f fuel s c] at h
    obtain rfl := Except.ok.inj h
    exact hfr s _ rfl rfl hs

theorem drainLoop_kept (P : MemState → Prop)
    (hrelink : ∀ s, P s → P (CoreFreeMemoryMapStack.relink s))
    (Allocate : MemState → Except Halt (Bool × MemState))
    (hA : ∀ s r, P s → Allocate s = Except.ok r → P r.2) :
    ∀ (fuel : Nat) (s s1 : MemState), P s →
      CoreFreeMemoryMapStack.loop Allocate fuel s = Except.ok s1 → P s1 := by
  intro fuel
  induction fuel with
  | zero =>
    intro s s1 hs h
    obtain ⟨_, rfl⟩ := (drainLoop_zero Allocate s s1).1 h
    exact hs
  | succ n ih =>
    intro s s1 hs h
    by_cases hd : s.mMapDepth = 0
    · rw [drainLoop_done Allocate _ s hd] at h
      obtain rfl := Except.ok.inj h
      exact hs
    · obtain ⟨s0, ha, hl⟩ := (drainLoop_succ Allocate n s s1 hd).1 h
      exact ih _ s1 (hrelink _ (hA s _ hs ha)) hl

/-- CoreFreeMemoryMapStack keeps every such property of the state, also when it refills the
descriptor free list by a nested page allocation. -/
theorem CoreFreeMemoryMapStack_kept (env : Platform) (Q : Bool → Nat → Bool → Prop)
    (P : MemState → Prop) (hI : StateInvariant env Q P)
    (hQ : Q true EfiBootServicesData false) :
    ∀ (fuel : Nat) (s s1 : MemState), P s → CoreFreeMemoryMapStack env fuel s = Except.ok s1 →
      P s1 := by
  have hfr := hI.2.1
  intro fuel
  induction fuel with
  | zero =>
    intro s s1 hs h
    by_cases hb : s.mFreeMapStack = 0
    · exact absurd h (CoreFreeMemoryMapStack_zero env s s1 hb)
    · rw [CoreFreeMemoryMapStack_busy env 0 s hb] at h
      obtain rfl := Except.ok.inj h
      exact hs
  | succ n ih =>
    intro s s1 hs h
    by_cases hb : s.mFreeMapStack = 0
    · obtain ⟨s0, h0, rfl⟩ := (CoreFreeMemoryMapStack_succ env n s s1 hb).1 h
      have i0 := drainLoop_kept P hI.2.2.2.1 _
        (fun a r ha hr => AllocateMemoryMapEntryWith_kept env Q P hI hQ _ ih n a ha r hr)
        n { s with mFreeMapStack := s.mFreeMapStack + 1 } s0 (hfr s _ rfl rfl hs) h0
      exact hfr s0 _ rfl rfl i0
    · rw [CoreFreeMemoryMapStack_busy env _ s hb] at h
      obtain rfl := Except.ok.inj h
      exact hs

/-- CoreConvertPagesEx keeps every such property of the state, whatever status it
returns. -/
theorem CoreConvertPagesEx_kept (env : Platform) (Q : Bool → Nat → Bool → Prop)
    (P : MemState → Prop) (hI : StateInvariant env Q P)
    (hQ : Q true EfiBootServicesData false) (fuel : Nat) (s : MemState) (Start N : Nat)
    (ct : Bool) (nt : Nat) (ca : Bool) (na : Nat) (cc : Bool) (nc : Nat) (hq : Q ct nt ca)
    (hs : P s) (r : EFI_STATUS × MemState)
    (h : CoreConvertPagesEx env fuel s Start N ct nt ca na cc nc = Except.ok r) : P r.2 :=
  CoreConvertPagesExWith_kept env Q P hI _
    (CoreFreeMemoryMapStack_kept env Q P hI hQ fuel) fuel s Start N ct nt ca na cc nc hq hs r h

/-! ## The shape of the store after one pass -/

/-- What "pull range out of descriptor" leaves linked: the list without `Entry`, or with
`Entry` clipped in place, or with `Entry` clipped in place and the part above the range in a
new stack descriptor at the tail. -/
theorem pull_shape (s : MemState) (pre : List EFI_GCD_MAP_ENTRY) (Entry : EFI_GCD_MAP_ENTRY)
    (post : List EFI_GCD_MAP_ENTRY) (Start RangeEnd : Nat) (s1 : MemState)
    (cur : EFI_GCD_MAP_ENTRY)
    (h : CoreConvertPagesEx.pull s pre Entry post Start RangeEnd = Except.ok (s1, cur)) :
    s.mMapDepth ≤ s1.mMapDepth ∧ s1.mMapDepth ≤ s.mMapDepth + 1 ∧
    (s1.mGcdMemorySpaceMap = pre ++ post ∨
     (∃ B E, s1.mGcdMemorySpaceMap =
          pre ++ { Entry with BaseAddress := B, EndAddress := E } :: post ∧
        ((B = add64 RangeEnd 1 ∧ E = Entry.EndAddress ∧ Entry.BaseAddress = Start) ∨
         (B = Entry.BaseAddress ∧ E = sub64 Start 1 ∧ Entry.BaseAddress ≠ Start))) ∨
     (s1.mMapDepth = s.mMapDepth + 1 ∧ Entry.BaseAddress ≠ Start ∧
      s1.mGcdMemorySpaceMap =
        (pre ++ { Entry with EndAddress := sub64 Start 1 } :: post) ++
          [{ Entry with BaseAddress := add64 RangeEnd 1, FromPages := false,
                        StackSlot := some s.mMapDepth }])) := by
  by_cases h1 : Entry.BaseAddress = Start
  · rw [pull_start s pre Entry post Start RangeEnd h1] at h
    split at h
    · obtain ⟨rfl, _⟩ := Prod.mk.inj (Except.ok.inj h)
      exact ⟨le_refl _, Nat.le_succ _, Or.inl rfl⟩
    · obtain ⟨rfl, _⟩ := Prod.mk.inj (Except.ok.inj h)
      exact ⟨le_refl _, Nat.le_succ _, Or.inr (Or.inl ⟨_, _, rfl, Or.inl ⟨rfl, rfl, h1⟩⟩)⟩
  · by_cases h2 : Entry.EndAddress = RangeEnd
    · rw [pull_end s pre Entry post Start RangeEnd h1 h2] at h
      split at h
      · obtain ⟨rfl, _⟩ := Prod.mk.inj (Except.ok.inj h)
        exact ⟨le_refl _, Nat.le_succ _, Or.inl rfl⟩
      · obtain ⟨rfl, _⟩ := Prod.mk.inj (Except.ok.inj h)
        exact ⟨le_refl _, Nat.le_succ _, Or.inr (Or.inl ⟨_, _, rfl, Or.inr ⟨rfl, rfl, h1⟩⟩)⟩
    · unfold CoreConvertPagesEx.pull at h
      rw [if_neg h1, if_neg h2] at h
      dsimp only at h
      obtain ⟨_, _, h⟩ := (bind_eq_ok _ _ _).1 h
      obtain ⟨_, _, h⟩ := (bind_eq_ok _ _ _).1 h
      obtain ⟨w, hw, h⟩ := (bind_eq_ok _ _ _).1 h
      cases hw
      dsimp only at h
      split at h
      · obtain ⟨rfl, _⟩ := Prod.mk.inj (Except.ok.inj h)
        refine ⟨Nat.le_succ _, le_refl _, Or.inr (Or.inl ⟨_, _, ?_, Or.inr ⟨rfl, rfl, h1⟩⟩)⟩
        simp
      · obtain ⟨rfl, _⟩ := Prod.mk.inj (Except.ok.inj h)
        exact ⟨Nat.le_succ _, le_refl _, Or.inr (Or.inr ⟨rfl, h1, rfl⟩)⟩

/-- One pass of the conversion loop: the pull, then CoreAddRange on the result of the pull
unless the test of lines 891-893 skips it. -/
theorem step_cases (env : Platform) (s : MemState) (pre : List EFI_GCD_MAP_ENTRY)
    (Entry : EFI_GCD_MAP_ENTRY) (post : List EFI_GCD_MAP_ENTRY) (Start RangeEnd N : Nat)
    (ct : Bool) (nt : Nat) (ca : Bool) (na nc : Nat) (s2 : MemState)
    (h : CoreConvertPagesEx.step env s pre Entry post Start RangeEnd N ct nt ca na nc =
      Except.ok s2) :
    ∃ s0 s1 cur, s0.mGcdMemorySpaceMap = s.mGcdMemorySpaceMap ∧ s0.mMapDepth = s.mMapDepth ∧
      CoreConvertPagesEx.pull s0 pre Entry post Start RangeEnd = Except.ok (s1, cur) ∧
      ((env.FreedMemoryGuardEnabled = true ∧ ct = true ∧ nt = EfiConventionalMemory ∧ s2 = s1) ∨
       (¬ (env.FreedMemoryGuardEnabled = true ∧ ct = true ∧ nt = EfiConventionalMemory) ∧
        ∃ G A C H, s2 = addRangeResult s1 (if ct then nt else cur.EfiMemoryType) G Start RangeEnd
          A C H)) := by
  rw [step_eq] at h
  obtain ⟨⟨s1, cur⟩, hp, h⟩ := (bind_eq_ok _ _ _).1 h
  have h0 : (if ct then updateStatistics s Start N Entry.EfiMemoryType nt
        else s).mGcdMemorySpaceMap = s.mGcdMemorySpaceMap ∧
      (if ct then updateStatistics s Start N Entry.EfiMemoryType nt else s).mMapDepth =
        s.mMapDepth := by
    split
    · exact ⟨(updateStatistics_frame s Start N Entry.EfiMemoryType nt).1,
        (updateStatistics_frame s Start N Entry.EfiMemoryType nt).2.1⟩
    · exact ⟨rfl, rfl⟩
  refine ⟨_, s1, cur, h0.1, h0.2, hp, ?_⟩
  dsimp only at h
  by_cases c : (!env.FreedMemoryGuardEnabled || !ct ||
      (if ct then nt else cur.EfiMemoryType) != EfiConventionalMemory) = true
  · rw [if_pos c] at h
    right
    refine ⟨?_, _, _, _, _, ((CoreAddRange_eq_ok _ _ _ _ _ _ _ _ _).1 h).2⟩
    rintro ⟨h1, h2, h3⟩
    rw [h1, h2, h3] at c
    simp at c
  · rw [if_neg c] at h
    left
    have hc : env.FreedMemoryGuardEnabled = true ∧ ct = true ∧ nt = EfiConventionalMemory := by
      cases hg : env.FreedMemoryGuardEnabled <;> cases hct : ct <;> simp [hg, hct] at c ⊢
      exact c
    exact ⟨hc.1, hc.2.1, hc.2.2, (Except.ok.inj h).symm⟩

theorem NotGrown_refl (l : List EFI_GCD_MAP_ENTRY) : NotGrown l l :=
  fun e he ht => ⟨e, he, ht, le_refl _, le_refl _⟩

theorem NotGrown_trans {l0 l1 l2 : List EFI_GCD_MAP_ENTRY} (h1 : NotGrown l0 l1)
    (h2 : NotGrown l1 l2) : NotGrown l0 l2 := by
  intro e he ht
  obtain ⟨d, hd, t1, b1, e1⟩ := h2 e he ht
  obtain ⟨c, hc, t2, b2, e2⟩ := h1 d hd t1
  exact ⟨c, hc, t2, le_trans b2 b1, le_trans e1 e2⟩

theorem Shrunk_refl {l : List EFI_GCD_MAP_ENTRY} (h : Store l) : Shrunk l l :=
  ⟨h, fun _ h => h, NotGrown_refl l⟩

theorem Shrunk_trans {l0 l1 l2 : List EFI_GCD_MAP_ENTRY} (h1 : Shrunk l0 l1)
    (h2 : Shrunk l1 l2) : Shrunk l0 l2 :=
  ⟨h2.1, fun a h => h1.2.1 a (h2.2.1 a h), NotGrown_trans h1.2.2 h2.2.2⟩

/-- Every descriptor linked after the pull is a descriptor linked before, or a part of
`Entry` with the memory type of `Entry`. -/
theorem pull_within (s : MemState) (pre : List EFI_GCD_MAP_ENTRY) (Entry : EFI_GCD_MAP_ENTRY)
    (post : List EFI_GCD_MAP_ENTRY) (Start RangeEnd : Nat) (s1 : MemState)
    (cur : EFI_GCD_MAP_ENTRY) (hmap : s.mGcdMemorySpaceMap = pre ++ Entry :: post)
    (hb : Entry.BaseAddress ≤ Start) (hr : RangeOk Start RangeEnd)
    (he : RangeEnd ≤ Entry.EndAddress)
    (h : CoreConvertPagesEx.pull s pre Entry post Start RangeEnd = Except.ok (s1, cur)) :
    ∀ e ∈ s1.mGcdMemorySpaceMap, ∃ d ∈ s.mGcdMemorySpaceMap,
      e.EfiMemoryType = d.EfiMemoryType ∧ d.BaseAddress ≤ e.BaseAddress ∧
        e.EndAddress ≤ d.EndAddress := by
  obtain ⟨r1, r2, r3, r4⟩ := hr
  have hadd : add64 RangeEnd 1 = RangeEnd + 1 := by unfold add64; omega
  have hE : Entry ∈ s.mGcdMemorySpaceMap := by rw [hmap]; simp
  have hpp : ∀ e ∈ pre ++ post, e ∈ s.mGcdMemorySpaceMap := by
    intro e he
    rw [hmap]
    simp only [List.mem_append, List.mem_cons] at he ⊢
    tauto
  have hsub : Entry.BaseAddress ≠ Start → sub64 Start 1 = Start - 1 ∧ 1 ≤ Start := by
    intro hne
    unfold sub64
    constructor <;> omega
  intro e hmem
  obtain ⟨_, _, hsh⟩ := pull_shape s pre Entry post Start RangeEnd s1 cur h
  rcases hsh with h1 | ⟨B, E, h1, hBE⟩ | ⟨_, hne, h1⟩
  · rw [h1] at hmem
    exact ⟨e, hpp e hmem, rfl, le_refl _, le_refl _⟩
  · rw [h1] at hmem
    simp only [List.mem_append, List.mem_cons] at hmem
    rcases hmem with hm | rfl | hm
    · exact ⟨e, hpp e (List.mem_append_left _ hm), rfl, le_refl _, le_refl _⟩
    · refine ⟨Entry, hE, rfl, ?_, ?_⟩
      · show Entry.BaseAddress ≤ B
        rcases hBE with ⟨hB, _, _⟩ | ⟨hB, _, _⟩
        · rw [hB, hadd]; omega
        · rw [hB]
      · show E ≤ Entry.EndAddress
        rcases hBE with ⟨_, hE2, _⟩ | ⟨_, hE2, hne⟩
        · rw [hE2]
        · rw [hE2]
          have := hsub hne
          omega
    · exact ⟨e, hpp e (List.mem_append_right _ hm), rfl, le_refl _, le_refl _⟩
  · rw [h1] at hmem
    simp only [List.mem_append, List.mem_cons, List.not_mem_nil, or_false] at hmem
    rcases hmem with (hm | rfl | hm) | rfl
    · exact ⟨e, hpp e (List.mem_append_left _ hm), rfl, le_refl _, le_refl _⟩
    · refine ⟨Entry, hE, rfl, le_refl _, ?_⟩
      show sub64 Start 1 ≤ Entry.EndAddress
      have := hsub hne
      omega
    · exact ⟨e, hpp e (List.mem_append_right _ hm), rfl, le_refl _, le_refl _⟩
    · refine ⟨Entry, hE, rfl, ?_, le_refl _⟩
      show Entry.BaseAddress ≤ add64 RangeEnd 1
      omega

/-- Every descriptor linked after one pass of the conversion loop lies within a descriptor
of its memory type that was linked before, or is the descriptor CoreAddRange has added, of the
new type when the type changes. -/
theorem step_within (env : Platform) (s : MemState) (pre : List EFI_GCD_MAP_ENTRY)
    (Entry : EFI_GCD_MAP_ENTRY) (post : List EFI_GCD_MAP_ENTRY) (Start RangeEnd N : Nat)
    (ct : Bool) (nt : Nat) (ca : Bool) (na nc : Nat) (s2 : MemState)
    (hmap : s.mGcdMemorySpaceMap = pre ++ Entry :: post)
    (hb : Entry.BaseAddress ≤ Start) (hr : RangeOk Start RangeEnd)
    (he : RangeEnd ≤ Entry.EndAddress)
    (h : CoreConvertPagesEx.step env s pre Entry post Start RangeEnd N ct nt ca na nc =
      Except.ok s2) :
    ∀ e ∈ s2.mGcdMemorySpaceMap,
      (∃ d ∈ s.mGcdMemorySpaceMap, e.EfiMemoryType = d.EfiMemoryType ∧
        d.BaseAddress ≤ e.BaseAddress ∧ e.EndAddress ≤ d.EndAddress) ∨
      (¬ (env.FreedMemoryGuardEnabled = true ∧ ct = true ∧ nt = EfiConventionalMemory) ∧
        (ct = true → e.EfiMemoryType = nt)) := by
  obtain ⟨s0, s1, cur, m0, _, hp, hc⟩ := step_cases env s pre Entry post Start RangeEnd N ct nt
    ca na nc s2 h
  have hw := pull_within s0 pre Entry post Start RangeEnd s1 cur (m0.trans hmap) hb hr he hp
  rw [m0] at hw
  intro e hmem
  rcases hc with ⟨_, _, _, rfl⟩ | ⟨hn, G, A, C, H, rfl⟩
  · exact Or.inl (hw e hmem)
  · simp only [addRangeResult, List.mem_append, List.mem_singleton] at hmem
    rcases hmem with hm | rfl
    · exact Or.inl (hw e ((scan_sublist _ _ _ _ _ _ _ _).subset hm))
    · refine Or.inr ⟨hn, fun hct => ?_⟩
      dsimp only
      rw [if_pos hct]

/-- On every platform whose promotion hook shrinks the store, shrinking relative to `l0` is
kept by the steps of the allocator that create no conventional descriptor. -/
theorem shrunk_invariant (env : Platform) (l0 : List EFI_GCD_MAP_ENTRY)
    (hook : ∀ s s1, env.PromoteGuardedFreePages s = some s1 → Store s.mGcdMemorySpaceMap →
      Shrunk s.mGcdMemorySpaceMap s1.mGcdMemorySpaceMap) :
    StateInvariant env (noConventional env) (fun s => Shrunk l0 s.mGcdMemorySpaceMap) := by
  refine ⟨fun _ h => h.1, ?_, ?_, ?_, ?_⟩
  · intro s s1 hm _ h
    rw [hm]
    exact h
  · rintro s s2 pre Entry post Start RangeEnd N ct nt ca na nc ⟨hct, hq⟩ hmap hb hr he
      ⟨i1, i2, i3⟩ h
    obtain ⟨k1, k2, _⟩ := (step_spec env s pre Entry post Start RangeEnd N ct nt ca na nc hmap
      i1 hb hr he).2 s2 h
    refine ⟨k1, ?_, ?_⟩
    · intro a hcov
      apply i2
      obtain ⟨p, hp⟩ := (Covered_iff_Has _ _).1 hcov
      rcases (k2 a p).1 hp with ⟨h1, _⟩ | ⟨_, h4, h5, _⟩
      · exact (Covered_iff_Has _ _).2 ⟨p, h1⟩
      · refine ⟨Entry, ?_, by omega, by omega⟩
        rw [hmap]
        simp
    · intro e hmem ht
      rcases step_within env s pre Entry post Start RangeEnd N ct nt ca na nc s2 hmap hb hr he
        h e hmem with ⟨d, hd, t1, b1, e1⟩ | ⟨hn, hty⟩
      · obtain ⟨c, hc, t2, b2, e2⟩ := i3 d hd (t1 ▸ ht)
        exact ⟨c, hc, t2, le_trans b2 b1, le_trans e1 e2⟩
      · exfalso
        have h1 := hty hct
        rw [ht] at h1
        rcases hq with hq | hq
        · exact hn ⟨hq, hct, h1.symm⟩
        · exact hq h1.symm
  · rintro s ⟨i1, i2, i3⟩
    obtain ⟨hp, _⟩ := relink_spec s
    refine ⟨Store_flagPerm hp i1, ?_, ?_⟩
    · intro a hcov
      apply i2
      rw [Covered_iff_Has] at hcov ⊢
      obtain ⟨p, h1⟩ := hcov
      exact ⟨p, (Has_flagPerm hp a p).2 h1⟩
    · intro e hmem ht
      obtain ⟨y, hy, hst⟩ := mem_flagPerm (FlagPerm_symm hp) hmem
      obtain ⟨f1, f2, f3, _⟩ := strip_fields hst
      have ty : y.EfiMemoryType = e.EfiMemoryType := congrArg Prod.fst f3
      obtain ⟨c, hc, t2, b2, e2⟩ := i3 y hy (ty.trans ht)
      exact ⟨c, hc, t2, by omega, by omega⟩
  · intro s s1 h hs
    exact Shrunk_trans hs (hook s s1 h hs.1)

theorem readds_iff (env : Platform) (ct : Bool) (nt : Nat) :
    readds env ct nt = true ↔
      ¬ (env.FreedMemoryGuardEnabled = true ∧ ct = true ∧ nt = EfiConventionalMemory) := by
  unfold readds
  cases env.FreedMemoryGuardEnabled <;> cases ct <;> simp

/-- The conversion loop for a type change to conventional memory under freed-memory guard:
a run that returns EFI_SUCCESS shrinks the store and leaves no address of the range
covered. -/
theorem loop_guard_shrinks (env : Platform) (k N : Nat) (ca : Bool) (na nc End : Nat)
    (hg : env.FreedMemoryGuardEnabled = true)
    (hook : ∀ s s1, env.PromoteGuardedFreePages s = some s1 → Store s.mGcdMemorySpaceMap →
      Shrunk s.mGcdMemorySpaceMap s1.mGcdMemorySpaceMap)
    (hE : End % 4096 = 4095) :
    ∀ (fuel : Nat) (s : MemState) (Start : Nat), Store s.mGcdMemorySpaceMap →
      Start % 4096 = 0 →
      ∀ s1, CoreConvertPagesEx.loop env (CoreFreeMemoryMapStack env k) N true
          EfiConventionalMemory ca na nc End fuel s Start =
            Except.ok (EFI_STATUS.EFI_SUCCESS, s1) →
        Shrunk s.mGcdMemorySpaceMap s1.mGcdMemorySpaceMap ∧
        ∀ a, Start ≤ a → a ≤ End → ¬ Covered s1.mGcdMemorySpaceMap a := by
  have hq : noConventional env true EfiConventionalMemory ca := ⟨rfl, Or.inl hg⟩
  have hqn : noConventional env true EfiBootServicesData false := ⟨rfl, Or.inl hg⟩
  intro fuel
  induction fuel with
  | zero =>
    intro s Start hs hS s1 h
    rw [CoreConvertPagesEx.loop] at h
    by_cases hlt : Start < End
    · rw [if_pos hlt] at h
      cases h
    · rw [if_neg hlt] at h
      obtain rfl := (Prod.mk.inj (Except.ok.inj h)).2
      exact ⟨Shrunk_refl hs, fun a h3 h4 => by omega⟩
  | succ n ih =>
    intro s Start hs hS s1 h
    rw [CoreConvertPagesEx.loop] at h
    by_cases hlt : Start < End
    · rw [if_pos hlt] at h
      cases hfd : findFirst (coversStart Start) s.mGcdMemorySpaceMap with
      | none =>
        rw [hfd] at h
        cases (Prod.mk.inj (Except.ok.inj h)).1
      | some x =>
        obtain ⟨pre, Entry, post⟩ := x
        rw [hfd] at h
        dsimp only at h
        obtain ⟨hl, hc, _⟩ := findFirst_some hfd
        rw [coversStart_iff] at hc
        have hmem : Entry ∈ s.mGcdMemorySpaceMap := by rw [hl]; simp
        obtain ⟨hw1, hw2, hw3, hw4⟩ := hs.1.1 Entry hmem
        have htop := hs.2 Entry hmem
        by_cases c1 : true = true ∧ EfiConventionalMemory ≠ EfiConventionalMemory ∧
            Entry.EndAddress < End
        · exact absurd rfl c1.2.1
        · rw [if_neg c1] at h
          have hre : ∃ RangeEnd, (if Entry.EndAddress < End then Entry.EndAddress else End) =
              RangeEnd ∧ RangeEnd ≤ Entry.EndAddress ∧ RangeEnd ≤ End ∧ Start < RangeEnd ∧
              RangeEnd % 4096 = 4095 ∧ RangeEnd < 18446744073709551615 := by
            refine ⟨_, rfl, ?_, ?_, ?_, ?_, ?_⟩ <;> split <;> omega
          obtain ⟨RangeEnd, hRE, r1, r2, r3, r4, r5⟩ := hre
          rw [hRE] at h
          by_cases c2 : true = true ∧ xor (!(EfiConventionalMemory == EfiConventionalMemory))
              (Entry.EfiMemoryType == EfiConventionalMemory) = true
          · rw [if_pos c2] at h
            cases (Prod.mk.inj (Except.ok.inj h)).1
          · rw [if_neg c2] at h
            obtain ⟨s2, hstep, h2⟩ := (bind_eq_ok _ _ _).1 h
            obtain ⟨s3, hdrain, hloop⟩ := (bind_eq_ok _ _ _).1 h2
            have hr : RangeOk Start RangeEnd := ⟨hS, r4, r3, r5⟩
            obtain ⟨_, k2, _⟩ := (step_spec env s pre Entry post Start RangeEnd N true
              EfiConventionalMemory ca na nc hl hs hc.1 hr r1).2 s2 hstep
            have i2 : Shrunk s.mGcdMemorySpaceMap s2.mGcdMemorySpaceMap :=
              (shrunk_invariant env s.mGcdMemorySpaceMap hook).2.2.1 s s2 pre Entry post Start
                RangeEnd N true EfiConventionalMemory ca na nc hq hl hc.1 hr r1 (Shrunk_refl hs)
                hstep
            have i3 : Shrunk s2.mGcdMemorySpaceMap s3.mGcdMemorySpaceMap :=
              CoreFreeMemoryMapStack_kept env (noConventional env)
                (fun s => Shrunk s2.mGcdMemorySpaceMap s.mGcdMemorySpaceMap)
                (shrunk_invariant env s2.mGcdMemorySpaceMap hook) hqn k s2 s3
                (Shrunk_refl i2.1) hdrain
            have hadd : add64 RangeEnd 1 = RangeEnd + 1 := by unfold add64; omega
            rw [hadd] at hloop
            obtain ⟨i4, i5⟩ := ih s3 (RangeEnd + 1) i3.1 (by omega) s1 hloop
            refine ⟨Shrunk_trans i2 (Shrunk_trans i3 i4), ?_⟩
            intro a h3 h4 hcov
            by_cases ha : a ≤ RangeEnd
            · have c2a := i3.2.1 a (i4.2.1 a hcov)
              obtain ⟨p, hp⟩ := (Covered_iff_Has _ _).1 c2a
              rcases (k2 a p).1 hp with ⟨_, hn⟩ | ⟨hrd, _⟩
              · exact hn ⟨h3, ha⟩
              · rw [readds_iff] at hrd
                exact hrd ⟨hg, rfl, rfl⟩
            · exact i5 a (by omega) h4 hcov
    · rw [if_neg hlt] at h
      obtain rfl := (Prod.mk.inj (Except.ok.inj h)).2
      exact ⟨Shrunk_refl hs, fun a h3 h4 => by omega⟩

/-- CoreConvertPagesEx for a type change to conventional memory under freed-memory guard:
a call that returns EFI_SUCCESS shrinks the store and leaves no address of the range
covered. -/
theorem CoreConvertPagesEx_guard_shrinks (env : Platform) (fuel : Nat) (s : MemState)
    (Start N : Nat) (ca : Bool) (na : Nat) (cc : Bool) (nc : Nat)
    (hg : env.FreedMemoryGuardEnabled = true)
    (hook : ∀ s s1, env.PromoteGuardedFreePages s = some s1 → Store s.mGcdMemorySpaceMap →
      Shrunk s.mGcdMemorySpaceMap s1.mGcdMemorySpaceMap)
    (hs : Store s.mGcdMemorySpaceMap) (s1 : MemState)
    (h : CoreConvertPagesEx env fuel s Start N true EfiConventionalMemory ca na cc nc =
      Except.ok (EFI_STATUS.EFI_SUCCESS, s1)) :
    Shrunk s.mGcdMemorySpaceMap s1.mGcdMemorySpaceMap ∧
    ∀ a, Start ≤ a → a ≤ sub64 (add64 Start (LShiftU64 N EFI_PAGE_SHIFT)) 1 →
      ¬ Covered s1.mGcdMemorySpaceMap a := by
  unfold CoreConvertPagesEx CoreConvertPagesExWith at h
  dsimp only at h
  obtain ⟨_, _, h⟩ := (bind_eq_ok _ _ _).1 h
  obtain ⟨_, a2, h⟩ := (bind_eq_ok _ _ _).1 h
  obtain ⟨_, _, h⟩ := (bind_eq_ok _ _ _).1 h
  obtain ⟨_, _, h⟩ := (bind_eq_ok _ _ _).1 h
  rw [ASSERT_eq_ok] at a2
  have hS : Start % 4096 = 0 := by
    rw [EFI_PAGE_MASK, land_4095] at a2; simpa using a2
  by_cases c : N = 0 ∨ Start &&& EFI_PAGE_MASK ≠ 0 ∨
      Start ≥ sub64 (add64 Start (LShiftU64 N EFI_PAGE_SHIFT)) 1
  · rw [if_pos c] at h
    cases (Prod.mk.inj (Except.ok.inj h)).1
  · rw [if_neg c] at h
    exact loop_guard_shrinks env fuel N ca na nc _ hg hook (convertEnd_mod Start N hS) fuel s
      Start hs hS s1 h

/-- C32: under freed-memory guard a successful type-changing conversion to
EfiConventionalMemory does not re-insert the range: when CoreConvertPagesEx returns
EFI_SUCCESS on a well-formed disjoint store, no descriptor covers any address of
[Start, End] afterwards and every conventional descriptor lies within a conventional
descriptor of the store before the call (drains and refills included). In every other case
(guard disabled, or attribute or capability change, or new type not conventional) a pass of
the conversion loop is the pull followed by the call of CoreAddRange on the converted range,
and when the pass returns every address of the converted range is covered by a descriptor
with the converted properties. -/
theorem CoreConvertPagesEx_freed_memory_guard (env : Platform) (fuel : Nat) (s : MemState)
    (Start N : Nat)
    (hook : ∀ s s1, env.PromoteGuardedFreePages s = some s1 → Store s.mGcdMemorySpaceMap →
      Shrunk s.mGcdMemorySpaceMap s1.mGcdMemorySpaceMap)
    (hs : Store s.mGcdMemorySpaceMap) :
    (env.FreedMemoryGuardEnabled = true → ∀ (ca : Bool) (na : Nat) (cc : Bool) (nc : Nat)
      (s1 : MemState),
      CoreConvertPagesEx env fuel s Start N true EfiConventionalMemory ca na cc nc =
        Except.ok (EFI_STATUS.EFI_SUCCESS, s1) →
      (∀ a, Start ≤ a → a ≤ sub64 (add64 Start (LShiftU64 N EFI_PAGE_SHIFT)) 1 →
        ¬ Covered s1.mGcdMemorySpaceMap a) ∧
      NotGrown s.mGcdMemorySpaceMap s1.mGcdMemorySpaceMap) ∧
    (∀ (pre : List EFI_GCD_MAP_ENTRY) (Entry : EFI_GCD_MAP_ENTRY) (post : List EFI_GCD_MAP_ENTRY)
      (S RangeEnd : Nat) (ct : Bool) (nt : Nat) (ca : Bool) (na nc : Nat),
      ¬ (env.FreedMemoryGuardEnabled = true ∧ ct = true ∧ nt = EfiConventionalMemory) →
      CoreConvertPagesEx.step env s pre Entry post S RangeEnd N ct nt ca na nc =
        (CoreConvertPagesEx.pull
            (if ct then updateStatistics s S N Entry.EfiMemoryType nt else s)
            pre Entry post S RangeEnd >>= fun r =>
          CoreAddRange r.1 (if ct then nt else r.2.EfiMemoryType) Entry.GcdMemoryType S RangeEnd
            (if ct then r.2.Attributes else if ca then na else r.2.Attributes)
            (if ct then r.2.Capabilities else if ca then Entry.Capabilities else nc)
            Entry.ImageHandle) ∧
      ∀ s2, s.mGcdMemorySpaceMap = pre ++ Entry :: post → Entry.BaseAddress ≤ S →
        RangeOk S RangeEnd → RangeEnd ≤ Entry.EndAddress →
        CoreConvertPagesEx.step env s pre Entry post S RangeEnd N ct nt ca na nc =
          Except.ok s2 →
        ∀ a, S ≤ a → a ≤ RangeEnd →
          Has s2.mGcdMemorySpaceMap a (convertedProps ct nt ca na nc Entry)) := by
  refine ⟨?_, ?_⟩
  · intro hg ca na cc nc s1 h
    obtain ⟨i1, i2⟩ := CoreConvertPagesEx_guard_shrinks env fuel s Start N ca na cc nc hg hook
      hs s1 h
    exact ⟨i2, i1.2.2⟩
  · intro pre Entry post S RangeEnd ct nt ca na nc hn
    refine ⟨?_, ?_⟩
    · rw [step_eq]
      congr 1
      funext r
      have c : (!env.FreedMemoryGuardEnabled || !ct ||
          (if ct then nt else r.2.EfiMemoryType) != EfiConventionalMemory) = true := by
        cases hg : env.FreedMemoryGuardEnabled <;> cases hct : ct <;>
          simp [hg, hct] at hn ⊢
        exact hn
      rw [if_pos c]
    · intro s2 hmap hb hr he h a h1 h2
      obtain ⟨_, k2, _⟩ := (step_spec env s pre Entry post S RangeEnd N ct nt ca na nc hmap hs
        hb hr he).2 s2 h
      exact (k2 a _).2 (Or.inr ⟨(readds_iff env ct nt).2 hn, h1, h2, rfl⟩)

/-- Witness of `CoreConvertPagesEx_freed_memory_guard`: freed-memory guard enabled, the store
is the BootServicesData range [0x1000, 0x2FFF]; freeing the page at 0x1000 returns
EFI_SUCCESS. -/
theorem CoreConvertPagesEx_freed_memory_guard_witness :
    freedGuardPlatform.FreedMemoryGuardEnabled = true ∧
    Store allocatedState.mGcdMemorySpaceMap ∧
    ∃ s1, CoreConvertPagesEx freedGuardPlatform 5 allocatedState 0x1000 1 true
        EfiConventionalMemory false 0 false 0 = Except.ok (EFI_STATUS.EFI_SUCCESS, s1) ∧
      (∀ a, 0x1000 ≤ a → a ≤ sub64 (add64 0x1000 (LShiftU64 1 EFI_PAGE_SHIFT)) 1 →
        ¬ Covered s1.mGcdMemorySpaceMap a) ∧
      NotGrown allocatedState.mGcdMemorySpaceMap s1.mGcdMemorySpaceMap :=
  have hs : Store allocatedState.mGcdMemorySpaceMap := ⟨by decide, by unfold BelowTop; decide⟩
  ⟨rfl, hs,
    match (⟨_, rfl⟩ : ∃ s1, CoreConvertPagesEx freedGuardPlatform 5 allocatedState 0x1000 1 true
        EfiConventionalMemory false 0 false 0 = Except.ok (EFI_STATUS.EFI_SUCCESS, s1)) with
    | ⟨s1, h1⟩ =>
      ⟨s1, h1, (CoreConvertPagesEx_freed_memory_guard freedGuardPlatform 5 allocatedState 0x1000 1
        (fun _ _ h => nomatch h) hs).1 rfl false 0 false 0 s1 h1⟩⟩

/-! ## The address order of the pool-backed descriptors -/

theorem StackDiscipline_sublist {d : Nat} {l l1 : List EFI_GCD_MAP_ENTRY} (h : l1.Sublist l)
    (hd : StackDiscipline d l) : StackDiscipline d l1 :=
  ⟨fun e he => hd.1 e (h.subset he), List.Pairwise.sublist h hd.2⟩

theorem PoolSorted_sublist {l l1 : List EFI_GCD_MAP_ENTRY} (h : l1.Sublist l)
    (hp : PoolSorted l) : PoolSorted l1 :=
  List.Pairwise.sublist (h.filter _) hp

theorem StackDiscipline_mono {d d1 : Nat} {l : List EFI_GCD_MAP_ENTRY} (h : d ≤ d1)
    (hd : StackDiscipline d l) : StackDiscipline d1 l := by
  refine ⟨fun e he => ?_, hd.2⟩
  rcases hd.1 e he with h1 | ⟨h1, k, hk, h2⟩
  · exact Or.inl h1
  · exact Or.inr ⟨h1, k, by omega, h2⟩

theorem StackDiscipline_push {d : Nat} {l : List EFI_GCD_MAP_ENTRY} {n : EFI_GCD_MAP_ENTRY}
    (hd : StackDiscipline d l) (h1 : n.FromPages = false) (h2 : n.StackSlot = some d) :
    StackDiscipline (d + 1) (l ++ [n]) := by
  refine ⟨fun e he => ?_, ?_⟩
  · rcases List.mem_append.1 he with he | he
    · exact (StackDiscipline_mono (Nat.le_succ d) hd).1 e he
    · obtain rfl := List.mem_singleton.1 he
      exact Or.inr ⟨h1, d, Nat.lt_succ_self d, h2⟩
  · unfold SlotsDistinct
    rw [List.pairwise_append]
    refine ⟨hd.2, List.pairwise_singleton _ _, ?_⟩
    intro a ha b hb
    obtain rfl := List.mem_singleton.1 hb
    rcases hd.1 a ha with h | ⟨_, k, hk, h⟩
    · exact Or.inl h.2
    · right
      rw [h, h2]
      intro e
      have := Option.some.inj e
      omega

theorem PoolSorted_push {l : List EFI_GCD_MAP_ENTRY} {n : EFI_GCD_MAP_ENTRY}
    (hp : PoolSorted l) (h1 : n.FromPages = false) : PoolSorted (l ++ [n]) := by
  unfold PoolSorted at hp ⊢
  rw [List.filter_append]
  simpa [h1] using hp

theorem StackDiscipline_replace {d : Nat} {pre post : List EFI_GCD_MAP_ENTRY}
    {E c : EFI_GCD_MAP_ENTRY} (hd : StackDiscipline d (pre ++ E :: post))
    (h1 : c.FromPages = E.FromPages) (h2 : c.StackSlot = E.StackSlot) :
    StackDiscipline d (pre ++ c :: post) := by
  refine ⟨fun e he => ?_, ?_⟩
  · simp only [List.mem_append, List.mem_cons] at he
    rcases he with he | rfl | he
    · exact hd.1 e (by simp [he])
    · rw [h1, h2]
      exact hd.1 E (by simp)
    · exact hd.1 e (by simp [he])
  · have hm : (pre ++ c :: post).map EFI_GCD_MAP_ENTRY.StackSlot =
        (pre ++ E :: post).map EFI_GCD_MAP_ENTRY.StackSlot := by
      simp [h2]
    have h3 := hd.2
    unfold SlotsDistinct at h3 ⊢
    have e1 : ∀ l : List EFI_GCD_MAP_ENTRY,
        l.Pairwise (fun a b => a.StackSlot = none ∨ a.StackSlot ≠ b.StackSlot) ↔
        (l.map EFI_GCD_MAP_ENTRY.StackSlot).Pairwise (fun a b => a = none ∨ a ≠ b) := by
      intro l
      rw [List.pairwise_map]
    rw [e1] at h3 ⊢
    rw [hm]
    exact h3

theorem PoolSorted_mid {pre post : List EFI_GCD_MAP_ENTRY} {E : EFI_GCD_MAP_ENTRY}
    (hp : PoolSorted (pre ++ E :: post)) (hE : E.FromPages = true) :
    (∀ x ∈ pre, x.FromPages = true → x.BaseAddress < E.BaseAddress) ∧
    (∀ x ∈ post, x.FromPages = true → E.BaseAddress < x.BaseAddress) := by
  unfold PoolSorted at hp
  rw [List.filter_append, List.filter_cons, if_pos (by simpa using hE),
    List.pairwise_append] at hp
  obtain ⟨_, h2, h3⟩ := hp
  rw [List.pairwise_cons] at h2
  constructor
  · intro x hx hf
    exact h3 x (List.mem_filter.2 ⟨hx, by simpa using hf⟩) E (List.mem_cons_self _ _)
  · intro x hx hf
    exact h2.1 x (List.mem_filter.2 ⟨hx, by simpa using hf⟩)

theorem PoolSorted_replace {pre post : List EFI_GCD_MAP_ENTRY} {E c : EFI_GCD_MAP_ENTRY}
    (hp : PoolSorted (pre ++ E :: post)) (h1 : c.FromPages = E.FromPages)
    (h2 : E.FromPages = true →
      (∀ x ∈ pre, x.FromPages = true → x.BaseAddress < c.BaseAddress) ∧
      (∀ x ∈ post, x.FromPages = true → c.BaseAddress < x.BaseAddress)) :
    PoolSorted (pre ++ c :: post) := by
  have hm : E.FromPages = true →
      (∀ x ∈ pre, x.FromPages = true → x.BaseAddress < E.BaseAddress) ∧
      (∀ x ∈ post, x.FromPages = true → E.BaseAddress < x.BaseAddress) :=
    fun hE => PoolSorted_mid hp hE
  unfold PoolSorted at hp ⊢
  cases hE : E.FromPages with
  | false =>
    rw [List.filter_append, List.filter_cons, if_neg (by simp [hE])] at hp
    rw [List.filter_append, List.filter_cons, if_neg (by simp [h1, hE])]
    exact hp
  | true =>
    obtain ⟨k1, k2⟩ := h2 hE
    rw [List.filter_append, List.filter_cons, if_pos (by simp [hE]),
      List.pairwise_append] at hp
    rw [List.filter_append, List.filter_cons, if_pos (by simp [h1, hE]),
      List.pairwise_append]
    obtain ⟨p1, p2, _⟩ := hp
    rw [List.pairwise_cons] at p2 ⊢
    refine ⟨p1, ⟨?_, p2.2⟩, ?_⟩
    · intro x hx
      obtain ⟨hx1, hx2⟩ := List.mem_filter.1 hx
      exact k2 x hx1 (by simpa using hx2)
    · intro a ha b hb
      obtain ⟨ha1, ha2⟩ := List.mem_filter.1 ha
      rcases List.mem_cons.1 hb with rfl | hb
      · exact k1 a ha1 (by simpa using ha2)
      · obtain ⟨hb1, hb2⟩ := List.mem_filter.1 hb
        have := hm hE
        exact lt_trans (this.1 a ha1 (by simpa using ha2)) (this.2 b hb1 (by simpa using hb2))

theorem Store_mid {pre post : List EFI_GCD_MAP_ENTRY} {E : EFI_GCD_MAP_ENTRY}
    (hs : Store (pre ++ E :: post)) :
    WellFormed E ∧ ∀ x ∈ pre ++ post, WellFormed x ∧ Disjoint E x := by
  have h1 : Store (E :: (pre ++ post)) := Store_perm List.perm_middle hs
  have h2 := h1.1.2
  rw [List.pairwise_cons] at h2
  exact ⟨h1.1.1 E (List.mem_cons_self _ _),
    fun x hx => ⟨h1.1.1 x (List.mem_cons_of_mem _ hx), h2.1 x hx⟩⟩

/-- Lines 361-374 keep the pool-backed descriptors in ascending order. -/
theorem insertSorted_sorted (E : EFI_GCD_MAP_ENTRY) (hE : E.FromPages = true) :
    ∀ l : List EFI_GCD_MAP_ENTRY, PoolSorted l →
      (∀ x ∈ l, x.FromPages = true → x.BaseAddress ≠ E.BaseAddress) →
      PoolSorted (insertSorted E l) := by
  intro l
  induction l with
  | nil =>
    intro _ _
    unfold insertSorted PoolSorted
    rw [List.filter_cons, if_pos (by simpa using hE)]
    exact List.pairwise_singleton _ _
  | cons x rest ih =>
    intro hp hne
    have hrest : PoolSorted rest := PoolSorted_sublist (List.sublist_cons_self x rest) hp
    unfold insertSorted
    by_cases c : x.FromPages = true ∧ x.BaseAddress > E.BaseAddress
    · rw [if_pos c]
      unfold PoolSorted at hp ⊢
      rw [List.filter_cons, if_pos (by simpa using hE), List.pairwise_cons]
      refine ⟨?_, hp⟩
      intro y hy
      rw [List.filter_cons, if_pos (by simpa using c.1)] at hy hp
      rcases List.mem_cons.1 hy with rfl | hy
      · exact c.2
      · exact lt_trans c.2 ((List.pairwise_cons.1 hp).1 y hy)
    · rw [if_neg c]
      have i1 := ih hrest (fun y hy => hne y (List.mem_cons_of_mem _ hy))
      cases hx : x.FromPages with
      | false =>
        unfold PoolSorted at i1 ⊢
        rw [List.filter_cons, if_neg (by simp [hx])]
        exact i1
      | true =>
        unfold PoolSorted at i1 hp ⊢
        rw [List.filter_cons, if_pos (by simp [hx]), List.pairwise_cons] at hp ⊢
        refine ⟨?_, i1⟩
        intro y hy
        obtain ⟨hy1, hy2⟩ := List.mem_filter.1 hy
        rcases List.mem_cons.1 ((insertSorted_perm E rest).subset hy1) with rfl | hy3
        · have h1 := hne x (List.mem_cons_self _ _) hx
          have h2 : ¬ x.BaseAddress > y.BaseAddress := fun h => c ⟨hx, h⟩
          omega
        · exact hp.1 y (List.mem_filter.2 ⟨hy3, hy2⟩)

/-- One pass of the drain loop (lines 342-388) keeps the address order. -/
theorem relink_ordered (s : MemState) (h : AddressOrdered s) :
    AddressOrdered (CoreFreeMemoryMapStack.relink s) := by
  obtain ⟨hs, hd, hp⟩ := h
  have hst : Store (CoreFreeMemoryMapStack.relink s).mGcdMemorySpaceMap :=
    Store_flagPerm (relink_spec s).1 hs
  have hsd : s.mMapDepth ≠ 0 →
      SlotsDistinct (CoreFreeMemoryMapStack.relink s).mGcdMemorySpaceMap :=
    fun h0 => (relink_drained s h0 hd.2).2
  refine ⟨hst, ?_⟩
  clear hst
  unfold CoreFreeMemoryMapStack.relink at hsd ⊢
  cases hf : findFirst (inStackSlot (s.mMapDepth - 1)) s.mGcdMemorySpaceMap with
  | none =>
    dsimp only
    refine ⟨⟨?_, hd.2⟩, hp⟩
    intro e he
    rcases hd.1 e he with h1 | ⟨h1, k, hk, h2⟩
    · exact Or.inl h1
    · refine Or.inr ⟨h1, k, ?_, h2⟩
      have := findFirst_none hf e he
      unfold inStackSlot at this
      rw [h2] at this
      have h3 : k ≠ s.mMapDepth - 1 := by simpa using this
      omega
  | some r =>
    obtain ⟨pre, Slot, post⟩ := r
    rw [hf] at hsd
    dsimp only at hsd ⊢
    obtain ⟨hl, hps, _⟩ := findFirst_some hf
    have hslot : Slot.StackSlot = some (s.mMapDepth - 1) := by
      unfold inStackSlot at hps
      simpa using hps
    have hSm : Slot ∈ s.mGcdMemorySpaceMap := by rw [hl]; simp
    have hd0 : s.mMapDepth ≠ 0 := by
      rcases hd.1 Slot hSm with h1 | ⟨_, k, hk, _⟩
      · rw [h1.2] at hslot; cases hslot
      · omega
    have hsub : (pre ++ post).Sublist s.mGcdMemorySpaceMap := by
      rw [hl]
      exact (List.Sublist.refl pre).append (List.sublist_cons_self Slot post)
    have hperm := insertSorted_perm { Slot with FromPages := true, StackSlot := none }
      (pre ++ post)
    rw [hl] at hs
    obtain ⟨hwS, hmid⟩ := Store_mid hs
    have hother : ∀ x ∈ pre ++ post, x.StackSlot ≠ some (s.mMapDepth - 1) := by
      intro x hx hxs
      have h0 := hd.2
      rw [hl] at h0
      unfold SlotsDistinct at h0
      rw [List.pairwise_append] at h0
      obtain ⟨_, h2, h3⟩ := h0
      rw [List.pairwise_cons] at h2
      rcases List.mem_append.1 hx with hx | hx
      · rcases h3 x hx Slot (List.mem_cons_self _ _) with h | h
        · rw [h] at hxs; cases hxs
        · exact h (hxs.trans hslot.symm)
      · rcases h2.1 x hx with h | h
        · rw [h] at hslot; cases hslot
        · exact h (hslot.trans hxs.symm)
    refine ⟨⟨?_, hsd hd0⟩, ?_⟩
    · intro e he
      rcases List.mem_cons.1 (hperm.subset he) with rfl | he
      · exact Or.inl ⟨rfl, rfl⟩
      · rcases hd.1 e (hsub.subset he) with h1 | ⟨h1, k, hk, h2⟩
        · exact Or.inl h1
        · refine Or.inr ⟨h1, k, ?_, h2⟩
          have := hother e he
          rw [h2] at this
          have h3 : k ≠ s.mMapDepth - 1 := fun e => this (congrArg some e)
          omega
    · apply insertSorted_sorted _ rfl _ (PoolSorted_sublist hsub hp)
      intro x hx _
      obtain ⟨hwx, hdj⟩ := hmid x hx
      obtain ⟨_, _, w3, _⟩ := hwx
      obtain ⟨_, _, v3, _⟩ := hwS
      unfold Disjoint at hdj
      show x.BaseAddress ≠ Slot.BaseAddress
      omega

/-- The pull keeps the discipline of the bootstrap stack and the order of the pool-backed
descriptors. -/
theorem pull_ordered (s : MemState) (pre : List EFI_GCD_MAP_ENTRY) (Entry : EFI_GCD_MAP_ENTRY)
    (post : List EFI_GCD_MAP_ENTRY) (Start RangeEnd : Nat) (s1 : MemState)
    (cur : EFI_GCD_MAP_ENTRY) (hmap : s.mGcdMemorySpaceMap = pre ++ Entry :: post)
    (hb : Entry.BaseAddress ≤ Start) (hr : RangeOk Start RangeEnd)
    (he : RangeEnd ≤ Entry.EndAddress) (ho : AddressOrdered s)
    (h : CoreConvertPagesEx.pull s pre Entry post Start RangeEnd = Except.ok (s1, cur)) :
    AddressOrdered s1 := by
  obtain ⟨hs, hd, hp⟩ := ho
  have hst : Store s1.mGcdMemorySpaceMap :=
    ((pull_spec s pre Entry post Start RangeEnd hmap hs hb hr he).2 s1 cur h).1
  refine ⟨hst, ?_⟩
  obtain ⟨r1, r2, r3, r4⟩ := hr
  have hadd : add64 RangeEnd 1 = RangeEnd + 1 := by unfold add64; omega
  rw [hmap] at hs hd hp
  obtain ⟨hwE, hmid⟩ := Store_mid hs
  have hsub : (pre ++ post).Sublist (pre ++ Entry :: post) :=
    (List.Sublist.refl pre).append (List.sublist_cons_self Entry post)
  obtain ⟨d1, d2, hsh⟩ := pull_shape s pre Entry post Start RangeEnd s1 cur h
  rcases hsh with h1 | ⟨B, E, h1, hBE⟩ | ⟨hd1, hne, h1⟩
  · rw [h1]
    exact ⟨StackDiscipline_mono d1 (StackDiscipline_sublist hsub hd),
      PoolSorted_sublist hsub hp⟩
  · rw [h1]
    refine ⟨StackDiscipline_mono d1 (StackDiscipline_replace hd rfl rfl),
      PoolSorted_replace hp rfl ?_⟩
    intro hf
    obtain ⟨m1, m2⟩ := PoolSorted_mid hp hf
    show (∀ x ∈ pre, x.FromPages = true → x.BaseAddress < B) ∧
      (∀ x ∈ post, x.FromPages = true → B < x.BaseAddress)
    rcases hBE with ⟨hB, hE2, _⟩ | ⟨hB, _, _⟩
    · have hc : WellFormed { Entry with BaseAddress := B, EndAddress := E } :=
        hst.1.1 _ (by rw [h1]; simp)
      have hc3 : B < E := hc.2.2.1
      constructor
      · intro x hx hxf
        have := m1 x hx hxf
        rw [hB, hadd]
        omega
      · intro x hx hxf
        have := m2 x hx hxf
        obtain ⟨hwx, hdj⟩ := hmid x (List.mem_append_right _ hx)
        unfold Disjoint at hdj
        obtain ⟨_, _, w3, _⟩ := hwx
        omega
    · rw [hB]
      exact ⟨m1, m2⟩
  · rw [h1, hd1]
    refine ⟨StackDiscipline_push (StackDiscipline_replace hd rfl rfl) rfl rfl,
      PoolSorted_push (PoolSorted_replace hp rfl ?_) rfl⟩
    intro hf
    show (∀ x ∈ pre, x.FromPages = true → x.BaseAddress < Entry.BaseAddress) ∧
      (∀ x ∈ post, x.FromPages = true → Entry.BaseAddress < x.BaseAddress)
    exact PoolSorted_mid hp hf

/-- CoreAddRange keeps the discipline of the bootstrap stack and the order of the pool-backed
descriptors: it unlinks descriptors and links one stack element at the tail. -/
theorem addRangeResult_ordered (s : MemState) (T G S E A C H : Nat)
    (hd : StackDiscipline s.mMapDepth s.mGcdMemorySpaceMap)
    (hp : PoolSorted s.mGcdMemorySpaceMap) :
    StackDiscipline (addRangeResult s T G S E A C H).mMapDepth
        (addRangeResult s T G S E A C H).mGcdMemorySpaceMap ∧
      PoolSorted (addRangeResult s T G S E A C H).mGcdMemorySpaceMap := by
  have hsub := scan_sublist T G A C s.mGcdMemorySpaceMap S E s.mFreeMemoryMapEntryList
  exact ⟨StackDiscipline_push (StackDiscipline_sublist hsub hd) rfl rfl,
    PoolSorted_push (PoolSorted_sublist hsub hp) rfl⟩

/-- One pass of the conversion loop keeps the address order. -/
theorem step_ordered (env : Platform) (s : MemState) (pre : List EFI_GCD_MAP_ENTRY)
    (Entry : EFI_GCD_MAP_ENTRY) (post : List EFI_GCD_MAP_ENTRY) (Start RangeEnd N : Nat)
    (ct : Bool) (nt : Nat) (ca : Bool) (na nc : Nat) (s2 : MemState)
    (hmap : s.mGcdMemorySpaceMap = pre ++ Entry :: post)
    (hb : Entry.BaseAddress ≤ Start) (hr : RangeOk Start RangeEnd)
    (he : RangeEnd ≤ Entry.EndAddress) (ho : AddressOrdered s)
    (h : CoreConvertPagesEx.step env s pre Entry post Start RangeEnd N ct nt ca na nc =
      Except.ok s2) : AddressOrdered s2 := by
  have hst : Store s2.mGcdMemorySpaceMap :=
    ((step_spec env s pre Entry post Start RangeEnd N ct nt ca na nc hmap ho.1 hb hr he).2 s2
      h).1
  obtain ⟨s0, s1, cur, m0, d0, hp, hc⟩ := step_cases env s pre Entry post Start RangeEnd N ct nt
    ca na nc s2 h
  have ho0 : AddressOrdered s0 := by
    unfold AddressOrdered
    rw [m0, d0]
    exact ho
  have ho1 := pull_ordered s0 pre Entry post Start RangeEnd s1 cur (m0.trans hmap) hb hr he ho0
    hp
  rcases hc with ⟨_, _, _, rfl⟩ | ⟨_, G, A, C, H, rfl⟩
  · exact ho1
  · exact ⟨hst, addRangeResult_ordered s1 _ G Start RangeEnd A C H ho1.2.1 ho1.2.2⟩

/-- The address order is kept by the steps of the allocator, when the promotion hook of the
platform keeps it. -/
theorem ordered_invariant (env : Platform)
    (hook : ∀ s s1, env.PromoteGuardedFreePages s = some s1 → AddressOrdered s →
      AddressOrdered s1) :
    StateInvariant env (fun _ _ _ => True) AddressOrdered := by
  refine ⟨fun _ h => h.1, ?_, ?_, relink_ordered, hook⟩
  · intro s s1 hm hd h
    unfold AddressOrdered
    rw [hm, hd]
    exact h
  · intro s s2 pre Entry post Start RangeEnd N ct nt ca na nc _ hmap hb hr he ho h
    exact step_ordered env s pre Entry post Start RangeEnd N ct nt ca na nc s2 hmap hb hr he ho h

/-- The conversion loop of a top-level call returns with the bootstrap stack empty, whatever
status it returns. -/
theorem loop_quiescent (env : Platform) (f : MemState → Except Halt MemState)
    (hf : ∀ s s1, f s = Except.ok s1 →
      s1.mFreeMapStack = s.mFreeMapStack ∧ (s.mFreeMapStack = 0 → s1.mMapDepth = 0))
    (N : Nat) (ct : Bool) (nt : Nat) (ca : Bool) (na nc End : Nat) :
    ∀ (fuel : Nat) (s : MemState) (Start : Nat) (r : EFI_STATUS × MemState),
      s.mMapDepth = 0 → s.mFreeMapStack = 0 →
      CoreConvertPagesEx.loop env f N ct nt ca na nc End fuel s Start = Except.ok r →
      r.2.mMapDepth = 0 ∧ r.2.mFreeMapStack = 0 := by
  intro fuel
  induction fuel with
  | zero =>
    intro s Start r hd hb h
    rw [CoreConvertPagesEx.loop] at h
    split at h
    · cases h
    · obtain rfl := Except.ok.inj h
      exact ⟨hd, hb⟩
  | succ n ih =>
    intro s Start r hd hb h
    rw [CoreConvertPagesEx.loop] at h
    split at h
    · cases hfd : findFirst (coversStart Start) s.mGcdMemorySpaceMap with
      | none =>
        rw [hfd] at h
        obtain rfl := Except.ok.inj h
        exact ⟨hd, hb⟩
      | some x =>
        obtain ⟨pre, Entry, post⟩ := x
        rw [hfd] at h
        dsimp only at h
        split at h
        · obtain rfl := Except.ok.inj h
          exact ⟨hd, hb⟩
        · split at h
          · obtain rfl := Except.ok.inj h
            exact ⟨hd, hb⟩
          · obtain ⟨s2, hstep, h2⟩ := (bind_eq_ok _ _ _).1 h
            obtain ⟨s3, hdrain, hloop⟩ := (bind_eq_ok _ _ _).1 h2
            have b2 : s2.mFreeMapStack = 0 :=
              (step_busy _ _ _ _ _ _ _ _ _ _ _ _ _ _ hstep).trans hb
            obtain ⟨b3, d3⟩ := hf s2 s3 hdrain
            exact ih s3 _ r (d3 b2) (b3.trans b2) hloop
    · obtain rfl := Except.ok.inj h
      exact ⟨hd, hb⟩

/-- A top-level call of CoreConvertPagesEx returns with the bootstrap stack empty, whatever
status it returns. -/
theorem CoreConvertPagesEx_quiescent (env : Platform)
    (hook : ∀ s s1, env.PromoteGuardedFreePages s = some s1 →
      s1.mFreeMapStack = s.mFreeMapStack)
    (fuel : Nat) (s : MemState) (Start N : Nat) (ct : Bool) (nt : Nat) (ca : Bool) (na : Nat)
    (cc : Bool) (nc : Nat) (r : EFI_STATUS × MemState) (hd : s.mMapDepth = 0)
    (hb : s.mFreeMapStack = 0)
    (h : CoreConvertPagesEx env fuel s Start N ct nt ca na cc nc = Except.ok r) :
    r.2.mMapDepth = 0 ∧ r.2.mFreeMapStack = 0 := by
  unfold CoreConvertPagesEx CoreConvertPagesExWith at h
  dsimp only at h
  obtain ⟨_, _, h⟩ := (bind_eq_ok _ _ _).1 h
  obtain ⟨_, _, h⟩ := (bind_eq_ok _ _ _).1 h
  obtain ⟨_, _, h⟩ := (bind_eq_ok _ _ _).1 h
  obtain ⟨_, _, h⟩ := (bind_eq_ok _ _ _).1 h
  split at h
  · obtain rfl := Except.ok.inj h
    exact ⟨hd, hb⟩
  · exact loop_quiescent env _ (CoreFreeMemoryMapStack_empties env hook fuel) N ct nt ca na nc _
      fuel s Start r hd hb h

theorem AddressSorted_of_discipline {l : List EFI_GCD_MAP_ENTRY} (hd : StackDiscipline 0 l)
    (hp : PoolSorted l) : (∀ e ∈ l, e.FromPages = true) ∧ AddressSorted l := by
  have hall : ∀ e ∈ l, e.FromPages = true := by
    intro e he
    rcases hd.1 e he with h | ⟨_, k, hk, _⟩
    · exact h.1
    · omega
  refine ⟨hall, ?_⟩
  unfold PoolSorted at hp
  unfold AddressSorted
  rw [List.filter_eq_self.2 (fun e he => by simpa using hall e he)] at hp
  exact hp

theorem StackDiscipline_pooled {l : List EFI_GCD_MAP_ENTRY}
    (h : ∀ e ∈ l, e.FromPages = true ∧ e.StackSlot = none) : StackDiscipline 0 l := by
  refine ⟨fun e he => Or.inl (h e he), ?_⟩
  unfold SlotsDistinct
  exact List.pairwise_of_forall_mem_list (fun a ha _ _ => Or.inl (h a ha).2)

/-- C40: draining keeps the store in address order. From a state with the bootstrap stack
empty (mMapDepth = 0, no drain running, every linked descriptor pool-backed and no stack
element) whose store is well formed and disjoint and whose pool-backed descriptors appear in
ascending order of BaseAddress, every call of CoreConvertPagesEx that returns, and every run
of the locked section of CoreAddMemoryDescriptor that returns (for a range that meets no
descriptor of the store), leaves the pool-backed descriptors in ascending order of
BaseAddress, the bootstrap stack empty, every descriptor pool-backed and so the whole store
sorted by address. The promotion hook of the platform is assumed to keep the address order
and mFreeMapStack. -/
theorem CoreFreeMemoryMapStack_keeps_address_order (env : Platform) (fuel : Nat) (s : MemState)
    (hook : ∀ s s1, env.PromoteGuardedFreePages s = some s1 →
      s1.mFreeMapStack = s.mFreeMapStack ∧ (AddressOrdered s → AddressOrdered s1))
    (hs : Store s.mGcdMemorySpaceMap) (hd : s.mMapDepth = 0) (hb : s.mFreeMapStack = 0)
    (hpool : ∀ e ∈ s.mGcdMemorySpaceMap, e.FromPages = true ∧ e.StackSlot = none)
    (hp : PoolSorted s.mGcdMemorySpaceMap) :
    (∀ (Start N : Nat) (ct : Bool) (nt : Nat) (ca : Bool) (na : Nat) (cc : Bool) (nc : Nat)
      (r : EFI_STATUS × MemState),
      CoreConvertPagesEx env fuel s Start N ct nt ca na cc nc = Except.ok r →
      PoolSorted r.2.mGcdMemorySpaceMap ∧ r.2.mMapDepth = 0 ∧
      (∀ e ∈ r.2.mGcdMemorySpaceMap, e.FromPages = true) ∧
      AddressSorted r.2.mGcdMemorySpaceMap) ∧
    (∀ (T G Start N A C H : Nat) (s1 : MemState),
      RangeOk Start (sub64 (add64 Start (LShiftU64 N EFI_PAGE_SHIFT)) 1) →
      (∀ e ∈ s.mGcdMemorySpaceMap,
        sub64 (add64 Start (LShiftU64 N EFI_PAGE_SHIFT)) 1 < e.BaseAddress ∨
          e.EndAddress < Start) →
      CoreAddMemoryDescriptor.locked env fuel s T G Start N A C H = Except.ok s1 →
      PoolSorted s1.mGcdMemorySpaceMap ∧ s1.mMapDepth = 0 ∧
      (∀ e ∈ s1.mGcdMemorySpaceMap, e.FromPages = true) ∧
      AddressSorted s1.mGcdMemorySpaceMap) := by
  have hI := ordered_invariant env (fun s s1 h => (hook s s1 h).2)
  have hk : ∀ s s1, env.PromoteGuardedFreePages s = some s1 →
      s1.mFreeMapStack = s.mFreeMapStack := fun s s1 h => (hook s s1 h).1
  have h0 : StackDiscipline 0 s.mGcdMemorySpaceMap := StackDiscipline_pooled hpool
  have ho : AddressOrdered s := ⟨hs, by rw [hd]; exact h0, hp⟩
  have fin : ∀ s1 : MemState, AddressOrdered s1 → s1.mMapDepth = 0 →
      PoolSorted s1.mGcdMemorySpaceMap ∧ s1.mMapDepth = 0 ∧
      (∀ e ∈ s1.mGcdMemorySpaceMap, e.FromPages = true) ∧
      AddressSorted s1.mGcdMemorySpaceMap := by
    intro s1 h1 d1
    have h2 := h1.2.1
    rw [d1] at h2
    exact ⟨h1.2.2, d1, AddressSorted_of_discipline h2 h1.2.2⟩
  refine ⟨?_, ?_⟩
  · intro Start N ct nt ca na cc nc r h
    exact fin r.2
      (CoreConvertPagesEx_kept env _ AddressOrdered hI trivial fuel s Start N ct nt ca na cc nc
        trivial ho r h)
      (CoreConvertPagesEx_quiescent env hk fuel s Start N ct nt ca na cc nc r hd hb h).1
  · intro T G Start N A C H s1 hr hdj h
    unfold CoreAddMemoryDescriptor.locked at h
    by_cases c1 : Start &&& EFI_PAGE_MASK ≠ 0
    · rw [if_pos c1] at h
      obtain rfl := Except.ok.inj h
      exact fin s ho hd
    · rw [if_neg c1] at h
      by_cases c2 : T ≥ EfiMaxMemoryType ∧ T < env.MEMORY_TYPE_OEM_RESERVED_MIN
      · rw [if_pos c2] at h
        obtain rfl := Except.ok.inj h
        exact fin s ho hd
      · rw [if_neg c2] at h
        dsimp only at h
        obtain ⟨s0, ha, h⟩ := (bind_eq_ok _ _ _).1 h
        obtain ⟨_, rfl⟩ := (CoreAddRange_eq_ok _ _ _ _ _ _ _ _ _).1 ha
        have i1 := (addRangeResult_spec s T G Start _ A C H hs hr hdj).1
        have i2 := addRangeResult_ordered s T G Start
          (sub64 (add64 Start (LShiftU64 N EFI_PAGE_SHIFT)) 1) A C H ho.2.1 hp
        have i3 : AddressOrdered s1 :=
          CoreFreeMemoryMapStack_kept env _ AddressOrdered hI trivial fuel _ s1 ⟨i1, i2⟩ h
        exact fin s1 i3 ((CoreFreeMemoryMapStack_empties env hk fuel _ s1 h).2 hb)

/-- Witness of `CoreFreeMemoryMapStack_keeps_address_order`: the store is the conventional
range [0x1000, 0x9FFF] and the descriptor free list is empty; the allocation of the page at
0x3000 splits the descriptor, uses two stack slots and refills the free list in the
drain. -/
theorem CoreFreeMemoryMapStack_keeps_address_order_witness :
    Store oneRangeState.mGcdMemorySpaceMap ∧ PoolSorted oneRangeState.mGcdMemorySpaceMap ∧
    ∃ r, CoreConvertPagesEx plainPlatform 8 oneRangeState 0x3000 1 true EfiBootServicesData
        false 0 false 0 = Except.ok r ∧
      PoolSorted r.2.mGcdMemorySpaceMap ∧ r.2.mMapDepth = 0 ∧
      (∀ e ∈ r.2.mGcdMemorySpaceMap, e.FromPages = true) ∧
      AddressSorted r.2.mGcdMemorySpaceMap :=
  have hs : Store oneRangeState.mGcdMemorySpaceMap := ⟨by decide, by unfold BelowTop; decide⟩
  have hp : PoolSorted oneRangeState.mGcdMemorySpaceMap := by decide
  ⟨hs, hp,
    match (⟨_, rfl⟩ : ∃ r, CoreConvertPagesEx plainPlatform 8 oneRangeState 0x3000 1 true
        EfiBootServicesData false 0 false 0 = Except.ok r) with
    | ⟨r, h1⟩ =>
      ⟨r, h1, (CoreFreeMemoryMapStack_keeps_address_order plainPlatform 8 oneRangeState
        (fun _ _ h => nomatch h) hs rfl rfl (by decide) hp).1 0x3000 1 true
        EfiBootServicesData false 0 false 0 r h1⟩⟩

/-! ## The depth of the bootstrap stack -/

theorem DepthSafe_ok {α : Type} {post : α → Prop} {a : α} (h : post a) :
    DepthSafe (Except.ok a : Except Halt α) post := by
  refine ⟨?_, ?_⟩
  · intro e
    cases e
  · intro b e
    cases e
    exact h

theorem DepthSafe_pure {α : Type} {post : α → Prop} {a : α} (h : post a) :
    DepthSafe (pure a : Except Halt α) post :=
  DepthSafe_ok h

theorem DepthSafe_error {α : Type} {post : α → Prop} {e : Halt} (h : e ≠ Halt.stackOverflow) :
    DepthSafe (Except.error e : Except Halt α) post := by
  refine ⟨?_, ?_⟩
  · intro k
    exact h (Except.error.inj k)
  · intro b k
    cases k

theorem DepthSafe_mono {α : Type} {x : Except Halt α} {P Q : α → Prop} (h : DepthSafe x P)
    (hpq : ∀ a, P a → Q a) : DepthSafe x Q :=
  ⟨h.1, fun a e => hpq a (h.2 a e)⟩

theorem DepthSafe_bind {α β : Type} {x : Except Halt α} {f : α → Except Halt β}
    {P : α → Prop} {Q : β → Prop} (hx : DepthSafe x P)
    (hf : ∀ a, x = Except.ok a → P a → DepthSafe (f a) Q) : DepthSafe (x >>= f) Q := by
  cases hxe : x with
  | error e =>
    have : e ≠ Halt.stackOverflow := fun k => hx.1 (by rw [hxe, k])
    exact DepthSafe_error this
  | ok a => exact hf a hxe (hx.2 a hxe)

theorem DepthSafe_ASSERT (b : Bool) : DepthSafe (ASSERT b) (fun _ => b = true) := by
  cases b with
  | false => exact DepthSafe_error (by decide)
  | true => exact DepthSafe_ok rfl

/-- FindFreePages halts only when the fuel of the model runs out. -/
theorem FindFreePages_error (env : Platform) (MaxAddress NoPages NewType Alignment : Nat)
    (NeedGuard : Bool) :
    ∀ (fuel : Nat) (s : MemState),
      FindFreePages env fuel s MaxAddress NoPages NewType Alignment NeedGuard ≠
        Except.error Halt.stackOverflow := by
  intro fuel
  induction fuel with
  | zero =>
    intro s h
    simp [FindFreePages, throw, throwThe, MonadExceptOf.throw] at h
  | succ n ih =>
    intro s h
    rw [FindFreePages] at h
    dsimp only at h
    generalize (if NewType < EfiMaxMemoryType ∧
        MaxAddress ≥ (s.mMemoryTypeStatistics.getD NewType default).MaximumAddress then
        CoreFindFreePagesI env s (s.mMemoryTypeStatistics.getD NewType default).MaximumAddress
          (s.mMemoryTypeStatistics.getD NewType default).BaseAddress NoPages NewType Alignment
          NeedGuard
        else 0) = S1 at h
    generalize (if MaxAddress ≥ s.mDefaultMaximumAddress then
        CoreFindFreePagesI env s s.mDefaultMaximumAddress 0 NoPages NewType Alignment NeedGuard
        else 0) = S2 at h
    generalize CoreFindFreePagesI env s MaxAddress 0 NoPages NewType Alignment NeedGuard = S3 at h
    by_cases c1 : S1 ≠ 0
    · rw [if_pos c1] at h
      cases h
    · rw [if_neg c1] at h
      by_cases c2 : S2 ≠ 0
      · rw [if_pos c2] at h
        cases h
      · rw [if_neg c2] at h
        by_cases c3 : S3 ≠ 0
        · rw [if_pos c3] at h
          cases h
        · rw [if_neg c3] at h
          cases hp : env.PromoteGuardedFreePages s with
          | none =>
            rw [hp] at h
            cases h
          | some s1 =>
            rw [hp] at h
            exact ih s1 h

/-- One pass of the conversion loop with two free stack slots does not fill the bootstrap
stack. -/
theorem step_safe (env : Platform) (s : MemState) (pre : List EFI_GCD_MAP_ENTRY)
    (Entry : EFI_GCD_MAP_ENTRY) (post : List EFI_GCD_MAP_ENTRY) (Start RangeEnd N : Nat)
    (ct : Bool) (nt : Nat) (ca : Bool) (na nc : Nat)
    (hmap : s.mGcdMemorySpaceMap = pre ++ Entry :: post) (hs : Store s.mGcdMemorySpaceMap)
    (hb : Entry.BaseAddress ≤ Start) (hr : RangeOk Start RangeEnd)
    (he : RangeEnd ≤ Entry.EndAddress) (hd : s.mMapDepth + 2 < 6) :
    DepthSafe (CoreConvertPagesEx.step env s pre Entry post Start RangeEnd N ct nt ca na nc)
      (fun s2 => Store s2.mGcdMemorySpaceMap ∧ s2.mMapDepth ≤ s.mMapDepth + 2 ∧
        s2.mFreeMapStack = s.mFreeMapStack) := by
  obtain ⟨h1, h2⟩ := step_spec env s pre Entry post Start RangeEnd N ct nt ca na nc hmap hs hb
    hr he
  obtain ⟨s2, e2⟩ := h1 hd
  rw [e2]
  obtain ⟨k1, _, _, _, _, k6, k7⟩ := h2 s2 e2
  exact DepthSafe_ok ⟨k1, k6, k7⟩

/-- The conversion loop of a nested call (new type not conventional, drain running) is one
pass: it leaves at most two more stack slots in use. -/
theorem loop_nested_safe (env : Platform) (k N nt : Nat) (ca : Bool) (na nc End : Nat)
    (hT : nt ≠ EfiConventionalMemory) (hE : End % 4096 = 4095) (fuel : Nat) (s : MemState)
    (Start : Nat) (hs : Store s.mGcdMemorySpaceMap) (hb : s.mFreeMapStack ≠ 0)
    (hd : s.mMapDepth + 2 < 6) (hS : Start % 4096 = 0) :
    DepthSafe
      (CoreConvertPagesEx.loop env (CoreFreeMemoryMapStack env k) N true nt ca na nc End fuel s
        Start)
      (fun r => Store r.2.mGcdMemorySpaceMap ∧ r.2.mMapDepth ≤ s.mMapDepth + 2 ∧
        r.2.mFreeMapStack = s.mFreeMapStack) := by
  have hself : Store s.mGcdMemorySpaceMap ∧ s.mMapDepth ≤ s.mMapDepth + 2 ∧
      s.mFreeMapStack = s.mFreeMapStack := ⟨hs, Nat.le_add_right _ _, rfl⟩
  cases fuel with
  | zero =>
    rw [CoreConvertPagesEx.loop]
    by_cases hlt : Start < End
    · rw [if_pos hlt]
      exact DepthSafe_error (by decide)
    · rw [if_neg hlt]
      exact DepthSafe_pure hself
  | succ n =>
    rw [CoreConvertPagesEx.loop]
    by_cases hlt : Start < End
    · rw [if_pos hlt]
      cases hfd : findFirst (coversStart Start) s.mGcdMemorySpaceMap with
      | none => exact DepthSafe_pure hself
      | some x =>
        obtain ⟨pre, Entry, post⟩ := x
        dsimp only
        obtain ⟨hl, hc, _⟩ := findFirst_some hfd
        rw [coversStart_iff] at hc
        have hmem : Entry ∈ s.mGcdMemorySpaceMap := by rw [hl]; simp
        have htop := hs.2 Entry hmem
        by_cases c1 : true = true ∧ nt ≠ EfiConventionalMemory ∧ Entry.EndAddress < End
        · rw [if_pos c1]
          exact DepthSafe_pure hself
        · rw [if_neg c1]
          have hle : ¬ Entry.EndAddress < End := fun h => c1 ⟨rfl, hT, h⟩
          rw [if_neg hle]
          by_cases c2 : true = true ∧ xor (!(nt == EfiConventionalMemory))
              (Entry.EfiMemoryType == EfiConventionalMemory) = true
          · rw [if_pos c2]
            exact DepthSafe_pure hself
          · rw [if_neg c2]
            have hr : RangeOk Start End := ⟨hS, hE, hlt, by omega⟩
            refine DepthSafe_bind (step_safe env s pre Entry post Start End N true nt ca na nc
              hl hs hc.1 hr (by omega) hd) ?_
            rintro s2 _ ⟨k1, k2, k3⟩
            rw [CoreFreeMemoryMapStack_busy env k s2 (by rw [k3]; exact hb)]
            have hadd : ¬ add64 End 1 < End := by unfold add64; omega
            show DepthSafe (CoreConvertPagesEx.loop env (CoreFreeMemoryMapStack env k) N true nt
              ca na nc End n s2 (add64 End 1)) _
            rw [loop_done env _ N true nt ca na nc End n s2 _ hadd]
            exact DepthSafe_ok ⟨k1, k2, k3⟩
    · rw [if_neg hlt]
      exact DepthSafe_pure hself

/-- A nested CoreConvertPages to a type that is not conventional, with the drain running,
leaves at most two more stack slots in use. -/
theorem CoreConvertPagesWith_nested_safe (env : Platform) (k fuel : Nat) (s : MemState)
    (Start N nt : Nat) (hT : nt ≠ EfiConventionalMemory) (hs : Store s.mGcdMemorySpaceMap)
    (hb : s.mFreeMapStack ≠ 0) (hd : s.mMapDepth + 2 < 6) :
    DepthSafe (CoreConvertPagesWith env (CoreFreeMemoryMapStack env k) fuel s Start N nt)
      (fun r => Store r.2.mGcdMemorySpaceMap ∧ r.2.mMapDepth ≤ s.mMapDepth + 2 ∧
        r.2.mFreeMapStack = s.mFreeMapStack) := by
  have hself : Store s.mGcdMemorySpaceMap ∧ s.mMapDepth ≤ s.mMapDepth + 2 ∧
      s.mFreeMapStack = s.mFreeMapStack := ⟨hs, Nat.le_add_right _ _, rfl⟩
  unfold CoreConvertPagesWith CoreConvertPagesExWith
  dsimp only
  refine DepthSafe_bind (DepthSafe_ASSERT _) (fun _ _ _ => ?_)
  refine DepthSafe_bind (DepthSafe_ASSERT _) (fun _ _ a2 => ?_)
  refine DepthSafe_bind (DepthSafe_ASSERT _) (fun _ _ _ => ?_)
  refine DepthSafe_bind (DepthSafe_ASSERT _) (fun _ _ _ => ?_)
  have hS : Start % 4096 = 0 := by
    rw [EFI_PAGE_MASK, land_4095] at a2; simpa using a2
  by_cases c : N = 0 ∨ Start &&& EFI_PAGE_MASK ≠ 0 ∨
      Start ≥ sub64 (add64 Start (LShiftU64 N EFI_PAGE_SHIFT)) 1
  · rw [if_pos c]
    exact DepthSafe_pure hself
  · rw [if_neg c]
    exact loop_nested_safe env k N nt false 0 0 _ hT (convertEnd_mod Start N hS) fuel s Start hs
      hb hd hS

/-- The refill of the descriptor free list (CoreAllocatePoolPages without guard pages) with
the drain running leaves at most two more stack slots in use. -/
theorem CoreAllocatePoolPagesWith_safe (env : Platform)
    (hook : ∀ s s1, env.PromoteGuardedFreePages s = some s1 → Store s.mGcdMemorySpaceMap →
      Store s1.mGcdMemorySpaceMap ∧ s1.mMapDepth = s.mMapDepth ∧
        s1.mFreeMapStack = s.mFreeMapStack)
    (k fuel : Nat) (s : MemState) (PoolType N Alignment : Nat)
    (hT : PoolType ≠ EfiConventionalMemory) (hs : Store s.mGcdMemorySpaceMap)
    (hb : s.mFreeMapStack ≠ 0) (hd : s.mMapDepth + 2 < 6) :
    DepthSafe
      (CoreAllocatePoolPagesWith env (CoreFreeMemoryMapStack env k) fuel s PoolType N Alignment
        false)
      (fun r => Store r.2.mGcdMemorySpaceMap ∧ r.2.mMapDepth ≤ s.mMapDepth + 2 ∧
        r.2.mFreeMapStack = s.mFreeMapStack) := by
  unfold CoreAllocatePoolPagesWith
  have hfind : DepthSafe
      (FindFreePages env fuel s env.MAX_ALLOC_ADDRESS N PoolType Alignment false)
      (fun r => Store r.2.mGcdMemorySpaceMap ∧ r.2.mMapDepth = s.mMapDepth ∧
        r.2.mFreeMapStack = s.mFreeMapStack) := by
    refine ⟨FindFreePages_error env _ _ _ _ _ fuel s, fun r e => ?_⟩
    exact FindFreePages_ind env
      (fun t => Store t.mGcdMemorySpaceMap ∧ t.mMapDepth = s.mMapDepth ∧
        t.mFreeMapStack = s.mFreeMapStack)
      (fun _ _ h => h)
      (fun a b hab ha => by
        obtain ⟨h1, h2, h3⟩ := hook a b hab ha.1
        exact ⟨h1, h2.trans ha.2.1, h3.trans ha.2.2⟩)
      _ _ _ _ _ fuel s r ⟨hs, rfl, rfl⟩ e
  refine DepthSafe_bind hfind ?_
  rintro ⟨Start, s0⟩ _ ⟨k1, k2, k3⟩
  dsimp only at k1 k2 k3 ⊢
  by_cases c : Start = 0
  · rw [if_pos c]
    exact DepthSafe_pure ⟨k1, by dsimp only; omega, k3⟩
  · rw [if_neg c]
    simp only [Bool.false_eq_true, if_false]
    refine DepthSafe_bind (CoreConvertPagesWith_nested_safe env k fuel s0 Start N PoolType hT k1
      (by rw [k3]; exact hb) (by omega)) ?_
    rintro ⟨Status, s1⟩ _ ⟨j1, j2, j3⟩
    dsimp only at j1 j2 j3 ⊢
    have hpost : Store s1.mGcdMemorySpaceMap ∧ s1.mMapDepth ≤ s.mMapDepth + 2 ∧
        s1.mFreeMapStack = s.mFreeMapStack := ⟨j1, by omega, j3.trans k3⟩
    split
    · exact DepthSafe_pure hpost
    · exact DepthSafe_pure hpost

/-- AllocateMemoryMapEntry inside the drain: it leaves at most three stack slots in use, or
four with a free descriptor queued, when a page holds at least two descriptors. -/
theorem AllocateMemoryMapEntryWith_safe (env : Platform)
    (hK : 2 ≤ DEFAULT_PAGE_ALLOCATION_GRANULARITY / env.sizeofEntry)
    (hook : ∀ s s1, env.PromoteGuardedFreePages s = some s1 → Store s.mGcdMemorySpaceMap →
      Store s1.mGcdMemorySpaceMap ∧ s1.mMapDepth = s.mMapDepth ∧
        s1.mFreeMapStack = s.mFreeMapStack)
    (k fuel : Nat) (s : MemState) (hs : Draining s) :
    DepthSafe (AllocateMemoryMapEntryWith env (CoreFreeMemoryMapStack env k) fuel s)
      (fun r => Store r.2.mGcdMemorySpaceMap ∧ r.2.mFreeMapStack = s.mFreeMapStack ∧
        (r.1 = true → r.2.mMapDepth ≤ 3 ∨
          (r.2.mMapDepth ≤ 4 ∧ 1 ≤ r.2.mFreeMemoryMapEntryList))) := by
  obtain ⟨h1, h2, h3⟩ := hs
  by_cases c : s.mFreeMemoryMapEntryList = 0
  · have hd2 : s.mMapDepth ≤ 2 := by omega
    unfold AllocateMemoryMapEntryWith
    dsimp only
    rw [if_pos c]
    refine DepthSafe_bind (CoreAllocatePoolPagesWith_safe env hook k fuel s EfiBootServicesData
      _ _ (by decide) h1 h2 (by omega)) ?_
    rintro ⟨F, s0⟩ _ ⟨k1, k2, k3⟩
    dsimp only at k1 k2 k3 ⊢
    by_cases cF : F ≠ 0
    · rw [if_pos cF]
      simp only [pure_bind, Bool.not_true, Bool.false_eq_true, if_false]
      refine DepthSafe_bind (DepthSafe_ASSERT _) (fun _ _ _ => ?_)
      refine DepthSafe_pure ⟨k1, k3, fun _ => Or.inr ⟨?_, ?_⟩⟩
      · dsimp only; omega
      · dsimp only; omega
    · rw [if_neg cF]
      simp only [pure_bind, Bool.not_false, if_true]
      exact DepthSafe_pure ⟨k1, k3, fun h => by cases h⟩
  · rw [AllocateMemoryMapEntryWith_queued env _ fuel s c]
    refine DepthSafe_ok ⟨h1, rfl, fun _ => Or.inl ?_⟩
    dsimp only
    omega

theorem drainLoop_eq (Allocate : MemState → Except Halt (Bool × MemState)) (fuel : Nat)
    (s : MemState) (h : s.mMapDepth ≠ 0) :
    CoreFreeMemoryMapStack.loop Allocate (fuel + 1) s =
      (Allocate s >>= fun r => ASSERT r.1 >>= fun _ =>
        CoreFreeMemoryMapStack.loop Allocate fuel (CoreFreeMemoryMapStack.relink r.2)) := by
  rw [CoreFreeMemoryMapStack.loop, if_pos h]
  congr 1
  funext r
  obtain ⟨b, s0⟩ := r
  dsimp only
  congr 1
  funext _
  unfold CoreFreeMemoryMapStack.relink
  cases hf : findFirst (inStackSlot (s0.mMapDepth - 1)) s0.mGcdMemorySpaceMap with
  | none => rfl
  | some r => rfl

/-- The drain loop does not fill the bootstrap stack, and it returns with the stack empty. -/
theorem drainLoop_safe (env : Platform)
    (hK : 2 ≤ DEFAULT_PAGE_ALLOCATION_GRANULARITY / env.sizeofEntry)
    (hook : ∀ s s1, env.PromoteGuardedFreePages s = some s1 → Store s.mGcdMemorySpaceMap →
      Store s1.mGcdMemorySpaceMap ∧ s1.mMapDepth = s.mMapDepth ∧
        s1.mFreeMapStack = s.mFreeMapStack)
    (k k1 : Nat) :
    ∀ (fuel : Nat) (s : MemState), Draining s →
      DepthSafe
        (CoreFreeMemoryMapStack.loop
          (AllocateMemoryMapEntryWith env (CoreFreeMemoryMapStack env k) k1) fuel s)
        (fun s1 => Store s1.mGcdMemorySpaceMap ∧ s1.mFreeMapStack = s.mFreeMapStack ∧
          s1.mMapDepth = 0) := by
  intro fuel
  induction fuel with
  | zero =>
    intro s hs
    rw [CoreFreeMemoryMapStack.loop]
    by_cases hd : s.mMapDepth ≠ 0
    · rw [if_pos hd]
      exact DepthSafe_error (by decide)
    · rw [if_neg hd]
      exact DepthSafe_pure ⟨hs.1, rfl, by omega⟩
  | succ n ih =>
    intro s hs
    by_cases hd : s.mMapDepth ≠ 0
    · rw [drainLoop_eq _ n s hd]
      refine DepthSafe_bind (AllocateMemoryMapEntryWith_safe env hK hook k k1 s hs) ?_
      rintro ⟨b, s0⟩ _ ⟨j1, j2, j3⟩
      dsimp only at j1 j2 j3 ⊢
      refine DepthSafe_bind (DepthSafe_ASSERT b) (fun _ _ hb => ?_)
      obtain ⟨r1, r2, r3, r4⟩ := relink_spec s0
      have hdr : Draining (CoreFreeMemoryMapStack.relink s0) := by
        refine ⟨Store_flagPerm r1 j1, by rw [r4, j2]; exact hs.2.1, ?_⟩
        rw [r2]
        rcases j3 hb with h | h
        · left; omega
        · right; omega
      refine DepthSafe_mono (ih _ hdr) ?_
      rintro s1 ⟨i1, i2, i3⟩
      exact ⟨i1, i2.trans (r4.trans j2), i3⟩
    · rw [drainLoop_done _ _ _ (by omega)]
      exact DepthSafe_ok ⟨hs.1, rfl, by omega⟩

/-- The drain of a top-level operation does not fill the bootstrap stack when it starts with
at most two stack slots in use, and it returns with the stack empty. -/
theorem CoreFreeMemoryMapStack_safe (env : Platform)
    (hK : 2 ≤ DEFAULT_PAGE_ALLOCATION_GRANULARITY / env.sizeofEntry)
    (hook : ∀ s s1, env.PromoteGuardedFreePages s = some s1 → Store s.mGcdMemorySpaceMap →
      Store s1.mGcdMemorySpaceMap ∧ s1.mMapDepth = s.mMapDepth ∧
        s1.mFreeMapStack = s.mFreeMapStack)
    (fuel : Nat) (s : MemState) (hs : Store s.mGcdMemorySpaceMap) (hb : s.mFreeMapStack = 0)
    (hd : s.mMapDepth ≤ 2) :
    DepthSafe (CoreFreeMemoryMapStack env fuel s)
      (fun s1 => Store s1.mGcdMemorySpaceMap ∧ s1.mFreeMapStack = 0 ∧ s1.mMapDepth = 0) := by
  cases fuel with
  | zero =>
    rw [CoreFreeMemoryMapStack, if_neg (by simpa using hb)]
    exact DepthSafe_error (by decide)
  | succ n =>
    rw [CoreFreeMemoryMapStack, if_neg (by simpa using hb)]
    dsimp only
    refine DepthSafe_bind (drainLoop_safe env hK hook n n n
      { s with mFreeMapStack := s.mFreeMapStack + 1 } ⟨hs, by dsimp only; omega, Or.inl hd⟩) ?_
    rintro s0 _ ⟨i1, i2, i3⟩
    refine DepthSafe_pure ⟨i1, ?_, i3⟩
    dsimp only at i2 ⊢
    omega

/-- The conversion loop of a top-level call does not fill the bootstrap stack, and it returns
with the stack empty. -/
theorem loop_safe (env : Platform)
    (hK : 2 ≤ DEFAULT_PAGE_ALLOCATION_GRANULARITY / env.sizeofEntry)
    (hook : ∀ s s1, env.PromoteGuardedFreePages s = some s1 → Store s.mGcdMemorySpaceMap →
      Store s1.mGcdMemorySpaceMap ∧ s1.mMapDepth = s.mMapDepth ∧
        s1.mFreeMapStack = s.mFreeMapStack)
    (k N : Nat) (ct : Bool) (nt : Nat) (ca : Bool) (na nc End : Nat) (hE : End % 4096 = 4095) :
    ∀ (fuel : Nat) (s : MemState) (Start : Nat), Store s.mGcdMemorySpaceMap →
      s.mMapDepth = 0 → s.mFreeMapStack = 0 → Start % 4096 = 0 →
      DepthSafe
        (CoreConvertPagesEx.loop env (CoreFreeMemoryMapStack env k) N ct nt ca na nc End fuel s
          Start)
        (fun r => Store r.2.mGcdMemorySpaceMap ∧ r.2.mMapDepth = 0 ∧ r.2.mFreeMapStack = 0) := by
  intro fuel
  induction fuel with
  | zero =>
    intro s Start hs hd hb hS
    rw [CoreConvertPagesEx.loop]
    by_cases hlt : Start < End
    · rw [if_pos hlt]
      exact DepthSafe_error (by decide)
    · rw [if_neg hlt]
      exact DepthSafe_pure ⟨hs, hd, hb⟩
  | succ n ih =>
    intro s Start hs hd hb hS
    rw [CoreConvertPagesEx.loop]
    by_cases hlt : Start < End
    · rw [if_pos hlt]
      cases hfd : findFirst (coversStart Start) s.mGcdMemorySpaceMap with
      | none => exact DepthSafe_pure ⟨hs, hd, hb⟩
      | some x =>
        obtain ⟨pre, Entry, post⟩ := x
        dsimp only
        obtain ⟨hl, hc, _⟩ := findFirst_some hfd
        rw [coversStart_iff] at hc
        have hmem : Entry ∈ s.mGcdMemorySpaceMap := by rw [hl]; simp
        obtain ⟨hw1, hw2, hw3, hw4⟩ := hs.1.1 Entry hmem
        have htop := hs.2 Entry hmem
        by_cases c1 : ct = true ∧ nt ≠ EfiConventionalMemory ∧ Entry.EndAddress < End
        · rw [if_pos c1]
          exact DepthSafe_pure ⟨hs, hd, hb⟩
        · rw [if_neg c1]
          have hre : ∃ RangeEnd, (if Entry.EndAddress < End then Entry.EndAddress else End) =
              RangeEnd ∧ RangeEnd ≤ Entry.EndAddress ∧ RangeEnd ≤ End ∧ Start < RangeEnd ∧
              RangeEnd % 4096 = 4095 ∧ RangeEnd < 18446744073709551615 := by
            refine ⟨_, rfl, ?_, ?_, ?_, ?_, ?_⟩ <;> split <;> omega
          obtain ⟨RangeEnd, hRE, r1, r2, r3, r4, r5⟩ := hre
          rw [hRE]
          by_cases c2 : ct = true ∧ xor (!(nt == EfiConventionalMemory))
              (Entry.EfiMemoryType == EfiConventionalMemory) = true
          · rw [if_pos c2]
            exact DepthSafe_pure ⟨hs, hd, hb⟩
          · rw [if_neg c2]
            have hr : RangeOk Start RangeEnd := ⟨hS, r4, r3, r5⟩
            refine DepthSafe_bind (step_safe env s pre Entry post Start RangeEnd N ct nt ca na nc
              hl hs hc.1 hr r1 (by omega)) ?_
            rintro s2 _ ⟨k1, k2, k3⟩
            refine DepthSafe_bind (CoreFreeMemoryMapStack_safe env hK hook k s2 k1
              (k3.trans hb) (by omega)) ?_
            rintro s3 _ ⟨j1, j2, j3⟩
            have hadd : add64 RangeEnd 1 = RangeEnd + 1 := by unfold add64; omega
            rw [hadd]
            exact ih s3 (RangeEnd + 1) j1 j3 j2 (by omega)
    · rw [if_neg hlt]
      exact DepthSafe_pure ⟨hs, hd, hb⟩

/-- A top-level call of CoreConvertPagesEx does not fill the bootstrap stack, and it returns
with the stack empty. -/
theorem CoreConvertPagesEx_safe (env : Platform)
    (hK : 2 ≤ DEFAULT_PAGE_ALLOCATION_GRANULARITY / env.sizeofEntry)
    (hook : ∀ s s1, env.PromoteGuardedFreePages s = some s1 → Store s.mGcdMemorySpaceMap →
      Store s1.mGcdMemorySpaceMap ∧ s1.mMapDepth = s.mMapDepth ∧
        s1.mFreeMapStack = s.mFreeMapStack)
    (fuel : Nat) (s : MemState) (Start N : Nat) (ct : Bool) (nt : Nat) (ca : Bool) (na : Nat)
    (cc : Bool) (nc : Nat) (hs : Store s.mGcdMemorySpaceMap) (hd : s.mMapDepth = 0)
    (hb : s.mFreeMapStack = 0) :
    DepthSafe (CoreConvertPagesEx env fuel s Start N ct nt ca na cc nc)
      (fun r => Store r.2.mGcdMemorySpaceMap ∧ r.2.mMapDepth = 0 ∧ r.2.mFreeMapStack = 0) := by
  unfold CoreConvertPagesEx CoreConvertPagesExWith
  dsimp only
  refine DepthSafe_bind (DepthSafe_ASSERT _) (fun _ _ _ => ?_)
  refine DepthSafe_bind (DepthSafe_ASSERT _) (fun _ _ a2 => ?_)
  refine DepthSafe_bind (DepthSafe_ASSERT _) (fun _ _ _ => ?_)
  refine DepthSafe_bind (DepthSafe_ASSERT _) (fun _ _ _ => ?_)
  have hS : Start % 4096 = 0 := by
    rw [EFI_PAGE_MASK, land_4095] at a2; simpa using a2
  by_cases c : N = 0 ∨ Start &&& EFI_PAGE_MASK ≠ 0 ∨
      Start ≥ sub64 (add64 Start (LShiftU64 N EFI_PAGE_SHIFT)) 1
  · rw [if_pos c]
    exact DepthSafe_pure ⟨hs, hd, hb⟩
  · rw [if_neg c]
    exact loop_safe env hK hook fuel N ct nt ca na nc _ (convertEnd_mod Start N hS) fuel s Start
      hs hd hb hS

/-- The locked section of CoreAddMemoryDescriptor, for a range that meets no descriptor of the
store, does not fill the bootstrap stack, and it returns with the stack empty. -/
theorem CoreAddMemoryDescriptor_locked_safe (env : Platform)
    (hK : 2 ≤ DEFAULT_PAGE_ALLOCATION_GRANULARITY / env.sizeofEntry)
    (hook : ∀ s s1, env.PromoteGuardedFreePages s = some s1 → Store s.mGcdMemorySpaceMap →
      Store s1.mGcdMemorySpaceMap ∧ s1.mMapDepth = s.mMapDepth ∧
        s1.mFreeMapStack = s.mFreeMapStack)
    (fuel : Nat) (s : MemState) (T G Start N A C H : Nat) (hs : Store s.mGcdMemorySpaceMap)
    (hd : s.mMapDepth = 0) (hb : s.mFreeMapStack = 0)
    (hr : RangeOk Start (sub64 (add64 Start (LShiftU64 N EFI_PAGE_SHIFT)) 1))
    (hdj : ∀ e ∈ s.mGcdMemorySpaceMap,
      sub64 (add64 Start (LShiftU64 N EFI_PAGE_SHIFT)) 1 < e.BaseAddress ∨
        e.EndAddress < Start) :
    DepthSafe (CoreAddMemoryDescriptor.locked env fuel s T G Start N A C H)
      (fun s1 => Store s1.mGcdMemorySpaceMap ∧ s1.mMapDepth = 0 ∧ s1.mFreeMapStack = 0) := by
  unfold CoreAddMemoryDescriptor.locked
  by_cases c1 : Start &&& EFI_PAGE_MASK ≠ 0
  · rw [if_pos c1]
    exact DepthSafe_pure ⟨hs, hd, hb⟩
  · rw [if_neg c1]
    by_cases c2 : T ≥ EfiMaxMemoryType ∧ T < env.MEMORY_TYPE_OEM_RESERVED_MIN
    · rw [if_pos c2]
      exact DepthSafe_pure ⟨hs, hd, hb⟩
    · rw [if_neg c2]
      dsimp only
      have hadd : CoreAddRange s T G Start (sub64 (add64 Start (LShiftU64 N EFI_PAGE_SHIFT)) 1)
          A C H = Except.ok (addRangeResult s T G Start
            (sub64 (add64 Start (LShiftU64 N EFI_PAGE_SHIFT)) 1) A C H) :=
        (CoreAddRange_eq_ok _ _ _ _ _ _ _ _ _).2 ⟨⟨hr.1, hr.2.2.1, by omega⟩, rfl⟩
      rw [hadd]
      have i1 := (addRangeResult_spec s T G Start _ A C H hs hr hdj).1
      refine DepthSafe_mono (CoreFreeMemoryMapStack_safe env hK hook fuel _ i1 hb ?_)
        (fun _ h => ⟨h.1, h.2.2, h.2.1⟩)
      show s.mMapDepth + 1 ≤ 2
      omega

/-- C33: starting from an empty bootstrap stack (mMapDepth = 0, no drain running) and a
well-formed disjoint store, a call of CoreConvertPagesEx, and the locked section of
CoreAddMemoryDescriptor for a range that meets no descriptor, never halt on the assertion
`mMapDepth < MAX_MAP_DEPTH` of the two push sites (CoreAddRange and the split of a descriptor
in CoreConvertPagesEx), the drain and the nested pool-page allocation of an empty descriptor
free list included, and when they return mMapDepth is 0 again. A page is assumed to hold at
least two descriptors, and the promotion hook of the platform to keep the store invariant,
mMapDepth and mFreeMapStack. -/
theorem CoreFreeMemoryMapStack_depth_bound (env : Platform) (fuel : Nat) (s : MemState)
    (hK : 2 ≤ DEFAULT_PAGE_ALLOCATION_GRANULARITY / env.sizeofEntry)
    (hook : ∀ s s1, env.PromoteGuardedFreePages s = some s1 → Store s.mGcdMemorySpaceMap →
      Store s1.mGcdMemorySpaceMap ∧ s1.mMapDepth = s.mMapDepth ∧
        s1.mFreeMapStack = s.mFreeMapStack)
    (hs : Store s.mGcdMemorySpaceMap) (hd : s.mMapDepth = 0) (hb : s.mFreeMapStack = 0) :
    (∀ (Start N : Nat) (ct : Bool) (nt : Nat) (ca : Bool) (na : Nat) (cc : Bool) (nc : Nat),
      CoreConvertPagesEx env fuel s Start N ct nt ca na cc nc ≠
        Except.error Halt.stackOverflow ∧
      ∀ r, CoreConvertPagesEx env fuel s Start N ct nt ca na cc nc = Except.ok r →
        r.2.mMapDepth = 0) ∧
    (∀ (T G Start N A C H : Nat),
      RangeOk Start (sub64 (add64 Start (LShiftU64 N EFI_PAGE_SHIFT)) 1) →
      (∀ e ∈ s.mGcdMemorySpaceMap,
        sub64 (add64 Start (LShiftU64 N EFI_PAGE_SHIFT)) 1 < e.BaseAddress ∨
          e.EndAddress < Start) →
      CoreAddMemoryDescriptor.locked env fuel s T G Start N A C H ≠
        Except.error Halt.stackOverflow ∧
      ∀ s1, CoreAddMemoryDescriptor.locked env fuel s T G Start N A C H = Except.ok s1 →
        s1.mMapDepth = 0) := by
  refine ⟨?_, ?_⟩
  · intro Start N ct nt ca na cc nc
    have h := CoreConvertPagesEx_safe env hK hook fuel s Start N ct nt ca na cc nc hs hd hb
    exact ⟨h.1, fun r e => (h.2 r e).2.1⟩
  · intro T G Start N A C H hr hdj
    have h := CoreAddMemoryDescriptor_locked_safe env hK hook fuel s T G Start N A C H hs hd hb
      hr hdj
    exact ⟨h.1, fun r e => (h.2 r e).2.1⟩

/-- Witness of `CoreFreeMemoryMapStack_depth_bound`: the store is the conventional range
[0x1000, 0x9FFF] and the descriptor free list is empty; the allocation of the page at 0x3000
uses two stack slots, and the refill in the drain a third one. -/
theorem CoreFreeMemoryMapStack_depth_bound_witness :
    2 ≤ DEFAULT_PAGE_ALLOCATION_GRANULARITY / plainPlatform.sizeofEntry ∧
    Store oneRangeState.mGcdMemorySpaceMap ∧
    CoreConvertPagesEx plainPlatform 8 oneRangeState 0x3000 1 true EfiBootServicesData false 0
      false 0 ≠ Except.error Halt.stackOverflow ∧
    ∀ r, CoreConvertPagesEx plainPlatform 8 oneRangeState 0x3000 1 true EfiBootServicesData
        false 0 false 0 = Except.ok r → r.2.mMapDepth = 0 :=
  have hs : Store oneRangeState.mGcdMemorySpaceMap := ⟨by decide, by unfold BelowTop; decide⟩
  ⟨by decide, hs,
    (CoreFreeMemoryMapStack_depth_bound plainPlatform 8 oneRangeState (by decide)
      (fun _ _ h => nomatch h) hs rfl rfl).1 0x3000 1 true EfiBootServicesData false 0 false 0⟩

/-- C16 fails on the code at the last byte of a descriptor: the store is the
BootServicesData descriptor [0x1000, 0x1FFF], which covers the address 0x1FFF, and 0x1FFF is
no multiple of the granularity 4096 of its type. The claim gives EFI_INVALID_PARAMETER; the
test of line 1538 (`EndAddress > Memory`) does not accept the descriptor and
CoreInternalFreePages returns EFI_NOT_FOUND. -/
theorem CoreInternalFreePages_last_byte_not_found :
    (∃ e ∈ [{ convEntry 0x1000 0x1FFF with EfiMemoryType := EfiBootServicesData }],
      Covers e 0x1FFF ∧ 0x1FFF % allocationAlignment plainPlatform e.EfiMemoryType ≠ 0) ∧
    CoreInternalFreePages plainPlatform 4
        { initialState plainPlatform with
          mGcdMemorySpaceMap :=
            [{ convEntry 0x1000 0x1FFF with EfiMemoryType := EfiBootServicesData }] }
        0x1FFF 1 =
      Except.ok (EFI_STATUS.EFI_NOT_FOUND,
        { initialState plainPlatform with
          mGcdMemorySpaceMap :=
            [{ convEntry 0x1000 0x1FFF with EfiMemoryType := EfiBootServicesData }] }, none) ∧
    EFI_STATUS.EFI_NOT_FOUND ≠ EFI_STATUS.EFI_INVALID_PARAMETER :=
  ⟨⟨_, List.mem_singleton.2 rfl, by decide, by decide⟩, rfl, by decide⟩

/-- C26, failing input: one conventional descriptor [0x3000, 0x4FFF], ceiling 0xFFFFFFFF,
floor 0, one page, alignment 64 KiB. No conventional descriptor satisfies the constraints:
no page of the descriptor begins or ends at a multiple of 64 KiB, and `highestCandidate`
finds no descriptor that can hold the request. The claim gives 0. In the code the end rounded
down to the alignment is `0 - 1`, which wraps to `2 ^ 64 - 1` at line 1077 and passes the
test `DescEnd < DescStart` (the defect of `CoreFindFreePagesI_alignment_wrap`), so Target is
not 0 after the loop and the function returns 0xFFFFFFFFFFFFF000. -/
theorem CoreFindFreePagesI_none_wraps :
    StoreOk [convEntry 0x3000 0x4FFF] ∧
    highestCandidate 0xFFFFFFFF 0x10000 1 [convEntry 0x3000 0x4FFF] = none ∧
    (∀ T, 0x3000 ≤ T → T + 1 * 4096 - 1 ≤ 0x4FFF →
      T % 0x10000 ≠ 0 ∧ (T + 1 * 4096) % 0x10000 ≠ 0) ∧
    CoreFindFreePagesI plainPlatform
      { initialState plainPlatform with mGcdMemorySpaceMap := [convEntry 0x3000 0x4FFF] }
      0xFFFFFFFF 0 1 EfiRuntimeServicesData 0x10000 false = 0xFFFFFFFFFFFFF000 ∧
    CoreFindFreePagesI plainPlatform
      { initialState plainPlatform with mGcdMemorySpaceMap := [convEntry 0x3000 0x4FFF] }
      0xFFFFFFFF 0 1 EfiRuntimeServicesData 0x10000 false ≠ 0 := by
  refine ⟨by decide, by decide, ?_, by decide, by decide⟩
  intro T h1 h2
  constructor <;> omega

/-- C35: DxeMemoryProtectionSettingsConsistencyCheck only ever turns protections off to reach
consistency. Whether assertions are enabled or not, whenever the check returns, every boolean
setting that is FALSE before the check is FALSE after it, freed-memory guard is not enabled
together with pool guard or page guard, and the ExecutionProtection values of
EfiBootServicesData and EfiConventionalMemory are equal. With assertions disabled the check
returns for every value of the settings; with assertions enabled it returns for the settings
that are consistent already (for the others the run stops at the assertion of lines 40-43 or
81-84). -/
theorem DxeMemoryProtectionSettingsConsistencyCheck_consistent (DebugAssertEnabled : Bool)
    (g : DXE_MEMORY_PROTECTION_SETTINGS) :
    (∀ g1, DxeMemoryProtectionSettingsConsistencyCheck DebugAssertEnabled g = Except.ok g1 →
      OnlyTurnedOff g g1 ∧ ConsistentSettings g1) ∧
    (DebugAssertEnabled = false ∨ ConsistentSettings g →
      ∃ g1, DxeMemoryProtectionSettingsConsistencyCheck DebugAssertEnabled g =
        Except.ok g1) := by
  obtain ⟨⟨g0, h0, h1, h2⟩, h3, h4⟩ := DxeMemoryProtectionSettingsConsistencyCheck_turns_off g
  cases DebugAssertEnabled with
  | false =>
    refine ⟨?_, fun _ => ⟨g0, h0⟩⟩
    intro g1 e
    rw [h0] at e
    obtain rfl := Except.ok.inj e
    exact ⟨h1, h2⟩
  | true =>
    refine ⟨?_, ?_⟩
    · intro g1 e
      obtain ⟨rfl, hc⟩ := h4 g1 e
      exact ⟨OnlyTurnedOff_refl g1, hc⟩
    · rintro (h | h)
      · cases h
      · exact ⟨g, h3 h⟩

/-- Witness of `DxeMemoryProtectionSettingsConsistencyCheck_consistent`: pool guard and
freed-memory guard both enabled, assertions disabled; the check returns, and pool guard,
page guard and freed-memory guard are off afterwards. -/
theorem DxeMemoryProtectionSettingsConsistencyCheck_consistent_witness :
    ∃ g1, DxeMemoryProtectionSettingsConsistencyCheck false conflictingSettings =
        Except.ok g1 ∧
      OnlyTurnedOff conflictingSettings g1 ∧ ConsistentSettings g1 ∧
      g1.HeapGuard.PoolGuardEnabled = false ∧ g1.HeapGuard.FreedMemoryGuardEnabled = false :=
  match (⟨_, rfl⟩ : ∃ g1, DxeMemoryProtectionSettingsConsistencyCheck false
      conflictingSettings = Except.ok g1) with
  | ⟨g1, h1⟩ =>
    ⟨g1, h1,
      ((DxeMemoryProtectionSettingsConsistencyCheck_consistent false conflictingSettings).1 g1
        h1).1,
      ((DxeMemoryProtectionSettingsConsistencyCheck_consistent false conflictingSettings).1 g1
        h1).2, by cases h1; rfl, by cases h1; rfl⟩

end Edk2
